import Mathlib

/-!
Shadowcrypt: the turn-based simulation core.

A shallow embedding of the rules engine of the dungeon crawler (`Entity.cpp`,
`Item.cpp`, `Game.cpp`) together with theorems about it.

Conventions of the embedding:

* C++ `int` is modelled by `Int` with exact arithmetic (no wrap-around); integer
  division is the truncating `Int.tdiv`.
* `std::rand()` is modelled by an explicit source `Rand`: an infinite sequence of
  non-negative draws together with a cursor; every call consumes one draw.
* `std::string` is `String`, `std::to_string` on an `int` is `toString`.
* Objects passed by reference are returned in their updated form.
* Loops are modelled with an explicit iteration budget; the result is `none` when the
  budget is exhausted, and theorems show that this never happens.
* The vector `enemies` is a list together with its capacity. A `push_back` that
  reallocates the vector while a reference into it is still used is undefined
  behaviour; the result of such a step is `none`.
-/

namespace Shadowcrypt

/-! ## Data model -/

/-- Modelled from the spec: `Vec2.h` is not among the sources. A grid coordinate with
two integer components. -/
structure Vec2 where
  x : Int
  y : Int
  deriving DecidableEq, Repr

/-- Modelled from the spec: `Vec2::distanceSq` (from the absent `Vec2.h`), the squared
Euclidean distance between two grid coordinates. -/
def Vec2.distanceSq (a b : Vec2) : Int :=
  (a.x - b.x) * (a.x - b.x) + (a.y - b.y) * (a.y - b.y)

/-- Modelled from the spec: `Vec2::operator+` (from the absent `Vec2.h`). -/
def Vec2.add (a b : Vec2) : Vec2 := ⟨a.x + b.x, a.y + b.y⟩

inductive PlayerClass where
  | Warrior | Rogue | Mage | Cleric
  deriving DecidableEq, Repr

inductive EnemyType where
  | Rat | Skeleton | Ghost | Demon | Dragon | Archer | Necromancer | Lich
  deriving DecidableEq, Repr

inductive ItemType where
  | HealthPotion | AttackBoost | DefenseBoost | Weapon | Armor | Gold
  | TeleportScroll | Bomb | ShieldPotion
  deriving DecidableEq, Repr

inductive Enchantment where
  | None | Rusty | Sharp | Flaming | Frozen | Vampiric | Blessed | Legendary
  deriving DecidableEq, Repr

inductive GameState where
  | Menu | ClassSelect | DifficultySelect | Playing | Inventory | GameOver | Win
  | Looking | LevelUp | MessageLog
  deriving DecidableEq, Repr

/-- The global `std::rand()` source: the sequence of values it will return and the
number of values consumed so far. -/
structure Rand where
  seq : Nat → Nat
  cur : Nat

/-- One call of `std::rand()`: the value returned and the advanced source. -/
def Rand.next (r : Rand) : Nat × Rand := (r.seq r.cur, { r with cur := r.cur + 1 })

/-- Class `Item` of `Item.h`. -/
structure Item where
  pos : Vec2
  name : String
  glyph : Char
  type : ItemType
  value : Int
  onGround : Bool
  enchantment : Enchantment
  deriving DecidableEq, Repr

/-- Default constructor `Item::Item()`. -/
def Item.default : Item :=
  { pos := ⟨0, 0⟩, name := "", glyph := '?', type := ItemType.HealthPotion, value := 0,
    onGround := true, enchantment := Enchantment.None }

/-- Class `Inventory` of `Item.h`: the vector of owned items. -/
structure Inventory where
  items : List Item
  deriving DecidableEq, Repr

/-- Base class `Entity` of `Entity.h`. -/
structure Entity where
  pos : Vec2
  name : String
  glyph : Char
  hp : Int
  maxHp : Int
  attack : Int
  defense : Int
  level : Int
  xp : Int
  deriving DecidableEq, Repr

/-- Source `Entity::isAlive`. -/
def Entity.isAlive (e : Entity) : Bool := decide (e.hp > 0)

/-- Class `Player`. The raw pointers `equippedWeapon` / `equippedArmor` are either null
or the address of the corresponding slot; they are modelled by the flag "non-null". -/
structure Player extends Entity where
  inventory : Inventory
  equippedWeapon : Bool
  equippedArmor : Bool
  baseAttack : Int
  baseDefense : Int
  playerClass : PlayerClass
  abilityCooldown : Int
  abilityBuffActive : Bool
  lvlHp : Int
  lvlAtk : Int
  lvlDef : Int
  poisonTurns : Int
  poisonDmg : Int
  killCount : Int
  blindTurns : Int
  slowTurns : Int
  hasteTurns : Int
  burningTurns : Int
  burningDmg : Int
  gold : Int
  shieldTurns : Int
  shieldBonus : Int
  pendingLevelUps : Int
  damageDealt : Int
  damageTaken : Int
  potionsUsed : Int
  turnsPlayed : Int
  lastDamageSource : String
  weaponSlot : Item
  armorSlot : Item
  hasWeapon : Bool
  hasArmor : Bool

/-- Class `Enemy`. -/
structure Enemy extends Entity where
  type : EnemyType
  xpReward : Int
  awake : Bool
  stunTurns : Int
  summonTimer : Int
  enraged : Bool
  deriving DecidableEq, Repr

/-! ## Combat resolver (`Game.cpp`, `resolveCombat`) -/

/-- What `resolveCombat` leaves behind: both entities (passed by reference), the value
written through `outDmg`, the returned summary and the advanced random source. -/
structure CombatResult where
  attacker : Entity
  defender : Entity
  outDmg : Int
  msg : String
  rand : Rand

/-- Source `resolveCombat(attacker, defender, atkBonus, defBonus, &outDmg)`. -/
def resolveCombat (attacker defender : Entity) (atkBonus defBonus : Int) (rng : Rand) :
    CombatResult :=
  let r1 := rng.next
  let crit : Bool := r1.1 % 10 == 0
  let atk := attacker.attack + atkBonus
  let dfn := defender.defense + defBonus
  let r2 := r1.2.next
  let variance : Int := ((r2.1 % 5 : Nat) : Int) - 2
  let damage0 : Int := max 1 (atk - dfn + variance)
  let damage : Int := if crit then damage0 * 2 else damage0
  let hp1 := defender.hp - damage
  let hp2 := if hp1 < 0 then 0 else hp1
  let defender1 : Entity := { defender with hp := hp2 }
  let msg0 := attacker.name
  let msg1 := if crit then msg0 ++ " CRITICALLY" else msg0
  let msg2 := msg1 ++ (" hits " ++ defender1.name ++ " for " ++ toString damage ++ " damage.")
  let msg3 := if crit then msg2 ++ " Critical hit!" else msg2
  let msg4 := if !defender1.isAlive then msg3 ++ (" " ++ defender1.name ++ " dies!") else msg3
  { attacker := attacker, defender := defender1, outDmg := damage, msg := msg4, rand := r2.2 }

/-- The summary announces a death: it ends with the words `<name> dies!`. -/
def reportsDeath (msg : String) (defenderName : String) : Prop :=
  (" " ++ defenderName ++ " dies!").data <:+ msg.data

/-- The part of the summary that precedes the death notice. -/
def hitText (attackerName defenderName : String) (crit : Bool) (damage : Int) : String :=
  if crit then
    attackerName ++ " CRITICALLY" ++ (" hits " ++ defenderName ++ " for " ++ toString damage
      ++ " damage.") ++ " Critical hit!"
  else
    attackerName ++ (" hits " ++ defenderName ++ " for " ++ toString damage ++ " damage.")


/-! ## Inventory (`Item.cpp`) -/

/-- Source `Inventory::MAX_ITEMS`. -/
def Inventory.MAX_ITEMS : Int := 10

/-- Source `Inventory::size`. -/
def Inventory.size (inv : Inventory) : Int := (inv.items.length : Int)

/-- Source `Inventory::isFull`. -/
def Inventory.isFull (inv : Inventory) : Bool := decide (inv.size ≥ Inventory.MAX_ITEMS)

/-- Source `Inventory::add`: the returned flag and the updated inventory. -/
def Inventory.add (inv : Inventory) (item : Item) : Bool × Inventory :=
  if inv.isFull then (false, inv)
  else (true, { items := inv.items ++ [{ item with onGround := false }] })

/-- Source `Inventory::remove`. -/
def Inventory.remove (inv : Inventory) (index : Int) : Inventory :=
  if index ≥ 0 ∧ index < inv.size then { items := inv.items.eraseIdx index.toNat }
  else inv

/-- Source `Inventory::get`; `none` stands for an access outside the vector. -/
def Inventory.get (inv : Inventory) (index : Int) : Option Item :=
  if index ≥ 0 ∧ index < inv.size then inv.items.get? index.toNat else none

/-! ## Player (`Entity.cpp`) -/

/-- Source `Entity::Entity(pos, name, glyph, hp, atk, def)`. -/
def Entity.new (pos : Vec2) (name : String) (glyph : Char) (hp atk dfn : Int) : Entity :=
  { pos := pos, name := name, glyph := glyph, hp := hp, maxHp := hp, attack := atk,
    defense := dfn, level := 1, xp := 0 }

/-- Source `Player::Player(PlayerClass cls)`. -/
def Player.new (cls : PlayerClass) : Player :=
  let e := Entity.new ⟨0, 0⟩ "Player" '@' 30 5 2
  let stats : Int × Int × Int × Int × Int × Int :=
    match cls with
    | PlayerClass.Warrior => (40, 4, 4, 8, 1, 2)
    | PlayerClass.Rogue => (25, 7, 1, 3, 3, 1)
    | PlayerClass.Mage => (20, 8, 1, 3, 3, 0)
    | PlayerClass.Cleric => (35, 3, 3, 6, 1, 1)
  { toEntity := { e with hp := stats.1, maxHp := stats.1, attack := stats.2.1,
                         defense := stats.2.2.1 },
    inventory := { items := [] },
    equippedWeapon := false, equippedArmor := false,
    baseAttack := stats.2.1, baseDefense := stats.2.2.1,
    playerClass := cls, abilityCooldown := 0, abilityBuffActive := false,
    lvlHp := stats.2.2.2.1, lvlAtk := stats.2.2.2.2.1, lvlDef := stats.2.2.2.2.2,
    poisonTurns := 0, poisonDmg := 0, killCount := 0, blindTurns := 0, slowTurns := 0,
    hasteTurns := 0, burningTurns := 0, burningDmg := 2, gold := 0, shieldTurns := 0,
    shieldBonus := 0, pendingLevelUps := 0, damageDealt := 0, damageTaken := 0,
    potionsUsed := 0, turnsPlayed := 0, lastDamageSource := "",
    weaponSlot := Item.default, armorSlot := Item.default,
    hasWeapon := false, hasArmor := false }

/-- Source `Player::totalAttack`. -/
def Player.totalAttack (p : Player) : Int :=
  let atk := p.baseAttack
  let atk := if p.hasWeapon then atk + p.weaponSlot.value else atk
  atk

/-- Source `Player::totalDefense`. -/
def Player.totalDefense (p : Player) : Int :=
  let dfn := p.baseDefense
  let dfn := if p.hasArmor then dfn + p.armorSlot.value else dfn
  let dfn := if p.shieldTurns > 0 then dfn + p.shieldBonus else dfn
  dfn

/-- Source `Player::xpToNextLevel`. -/
def Player.xpToNextLevel (p : Player) : Int := p.level * 20

/-- The `while` loop of `Player::addXP`, run for at most `fuel` iterations. -/
def Player.addXPLoop : Nat → Player → Player
  | 0, p => p
  | fuel + 1, p =>
    if p.xp ≥ p.xpToNextLevel then
      Player.addXPLoop fuel
        { p with xp := p.xp - p.xpToNextLevel, level := p.level + 1,
                 pendingLevelUps := p.pendingLevelUps + 1 }
    else p

/-- An upper bound on the number of iterations of the loop of `Player::addXP` from the
given experience and level. -/
def addXPBudget (xp level : Int) : Nat :=
  (1 - level).toNat + (xp + 10 * ((-level).toNat : Int) * (((-level).toNat : Int) + 1)).toNat

/-- Source `Player::addXP`. -/
def Player.addXP (p : Player) (amount : Int) : Player :=
  let p1 : Player := { p with xp := p.xp + amount }
  Player.addXPLoop (addXPBudget p1.xp p1.level) p1

/-- Source `Player::applyLevelChoice`. -/
def Player.applyLevelChoice (p : Player) (choice : Int) : Player :=
  let p1 : Player := { p with hp := min (p.hp + 5) p.maxHp }
  if choice = 0 then
    let p2 : Player := { p1 with maxHp := p1.maxHp + p1.lvlHp }
    { p2 with hp := min (p2.hp + p2.lvlHp) p2.maxHp }
  else if choice = 1 then
    { p1 with baseAttack := p1.baseAttack + max 1 p1.lvlAtk, maxHp := p1.maxHp + 2 }
  else if choice = 2 then
    { p1 with baseDefense := p1.baseDefense + max 1 p1.lvlDef, maxHp := p1.maxHp + 2 }
  else p1

/-- Source `Player::abilityName`. -/
def Player.abilityName (p : Player) : String :=
  match p.playerClass with
  | PlayerClass.Warrior => "Shield Bash"
  | PlayerClass.Rogue => "Backstab"
  | PlayerClass.Mage => "Fireball"
  | PlayerClass.Cleric => "Divine Heal"

/-- Source `Player::abilityCooldownMax`. -/
def Player.abilityCooldownMax (p : Player) : Int :=
  match p.playerClass with
  | PlayerClass.Warrior => 8
  | PlayerClass.Rogue => 6
  | PlayerClass.Mage => 10
  | PlayerClass.Cleric => 12

/-- The body of the range-based `for` loop of the Mage case of `Player::useAbility`,
applied to one enemy: the updated enemy and whether it was hit. -/
def fireballHit (pos : Vec2) (dmg : Int) (e : Enemy) : Enemy × Bool :=
  if !e.isAlive then (e, false)
  else
    let dist := pos.distanceSq e.pos
    if dist ≤ 9 then
      let hp1 := e.hp - dmg
      let hp2 := if hp1 < 0 then 0 else hp1
      ({ e with hp := hp2 }, true)
    else (e, false)

/-- The `for` loop of the Mage case of `Player::useAbility`: the updated enemies and the
final value of `hits`, starting from the given count. -/
def fireballLoop (pos : Vec2) (dmg : Int) : List Enemy → Int → List Enemy × Int
  | [], hits => ([], hits)
  | e :: es, hits =>
    let r := fireballHit pos dmg e
    let rest := fireballLoop pos dmg es (if r.2 then hits + 1 else hits)
    (r.1 :: rest.1, rest.2)

/-- Source `Player::useAbility`: the returned message, the player and the enemies afterwards. -/
def Player.useAbility (p : Player) (enemies : List Enemy) : String × Player × List Enemy :=
  if p.abilityCooldown > 0 then
    (p.abilityName ++ " on cooldown (" ++ toString p.abilityCooldown ++ " turns).", p, enemies)
  else
    match p.playerClass with
    | PlayerClass.Warrior =>
      let p1 : Player := { p with abilityBuffActive := true }
      let p2 : Player := { p1 with abilityCooldown := p1.abilityCooldownMax }
      ("Shield Bash ready! Next attack deals bonus damage and stuns.", p2, enemies)
    | PlayerClass.Rogue =>
      let p1 : Player := { p with abilityBuffActive := true }
      let p2 : Player := { p1 with abilityCooldown := p1.abilityCooldownMax }
      ("Backstab ready! Next attack deals triple damage.", p2, enemies)
    | PlayerClass.Mage =>
      let p1 : Player := { p with abilityCooldown := p.abilityCooldownMax }
      let dmg := 8 + p1.level * 2
      let r := fireballLoop p1.pos dmg enemies 0
      if r.2 = 0 then ("Fireball! No enemies in range.", p1, r.1)
      else ("Fireball hits " ++ toString r.2 ++ " enemies for " ++ toString dmg ++ " damage!",
            p1, r.1)
    | PlayerClass.Cleric =>
      let p1 : Player := { p with abilityCooldown := p.abilityCooldownMax }
      let heal := Int.tdiv p1.maxHp 2
      let p2 : Player := { p1 with hp := min (p1.hp + heal) p1.maxHp }
      ("Divine Heal restores " ++ toString heal ++ " HP!", p2, enemies)

/-- Source `Player::tickCooldown`. -/
def Player.tickCooldown (p : Player) : Player :=
  if p.abilityCooldown > 0 then { p with abilityCooldown := p.abilityCooldown - 1 } else p

/-- Source `Player::tickPoison`. -/
def Player.tickPoison (p : Player) : Player :=
  if p.poisonTurns > 0 then
    let hp1 := p.hp - p.poisonDmg
    let hp2 := if hp1 < 0 then 0 else hp1
    { p with hp := hp2, poisonTurns := p.poisonTurns - 1 }
  else p

/-- Source `Player::tickBurning`. -/
def Player.tickBurning (p : Player) : Player :=
  if p.burningTurns > 0 then
    let hp1 := p.hp - p.burningDmg
    let hp2 := if hp1 < 0 then 0 else hp1
    { p with hp := hp2, burningTurns := p.burningTurns - 1 }
  else p

/-- Statement `if (blindTurns > 0) blindTurns--;` of `Player::tickStatusEffects`. -/
def Player.tickBlind (p : Player) : Player :=
  if p.blindTurns > 0 then { p with blindTurns := p.blindTurns - 1 } else p

/-- Statement `if (slowTurns > 0) slowTurns--;` of `Player::tickStatusEffects`. -/
def Player.tickSlow (p : Player) : Player :=
  if p.slowTurns > 0 then { p with slowTurns := p.slowTurns - 1 } else p

/-- Statement `if (hasteTurns > 0) hasteTurns--;` of `Player::tickStatusEffects`. -/
def Player.tickHaste (p : Player) : Player :=
  if p.hasteTurns > 0 then { p with hasteTurns := p.hasteTurns - 1 } else p

/-- Statement `if (shieldTurns > 0) shieldTurns--;` of `Player::tickStatusEffects`. -/
def Player.tickShield (p : Player) : Player :=
  if p.shieldTurns > 0 then { p with shieldTurns := p.shieldTurns - 1 } else p

/-- Source `Player::tickStatusEffects`: the six statements of its body in order. -/
def Player.tickStatusEffects (p : Player) : Player :=
  let p1 := p.tickPoison
  let p2 := p1.tickBurning
  let p3 := p2.tickBlind
  let p4 := p3.tickSlow
  let p5 := p4.tickHaste
  let p6 := p5.tickShield
  p6

/-- Source `Player::effectiveFovRadius`. -/
def Player.effectiveFovRadius (p : Player) : Int := if p.blindTurns > 0 then 2 else 8

/-- Source `Player::equipItem`: the returned message and the player afterwards. -/
def Player.equipItem (p : Player) (index : Int) : String × Player :=
  if index < 0 ∨ index ≥ p.inventory.size then ("", p)
  else
    match p.inventory.get index with
    | none => ("", p)
    | some item =>
      if item.type = ItemType.Weapon then
        let inv :=
          if p.hasWeapon then
            let old : Item := { p.weaponSlot with onGround := false }
            ((p.inventory.remove index).add old).2
          else p.inventory.remove index
        ("Equipped " ++ item.name ++ ".",
          { p with inventory := inv, weaponSlot := item, hasWeapon := true,
                   equippedWeapon := true })
      else if item.type = ItemType.Armor then
        let inv :=
          if p.hasArmor then
            let old : Item := { p.armorSlot with onGround := false }
            ((p.inventory.remove index).add old).2
          else p.inventory.remove index
        ("Equipped " ++ item.name ++ ".",
          { p with inventory := inv, armorSlot := item, hasArmor := true,
                   equippedArmor := true })
      else ("", p)

/-- Source `Player::useItem`: the returned message and the player afterwards. -/
def Player.useItem (p : Player) (index : Int) : String × Player :=
  if index < 0 ∨ index ≥ p.inventory.size then ("", p)
  else
    match p.inventory.get index with
    | none => ("", p)
    | some item =>
      match item.type with
      | ItemType.HealthPotion =>
        let heal := item.value
        let heal := if p.playerClass = PlayerClass.Cleric then Int.tdiv (heal * 3) 2 else heal
        let p1 : Player := { p with hp := min (p.hp + heal) p.maxHp }
        let p2 : Player := { p1 with potionsUsed := p1.potionsUsed + 1 }
        let msg := "Used " ++ item.name ++ ", healed " ++ toString heal ++ " HP."
        (msg, { p2 with inventory := p2.inventory.remove index })
      | ItemType.ShieldPotion =>
        let p1 : Player := { p with shieldTurns := 10, shieldBonus := item.value }
        let p2 : Player := { p1 with potionsUsed := p1.potionsUsed + 1 }
        let msg := "Used " ++ item.name ++ ", DEF +" ++ toString p2.shieldBonus
          ++ " for 10 turns!"
        (msg, { p2 with inventory := p2.inventory.remove index })
      | ItemType.AttackBoost =>
        let p1 : Player := { p with baseAttack := p.baseAttack + item.value }
        let msg := "Used " ++ item.name ++ ", ATK +" ++ toString item.value ++ "!"
        (msg, { p1 with inventory := p1.inventory.remove index })
      | ItemType.DefenseBoost =>
        let p1 : Player := { p with baseDefense := p.baseDefense + item.value }
        let msg := "Used " ++ item.name ++ ", DEF +" ++ toString item.value ++ "!"
        (msg, { p1 with inventory := p1.inventory.remove index })
      | ItemType.Weapon => p.equipItem index
      | ItemType.Armor => p.equipItem index
      | ItemType.Gold => ("", p)
      | ItemType.TeleportScroll => ("", p)
      | ItemType.Bomb => ("", p)

/-! ## Enemies (`Entity.cpp`) -/

/-- Source `Enemy::Enemy(Vec2 pos, EnemyType type)`, on top of the default `Entity()`. -/
def Enemy.new (pos : Vec2) (type : EnemyType) : Enemy :=
  { toEntity := { pos := pos, name := "", glyph := '.', hp := 0, maxHp := 0, attack := 0,
                  defense := 0, level := 1, xp := 0 },
    type := type, xpReward := 0, awake := false, stunTurns := 0, summonTimer := 0,
    enraged := false }

/-- Source `Enemy::create`. -/
def Enemy.create (t : EnemyType) (pos : Vec2) : Enemy :=
  let e := Enemy.new pos t
  let mk (name : String) (glyph : Char) (hp atk dfn xpReward : Int) : Enemy :=
    { e with name := name, glyph := glyph, hp := hp, maxHp := hp, attack := atk,
             defense := dfn, xpReward := xpReward }
  match t with
  | EnemyType.Rat => mk "Rat" 'r' 8 3 0 5
  | EnemyType.Skeleton => mk "Skeleton" 's' 15 6 2 12
  | EnemyType.Ghost => mk "Ghost" 'g' 12 8 1 15
  | EnemyType.Demon => mk "Demon" 'D' 25 10 4 25
  | EnemyType.Dragon => mk "Dragon Boss" 'W' 60 14 6 100
  | EnemyType.Archer => mk "Archer" 'a' 10 7 1 10
  | EnemyType.Necromancer => mk "Necromancer" 'n' 18 5 2 20
  | EnemyType.Lich => mk "Lich Boss" 'L' 80 16 8 200

/-! ## Vocabulary of the statements -/

/-- The hit-point bounds of the data model: `0 ≤ hp ≤ maxHp`. -/
def hpInv (e : Entity) : Prop := 0 ≤ e.hp ∧ e.hp ≤ e.maxHp

instance (e : Entity) : Decidable (hpInv e) := by
  unfold hpInv; infer_instance

/-- A countdown step: decrement when positive, otherwise unchanged. -/
def countdown (n : Int) : Int := if n > 0 then n - 1 else n

/-- The enemies a Fireball cast from `pos` reaches: alive and within squared
distance 9. -/
def inFireballRange (pos : Vec2) (e : Enemy) : Bool :=
  e.isAlive && decide (pos.distanceSq e.pos ≤ 9)

/-- The fixed cooldown maxima per class. -/
def cooldownMaxOf : PlayerClass → Int
  | PlayerClass.Warrior => 8
  | PlayerClass.Rogue => 6
  | PlayerClass.Mage => 10
  | PlayerClass.Cleric => 12

/-! ## Items (`Item.cpp`) -/

/-- Source `enchantmentPrefix` of `Item.cpp`. -/
def enchantmentLabel (e : Enchantment) : String :=
  match e with
  | Enchantment.None => ""
  | Enchantment.Rusty => "Rusty "
  | Enchantment.Sharp => "Sharp "
  | Enchantment.Flaming => "Flaming "
  | Enchantment.Frozen => "Frozen "
  | Enchantment.Vampiric => "Vampiric "
  | Enchantment.Blessed => "Blessed "
  | Enchantment.Legendary => "Legendary "

/-- Source `enchantmentValueMod` of `Item.cpp`. -/
def enchantmentValueMod (e : Enchantment) : Int :=
  match e with
  | Enchantment.None => 0
  | Enchantment.Rusty => -1
  | Enchantment.Sharp => 2
  | Enchantment.Flaming => 1
  | Enchantment.Frozen => 1
  | Enchantment.Vampiric => 1
  | Enchantment.Blessed => 3
  | Enchantment.Legendary => 5

/-- Source `Item::Item(pos, name, glyph, type, value, ench)`. -/
def Item.new (pos : Vec2) (name : String) (glyph : Char) (type : ItemType) (value : Int)
    (ench : Enchantment) : Item :=
  let it : Item := { pos := pos, name := "", glyph := glyph, type := type, value := value,
                     onGround := true, enchantment := ench }
  if ench ≠ Enchantment.None then
    { it with name := enchantmentLabel ench ++ name,
              value := max 1 (value + enchantmentValueMod ench) }
  else { it with name := name }

/-- Source `Item::rollEnchantment(floor, legendary)`. -/
def Item.rollEnchantment (floor : Int) (legendary : Bool) (rng : Rand) : Enchantment × Rand :=
  if legendary then (Enchantment.Legendary, rng)
  else
    let r := rng.next
    let roll := r.1 % 100
    let e : Enchantment :=
      if floor ≥ 6 then
        if roll < 5 then Enchantment.Rusty
        else if roll < 20 then Enchantment.Sharp
        else if roll < 35 then Enchantment.Flaming
        else if roll < 50 then Enchantment.Frozen
        else if roll < 65 then Enchantment.Vampiric
        else if roll < 80 then Enchantment.Blessed
        else Enchantment.None
      else if floor ≥ 3 then
        if roll < 10 then Enchantment.Rusty
        else if roll < 30 then Enchantment.Sharp
        else if roll < 45 then Enchantment.Flaming
        else if roll < 55 then Enchantment.Frozen
        else if roll < 60 then Enchantment.Vampiric
        else Enchantment.None
      else
        if roll < 20 then Enchantment.Rusty
        else if roll < 35 then Enchantment.Sharp
        else Enchantment.None
    (e, r.2)

/-! ## The grid substrate and the game state -/

/-- Modelled from the spec: the enumeration `Tile` of the absent `Map.h`, with the
enumerators the sources name and `Other` for any further one. -/
inductive Tile where
  | Floor | Wall | Water | Lava | Fountain | StairsUp | StairsDown | Other
  deriving DecidableEq, Repr

/-- Modelled from the spec: the grid substrate `Map` (the absent `Map.h`), given by its
fixed dimensions and by the observers that the simulation core consumes: tile lookup,
walkability, visibility, exploration memory, the danger predicate and opacity. -/
structure Map where
  WIDTH : Nat
  HEIGHT : Nat
  getTile : Int → Int → Tile
  isWalkable : Int → Int → Bool
  isVisible : Int → Int → Bool
  isExplored : Int → Int → Bool
  isDangerous : Int → Int → Bool
  isOpaque : Int → Int → Bool

/-- Modelled from the spec: `Map::inBounds` (the absent `Map.h`), the bounds check against
the fixed grid dimensions. -/
def Map.inBounds (m : Map) (x y : Int) : Bool :=
  decide (0 ≤ x ∧ x < (m.WIDTH : Int) ∧ 0 ≤ y ∧ y < (m.HEIGHT : Int))

/-- Modelled from the spec: the operations of the absent headers that change the grid:
`Map::setTile` and the visibility recomputation `FOV::compute`. -/
structure MapOps where
  setTile : Map → Int → Int → Tile → Map
  fovCompute : Map → Vec2 → Int → Map

inductive TrapType where
  | Spike | Poison | Teleport | Slow
  deriving DecidableEq, Repr

/-- Modelled from the spec: `struct Trap` (declared in an absent header), with the fields
the sources use. -/
structure Trap where
  pos : Vec2
  type : TrapType
  revealed : Bool
  deriving DecidableEq, Repr

inductive RoomTheme where
  | Normal | Armory | Crypt | Library | Shop | Shrine
  deriving DecidableEq, Repr

/-- Modelled from the spec: `struct Room` of the absent `DungeonGen.h`, with the members
that `Game::movePlayer` reads: the theme, the fountain flag and the value of `center()`. -/
structure Room where
  theme : RoomTheme
  fountainUsed : Bool
  center : Vec2
  deriving DecidableEq, Repr

inductive Difficulty where
  | Easy | Normal | Hard
  deriving DecidableEq, Repr

/-- The part of class `Game` that the simulation core reads and writes, together with the
random source and the grid operations it is linked against. The field `enemyCapacity` is
`enemies.capacity()`, the number of elements the vector `enemies` holds without being
reallocated: a `push_back` at `size() == capacity()` moves the elements and invalidates
every reference into the vector. -/
structure Game where
  state : GameState
  map : Map
  ops : MapOps
  rooms : List Room
  player : Player
  enemies : List Enemy
  enemyCapacity : Nat
  items : List Item
  traps : List Trap
  messageLog : List String
  currentFloor : Int
  rand : Rand
  difficulty : Difficulty
  autoExploring : Bool
  running : Bool
  merchantPos : Vec2
  lookCursor : Vec2
  logScrollOffset : Int

/-- Source `Game::addMessage`. -/
def Game.addMessage (g : Game) (msg : String) : Game :=
  let log := g.messageLog ++ [msg]
  if (log.length : Int) > 50 then { g with messageLog := log.tail }
  else { g with messageLog := log }

/-- The search of `Game::enemyAt` in a list: the index of the first living enemy at the
cell, counted from `i`. -/
def enemyAtFrom (x y : Int) : List Enemy → Nat → Option Nat
  | [], _ => none
  | e :: es, i =>
    if e.isAlive && decide (e.pos.x = x) && decide (e.pos.y = y) then some i
    else enemyAtFrom x y es (i + 1)

/-- Source `Game::enemyAt`: the returned pointer is modelled by the index into `enemies`;
`none` is the null pointer. -/
def Game.enemyAt (g : Game) (x y : Int) : Option Nat := enemyAtFrom x y g.enemies 0

/-- The name tables `wNames` / `aNames` of the loot drop, indexed by `tier`. -/
def wNames : List String := ["Dagger", "Short Sword", "Long Sword", "War Axe", "Flame Blade"]

/-- The armor name table of the loot drop. -/
def aNames : List String :=
  ["Leather Armor", "Chain Mail", "Scale Mail", "Plate Armor", "Dragon Armor"]

/-- Kill handling of `Game::movePlayer`, first part: the kill count, the experience and
its message. -/
def Game.creditKill (g : Game) (t : Enemy) : Game :=
  let p1 : Player := { g.player with killCount := g.player.killCount + 1 }
  let p2 := p1.addXP t.xpReward
  ({ g with player := p2 } : Game).addMessage ("Gained " ++ toString t.xpReward ++ " XP.")

/-- Kill handling of `Game::movePlayer`, second part: the gold drop. -/
def Game.dropGold (g : Game) (t : Enemy) : Game :=
  let r1 := g.rand.next
  let goldAmt : Int := Int.tdiv t.xpReward 2 + ((r1.1 % 5 : Nat) : Int)
  { g with rand := r1.2,
           items := g.items ++
             [Item.new t.pos (toString goldAmt ++ " Gold") '$' ItemType.Gold goldAmt
                Enchantment.None] }

/-- The item of the enchanted loot drop, once the drop has been decided. -/
def Game.rollLoot (g : Game) (t : Enemy) (isBoss : Bool) : Game :=
  let re := Item.rollEnchantment g.currentFloor isBoss g.rand
  let r3 := re.2.next
  let tier := min (g.currentFloor - 1) 4
  let item : Item :=
    if r3.1 % 2 == 0 then
      Item.new t.pos (wNames.getD tier.toNat "") '/' ItemType.Weapon (3 + tier * 2) re.1
    else
      Item.new t.pos (aNames.getD tier.toNat "") '[' ItemType.Armor (2 + tier * 2) re.1
  ({ g with rand := r3.2, items := g.items ++ [item] } : Game).addMessage
    "Something enchanted drops!"

/-- Kill handling of `Game::movePlayer`, third part: the enchanted loot drop (always for a
boss, otherwise when the draw is a multiple of 10). -/
def Game.dropLoot (g : Game) (t : Enemy) : Game :=
  let isBoss : Bool := t.type = EnemyType.Dragon || t.type = EnemyType.Lich
  if isBoss then g.rollLoot t isBoss
  else
    let r2 := g.rand.next
    let g1 : Game := { g with rand := r2.2 }
    if r2.1 % 10 == 0 then g1.rollLoot t isBoss else g1

/-- Kill handling of `Game::movePlayer`, last part: the Dragon's message on floor 5 and
the win on killing the Lich on floor 8. -/
def Game.bossFalls (g : Game) (t : Enemy) : Game :=
  let g1 : Game :=
    if t.type = EnemyType.Dragon ∧ g.currentFloor = 5 then
      g.addMessage "The Dragon falls! But darker forces lurk below..."
    else g
  if t.type = EnemyType.Lich ∧ g1.currentFloor = 8 then { g1 with state := GameState.Win }
  else g1

/-- The kill handling of `Game::movePlayer` (the block under `if (!target->isAlive())`),
for the target `t`. -/
def Game.rewardKill (g : Game) (t : Enemy) : Game :=
  (((g.creditKill t).dropGold t).dropLoot t).bossFalls t

/-- The attack bonus that `Game::movePlayer` hands to `resolveCombat`: the equipment part
of the total attack, the Flaming bonus, and the armed ability buff. -/
def Player.attackBonus (player : Player) : Int :=
  let atkBonus : Int := player.totalAttack - player.attack
  let atkBonus : Int :=
    if player.hasWeapon ∧ player.weaponSlot.enchantment = Enchantment.Flaming
    then atkBonus + 2 else atkBonus
  let atkBonus : Int :=
    if player.abilityBuffActive then
      if player.playerClass = PlayerClass.Warrior then atkBonus + 5
      else if player.playerClass = PlayerClass.Rogue then atkBonus + player.totalAttack * 2
      else atkBonus
    else atkBonus
  atkBonus

/-- The Vampiric heal of `Game::movePlayer`. -/
def Game.vampiricHeal (g : Game) : Game :=
  if g.player.hasWeapon ∧ g.player.weaponSlot.enchantment = Enchantment.Vampiric then
    let heal : Int := 2
    let g1 : Game :=
      { g with player := { g.player with hp := min (g.player.hp + heal) g.player.maxHp } }
    g1.addMessage ("Your vampiric weapon drains life! +" ++ toString heal ++ " HP")
  else g

/-- The exchange that `Game::movePlayer` resolves against `target`. -/
def Game.strike (g : Game) (target : Enemy) : CombatResult :=
  resolveCombat g.player.toEntity target.toEntity g.player.attackBonus 0 g.rand

/-- Attack branch of `Game::movePlayer`, first part: the call of `resolveCombat` as far as
the game is concerned (the damage statistics, the random source, the summary). -/
def Game.landHit (g : Game) (target : Enemy) : Game :=
  let res := g.strike target
  let player1 : Player := { g.player with toEntity := res.attacker }
  let player2 : Player := { player1 with damageDealt := player1.damageDealt + res.outDmg }
  ({ g with player := player2, rand := res.rand } : Game).addMessage res.msg

/-- Attack branch of `Game::movePlayer`: the stun of the Warrior's Shield Bash, applied to
the target as the hit left it. -/
def Game.stunTarget (g : Game) (target1 : Enemy) : Enemy × Game :=
  if g.player.abilityBuffActive && decide (g.player.playerClass = PlayerClass.Warrior)
      && target1.isAlive then
    let target2 : Enemy := { target1 with stunTurns := 2 }
    (target2, g.addMessage (target2.name ++ " is stunned!"))
  else (target1, g)

/-- Statement `player.abilityBuffActive = false;` of `Game::movePlayer`. -/
def Game.clearBuff (g : Game) : Game :=
  { g with player := { g.player with abilityBuffActive := false } }

/-- The attack branch of `Game::movePlayer` (the block under `if (target)`), for the
enemy at index `i` of the enemy list. -/
def Game.attackEnemy (g : Game) (i : Nat) (target : Enemy) : Game :=
  let target1 : Enemy := { target with toEntity := (g.strike target).defender }
  let g2 := g.landHit target
  let st := g2.stunTarget target1
  let g4 := st.2.clearBuff
  let g5 := g4.vampiricHeal
  let g6 : Game := { g5 with enemies := g5.enemies.set i st.1 }
  if !st.1.isAlive then g6.rewardKill st.1 else g6

/-- The target as `Game::movePlayer` leaves it: hit, and stunned for 2 turns when the
Warrior's buff was armed and the target survived. -/
def Game.targetAfter (g : Game) (target : Enemy) : Enemy :=
  let t1 : Enemy := { target with toEntity := (g.strike target).defender }
  if g.player.abilityBuffActive && decide (g.player.playerClass = PlayerClass.Warrior)
      && t1.isAlive
  then { t1 with stunTurns := 2 } else t1

/-- The `for` loop of a teleport (`Game::checkTraps`, trap type `Teleport`): up to
`attempts` random cells are tried; the first walkable, non-dangerous one is returned with
the advanced random source, `none` if every attempt fails. -/
def teleportSearch (m : Map) : Nat → Rand → Option Vec2 × Rand
  | 0, rng => (none, rng)
  | attempts + 1, rng =>
    let r1 := rng.next
    let tx : Int := ((r1.1 % m.WIDTH : Nat) : Int)
    let r2 := r1.2.next
    let ty : Int := ((r2.1 % m.HEIGHT : Nat) : Int)
    if m.isWalkable tx ty && !m.isDangerous tx ty then (some ⟨tx, ty⟩, r2.2)
    else teleportSearch m attempts r2.2

/-- The effect of the trap found by `Game::checkTraps` (the `switch` on its type). -/
def Game.springTrap (g : Game) (type : TrapType) : Game :=
  match type with
  | TrapType.Spike =>
    let dmg : Int := 8 + g.currentFloor * 2
    let hp1 := g.player.hp - dmg
    let hp2 := if hp1 < 0 then 0 else hp1
    let p : Player :=
      { g.player with hp := hp2, damageTaken := g.player.damageTaken + dmg,
                      lastDamageSource := "a spike trap" }
    ({ g with player := p } : Game).addMessage
      ("A spike trap deals " ++ toString dmg ++ " damage!")
  | TrapType.Poison =>
    let p : Player := { g.player with poisonTurns := 5, poisonDmg := 3 }
    ({ g with player := p } : Game).addMessage "A poison trap! You are poisoned for 5 turns!"
  | TrapType.Teleport =>
    let r := teleportSearch g.map 100 g.rand
    match r.1 with
    | some dest =>
      let p : Player := { g.player with pos := dest }
      let g1 := ({ g with player := p, rand := r.2 } : Game).addMessage
        "A teleport trap! You are whisked away!"
      { g1 with map := g1.ops.fovCompute g1.map g1.player.pos g1.player.effectiveFovRadius }
    | none => ({ g with rand := r.2 } : Game).addMessage "A teleport trap fizzles..."
  | TrapType.Slow =>
    let p : Player := { g.player with slowTurns := 5 }
    ({ g with player := p } : Game).addMessage
      "A slow trap! Your movements are sluggish for 5 turns!"

/-- The scan of `Game::checkTraps` over the trap list: the first trap on the player's cell
is revealed and sprung, the traps before it are passed over. -/
def checkTrapsFrom (g : Game) : List Trap → List Trap × Game
  | [] => ([], g)
  | trap :: rest =>
    if trap.pos ≠ g.player.pos then
      let r := checkTrapsFrom g rest
      (trap :: r.1, r.2)
    else
      ({ trap with revealed := true } :: rest, g.springTrap trap.type)

/-- Source `Game::checkTraps`. -/
def Game.checkTraps (g : Game) : Game :=
  let r := checkTrapsFrom g g.traps
  { r.2 with traps := r.1 }

/-- The body of the auto-pickup loop of `Game::movePlayer` for one ground item: the item,
the player and the log afterwards. -/
def pickUpOnWalk (nx ny : Int) (item : Item) (g : Game) : Item × Game :=
  if !item.onGround || decide (item.pos.x ≠ nx) || decide (item.pos.y ≠ ny) then (item, g)
  else if item.type = ItemType.Gold then
    let p : Player := { g.player with gold := g.player.gold + item.value }
    let g1 := ({ g with player := p } : Game).addMessage
      ("Picked up " ++ toString item.value ++ " gold.")
    ({ item with onGround := false }, g1)
  else if !g.player.inventory.isFull then
    let pickMsg := "Picked up " ++ item.name ++ "."
    let pickMsg :=
      if item.type = ItemType.Weapon then
        let diff := item.value - (if g.player.hasWeapon then g.player.weaponSlot.value else 0)
        if !g.player.hasWeapon then pickMsg ++ " [new weapon!]"
        else if diff > 0 then pickMsg ++ (" [+" ++ toString diff ++ " ATK vs equipped]")
        else if diff < 0 then pickMsg ++ (" [" ++ toString diff ++ " ATK vs equipped]")
        else pickMsg
      else if item.type = ItemType.Armor then
        let diff := item.value - (if g.player.hasArmor then g.player.armorSlot.value else 0)
        if !g.player.hasArmor then pickMsg ++ " [new armor!]"
        else if diff > 0 then pickMsg ++ (" [+" ++ toString diff ++ " DEF vs equipped]")
        else if diff < 0 then pickMsg ++ (" [" ++ toString diff ++ " DEF vs equipped]")
        else pickMsg
      else pickMsg
    let g1 := g.addMessage pickMsg
    let p : Player := { g1.player with inventory := (g1.player.inventory.add item).2 }
    ({ item with onGround := false }, { g1 with player := p })
  else (item, g)

/-- The auto-pickup loop of `Game::movePlayer` over the item list. -/
def pickUpLoop (nx ny : Int) : List Item → Game → List Item × Game
  | [], g => ([], g)
  | item :: rest, g =>
    let r := pickUpOnWalk nx ny item g
    let rs := pickUpLoop nx ny rest r.2
    (r.1 :: rs.1, rs.2)

/-- The room scan of the fountain case of `Game::movePlayer`: the first unused shrine
whose centre is the cell is marked used; the flag tells whether one was found. -/
def useShrineFountain (nx ny : Int) : List Room → List Room × Bool
  | [] => ([], false)
  | r :: rest =>
    if r.theme = RoomTheme.Shrine ∧ !r.fountainUsed ∧ r.center.x = nx ∧ r.center.y = ny then
      ({ r with fountainUsed := true } :: rest, true)
    else
      let rs := useShrineFountain nx ny rest
      (r :: rs.1, rs.2)

/-- The movement branch of `Game::movePlayer` (the block under
`if (map.isWalkable(nx, ny))`). -/
def Game.walkTo (g : Game) (nx ny : Int) : Game :=
  let g1 : Game := { g with player := { g.player with pos := ⟨nx, ny⟩ } }
  let picked := pickUpLoop nx ny g1.items g1
  let g2 : Game := { picked.2 with items := picked.1 }
  let stepped := g2.map.getTile nx ny
  let g3 : Game :=
    if stepped = Tile.Lava then
      let dmg : Int := 5
      let hp1 := g2.player.hp - dmg
      let hp2 := if hp1 < 0 then 0 else hp1
      let p : Player :=
        { g2.player with hp := hp2, damageTaken := g2.player.damageTaken + dmg,
                         lastDamageSource := "lava" }
      let g21 := ({ g2 with player := p } : Game).addMessage
        ("The lava burns you for " ++ toString dmg ++ " damage!")
      { g21 with player := { g21.player with burningTurns := 3, burningDmg := 2 } }
    else if stepped = Tile.Fountain then
      let heal : Int := 10
      let scan := useShrineFountain nx ny g2.rooms
      let p : Player := { g2.player with hp := min (g2.player.hp + heal) g2.player.maxHp }
      let g21 := ({ g2 with player := p } : Game).addMessage
        ("The fountain restores " ++ toString heal ++ " HP!")
      { g21 with rooms := scan.1, map := g21.ops.setTile g21.map nx ny Tile.Floor }
    else g2
  g3.checkTraps

/-- Source `Game::movePlayer(dx, dy)`. -/
def Game.movePlayer (g : Game) (dx dy : Int) : Game :=
  let nx := g.player.pos.x + dx
  let ny := g.player.pos.y + dy
  match g.enemyAt nx ny with
  | some i =>
    match g.enemies.get? i with
    | some target => g.attackEnemy i target
    | none => g
  | none =>
    if g.map.isWalkable nx ny then g.walkTo nx ny else g

/-! ## Bounded A* search (`Enemy::astarStep`) -/

/-- The local `struct Node` of `Enemy::astarStep`. -/
structure Node where
  x : Int
  y : Int
  g : Int
  f : Int
  px : Int
  py : Int
  deriving DecidableEq, Repr

/-- The local variables of `Enemy::astarStep` between two iterations of its `while` loop.
The two-dimensional arrays are kept as the list of their written entries, most recent
first: `closed` lists the cells whose flag is set, `parent` the cells whose
`parentX`/`parentY` entry has been written (every other entry is uninitialised), `gScore`
the cells whose score differs from the initial 99999. `openList` is `open[0..openCount)`. -/
structure AStar where
  closed : List Vec2
  openList : List Node
  expanded : Nat
  parent : List (Vec2 × Vec2)
  gScore : List (Vec2 × Int)

/-- The lambda `manhattan` of `Enemy::astarStep`. -/
def manhattan (x1 y1 x2 y2 : Int) : Int :=
  ((x1 - x2).natAbs : Int) + ((y1 - y2).natAbs : Int)

/-- The direction tables `dx[]`, `dy[]` shared by the two searches. -/
def dirs4 : List (Int × Int) := [(0, -1), (0, 1), (-1, 0), (1, 0)]

/-- The value of `gScore[c.y][c.x]`. -/
def AStar.gScoreAt (s : AStar) (c : Vec2) : Int := (s.gScore.lookup c).getD 99999

/-- The scan for the entry with the lowest `f`: `i` runs over the entries after the first,
`best` is `bestIdx`. -/
def findBestFrom (arr : List Node) : List Node → Nat → Nat → Nat
  | [], _, best => best
  | n :: rest, i, best =>
    match arr.get? best with
    | some b => if n.f < b.f then findBestFrom arr rest (i + 1) i
                else findBestFrom arr rest (i + 1) best
    | none => findBestFrom arr rest (i + 1) best

/-- The index `bestIdx` found by the linear scan of the open list. -/
def findBest (arr : List Node) : Nat := findBestFrom arr arr.tail 1 0

/-- Statement `open[bestIdx] = open[--openCount];`: the last entry takes the place of the
removed one. -/
def swapRemove (arr : List Node) (bestIdx : Nat) : List Node :=
  match arr.getLast? with
  | some last => (arr.set bestIdx last).dropLast
  | none => arr

/-- The passability test of the successor loop: in bounds and walkable, or for a Ghost in
bounds and walkable or a wall. -/
def Map.passable (m : Map) (ghost : Bool) (x y : Int) : Bool :=
  m.inBounds x y && (m.isWalkable x y || (ghost && decide (m.getTile x y = Tile.Wall)))

/-- The body of the successor loop `for (int d = 0; d < 4; d++)` of `Enemy::astarStep` for
one direction. -/
def pushSucc (m : Map) (ghost : Bool) (target : Vec2) (cur : Node) (s : AStar)
    (d : Int × Int) : AStar :=
  let nx := cur.x + d.1
  let ny := cur.y + d.2
  if !m.inBounds nx ny then s
  else if decide ((⟨nx, ny⟩ : Vec2) ∈ s.closed) then s
  else
    let walkable := m.isWalkable nx ny
    let isWall : Bool := decide (m.getTile nx ny = Tile.Wall)
    if ghost then
      if !walkable && !isWall then s
      else
        let moveCost : Int := if isWall then 6 else 1
        let ng := cur.g + moveCost
        if ng < s.gScoreAt ⟨nx, ny⟩ then
          let s1 : AStar := { s with gScore := (⟨nx, ny⟩, ng) :: s.gScore }
          let f := ng + manhattan nx ny target.x target.y
          if s1.openList.length < 64 then
            { s1 with openList := s1.openList ++ [⟨nx, ny, ng, f, cur.x, cur.y⟩] }
          else s1
        else s
    else
      if !walkable then s
      else
        let ng := cur.g + 1
        if ng < s.gScoreAt ⟨nx, ny⟩ then
          let s1 : AStar := { s with gScore := (⟨nx, ny⟩, ng) :: s.gScore }
          let f := ng + manhattan nx ny target.x target.y
          if s1.openList.length < 64 then
            { s1 with openList := s1.openList ++ [⟨nx, ny, ng, f, cur.x, cur.y⟩] }
          else s1
        else s

/-- The backtracking loop of `Enemy::astarStep`, from the cell `t`; `none` stands for a
read of an uninitialised parent entry or for an exhausted iteration budget. -/
def traceBack (parent : List (Vec2 × Vec2)) (pos : Vec2) : Nat → Vec2 → Option Vec2
  | 0, _ => none
  | fuel + 1, t =>
    match parent.lookup t with
    | none => none
    | some p => if p.x ≠ pos.x ∨ p.y ≠ pos.y then traceBack parent pos fuel p else some t

/-- What one iteration of the `while` loop of `Enemy::astarStep` does. -/
inductive AStarStep where
  | next (s : AStar)
  | result (r : Option Vec2)

/-- The body of the `while` loop of `Enemy::astarStep`. -/
def astarBody (m : Map) (ghost : Bool) (pos target : Vec2) (s : AStar) : AStarStep :=
  let bestIdx := findBest s.openList
  match s.openList.get? bestIdx with
  | none => AStarStep.result none
  | some cur =>
    let open1 := swapRemove s.openList bestIdx
    if decide ((⟨cur.x, cur.y⟩ : Vec2) ∈ s.closed) then
      AStarStep.next { s with openList := open1 }
    else
      let s1 : AStar :=
        { s with openList := open1,
                 closed := ⟨cur.x, cur.y⟩ :: s.closed,
                 parent := (⟨cur.x, cur.y⟩, ⟨cur.px, cur.py⟩) :: s.parent,
                 expanded := s.expanded + 1 }
      if cur.x = target.x ∧ cur.y = target.y then
        AStarStep.result (traceBack s1.parent pos s1.closed.length target)
      else
        AStarStep.next (dirs4.foldl (pushSucc m ghost target cur) s1)

/-- The `while` loop of `Enemy::astarStep` with an iteration budget; `none` stands for an
exhausted budget or an undefined read. -/
def astarLoop (m : Map) (ghost : Bool) (pos target : Vec2) : Nat → AStar → Option Vec2
  | 0, _ => none
  | fuel + 1, s =>
    if s.openList.length > 0 ∧ s.expanded < 50 then
      match astarBody m ghost pos target s with
      | AStarStep.next s1 => astarLoop m ghost pos target fuel s1
      | AStarStep.result r => r
    else some ⟨-1, -1⟩

/-- The state of `Enemy::astarStep` when its `while` loop is entered. -/
def astarInit (pos target : Vec2) : AStar :=
  { closed := [],
    openList := [⟨pos.x, pos.y, 0, manhattan pos.x pos.y target.x target.y, pos.x, pos.y⟩],
    expanded := 0,
    parent := [],
    gScore := [(pos, 0)] }

/-- The iteration budget given to the `while` loop of `Enemy::astarStep`. -/
def astarBudget : Nat := 252

/-- Source `Enemy::astarStep`. The result is `none` when the enemy stands outside the grid (the
first array write is then out of range), when an uninitialised entry is read, or when the
budget runs out. -/
def Enemy.astarStep (e : Enemy) (m : Map) (target : Vec2) : Option Vec2 :=
  if !m.inBounds e.pos.x e.pos.y then none
  else astarLoop m (decide (e.type = EnemyType.Ghost)) e.pos target astarBudget
         (astarInit e.pos target)

/-- The state of the search after `n` iterations of the `while` loop, `none` once the
loop has been left. -/
def astarStateAfter (m : Map) (ghost : Bool) (pos target : Vec2) : Nat → Option AStar
  | 0 => some (astarInit pos target)
  | n + 1 =>
    match astarStateAfter m ghost pos target n with
    | none => none
    | some s =>
      if s.openList.length > 0 ∧ s.expanded < 50 then
        match astarBody m ghost pos target s with
        | AStarStep.next s1 => some s1
        | AStarStep.result _ => none
      else none

/-- Two cells are cardinal neighbours. -/
def cardinal (a b : Vec2) : Prop :=
  (b.x = a.x ∧ (b.y = a.y - 1 ∨ b.y = a.y + 1)) ∨ (b.y = a.y ∧ (b.x = a.x - 1 ∨ b.x = a.x + 1))

instance (a b : Vec2) : Decidable (cardinal a b) := by
  unfold cardinal; infer_instance

/-- A 4-connected path from `a` to `b` every cell of which after `a` is passable for the
enemy kind. -/
inductive Walk (m : Map) (ghost : Bool) : Vec2 → Vec2 → Prop where
  | refl (a : Vec2) : Walk m ghost a a
  | cons (a b c : Vec2) : cardinal a b → m.passable ghost b.x b.y = true →
      Walk m ghost b c → Walk m ghost a c

/-- The "no path" sentinel `{-1, -1}`. -/
def noPath : Vec2 := ⟨-1, -1⟩

/-! ## Invariants of the A* search -/

/-- The closed cells, most recent first, form a tree rooted at the start: the oldest one
is the start and is its own parent; every other one is passable, is not the start, and its
parent entry names a cardinal neighbour that was closed before it. -/
def ChainOK (m : Map) (ghost : Bool) (pos : Vec2) (parentOf : Vec2 → Option Vec2) :
    List Vec2 → Prop
  | [] => True
  | c :: rest =>
    ChainOK m ghost pos parentOf rest ∧ c ∉ rest ∧
    ((c = pos ∧ rest = [] ∧ parentOf c = some pos) ∨
     (c ≠ pos ∧ ∃ p, p ∈ rest ∧ parentOf c = some p ∧ cardinal p c ∧
        m.passable ghost c.x c.y = true))

/-- An open entry other than the initial one: its parent is closed, it is a passable
cardinal neighbour of its parent, and it is not the start. -/
def GoodEntry (m : Map) (ghost : Bool) (pos : Vec2) (closed : List Vec2) (e : Node) : Prop :=
  (⟨e.px, e.py⟩ : Vec2) ∈ closed ∧ cardinal ⟨e.px, e.py⟩ ⟨e.x, e.y⟩ ∧
  m.passable ghost e.x e.y = true ∧ (⟨e.x, e.y⟩ : Vec2) ≠ pos

/-- The loop invariant of `Enemy::astarStep`. -/
structure AInv (m : Map) (ghost : Bool) (pos target : Vec2) (s : AStar) : Prop where
  chain : ChainOK m ghost pos (fun c => s.parent.lookup c) s.closed
  keys : s.parent.map Prod.fst = s.closed
  count : s.expanded = s.closed.length
  cap : s.expanded ≤ 50
  openCap : s.openList.length ≤ 64
  opens : (s.closed = [] ∧ s.openList = (astarInit pos target).openList) ∨
          (s.closed ≠ [] ∧ ∀ e ∈ s.openList, GoodEntry m ghost pos s.closed e)

/-- The quantity that decreases with every iteration of the `while` loop. -/
def AStar.measure (s : AStar) : Nat := 5 * (50 - s.expanded) + s.openList.length

/-- The cell `v` is a first step of a passable 4-connected path from `pos` to `target`. -/
def FirstStep (m : Map) (ghost : Bool) (pos target v : Vec2) : Prop :=
  cardinal pos v ∧ m.passable ghost v.x v.y = true ∧ Walk m ghost v target

/-- The state in which `Enemy::astarStep` closes the popped node `cur`. -/
def AStar.close (s : AStar) (cur : Node) (bestIdx : Nat) : AStar :=
  { s with openList := swapRemove s.openList bestIdx,
           closed := ⟨cur.x, cur.y⟩ :: s.closed,
           parent := (⟨cur.x, cur.y⟩, ⟨cur.px, cur.py⟩) :: s.parent,
           expanded := s.expanded + 1 }

/-! ## Auto-explore planner (`Game::bfsNextStep`) -/

/-- The local variables of `Game::bfsNextStep` between two iterations of its `while`
loop: `queue[0..tail)`, the index `head`, the cells whose `visited` flag is set (most
recent first) and the written entries of `parentX`/`parentY` (every other entry holds the
initial -1). -/
structure Bfs where
  queue : List Vec2
  head : Nat
  visited : List Vec2
  parent : List (Vec2 × Vec2)

/-- The value of `(parentX[c.y][c.x], parentY[c.y][c.x])`. -/
def Bfs.parentAt (s : Bfs) (c : Vec2) : Vec2 := (s.parent.lookup c).getD ⟨-1, -1⟩

/-- The target test of `Game::bfsNextStep` at the tile `(x, y)`: the final value of
`isTarget`. -/
def Game.isTarget (g : Game) (x y : Int) : Bool :=
  let isTarget : Bool := false
  let isTarget : Bool :=
    if g.map.isVisible x y then
      if g.enemies.any (fun e => e.isAlive && decide (e.pos.x = x) && decide (e.pos.y = y))
      then true else isTarget
    else isTarget
  let isTarget : Bool :=
    if !isTarget && g.map.isVisible x y then
      if g.items.any (fun it => it.onGround && decide (it.pos.x = x) && decide (it.pos.y = y))
      then true else isTarget
    else isTarget
  let isTarget : Bool :=
    if !isTarget && !g.map.isExplored x y then true else isTarget
  isTarget

/-- The body of the successor loop of `Game::bfsNextStep` for one direction. -/
def bfsPush (m : Map) (cur : Vec2) (s : Bfs) (d : Int × Int) : Bfs :=
  let nx := cur.x + d.1
  let ny := cur.y + d.2
  if !m.inBounds nx ny then s
  else if decide ((⟨nx, ny⟩ : Vec2) ∈ s.visited) then s
  else if !m.isWalkable nx ny then s
  else
    { s with visited := ⟨nx, ny⟩ :: s.visited,
             parent := (⟨nx, ny⟩, cur) :: s.parent,
             queue := s.queue ++ [⟨nx, ny⟩] }

/-- The backtracking loop of `Game::bfsNextStep` from the cell `t`; `none` stands for a
read outside the parent arrays or for an exhausted iteration budget. -/
def bfsTrace (m : Map) (s : Bfs) (pos : Vec2) : Nat → Vec2 → Option Vec2
  | 0, _ => none
  | fuel + 1, t =>
    if !m.inBounds t.x t.y then none
    else
      let p := s.parentAt t
      if p.x ≠ pos.x ∨ p.y ≠ pos.y then bfsTrace m s pos fuel p else some t

/-- What one iteration of the `while` loop of `Game::bfsNextStep` does. -/
inductive BfsStep where
  | next (s : Bfs)
  | result (r : Option Vec2)

/-- The body of the `while` loop of `Game::bfsNextStep`. -/
def Game.bfsBody (g : Game) (s : Bfs) : BfsStep :=
  match s.queue.get? s.head with
  | none => BfsStep.result none
  | some cur =>
    let s1 : Bfs := { s with head := s.head + 1 }
    if (cur.x = g.player.pos.x ∧ cur.y = g.player.pos.y) ∨ g.isTarget cur.x cur.y = false then
      BfsStep.next (dirs4.foldl (bfsPush g.map cur) s1)
    else
      BfsStep.result (bfsTrace g.map s1 g.player.pos s1.queue.length cur)

/-- The `while` loop of `Game::bfsNextStep` with an iteration budget. -/
def Game.bfsLoop (g : Game) : Nat → Bfs → Option Vec2
  | 0, _ => none
  | fuel + 1, s =>
    if s.head < s.queue.length then
      match g.bfsBody s with
      | BfsStep.next s1 => g.bfsLoop fuel s1
      | BfsStep.result r => r
    else some ⟨-1, -1⟩

/-- The state of `Game::bfsNextStep` when its `while` loop is entered. -/
def Game.bfsInit (g : Game) : Bfs :=
  { queue := [g.player.pos], head := 0, visited := [g.player.pos], parent := [] }

/-- Source `Game::bfsNextStep`. The result is `none` when the player stands outside the grid (the
first array write is then out of range), when the backtracking leaves the arrays, or when
the budget of one iteration per grid cell (plus one) runs out. -/
def Game.bfsNextStep (g : Game) : Option Vec2 :=
  if !g.map.inBounds g.player.pos.x g.player.pos.y then none
  else g.bfsLoop (g.map.WIDTH * g.map.HEIGHT + 1) g.bfsInit

/-- A 4-connected path of `n` steps from `a` to `b` through in-bounds walkable tiles (the
start excepted). -/
inductive WalkN (m : Map) : Nat → Vec2 → Vec2 → Prop where
  | refl (a : Vec2) : WalkN m 0 a a
  | cons (n : Nat) (a b c : Vec2) : cardinal a b → m.passable false b.x b.y = true →
      WalkN m n b c → WalkN m (n + 1) a c

/-- The tile is a target of the planner: visible and holding a living enemy, visible and
holding a ground item, or unexplored. -/
def Game.targetTile (g : Game) (c : Vec2) : Prop :=
  (g.map.isVisible c.x c.y = true ∧ ∃ e ∈ g.enemies, e.isAlive = true ∧ e.pos = c) ∨
  (g.map.isVisible c.x c.y = true ∧ ∃ it ∈ g.items, it.onGround = true ∧ it.pos = c) ∨
  g.map.isExplored c.x c.y = false

/-! ## Invariants of the planner's search -/

/-- The part of the planner's loop invariant that holds at every point of the loop body.
`lvl` gives every queued cell its breadth-first level. -/
structure BCore (g : Game) (s : Bfs) (lvl : Vec2 → Nat) : Prop where
  vis : s.visited = s.queue.reverse
  first : s.queue.get? 0 = some g.player.pos
  lvl0 : lvl g.player.pos = 0
  nodup : s.queue.Nodup
  inb : ∀ c ∈ s.queue, g.map.inBounds c.x c.y = true
  sorted : ∀ i j a b, i ≤ j → s.queue.get? i = some a → s.queue.get? j = some b →
    lvl a ≤ lvl b
  par : ∀ c ∈ s.queue, c ≠ g.player.pos →
    (∃ j, j < s.head ∧ s.queue.get? j = some (s.parentAt c)) ∧ cardinal (s.parentAt c) c ∧
    g.map.passable false c.x c.y = true ∧ lvl c = lvl (s.parentAt c) + 1
  lvlIdx : ∀ i c, s.queue.get? i = some c → lvl c ≤ i
  checked : ∀ i c, i < s.head → s.queue.get? i = some c →
    c = g.player.pos ∨ g.isTarget c.x c.y = false
  headLe : s.head ≤ s.queue.length

/-- The planner's loop invariant between two iterations: every dequeued cell has all its
walkable neighbours queued, and no queued level exceeds the level at the head by more
than one. -/
structure BInv (g : Game) (s : Bfs) (lvl : Vec2 → Nat) : Prop where
  core : BCore g s lvl
  closed1 : ∀ i b, i < s.head → s.queue.get? i = some b → ∀ c, cardinal b c →
    g.map.passable false c.x c.y = true → c ∈ s.queue ∧ lvl c ≤ lvl b + 1
  front : ∀ h, s.queue.get? s.head = some h → ∀ c ∈ s.queue, lvl c ≤ lvl h + 1

/-- The planner's invariant inside the successor loop for the dequeued cell `cur`, after
the directions `ds` have been handled. -/
structure MInv (g : Game) (s : Bfs) (lvl : Vec2 → Nat) (cur : Vec2)
    (ds : List (Int × Int)) : Prop where
  core : BCore g s lvl
  headPos : 0 < s.head
  curAt : s.queue.get? (s.head - 1) = some cur
  closed0 : ∀ i b, i < s.head - 1 → s.queue.get? i = some b → ∀ c, cardinal b c →
    g.map.passable false c.x c.y = true → c ∈ s.queue ∧ lvl c ≤ lvl b + 1
  sofar : ∀ d ∈ ds, g.map.passable false (cur.x + d.1) (cur.y + d.2) = true →
    (⟨cur.x + d.1, cur.y + d.2⟩ : Vec2) ∈ s.queue ∧
    lvl ⟨cur.x + d.1, cur.y + d.2⟩ ≤ lvl cur + 1
  frontCur : ∀ c ∈ s.queue, lvl c ≤ lvl cur + 1

/-- Some target tile other than the player's own is reachable from the player through
walkable tiles. -/
def Game.targetReachable (g : Game) : Prop :=
  ∃ t n, t ≠ g.player.pos ∧ g.targetTile t ∧ WalkN g.map n g.player.pos t

/-- The contract of the planner's result `v`: the sentinel when no target is reachable,
otherwise a walkable cardinal neighbour of the player from which a target is `d` steps
away, no target being closer to the player than `d + 1` steps. -/
def Game.planOK (g : Game) (v : Vec2) : Prop :=
  (v = noPath ∧ ¬ g.targetReachable) ∨
  (v ≠ noPath ∧ cardinal g.player.pos v ∧ g.map.inBounds v.x v.y = true ∧
    g.map.isWalkable v.x v.y = true ∧
    ∃ t d, t ≠ g.player.pos ∧ g.targetTile t ∧ WalkN g.map d v t ∧
      ∀ t1 n1, t1 ≠ g.player.pos → g.targetTile t1 → WalkN g.map n1 g.player.pos t1 →
        d + 1 ≤ n1)

/-! ## Line of sight and ranged attacks (`Entity.cpp`) -/

/-- The loop variables `x0`, `y0`, `err` of `Enemy::hasLineOfSight`. -/
structure Ray where
  x0 : Int
  y0 : Int
  err : Int
  deriving DecidableEq, Repr

/-- The Bresenham step at the end of the loop body of `Enemy::hasLineOfSight`: `e2` is
computed once, then the two conditional moves follow. -/
def rayStep (dx dy sx sy : Int) (r : Ray) : Ray :=
  let e2 := 2 * r.err
  let r1 : Ray := if e2 > -dy then { r with err := r.err - dy, x0 := r.x0 + sx } else r
  let r2 : Ray := if e2 < dx then { r1 with err := r1.err + dx, y0 := r1.y0 + sy } else r1
  r2

/-- The `while (true)` loop of `Enemy::hasLineOfSight` with an iteration budget; `none`
stands for an exhausted budget. -/
def losLoop (m : Map) (pos target : Vec2) (dx dy sx sy : Int) : Nat → Ray → Option Bool
  | 0, _ => none
  | fuel + 1, r =>
    if r.x0 = target.x ∧ r.y0 = target.y then some true
    else if Map.isOpaque m r.x0 r.y0 && !(decide (r.x0 = pos.x) && decide (r.y0 = pos.y)) then
      some false
    else losLoop m pos target dx dy sx sy fuel (rayStep dx dy sx sy r)

/-- The iteration budget of the ray walk: one step per unit of horizontal and vertical
distance, plus the final test. -/
def rayBudget (pos target : Vec2) : Nat :=
  (target.x - pos.x).natAbs + (target.y - pos.y).natAbs + 1

/-- Source `Enemy::hasLineOfSight`; `none` stands for an exhausted budget. -/
def Enemy.hasLineOfSight (e : Enemy) (m : Map) (target : Vec2) : Option Bool :=
  let x0 := e.pos.x
  let y0 := e.pos.y
  let x1 := target.x
  let y1 := target.y
  let dx : Int := ((x1 - x0).natAbs : Int)
  let dy : Int := ((y1 - y0).natAbs : Int)
  let sx : Int := if x0 < x1 then 1 else -1
  let sy : Int := if y0 < y1 then 1 else -1
  let err := dx - dy
  losLoop m e.pos target dx dy sx sy (rayBudget e.pos target) ⟨x0, y0, err⟩

/-- Source `Enemy::rangedAttackDamage`. A line-of-sight walk that does not return counts
as no line of sight. -/
def Enemy.rangedAttackDamage (e : Enemy) (m : Map) (target : Vec2) : Int :=
  if e.type ≠ EnemyType.Archer then 0
  else
    let dist := e.pos.distanceSq target
    if dist ≤ 2 then 0
    else if dist > 36 then 0
    else
      match e.hasLineOfSight m target with
      | some true => e.attack
      | _ => 0

/-! ## Enemy movement (`Entity.cpp`) -/

/-- Source `Enemy::shouldFlee`. -/
def Enemy.shouldFlee (e : Enemy) : Bool := decide (e.hp * 4 < e.maxHp)

/-- Source `Enemy::moveAwayFrom`. -/
def Enemy.moveAwayFrom (e : Enemy) (m : Map) (target : Vec2) : Enemy :=
  let dx := e.pos.x - target.x
  let dy := e.pos.y - target.y
  let next : Vec2 :=
    if dx.natAbs ≥ dy.natAbs then ⟨e.pos.x + (if dx ≥ 0 then 1 else -1), e.pos.y⟩
    else ⟨e.pos.x, e.pos.y + (if dy ≥ 0 then 1 else -1)⟩
  if m.isWalkable next.x next.y then { e with pos := next }
  else
    let next2 : Vec2 :=
      if dx.natAbs < dy.natAbs then ⟨e.pos.x + (if dx ≥ 0 then 1 else -1), e.pos.y⟩
      else ⟨e.pos.x, e.pos.y + (if dy ≥ 0 then 1 else -1)⟩
    if m.isWalkable next2.x next2.y then { e with pos := next2 } else e

/-- The greedy fallback of `Enemy::moveToward` (the part after the A* attempt). -/
def Enemy.greedyStep (e : Enemy) (m : Map) (target : Vec2) : Enemy :=
  let dx := target.x - e.pos.x
  let dy := target.y - e.pos.y
  let next : Vec2 :=
    if dx.natAbs ≥ dy.natAbs then ⟨e.pos.x + (if dx > 0 then 1 else -1), e.pos.y⟩
    else ⟨e.pos.x, e.pos.y + (if dy > 0 then 1 else -1)⟩
  if m.isWalkable next.x next.y then { e with pos := next }
  else
    let next2 : Vec2 :=
      if dx.natAbs < dy.natAbs then
        (if dx ≠ 0 then ⟨e.pos.x + (if dx > 0 then 1 else -1), e.pos.y⟩ else e.pos)
      else
        (if dy ≠ 0 then ⟨e.pos.x, e.pos.y + (if dy > 0 then 1 else -1)⟩ else e.pos)
    if m.isWalkable next2.x next2.y then { e with pos := next2 } else e

/-- Source `Enemy::moveToward`; `none` when the A* search has no defined result. -/
def Enemy.moveToward (e : Enemy) (m : Map) (target : Vec2) : Option Enemy :=
  match e.astarStep m target with
  | none => none
  | some step =>
    if step.x ≥ 0 ∧
        (if e.type = EnemyType.Ghost then m.inBounds step.x step.y
         else m.isWalkable step.x step.y) = true then
      some { e with pos := step }
    else some (e.greedyStep m target)

/-- The table `dirs` of `Enemy::wander`, indexed by `std::rand() % 4`. -/
def wanderDir (k : Nat) : Vec2 :=
  match k with
  | 0 => ⟨0, -1⟩
  | 1 => ⟨0, 1⟩
  | 2 => ⟨-1, 0⟩
  | _ => ⟨1, 0⟩

/-- Source `Enemy::wander`. -/
def Enemy.wander (e : Enemy) (m : Map) (rng : Rand) : Enemy × Rand :=
  let r1 := rng.next
  if r1.1 % 3 ≠ 0 then (e, r1.2)
  else
    let r2 := r1.2.next
    let d := wanderDir (r2.1 % 4)
    let next := e.pos.add d
    let canMove : Bool :=
      if e.type = EnemyType.Ghost then m.inBounds next.x next.y
      else m.isWalkable next.x next.y
    if canMove then ({ e with pos := next }, r2.2) else (e, r2.2)

/-- Source `Enemy::update`; `none` when the A* search has no defined result. -/
def Enemy.update (e : Enemy) (m : Map) (playerPos : Vec2) (rng : Rand) :
    Option (Enemy × Rand) :=
  if !e.isAlive then some (e, rng)
  else
    let dist := e.pos.distanceSq playerPos
    let e1 : Enemy := if dist ≤ 64 then { e with awake := true } else e
    if e1.awake then
      if e1.shouldFlee || decide (e1.type = EnemyType.Necromancer) then
        some (e1.moveAwayFrom m playerPos, rng)
      else if e1.type = EnemyType.Archer ∧ e1.rangedAttackDamage m playerPos > 0 then
        some (e1, rng)
      else
        match e1.moveToward m playerPos with
        | none => none
        | some e2 => some (e2, rng)
    else some (e1.wander m rng)

/-! ## The enemy phase (`Game.cpp`, `Game::updateEnemies`) -/

/-- Source `Game::applyDifficulty`. -/
def Game.applyDifficulty (g : Game) (e : Enemy) : Enemy :=
  match g.difficulty with
  | Difficulty.Easy =>
    let mh := max 1 (Int.tdiv (e.maxHp * 3) 4)
    { e with hp := mh, maxHp := mh, attack := max 1 (Int.tdiv (e.attack * 3) 4) }
  | Difficulty.Hard =>
    let mh := Int.tdiv (e.maxHp * 3) 2
    { e with hp := mh, maxHp := mh, attack := Int.tdiv (e.attack * 5) 4 }
  | Difficulty.Normal => e

/-- Write through the reference `Enemy& e = enemies[idx]` of the loop body of
`Game::updateEnemies`. While the vector has not been reallocated the reference denotes the
element `enemies[idx]`, so a write of `e` is a write at the index; a state in which the
reference dangles is never built (see `Game.pushEnemy`). -/
def Game.setEnemy (g : Game) (idx : Nat) (e : Enemy) : Game :=
  { g with enemies := g.enemies.set idx e }

/-- The three statements that add a summoned enemy: `enemies.push_back(Enemy::create(t, sp))`,
`applyDifficulty(enemies.back())`, `enemies.back().awake = true`. The loop body of
`Game::updateEnemies` holds the reference `Enemy& e = enemies[idx]` across the call. With
`size() < capacity()` the vector is not reallocated and `e` goes on denoting `enemies[idx]`.
With `size() == capacity()` the `push_back` reallocates and `e` dangles; each of the three
call sites reads `e` afterwards (`e.type`, `e.pos`, `e.rangedAttackDamage`), which is
undefined behaviour: `none`. -/
def Game.pushEnemy (g : Game) (t : EnemyType) (sp : Vec2) : Option Game :=
  if g.enemies.length < g.enemyCapacity then
    some { g with enemies :=
      g.enemies ++ [{ (g.applyDifficulty (Enemy.create t sp)) with awake := true }] }
  else none

/-- The test of a summon cell: `map.isWalkable(sp.x, sp.y) && !enemyAt(sp.x, sp.y) &&
sp != player.pos`. -/
def Game.freeCell (g : Game) (sp : Vec2) : Bool :=
  g.map.isWalkable sp.x sp.y && (g.enemyAt sp.x sp.y).isNone && decide (sp ≠ g.player.pos)

/-- The search `for (int d = 0; d < 4; d++)` of a summon: the first free cell next to `pos`
in the order of the table `dirs`. -/
def Game.firstFree (g : Game) (pos : Vec2) : List (Int × Int) → Option Vec2
  | [] => none
  | d :: ds =>
    if g.freeCell (pos.add ⟨d.1, d.2⟩) then some (pos.add ⟨d.1, d.2⟩)
    else Game.firstFree g pos ds

/-- The running state of one pass of `Game::updateEnemies`: the game and the local
variable `count`. -/
structure Pass where
  game : Game
  count : Nat

/-- Stun handling: `e.stunTurns--`. -/
def Game.stunTick (g : Game) (idx : Nat) (e : Enemy) : Game :=
  g.setEnemy idx { e with stunTurns := e.stunTurns - 1 }

/-- The Dragon's turn counter: `e.summonTimer++` under `Dragon && !enraged`. -/
def Game.dragonTimer (g : Game) (idx : Nat) (e : Enemy) : Game :=
  if e.type = EnemyType.Dragon ∧ e.enraged = false then
    g.setEnemy idx { e with summonTimer := e.summonTimer + 1 }
  else g

/-- The test `e.summonTimer % 2 == 0` that makes an unenraged Dragon skip its turn, read
after the counter was raised. -/
def Enemy.dragonSkips (e : Enemy) : Bool :=
  decide (e.type = EnemyType.Dragon) && !e.enraged && decide (Int.tmod e.summonTimer 2 = 0)

/-- Dragon enrage at half health. -/
def Game.dragonRage (g : Game) (idx : Nat) (e : Enemy) : Game :=
  if e.type = EnemyType.Dragon ∧ e.enraged = false ∧ e.hp ≤ Int.tdiv e.maxHp 2 then
    (g.setEnemy idx { e with enraged := true, attack := e.attack + 4 }).addMessage
      "The Dragon is enraged! Its attacks grow fiercer!"
  else g

/-- Necromancer summoning: every 5 turns when awake; `none` is a `push_back` that
reallocates the vector under the reference `e`. -/
def Pass.necroSummon (s : Pass) (idx : Nat) (e : Enemy) : Option Pass :=
  if e.type = EnemyType.Necromancer ∧ e.awake = true then
    if e.summonTimer + 1 ≥ 5 then
      let g1 := s.game.setEnemy idx { e with summonTimer := 0 }
      match g1.firstFree e.pos dirs4 with
      | some sp =>
        match g1.pushEnemy EnemyType.Skeleton sp with
        | none => none
        | some g2 =>
          let g3 := g2.addMessage "The Necromancer raises a Skeleton!"
          some { game := g3, count := g3.enemies.length }
      | none => some { s with game := g1 }
    else some { s with game := s.game.setEnemy idx { e with summonTimer := e.summonTimer + 1 } }
  else some s

/-- The teleport loop of the Lich's phase change: up to `attempts` random cells are tried;
the first walkable one without a living enemy that is not the player's cell is returned. -/
def Game.lichTeleport (g : Game) : Nat → Rand → Option Vec2 × Rand
  | 0, rng => (none, rng)
  | attempts + 1, rng =>
    let r1 := rng.next
    let tx : Int := ((r1.1 % g.map.WIDTH : Nat) : Int)
    let r2 := r1.2.next
    let ty : Int := ((r2.1 % g.map.HEIGHT : Nat) : Int)
    if g.map.isWalkable tx ty && (g.enemyAt tx ty).isNone
        && !(decide (tx = g.player.pos.x) && decide (ty = g.player.pos.y)) then
      (some ⟨tx, ty⟩, r2.2)
    else Game.lichTeleport g attempts r2.2

/-- The wave loop of the Lich's phase change: `for (d = 0; d < 4 && summoned < 3; d++)`
over the rest of the table `waveDirs`, where `pos` is `e.pos`; `none` is a `push_back`
that reallocates the vector under the reference `e`. -/
def Pass.wave (pos : Vec2) : List (Int × Int) → Nat → Pass → Option Pass
  | [], _, s => some s
  | d :: ds, summoned, s =>
    if summoned < 3 then
      if s.game.freeCell (pos.add ⟨d.1, d.2⟩) then
        let r := s.game.rand.next
        let st := if r.1 % 2 = 0 then EnemyType.Skeleton else EnemyType.Ghost
        match ({ s.game with rand := r.2 } : Game).pushEnemy st (pos.add ⟨d.1, d.2⟩) with
        | none => none
        | some g1 => Pass.wave pos ds (summoned + 1) { game := g1, count := g1.enemies.length }
      else Pass.wave pos ds summoned s
    else some s

/-- The Lich after the teleport loop: on the cell found, or where it was. -/
def Enemy.vanish (e : Enemy) (spot : Option Vec2) : Enemy :=
  match spot with
  | some c => { e with pos := c }
  | none => e

/-- The Lich as its phase change leaves it: enraged, attack raised by 4, teleported. -/
def Game.lichAfter (g : Game) (idx : Nat) (e : Enemy) : Enemy :=
  let e1 : Enemy := { e with enraged := true, attack := e.attack + 4 }
  let g1 := g.setEnemy idx e1
  e1.vanish (g1.lichTeleport 100 g1.rand).1

/-- The first half of the Lich's phase change: enrage, then teleport. -/
def Game.lichVanish (g : Game) (idx : Nat) (e : Enemy) : Game :=
  let e1 : Enemy := { e with enraged := true, attack := e.attack + 4 }
  let g1 := g.setEnemy idx e1
  let tp := g1.lichTeleport 100 g1.rand
  ({ g1 with rand := tp.2 } : Game).setEnemy idx (e1.vanish tp.1)

/-- Lich phase change at half health: teleport and mass summon; `none` is a `push_back`
of the wave that reallocates the vector under the reference `e`. -/
def Pass.lichPhase (s : Pass) (idx : Nat) (e : Enemy) : Option Pass :=
  if e.type = EnemyType.Lich ∧ e.enraged = false ∧ e.hp ≤ Int.tdiv e.maxHp 2 then
    match Pass.wave (s.game.lichAfter idx e).pos dirs4 0
        { s with game := s.game.lichVanish idx e } with
    | none => none
    | some s2 =>
      some { s2 with game :=
        (s2.game.addMessage
          "The Lich shrieks! Dark energy erupts as it vanishes into shadow!") }
  else some s

/-- Lich summoning: every 4 turns when awake; `none` is a `push_back` that reallocates the
vector under the reference `e`. -/
def Pass.lichSummon (s : Pass) (idx : Nat) (e : Enemy) : Option Pass :=
  if e.type = EnemyType.Lich ∧ e.awake = true then
    if e.summonTimer + 1 ≥ 4 then
      let g1 := s.game.setEnemy idx { e with summonTimer := 0 }
      match g1.firstFree e.pos dirs4 with
      | some sp =>
        let r := g1.rand.next
        let summonType := if r.1 % 2 = 0 then EnemyType.Skeleton else EnemyType.Ghost
        match ({ g1 with rand := r.2 } : Game).pushEnemy summonType sp with
        | none => none
        | some g2 =>
          let g3 := g2.addMessage "The Lich summons the undead!"
          some { game := g3, count := g3.enemies.length }
      | none => some { s with game := g1 }
    else some { s with game := s.game.setEnemy idx { e with summonTimer := e.summonTimer + 1 } }
  else some s

/-- The damage of a ranged hit: `std::max(1, rangedDmg - player.totalDefense() + variance)`
with `variance = std::rand() % 5 - 2`. -/
def Game.shotDamage (g : Game) (rangedDmg : Int) : Int :=
  max 1 (rangedDmg - g.player.totalDefense + ((((g.rand.next).1 % 5 : Nat) : Int) - 2))

/-- The ranged attack of `Game::updateEnemies` (the block under `if (rangedDmg > 0)`). -/
def Game.shoot (g : Game) (e : Enemy) (rangedDmg : Int) : Game :=
  let damage := g.shotDamage rangedDmg
  let hp1 := g.player.hp - damage
  let hp2 := if hp1 < 0 then 0 else hp1
  let p1 : Player := { g.player with hp := hp2 }
  let p2 : Player :=
    { p1 with damageTaken := p1.damageTaken + damage, lastDamageSource := "a " ++ e.name }
  ({ g with player := p2, rand := (g.rand.next).2 } : Game).addMessage
    (e.name ++ " shoots you for " ++ toString damage ++ " damage!")

/-- The exchange that `Game::updateEnemies` resolves for an enemy next to the player:
`resolveCombat(e, player, 0, player.totalDefense() - player.defense, &dmgIn)`. -/
def Game.bite (g : Game) (e : Enemy) : CombatResult :=
  resolveCombat e.toEntity g.player.toEntity 0 (g.player.totalDefense - g.player.defense) g.rand

/-- Melee branch of `Game::updateEnemies`, first part: the call of `resolveCombat` and the
bookkeeping up to `addMessage(msg)`. The attacker is handed back unchanged. -/
def Game.meleeHit (g : Game) (e : Enemy) : Game :=
  let res := g.bite e
  let p1 : Player := { g.player with toEntity := res.defender }
  let p2 : Player :=
    { p1 with damageTaken := p1.damageTaken + res.outDmg, lastDamageSource := "a " ++ e.name }
  ({ g with player := p2, rand := res.rand } : Game).addMessage res.msg

/-- Melee branch of `Game::updateEnemies`: the Ghost's blinding touch. -/
def Game.ghostTouch (g : Game) (e : Enemy) : Game :=
  if e.type = EnemyType.Ghost ∧ g.player.isAlive = true then
    ({ g with player := { g.player with blindTurns := 3 } } : Game).addMessage
      "The Ghost's touch blinds you!"
  else g

/-- Melee branch of `Game::updateEnemies`: the Demon's fire. -/
def Game.demonFire (g : Game) (e : Enemy) : Game :=
  if e.type = EnemyType.Demon ∧ g.player.isAlive = true then
    ({ g with player := { g.player with burningTurns := 3, burningDmg := 2 } } : Game).addMessage
      "The Demon sets you ablaze!"
  else g

/-- The melee branch of `Game::updateEnemies` (the block under `if (dist <= 2)`). -/
def Game.melee (g : Game) (e : Enemy) : Game :=
  ((g.meleeHit e).ghostTouch e).demonFire e

/-- The inner loop of the collision check: some living enemy other than `idx` stands on
`pos`; the list is scanned from index `j`. -/
def collidesFrom (idx : Nat) (pos : Vec2) : List Enemy → Nat → Bool
  | [], _ => false
  | o :: os, j =>
    if j = idx ∨ o.isAlive = false then collidesFrom idx pos os (j + 1)
    else if pos = o.pos then true
    else collidesFrom idx pos os (j + 1)

/-- The collision check after `e.update`: the moved enemy `e1` is put back on `oldPos`
when it stands on the player's cell or on the cell of another living enemy. -/
def Game.settle (g : Game) (idx : Nat) (oldPos : Vec2) (e1 : Enemy) : Game :=
  if e1.pos = g.player.pos then g.setEnemy idx { e1 with pos := oldPos }
  else if collidesFrom idx e1.pos g.enemies 0 then g.setEnemy idx { e1 with pos := oldPos }
  else g.setEnemy idx e1

/-- The movement part of the loop body: the water delay, `e.update(map, player.pos)` and
the collision check. -/
def Game.moveEnemy (g : Game) (idx : Nat) (e : Enemy) : Option Game :=
  let water : Bool := decide (g.map.getTile e.pos.x e.pos.y = Tile.Water)
  let skip : Bool := water && decide ((g.rand.next).1 % 2 = 0)
  let g1 : Game := if water then { g with rand := (g.rand.next).2 } else g
  if skip then some g1
  else
    match e.update g1.map g1.player.pos g1.rand with
    | none => none
    | some (e1, rng) => some (({ g1 with rand := rng } : Game).settle idx e.pos e1)

/-- The last part of the loop body: ranged attack, melee attack or movement. -/
def Game.act (g : Game) (idx : Nat) (e : Enemy) : Option Game :=
  let rangedDmg := e.rangedAttackDamage g.map g.player.pos
  if rangedDmg > 0 then some (g.shoot e rangedDmg)
  else
    let dist := e.pos.distanceSq g.player.pos
    if dist ≤ 2 then some (g.melee e)
    else g.moveEnemy idx e

/-- The summoning and phase blocks of the loop body, in source order: Dragon enrage,
Necromancer summon, Lich phase change, Lich summon. Each block reads the enemy through
the reference `e`; a block that returns has not reallocated the vector, so `e` is the
element `enemies[idx]` of the state it leaves. `none` is a read outside the list or a
`push_back` that reallocates the vector under `e`. -/
def Pass.specials (s : Pass) (idx : Nat) : Option Pass :=
  match s.game.enemies.get? idx with
  | none => none
  | some e1 =>
    let s1 : Pass := { s with game := s.game.dragonRage idx e1 }
    match s1.game.enemies.get? idx with
    | none => none
    | some e2 =>
      match s1.necroSummon idx e2 with
      | none => none
      | some s2 =>
        match s2.game.enemies.get? idx with
        | none => none
        | some e3 =>
          match s2.lichPhase idx e3 with
          | none => none
          | some s3 =>
            match s3.game.enemies.get? idx with
            | none => none
            | some e4 => s3.lichSummon idx e4

/-- The body of the `for` loop of `Game::updateEnemies` for the enemy at index `idx`. The
body works on the reference `Enemy& e = enemies[idx]`; as long as no `push_back` has
reallocated the vector, `e` is the element at index `idx`, which is how the reads and
writes of `e` are written here. `none` is a read outside the list, an undefined A* search,
or a summon whose `push_back` reallocates the vector, after which the body uses the
dangling `e` (undefined behaviour). -/
def Pass.enemyTurn (s : Pass) (idx : Nat) : Option Pass :=
  match s.game.enemies.get? idx with
  | none => none
  | some e =>
    if e.isAlive = false then some s
    else if e.stunTurns > 0 then some { s with game := s.game.stunTick idx e }
    else
      let g1 := s.game.dragonTimer idx e
      match g1.enemies.get? idx with
      | none => none
      | some e1 =>
        if e1.dragonSkips then some { s with game := g1 }
        else
          match Pass.specials { s with game := g1 } idx with
          | none => none
          | some s5 =>
            match s5.game.enemies.get? idx with
            | none => none
            | some e5 =>
              match s5.game.act idx e5 with
              | none => none
              | some g6 => some { s5 with game := g6 }

/-- The `for (int idx = 0; idx < count; idx++)` loop of `Game::updateEnemies` with an
iteration budget; `none` is an exhausted budget or an undefined body. -/
def Pass.loop : Nat → Pass → Nat → Option Game
  | 0, _, _ => none
  | fuel + 1, s, idx =>
    if idx < s.count then
      match s.enemyTurn idx with
      | none => none
      | some s1 => Pass.loop fuel s1 (idx + 1)
    else some s.game

/-- The iteration budget of a pass: every enemy of the list, and up to four summoned
enemies for each of them. -/
def passBudget (g : Game) : Nat := 5 * g.enemies.length + 1

/-- Source `Game::updateEnemies`. -/
def Game.updateEnemies (g : Game) : Option Game :=
  Pass.loop (passBudget g) { game := g, count := g.enemies.length } 0

/-! ## Vocabulary of the enemy-phase statements -/

/-- The occupancy invariant on a list of enemies and the player's cell: no two living
enemies share a cell, and no living enemy stands on the player's cell. -/
def occupancyOf (es : List Enemy) (p : Vec2) : Prop :=
  es.Pairwise (fun a b => a.isAlive = true → b.isAlive = true → a.pos ≠ b.pos) ∧
  ∀ e ∈ es, e.isAlive = true → e.pos ≠ p

instance (es : List Enemy) (p : Vec2) : Decidable (occupancyOf es p) := by
  unfold occupancyOf; infer_instance

/-- The occupancy invariant of a game state. -/
def Game.occupancy (g : Game) : Prop := occupancyOf g.enemies g.player.pos

instance (g : Game) : Decidable g.occupancy := by
  unfold Game.occupancy; infer_instance

/-- Every walkable cell lies inside the grid. -/
def Map.walkableInside (m : Map) : Prop :=
  ∀ x y, m.isWalkable x y = true → m.inBounds x y = true

/-- Every living enemy of the list stands inside the grid. -/
def insideOf (m : Map) (es : List Enemy) : Prop :=
  ∀ e ∈ es, e.isAlive = true → m.inBounds e.pos.x e.pos.y = true

instance (m : Map) (es : List Enemy) : Decidable (insideOf m es) := by
  unfold insideOf; infer_instance

/-- Every living enemy of the game stands inside the grid. -/
def Game.enemiesInside (g : Game) : Prop := insideOf g.map g.enemies

instance (g : Game) : Decidable g.enemiesInside := by
  unfold Game.enemiesInside; infer_instance

/-- How the enrage flag and the attack value of an enemy may differ between two moments:
both are as they were, or the flag went from false to true and the attack rose by 4. -/
def enrageStep (e e2 : Enemy) : Prop :=
  (e2.enraged = e.enraged ∧ e2.attack = e.attack) ∨
  (e.enraged = false ∧ e2.enraged = true ∧ e2.attack = e.attack + 4)

instance (e e2 : Enemy) : Decidable (enrageStep e e2) := by
  unfold enrageStep; infer_instance

/-- What one loop body keeps of the enemy it handles: type and health stay, the awake flag
is not cleared, and enrage happens at most once. -/
structure Same (e e2 : Enemy) : Prop where
  type : e2.type = e.type
  hp : e2.hp = e.hp
  maxHp : e2.maxHp = e.maxHp
  awake : e.awake = true → e2.awake = true
  rage : enrageStep e e2

/-- The enemy `r` is the enemy `e` after a move: it stands where it stood or one cardinal
step away, on a cell that is walkable or inside the grid, and is otherwise unchanged up to
the awake flag, which is not cleared. -/
def Stepped (m : Map) (e r : Enemy) : Prop :=
  Same e r ∧ r.attack = e.attack ∧ r.enraged = e.enraged ∧
    (r.pos = e.pos ∨
      (cardinal e.pos r.pos ∧
        (m.isWalkable r.pos.x r.pos.y = true ∨ m.inBounds r.pos.x r.pos.y = true)))

/-- A summoned enemy: a Skeleton or a Ghost, awake. -/
def Fresh (n : Enemy) : Prop :=
  (n.type = EnemyType.Skeleton ∨ n.type = EnemyType.Ghost) ∧ n.awake = true

/-- The number of enemies that one loop body of an enemy of this type can add: one for a
Necromancer, three and one for a Lich. -/
def summonCap (t : EnemyType) : Nat :=
  match t with
  | EnemyType.Necromancer => 1
  | EnemyType.Lich => 4
  | _ => 0

/-- The summons still possible from index `idx` on. -/
def capSum (es : List Enemy) (idx : Nat) : Nat :=
  ((es.drop idx).map (fun e => summonCap e.type)).sum

/-- How a step of the enemy phase that handles the enemy at index `idx` relates the game
before and after: grid, player cell, difficulty and vector capacity stay; the enemy list is
the old one with a new value at `idx` and at most `k` summoned enemies appended; the
occupancy invariant and the in-grid property carry over. -/
structure Evolve (idx k : Nat) (g g2 : Game) : Prop where
  map : g2.map = g.map
  ppos : g2.player.pos = g.player.pos
  diff : g2.difficulty = g.difficulty
  cap : g2.enemyCapacity = g.enemyCapacity
  shape : ∀ e, g.enemies.get? idx = some e →
    ∃ e2 fresh, g2.enemies = g.enemies.set idx e2 ++ fresh ∧ Same e e2 ∧
      fresh.length ≤ k ∧ ∀ n ∈ fresh, Fresh n
  occ : g.occupancy → g2.occupancy
  inside : g.map.walkableInside → g.enemiesInside → g2.enemiesInside

/-- The enemy summons in its loop body: it is alive, not stunned and awake, and it is a
Necromancer whose counter reaches 5, or a Lich whose counter reaches 4 and that does not
change phase in this body (it is enraged, or above half health). -/
def Enemy.summonsNow (e : Enemy) : Prop :=
  e.isAlive = true ∧ e.stunTurns ≤ 0 ∧ e.awake = true ∧
    ((e.type = EnemyType.Necromancer ∧ e.summonTimer + 1 ≥ 5) ∨
      (e.type = EnemyType.Lich ∧ e.summonTimer + 1 ≥ 4 ∧
        ¬ (e.enraged = false ∧ e.hp ≤ Int.tdiv e.maxHp 2)))

instance (e : Enemy) : Decidable e.summonsNow := by
  unfold Enemy.summonsNow; infer_instance

/-- The vector `enemies` has room for `n` passes of `Game::updateEnemies`: the summons
that the Necromancers and Liches of the list can make in `n` passes fit into the capacity,
so that no `push_back` of these passes reallocates. -/
def Game.hasRoom (g : Game) (n : Nat) : Prop :=
  g.enemies.length + n * capSum g.enemies 0 ≤ g.enemyCapacity

instance (g : Game) (n : Nat) : Decidable (g.hasRoom n) := by
  unfold Game.hasRoom; infer_instance

/-- The loop bodies of one pass for the indices below `n`, in order. -/
def Pass.runTo (s : Pass) : Nat → Option Pass
  | 0 => some s
  | n + 1 =>
    match Pass.runTo s n with
    | none => none
    | some s1 => s1.enemyTurn n

/-- A sequence of `n` passes of `Game::updateEnemies`. -/
def Game.passes : Nat → Game → Option Game
  | 0, g => some g
  | n + 1, g =>
    match g.updateEnemies with
    | none => none
    | some g1 => Game.passes n g1

/-! ## The turn handler (`Game.cpp`, `Game::handlePlaying`) -/

/-- The enumeration `Key` of `Input.h`. -/
inductive Key where
  | Up | Down | Left | Right | Use | Inventory | Stairs | Quit | Help | Ability | Save | Load
  | Look | AutoExplore | MessageLog | Wait | None
  | Num1 | Num2 | Num3 | Num4 | Num5 | Num6 | Num7 | Num8 | Num9 | Num0 | Escape
  deriving DecidableEq, Repr

/-- What one call of `Game::handlePlaying` receives from outside the simulation core: the
answer of `Input::keyPending()`, the keys that `Input::getKey()` returns (to the handler, to
the confirmation prompt of the stairs, to the haste bonus action), and the two procedures
that rest on absent headers or on a dialogue of their own: `Game::generateFloor` (built on
`DungeonGen.h`) and `Game::handleShopInteraction`. -/
structure Outside where
  keyPending : Bool
  key : Key
  confirm : Key
  hasteKey : Key
  generateFloor : Game → Game
  shop : Game → Game

/-- Source `Game::shouldStopAutoExplore`. -/
def Game.shouldStopAutoExplore (g : Game) : Bool :=
  if g.player.hp * 5 < g.player.maxHp * 2 then true
  else if g.merchantPos.x ≥ 0 ∧
      (g.player.pos.x - g.merchantPos.x).natAbs ≤ 1 ∧
      (g.player.pos.y - g.merchantPos.y).natAbs ≤ 1 then true
  else false

/-- The message of a poison tick. -/
def poisonText (p : Player) : String :=
  "Poison deals " ++ toString p.poisonDmg ++ " damage! (" ++ toString p.poisonTurns
    ++ " turns left)"

/-- The message of a burning tick. -/
def burningText (p : Player) : String :=
  "Burning deals " ++ toString p.burningDmg ++ " damage! (" ++ toString p.burningTurns
    ++ " turns left)"

/-- First half of `Game::processTurn`: the cooldown tick, the two messages and the status
tick. -/
def Game.processTicks (g : Game) : Game :=
  let g1 : Game := { g with player := g.player.tickCooldown }
  let g2 := if g1.player.poisonTurns > 0 then g1.addMessage (poisonText g1.player) else g1
  let g3 := if g2.player.burningTurns > 0 then g2.addMessage (burningText g2.player) else g2
  { g3 with player := g3.player.tickStatusEffects }

/-- The death check `if (!player.isAlive()) state = GameState::GameOver`. -/
def Game.deathCheck (g : Game) : Game :=
  if g.player.isAlive = false then { g with state := GameState.GameOver } else g

/-- The call `FOV::compute(map, player.pos, player.effectiveFovRadius())`. -/
def Game.refreshFov (g : Game) : Game :=
  { g with map := g.ops.fovCompute g.map g.player.pos g.player.effectiveFovRadius }

/-- Source `Game::processTurn`; `none` when the enemy phase has no defined result. -/
def Game.processTurn (g : Game) : Option Game :=
  match g.processTicks.updateEnemies with
  | none => none
  | some g1 => some g1.deathCheck.refreshFov

/-- Source `Game::descendStairs`; `confirm` is the key read by the confirmation prompt. -/
def Game.descendStairs (g : Game) (o : Outside) : Game :=
  let t := g.map.getTile g.player.pos.x g.player.pos.y
  if t = Tile.StairsUp then g.addMessage "These stairs lead up. You can't go back."
  else if t ≠ Tile.StairsDown then g.addMessage "No stairs here."
  else if g.currentFloor ≥ 8 then g.addMessage "This is the deepest floor."
  else
    let g1 := g.addMessage
      ("Descend to floor " ++ toString (g.currentFloor + 1) ++ "? Press > again to confirm.")
    if o.confirm ≠ Key.Stairs then g1.addMessage "Staying on this floor."
    else
      let g2 : Game := { g1 with currentFloor := g1.currentFloor + 1 }
      o.generateFloor (g2.addMessage "You descend deeper...")

/-- The loop of `Game::pickUpItem` over the item list: the items afterwards and the game;
the flag tells whether the loop returned from the function. -/
def pickUpScan : List Item → Game → List Item × Game × Bool
  | [], g => ([], g, false)
  | item :: rest, g =>
    if item.onGround = false then
      let r := pickUpScan rest g
      (item :: r.1, r.2)
    else if item.pos = g.player.pos then
      if item.type = ItemType.Gold then
        let p : Player := { g.player with gold := g.player.gold + item.value }
        let g1 := ({ g with player := p } : Game).addMessage
          ("Picked up " ++ toString item.value ++ " gold.")
        ({ item with onGround := false } :: rest, g1, true)
      else if g.player.inventory.isFull then
        (item :: rest, g.addMessage "Inventory full!", true)
      else
        let g1 := g.addMessage ("Picked up " ++ item.name ++ ".")
        let p : Player := { g1.player with inventory := (g1.player.inventory.add item).2 }
        ({ item with onGround := false } :: rest, { g1 with player := p }, true)
    else
      let r := pickUpScan rest g
      (item :: r.1, r.2)

/-- Source `Game::pickUpItem`. -/
def Game.pickUpItem (g : Game) (o : Outside) : Game :=
  if g.merchantPos.x ≥ 0 ∧
      (g.player.pos.x - g.merchantPos.x).natAbs ≤ 1 ∧
      (g.player.pos.y - g.merchantPos.y).natAbs ≤ 1 then o.shop g
  else
    let r := pickUpScan g.items g
    let g1 : Game := { r.2.1 with items := r.1 }
    if r.2.2 then g1 else g1.addMessage "Nothing to pick up."

/-- The loot item of the ability branch of `Game::handlePlaying`, once the drop has been
decided (no message is logged here). -/
def Game.rollSpoil (g : Game) (t : Enemy) (isBoss : Bool) : Game :=
  let re := Item.rollEnchantment g.currentFloor isBoss g.rand
  let r3 := re.2.next
  let tier := min (g.currentFloor - 1) 4
  let item : Item :=
    if r3.1 % 2 == 0 then
      Item.new t.pos (wNames.getD tier.toNat "") '/' ItemType.Weapon (3 + tier * 2) re.1
    else
      Item.new t.pos (aNames.getD tier.toNat "") '[' ItemType.Armor (2 + tier * 2) re.1
  { g with rand := r3.2, items := g.items ++ [item] }

/-- The loot drop of the ability branch of `Game::handlePlaying` (always for a boss,
otherwise when the draw is a multiple of 10). -/
def Game.dropSpoil (g : Game) (t : Enemy) : Game :=
  let isBoss : Bool := t.type = EnemyType.Dragon || t.type = EnemyType.Lich
  if isBoss then g.rollSpoil t isBoss
  else
    let r2 := g.rand.next
    let g1 : Game := { g with rand := r2.2 }
    if r2.1 % 10 == 0 then g1.rollSpoil t isBoss else g1

/-- The loop `for (auto& e : enemies)` of the ability branch of `Game::handlePlaying`:
every dead enemy with a positive experience reward is credited and its reward set to 0. -/
def creditKills : List Enemy → Game → List Enemy × Game
  | [], g => ([], g)
  | e :: es, g =>
    if e.isAlive = false ∧ e.xpReward > 0 then
      let g1 := (((g.creditKill e).dropGold e).dropSpoil e).bossFalls e
      let r := creditKills es g1
      ({ e with xpReward := 0 } :: r.1, r.2)
    else
      let r := creditKills es g
      (e :: r.1, r.2)

/-- The ability branch of `Game::handlePlaying` (`case Key::Ability`). -/
def Game.abilityKey (g : Game) : Game :=
  let r := g.player.useAbility g.enemies
  let g1 : Game := { g with player := r.2.1, enemies := r.2.2 }
  let g2 := if r.1 ≠ "" then g1.addMessage r.1 else g1
  let k := creditKills g2.enemies g2
  { k.2 with enemies := k.1 }

/-- The poison bookkeeping of `Game::handlePlaying` before the status tick: the damage
statistics and the message. -/
def Game.poisonNote (g : Game) : Game :=
  if g.player.poisonTurns > 0 then
    ({ g with player :=
        { g.player with damageTaken := g.player.damageTaken + g.player.poisonDmg,
                        lastDamageSource := "poison" } } : Game).addMessage
      (poisonText g.player)
  else g

/-- The burning bookkeeping of `Game::handlePlaying` before the status tick: the damage
statistics and the message. -/
def Game.burningNote (g : Game) : Game :=
  if g.player.burningTurns > 0 then
    ({ g with player :=
        { g.player with damageTaken := g.player.damageTaken + g.player.burningDmg,
                        lastDamageSource := "fire" } } : Game).addMessage
      (burningText g.player)
  else g

/-- The statements `player.turnsPlayed++; player.tickCooldown();` of
`Game::handlePlaying`. -/
def Game.clockTick (g : Game) : Game :=
  { g with player :=
      ({ g.player with turnsPlayed := g.player.turnsPlayed + 1 } : Player).tickCooldown }

/-- The statement `player.tickStatusEffects();` of `Game::handlePlaying`. -/
def Game.statusTick (g : Game) : Game :=
  { g with player := g.player.tickStatusEffects }

/-- The statements of `Game::handlePlaying` between the `switch` and the enemy phase:
`turnsPlayed++`, the cooldown tick, the poison and burning bookkeeping with their
messages, and the status tick. -/
def Game.turnTicks (g : Game) : Game :=
  g.clockTick.poisonNote.burningNote.statusTick

/-- The bonus action of a hasted player: a movement key moves, any other key does
nothing. -/
def Game.hasteMove (g : Game) (k : Key) : Game :=
  match k with
  | Key.Up => g.movePlayer 0 (-1)
  | Key.Down => g.movePlayer 0 1
  | Key.Left => g.movePlayer (-1) 0
  | Key.Right => g.movePlayer 1 0
  | _ => g

/-- The end of `Game::handlePlaying`, after the enemy phase: the death check, the haste
bonus action, the visibility refresh and the level-up check. -/
def Game.afterEnemies (g : Game) (o : Outside) : Game :=
  if g.player.isAlive = false then { g with state := GameState.GameOver }
  else
    let g1 := if g.player.hasteTurns > 0 then g.hasteMove o.hasteKey else g
    if g.player.hasteTurns > 0 ∧ g1.player.isAlive = false then
      { g1 with state := GameState.GameOver }
    else
      let g2 := g1.refreshFov
      if g2.player.pendingLevelUps > 0 then { g2 with state := GameState.LevelUp } else g2

/-- The part of `Game::handlePlaying` after the `switch`: the turn advances. `none` when
the enemy phase has no defined result. -/
def Game.advanceTurn (g : Game) (o : Outside) : Option Game :=
  match g.turnTicks.updateEnemies with
  | none => none
  | some g1 => some (g1.afterEnemies o)

/-- The slow effect of `Game::handlePlaying`: the turn that a slowed player loses. -/
def Game.slowedTurn (g : Game) : Option Game :=
  let g1 := g.addMessage "You are slowed!"
  let g2 : Game := { g1 with player := g1.player.tickCooldown.tickStatusEffects }
  match g2.updateEnemies with
  | none => none
  | some g3 =>
    if g3.player.isAlive = false then some { g3 with state := GameState.GameOver }
    else some g3.refreshFov

/-- The `switch (key)` of `Game::handlePlaying` and what follows it. -/
def Game.dispatch (g : Game) (o : Outside) : Option Game :=
  match o.key with
  | Key.Up => (g.movePlayer 0 (-1)).advanceTurn o
  | Key.Down => (g.movePlayer 0 1).advanceTurn o
  | Key.Left => (g.movePlayer (-1) 0).advanceTurn o
  | Key.Right => (g.movePlayer 1 0).advanceTurn o
  | Key.Use => (g.pickUpItem o).advanceTurn o
  | Key.Inventory => some { g with state := GameState.Inventory }
  | Key.Look => some { g with lookCursor := g.player.pos, state := GameState.Looking }
  | Key.Stairs => (g.descendStairs o).advanceTurn o
  | Key.Ability => g.abilityKey.advanceTurn o
  | Key.Wait => (g.addMessage "You wait...").advanceTurn o
  | Key.AutoExplore => some { g with autoExploring := true }
  | Key.MessageLog => some { g with logScrollOffset := 0, state := GameState.MessageLog }
  | Key.Save => some (g.addMessage "Game saved.")
  | Key.Quit => some { g with running := false }
  | _ => some g

/-- The draw of the slow roll: `std::rand()` is called only for a slowed player. -/
def Game.slowRoll (g : Game) : Game :=
  if g.player.slowTurns > 0 then { g with rand := (g.rand.next).2 } else g

/-- The part of `Game::handlePlaying` from the call of `Input::getKey()` on: the slow roll
`player.slowTurns > 0 && std::rand() % 2 == 0`, then the `switch`. -/
def Game.keyTurn (g : Game) (o : Outside) : Option Game :=
  if g.player.slowTurns > 0 ∧ (g.rand.next).1 % 2 = 0 then g.slowRoll.slowedTurn
  else g.slowRoll.dispatch o

/-- The step of a movement key in the `switch` of `Game::handlePlaying`. -/
def Key.dir (k : Key) : Option (Int × Int) :=
  match k with
  | Key.Up => some (0, -1)
  | Key.Down => some (0, 1)
  | Key.Left => some (-1, 0)
  | Key.Right => some (1, 0)
  | _ => none

/-- The keys on which the `switch` of `Game::handlePlaying` returns at once: the keys of
the `default` branch and the keys that open a screen, start auto-explore, save or quit. -/
def Key.passive (k : Key) : Bool :=
  match k with
  | Key.Up | Key.Down | Key.Left | Key.Right | Key.Use | Key.Stairs | Key.Ability
  | Key.Wait => false
  | _ => true

/-- One automatic step of the auto-explore loop of `Game::handlePlaying`, towards the cell
`step`. -/
def Game.autoStep (g : Game) (step : Vec2) : Option Game :=
  let g1 := g.movePlayer (step.x - g.player.pos.x) (step.y - g.player.pos.y)
  match g1.processTurn with
  | none => none
  | some g2 =>
    let g3 : Game := { g2 with player := { g2.player with turnsPlayed := g2.player.turnsPlayed + 1 } }
    if g3.state ≠ GameState.Playing then some g3
    else if g3.player.pendingLevelUps > 0 then
      some { g3 with autoExploring := false, state := GameState.LevelUp }
    else some g3

/-- Source `Game::handlePlaying`. Rendering, the pause of the auto-explore loop and
`Game::saveGame` leave the game state alone; `none` when the enemy phase or the planner
has no defined result. -/
def Game.handlePlaying (g : Game) (o : Outside) : Option Game :=
  if g.autoExploring then
    if g.shouldStopAutoExplore || o.keyPending then
      (({ g with autoExploring := false } : Game).addMessage "Auto-explore stopped.").keyTurn o
    else
      match g.bfsNextStep with
      | none => none
      | some step =>
        if step.x < 0 then
          (({ g with autoExploring := false } : Game).addMessage
            "Nothing left to explore.").keyTurn o
        else g.autoStep step
  else g.keyTurn o

/-- The counters of the player that the enemy phase does not touch: the turn counter, the
ability cooldown, and the poison, slow, haste and shield counters. -/
def Player.clock (p : Player) : Int × Int × Int × Int × Int × Int :=
  (p.turnsPlayed, p.abilityCooldown, p.poisonTurns, p.slowTurns, p.hasteTurns, p.shieldTurns)

/-! ## Vocabulary of the inventory and experience statements -/

/-- A call on an inventory: `add(item)` or `remove(index)`. -/
inductive InvCall where
  | add (item : Item)
  | remove (index : Int)

/-- The inventory after one call. -/
def Inventory.call (inv : Inventory) : InvCall → Inventory
  | InvCall.add item => (inv.add item).2
  | InvCall.remove index => inv.remove index

/-- The inventory after a sequence of calls, in order. -/
def Inventory.run (inv : Inventory) (calls : List InvCall) : Inventory :=
  calls.foldl Inventory.call inv

/-- The inventory of a new player: the empty vector. -/
def Inventory.empty : Inventory := { items := [] }

/-- The experience that the levels `lo`, `lo + 1`, ..., `lo + n - 1` cost: the sum of
`20 * l` over them. -/
def levelsCost (lo : Int) (n : Nat) : Int :=
  ∑ i ∈ Finset.range n, 20 * (lo + (i : Int))

/-- The first candidate cell `next` of `Enemy::moveAwayFrom`: one step away from `target`
on the axis of the greater absolute displacement (the x axis on ties). -/
def Enemy.awayFirst (e : Enemy) (target : Vec2) : Vec2 :=
  let dx := e.pos.x - target.x
  let dy := e.pos.y - target.y
  if dx.natAbs ≥ dy.natAbs then ⟨e.pos.x + (if dx ≥ 0 then 1 else -1), e.pos.y⟩
  else ⟨e.pos.x, e.pos.y + (if dy ≥ 0 then 1 else -1)⟩

/-- The second candidate cell of `Enemy::moveAwayFrom` (the `else` branch): one step away
from `target` on the other axis. -/
def Enemy.awaySecond (e : Enemy) (target : Vec2) : Vec2 :=
  let dx := e.pos.x - target.x
  let dy := e.pos.y - target.y
  if dx.natAbs < dy.natAbs then ⟨e.pos.x + (if dx ≥ 0 then 1 else -1), e.pos.y⟩
  else ⟨e.pos.x, e.pos.y + (if dy ≥ 0 then 1 else -1)⟩

/-- The first candidate cell `next` of the greedy fallback of `Enemy::moveToward`: one
step toward `target` on the axis of the greater absolute displacement (the x axis on
ties). -/
def Enemy.towardFirst (e : Enemy) (target : Vec2) : Vec2 :=
  let dx := target.x - e.pos.x
  let dy := target.y - e.pos.y
  if dx.natAbs ≥ dy.natAbs then ⟨e.pos.x + (if dx > 0 then 1 else -1), e.pos.y⟩
  else ⟨e.pos.x, e.pos.y + (if dy > 0 then 1 else -1)⟩

/-- The second candidate cell of the greedy fallback of `Enemy::moveToward`: one step
toward `target` on the other axis, or the enemy's own cell when the displacement on that
axis is 0. -/
def Enemy.towardSecond (e : Enemy) (target : Vec2) : Vec2 :=
  let dx := target.x - e.pos.x
  let dy := target.y - e.pos.y
  if dx.natAbs < dy.natAbs then
    (if dx ≠ 0 then ⟨e.pos.x + (if dx > 0 then 1 else -1), e.pos.y⟩ else e.pos)
  else
    (if dy ≠ 0 then ⟨e.pos.x, e.pos.y + (if dy > 0 then 1 else -1)⟩ else e.pos)

/-! ## Path cost and the A* search without dropped successors -/

/-- The cost `moveCost` that the successor loop of `Enemy::astarStep` adds for entering a
cell: 6 for a Ghost entering a wall tile, 1 in every other case. -/
def Map.moveCost (m : Map) (ghost : Bool) (c : Vec2) : Int :=
  if ghost = true ∧ m.getTile c.x c.y = Tile.Wall then 6 else 1

/-- The cells `l` form a 4-connected path from `a`: each is a passable cardinal neighbour
of the one before it, the first one of `a`. -/
def PathFrom (m : Map) (ghost : Bool) : Vec2 → List Vec2 → Prop
  | _, [] => True
  | a, b :: rest => cardinal a b ∧ m.passable ghost b.x b.y = true ∧ PathFrom m ghost b rest

/-- The total cost of a path: the sum of the costs of the cells entered. -/
def pathCost (m : Map) (ghost : Bool) (l : List Vec2) : Int :=
  (l.map (m.moveCost ghost)).sum

/-- A 4-connected passable path from `a` to `b` of total cost `k`. -/
inductive WalkC (m : Map) (ghost : Bool) : Vec2 → Vec2 → Int → Prop where
  | refl (a : Vec2) : WalkC m ghost a a 0
  | cons (a b c : Vec2) (k : Int) : cardinal a b → m.passable ghost b.x b.y = true →
      WalkC m ghost b c k → WalkC m ghost a c (m.moveCost ghost b + k)

/-- The cells that the backtracking loop of `Enemy::astarStep` runs through from the cell
`t`, listed from the cell whose parent is the start up to `t`: the path of the parent
pointers. `none` as in `traceBack`. -/
def tracePath (parent : List (Vec2 × Vec2)) (pos : Vec2) : Nat → Vec2 → Option (List Vec2)
  | 0, _ => none
  | fuel + 1, t =>
    match parent.lookup t with
    | none => none
    | some p =>
      if p.x ≠ pos.x ∨ p.y ≠ pos.y then
        (tracePath parent pos fuel p).map (fun l => l ++ [t])
      else some [t]

/-- The body of the successor loop of `Enemy::astarStep` for one direction drops the
successor: the score `ng` improves `gScore`, so `gScore` is written, but the test
`openCount < 64` fails and no entry is added to the open list. -/
def dropsSucc (m : Map) (ghost : Bool) (cur : Node) (s : AStar) (d : Int × Int) : Bool :=
  let nx := cur.x + d.1
  let ny := cur.y + d.2
  if !m.inBounds nx ny then false
  else if decide ((⟨nx, ny⟩ : Vec2) ∈ s.closed) then false
  else
    let walkable := m.isWalkable nx ny
    let isWall : Bool := decide (m.getTile nx ny = Tile.Wall)
    if ghost then
      if !walkable && !isWall then false
      else
        let moveCost : Int := if isWall then 6 else 1
        let ng := cur.g + moveCost
        if ng < s.gScoreAt ⟨nx, ny⟩ then !decide (s.openList.length < 64) else false
    else
      if !walkable then false
      else
        let ng := cur.g + 1
        if ng < s.gScoreAt ⟨nx, ny⟩ then !decide (s.openList.length < 64) else false

/-- Some successor is dropped while the successor loop runs through the directions `ds`
from the state `s`. -/
def dropsIn (m : Map) (ghost : Bool) (target : Vec2) (cur : Node) :
    AStar → List (Int × Int) → Bool
  | _, [] => false
  | s, d :: ds =>
    dropsSucc m ghost cur s d || dropsIn m ghost target cur (pushSucc m ghost target cur s d) ds

/-- The body of the `while` loop of `Enemy::astarStep`, run from the state `s`, drops a
successor. -/
def astarBodyDrops (m : Map) (ghost : Bool) (target : Vec2) (s : AStar) : Bool :=
  match s.openList.get? (findBest s.openList) with
  | none => false
  | some cur =>
    if decide ((⟨cur.x, cur.y⟩ : Vec2) ∈ s.closed) then false
    else if cur.x = target.x ∧ cur.y = target.y then false
    else dropsIn m ghost target cur (s.close cur (findBest s.openList)) dirs4

/-- A successor is dropped in one of the first `n` iterations of the `while` loop of
`Enemy::astarStep`. -/
def dropsWithin (m : Map) (ghost : Bool) (pos target : Vec2) : Nat → Bool
  | 0 => false
  | n + 1 =>
    dropsWithin m ghost pos target n ||
      (match astarStateAfter m ghost pos target n with
       | some s =>
         decide (s.openList.length > 0 ∧ s.expanded < 50) && astarBodyDrops m ghost target s
       | none => false)

/-- The bookkeeping of an open entry: `f` is `g` plus the Manhattan distance to the
target, `g` is not below the cell's `gScore` and lies between 0 and 6 per expansion, and
`g` is the `gScore` of the (closed) parent plus the cost of entering the cell; the initial
entry is the start with `g = 0`. -/
def CostEntry (m : Map) (ghost : Bool) (pos target : Vec2) (s : AStar) (e : Node) : Prop :=
  e.f = e.g + manhattan e.x e.y target.x target.y ∧
  s.gScoreAt ⟨e.x, e.y⟩ ≤ e.g ∧ 0 ≤ e.g ∧ e.g ≤ 6 * (s.expanded : Int) ∧
  ((s.closed = [] ∧ e.g = 0 ∧ (⟨e.x, e.y⟩ : Vec2) = pos) ∨
   ((⟨e.px, e.py⟩ : Vec2) ∈ s.closed ∧
     e.g = s.gScoreAt ⟨e.px, e.py⟩ + m.moveCost ghost ⟨e.x, e.y⟩))

/-- The cost invariant of `Enemy::astarStep` while no successor has been dropped. `R c n`
tells for which pairs of a closed cell `c` and a neighbour `n` the successor loop has
already run. -/
structure OCore (m : Map) (ghost : Bool) (pos target : Vec2) (s : AStar)
    (R : Vec2 → Vec2 → Prop) : Prop where
  entries : ∀ e ∈ s.openList, CostEntry m ghost pos target s e
  backed : ∀ c, c ∉ s.closed → s.gScoreAt c < 99999 →
    ∃ e ∈ s.openList, (⟨e.x, e.y⟩ : Vec2) = c ∧ e.g = s.gScoreAt c
  relaxed : ∀ c ∈ s.closed, ∀ n, cardinal c n → m.passable ghost n.x n.y = true → R c n →
    n ∈ s.closed ∨ s.gScoreAt n ≤ s.gScoreAt c + m.moveCost ghost n
  lower : ∀ c ∈ s.closed, ∀ k, WalkC m ghost pos c k → s.gScoreAt c ≤ k
  links : ∀ c ∈ s.closed, c ≠ pos →
    ∃ p, s.parent.lookup c = some p ∧ p ∈ s.closed ∧
      s.gScoreAt c = s.gScoreAt p + m.moveCost ghost c
  root : s.gScoreAt pos = 0
  bound : ∀ c ∈ s.closed, 0 ≤ s.gScoreAt c ∧ s.gScoreAt c ≤ 6 * (s.expanded : Int)

/-- The cost invariant between two iterations of the `while` loop: the successor loop has
run for every closed cell. -/
def OInv (m : Map) (ghost : Bool) (pos target : Vec2) (s : AStar) : Prop :=
  OCore m ghost pos target s (fun _ _ => True)

/-- While the successor loop of `Enemy::astarStep` runs for the cell `x`: the pairs of a
closed cell and a neighbour for which the loop has run are all pairs of another closed
cell, and the neighbours of `x` in the directions `D` already processed. -/
def succDone (x : Vec2) (D : Int × Int → Prop) (c n : Vec2) : Prop :=
  c ≠ x ∨ ∃ d, D d ∧ n = ⟨x.x + d.1, x.y + d.2⟩

/-! ## Concrete states used by the witnesses -/

/-- A freshly created Mage: its ability is off cooldown. -/
def readyMage : Player := Player.new PlayerClass.Mage

/-- A Warrior whose ability has three turns of cooldown left. -/
def coolingWarrior : Player := { Player.new PlayerClass.Warrior with abilityCooldown := 3 }

/-- Two Skeletons (hp 15) at squared distance 4 and 16 from the origin, where the fresh
Mage stands. -/
def twoSkeletons : List Enemy :=
  [Enemy.create EnemyType.Skeleton ⟨2, 0⟩, Enemy.create EnemyType.Skeleton ⟨4, 0⟩]

/-- A Mage whose level field holds -5, so that its Fireball "damage" is `8 + 2 * (-5) = -2`. -/
def deepMage : Player := { Player.new PlayerClass.Mage with level := -5 }

/-- One Rat at full health (8 of 8) on the Mage's tile row, at squared distance 1. -/
def oneRat : List Enemy := [Enemy.create EnemyType.Rat ⟨1, 0⟩]

/-- A random source whose every draw is 2: no critical hit (`2 % 10 ≠ 0`) and variance 0
(`2 % 5 - 2 = 0`). -/
def calmRand : Rand := { seq := fun _ => 2, cur := 0 }

/-- A Health Potion of value 10 lying in an inventory. -/
def potion : Item :=
  { pos := ⟨0, 0⟩, name := "Health Potion", glyph := '!', type := ItemType.HealthPotion,
    value := 10, onGround := false, enchantment := Enchantment.None }

/-- A wounded Cleric (hp 5 of 35) carrying one Health Potion. -/
def woundedCleric : Player :=
  { Player.new PlayerClass.Cleric with hp := 5, inventory := { items := [potion] } }

/-- A 10 x 10 floor on which every cell is walkable, visible and explored. -/
def openMap : Map :=
  { WIDTH := 10, HEIGHT := 10, getTile := fun _ _ => Tile.Floor,
    isWalkable := fun x y => decide (0 ≤ x ∧ x < 10 ∧ 0 ≤ y ∧ y < 10),
    isVisible := fun _ _ => true, isExplored := fun _ _ => true,
    isDangerous := fun _ _ => false, isOpaque := fun _ _ => false }

/-- Grid operations that leave the grid as it is. -/
def idleOps : MapOps := { setTile := fun m _ _ _ => m, fovCompute := fun m _ _ => m }

/-- The Shield Bash scenario: a freshly created Warrior at the origin with the ability
armed, a Rat with 4 hit points left on the cell to its right, and a random source that
yields no critical hit and variance 0. The enemy vector has capacity 16. -/
def bashScene : Game :=
  { state := GameState.Playing, map := openMap, ops := idleOps, rooms := [],
    player := { Player.new PlayerClass.Warrior with abilityBuffActive := true,
                                                    abilityCooldown := 8 },
    enemies := [{ Enemy.create EnemyType.Rat ⟨1, 0⟩ with hp := 4 }], enemyCapacity := 16,
    items := [], traps := [], messageLog := [], currentFloor := 1, rand := calmRand,
    difficulty := Difficulty.Normal, autoExploring := false, running := true,
    merchantPos := ⟨-1, -1⟩, lookCursor := ⟨0, 0⟩, logScrollOffset := 0 }

/-- A 10 x 10 floor whose column `x = 2` is made of wall tiles. -/
def wallMap : Map :=
  { WIDTH := 10, HEIGHT := 10,
    getTile := fun x _ => if x = 2 then Tile.Wall else Tile.Floor,
    isWalkable := fun x y => decide (0 ≤ x ∧ x < 10 ∧ 0 ≤ y ∧ y < 10 ∧ x ≠ 2),
    isVisible := fun _ _ => true, isExplored := fun _ _ => true,
    isDangerous := fun _ _ => false, isOpaque := fun x _ => decide (x = 2) }

/-- A 10 x 10 floor on which the four cardinal neighbours of the cell (5, 5) are wall
tiles. -/
def cellMap : Map :=
  { WIDTH := 10, HEIGHT := 10,
    getTile := fun x y =>
      if (x - 5).natAbs + (y - 5).natAbs = 1 then Tile.Wall else Tile.Floor,
    isWalkable := fun x y =>
      decide (0 ≤ x ∧ x < 10 ∧ 0 ≤ y ∧ y < 10 ∧ (x - 5).natAbs + (y - 5).natAbs ≠ 1),
    isVisible := fun _ _ => true, isExplored := fun _ _ => true,
    isDangerous := fun _ _ => false,
    isOpaque := fun x y => decide ((x - 5).natAbs + (y - 5).natAbs = 1) }

/-- A Rat in the corner of the floor. -/
def cornerRat : Enemy := Enemy.create EnemyType.Rat ⟨0, 0⟩

/-- A Ghost in the corner of the floor. -/
def cornerGhost : Enemy := Enemy.create EnemyType.Ghost ⟨0, 0⟩

/-- The planner's scenario: a fully explored and visible open floor, the player at the
origin, one living Rat at (3, 2) and no items. The enemy vector has capacity 16. -/
def exploredScene : Game :=
  { state := GameState.Playing, map := openMap, ops := idleOps, rooms := [],
    player := Player.new PlayerClass.Warrior,
    enemies := [Enemy.create EnemyType.Rat ⟨3, 2⟩], enemyCapacity := 16,
    items := [], traps := [], messageLog := [], currentFloor := 1, rand := calmRand,
    difficulty := Difficulty.Normal, autoExploring := false, running := true,
    merchantPos := ⟨-1, -1⟩, lookCursor := ⟨0, 0⟩, logScrollOffset := 0 }

/-- A Warrior (hp 10 of 40) poisoned for 2 more turns (3 per tick), burning for 1 more
turn (2 per tick), blinded for 1 turn, with no slow, haste or shield running. -/
def ailingWarrior : Player :=
  { Player.new PlayerClass.Warrior with hp := 10, poisonTurns := 2, poisonDmg := 3,
                                        burningTurns := 1, burningDmg := 2, blindTurns := 1 }

/-- An enchanted weapon as it lies in an inventory: name "Sharp Long Sword", value 9. -/
def sharpSword : Item :=
  { Item.new ⟨0, 0⟩ "Long Sword" '/' ItemType.Weapon 7 Enchantment.Sharp with onGround := false }

/-- A plain Dagger of value 3. -/
def dagger : Item :=
  { Item.new ⟨0, 0⟩ "Dagger" '/' ItemType.Weapon 3 Enchantment.None with onGround := false }

/-- A Warrior wielding the Dagger whose inventory is full: nine Health Potions and, at
index 4, the Sharp Long Sword. -/
def fullPack : Player :=
  { Player.new PlayerClass.Warrior with
      weaponSlot := dagger, hasWeapon := true, equippedWeapon := true,
      inventory := { items := [potion, potion, potion, potion, sharpSword, potion, potion,
                               potion, potion, potion] } }

/-- A game on the open floor: a fresh Warrior on the cell `ppos`, the enemies `es` in a
vector of capacity 16, and a random source whose every draw is 2. -/
def sceneOf (ppos : Vec2) (es : List Enemy) : Game :=
  { exploredScene with
      player := { Player.new PlayerClass.Warrior with pos := ppos }, enemies := es }

/-- An awake Necromancer on (5, 5) whose summon counter stands at 4; the player stands on
(5, 3), two cells above it. -/
def necroScene : Game :=
  sceneOf ⟨5, 3⟩
    [{ Enemy.create EnemyType.Necromancer ⟨5, 5⟩ with awake := true, summonTimer := 4 }]

/-- A Lich at half health (40 of 80), awake and not yet enraged, on (5, 4), next to the
player on (5, 3). -/
def lichScene : Game :=
  sceneOf ⟨5, 3⟩ [{ Enemy.create EnemyType.Lich ⟨5, 4⟩ with awake := true, hp := 40 }]

/-- A Ghost next to the player: the Ghost on (4, 4), the player on (5, 3). -/
def ghostScene : Game :=
  sceneOf ⟨5, 3⟩ [{ Enemy.create EnemyType.Ghost ⟨4, 4⟩ with awake := true }]

/-- A crowded floor: the Lich at half health next to the player, the Necromancer about to
summon, a Rat and a sleeping Skeleton. -/
def crowdScene : Game :=
  sceneOf ⟨5, 3⟩
    [{ Enemy.create EnemyType.Lich ⟨5, 4⟩ with awake := true, hp := 40 },
     { Enemy.create EnemyType.Necromancer ⟨5, 5⟩ with awake := true, summonTimer := 4 },
     Enemy.create EnemyType.Rat ⟨4, 4⟩,
     Enemy.create EnemyType.Skeleton ⟨9, 9⟩]

/-- The Necromancer about to summon, in a vector that is full: `capacity() == size() == 1`,
as after `enemies.clear()` and one `push_back` into a vector that held one enemy. -/
def fullNecroScene : Game := { necroScene with enemyCapacity := 1 }

/-- The Lich at half health next to the player, in a vector that is full:
`capacity() == size() == 1`. -/
def fullLichScene : Game := { lichScene with enemyCapacity := 1 }

/-- The crowded floor in a vector that is full: `capacity() == size() == 4`. -/
def fullCrowdScene : Game := { crowdScene with enemyCapacity := 4 }

/-- An enraged Lich (attack 20) at half health on (5, 6), awake, whose summon counter stands
at 3, in a vector that is full: `capacity() == size() == 1`; the player stands on
(5, 3). -/
def fullRageScene : Game :=
  { sceneOf ⟨5, 3⟩
      [{ Enemy.create EnemyType.Lich ⟨5, 6⟩ with
          awake := true, hp := 40, enraged := true, attack := 20, summonTimer := 3 }] with
      enemyCapacity := 1 }

/-- A key press: the handler reads the key `k`; no key is pending, the confirmation prompt
and the haste bonus action would read `None`, and floor generation and the shop dialogue
leave the game as it is. -/
def pressKey (k : Key) : Outside :=
  { keyPending := false, key := k, confirm := Key.None, hasteKey := Key.None,
    generateFloor := fun g => g, shop := fun g => g }

/-- The open floor with a Warrior at the origin whose ability has three turns of cooldown
left, and a Rat on (3, 2). -/
def cooldownScene : Game := { exploredScene with player := coolingWarrior }

/-- The Backstab scenario: a Rogue (base attack 7) wielding the Dagger (value 3) with the
ability armed, whose `attack` field holds the stale value 1, and a Dragon (hp 60,
defense 6) on the cell to its right. -/
def backstabScene : Game :=
  { bashScene with
      player := { Player.new PlayerClass.Rogue with
                    attack := 1, weaponSlot := dagger, hasWeapon := true,
                    equippedWeapon := true, abilityBuffActive := true, abilityCooldown := 6 },
      enemies := [Enemy.create EnemyType.Dragon ⟨1, 0⟩] }

/-- An awake Necromancer on (5, 5) at full health. -/
def awakeNecro : Enemy := { Enemy.create EnemyType.Necromancer ⟨5, 5⟩ with awake := true }

/-- A 10 x 10 floor whose columns `x = 1` to `x = 8` are made of wall tiles; the columns
`x = 0` and `x = 9` are open floor. -/
def thickWallMap : Map :=
  { WIDTH := 10, HEIGHT := 10,
    getTile := fun x _ => if 1 ≤ x ∧ x ≤ 8 then Tile.Wall else Tile.Floor,
    isWalkable := fun x y => decide (0 ≤ x ∧ x < 10 ∧ 0 ≤ y ∧ y < 10 ∧ (x = 0 ∨ x = 9)),
    isVisible := fun _ _ => true, isExplored := fun _ _ => true,
    isDangerous := fun _ _ => false, isOpaque := fun x _ => decide (1 ≤ x ∧ x ≤ 8) }

/-- An awake Ghost on (0, 5), in the open column left of the wall block. -/
def wallGhost : Enemy := { Enemy.create EnemyType.Ghost ⟨0, 5⟩ with awake := true }

/-- The open 10 x 10 floor with water tiles (walkable) on the column `x = 4`. -/
def pondMap : Map :=
  { openMap with getTile := fun x _ => if x = 4 then Tile.Water else Tile.Floor }

/-- An awake Rat standing in the water on (4, 4), diagonally next to the player on (5, 3);
every draw of the random source is 2, an even number. -/
def pondScene : Game :=
  { sceneOf ⟨5, 3⟩ [{ Enemy.create EnemyType.Rat ⟨4, 4⟩ with awake := true }] with
      map := pondMap }

/-- An awake Rat standing in the water on (4, 7), away from the player on (5, 3). -/
def farPondScene : Game :=
  { sceneOf ⟨5, 3⟩ [{ Enemy.create EnemyType.Rat ⟨4, 7⟩ with awake := true }] with
      map := pondMap }

/-- The last fight: floor 8, the enraged Lich with 1 hit point left on (5, 4), right below
a fresh level-1 Warrior on (5, 3). -/
def bossScene : Game :=
  { sceneOf ⟨5, 3⟩
      [{ Enemy.create EnemyType.Lich ⟨5, 4⟩ with awake := true, enraged := true, hp := 1 }] with
      currentFloor := 8 }

/-- A Rat with 1 hit point left on (5, 4), right below a Warrior on (5, 3) whose ability
has three turns of cooldown left. -/
def ratKillScene : Game :=
  { sceneOf ⟨5, 3⟩ [{ Enemy.create EnemyType.Rat ⟨5, 4⟩ with awake := true, hp := 1 }] with
      player := { coolingWarrior with pos := ⟨5, 3⟩ } }

/-- The same Rat below a fresh Warrior, whose ability is ready. -/
def readyKillScene : Game :=
  sceneOf ⟨5, 3⟩ [{ Enemy.create EnemyType.Rat ⟨5, 4⟩ with awake := true, hp := 1 }]
/-! ## Theorems: combat resolver -/

theorem variance_range (n : Nat) :
    -2 ≤ ((n % 5 : Nat) : Int) - 2 ∧ ((n % 5 : Nat) : Int) - 2 ≤ 2 := by
  have h : n % 5 < 5 := Nat.mod_lt _ (by decide)
  omega

theorem not_dies_suffix_of_tail (l tl a : List Char) (h6 : l.length ≤ tl.length)
    (hs : l <:+ a ++ tl) : l <:+ tl :=
  List.suffix_of_suffix_length_le hs (List.suffix_append a tl) h6

theorem dies_tail (s : String) : " dies!".data <:+ (" " ++ s ++ " dies!").data := by
  simp only [String.data_append]
  exact List.suffix_append _ _

theorem resolveCombat_outDmg (attacker defender : Entity) (atkBonus defBonus : Int)
    (rng : Rand) :
    (resolveCombat attacker defender atkBonus defBonus rng).outDmg =
      (if (rng.seq rng.cur % 10 == 0) = true then
        2 * max 1 (attacker.attack + atkBonus - defender.defense - defBonus
          + (((rng.seq (rng.cur + 1) % 5 : Nat) : Int) - 2))
      else max 1 (attacker.attack + atkBonus - defender.defense - defBonus
          + (((rng.seq (rng.cur + 1) % 5 : Nat) : Int) - 2))) := by
  have hatk : ∀ v : Int, attacker.attack + atkBonus - (defender.defense + defBonus) + v
      = attacker.attack + atkBonus - defender.defense - defBonus + v := fun v => by ring
  simp only [resolveCombat, Rand.next, hatk]
  split
  · rw [mul_comm]
  · rfl

theorem resolveCombat_defender (attacker defender : Entity) (atkBonus defBonus : Int)
    (rng : Rand) (d : Int)
    (hd : d = (resolveCombat attacker defender atkBonus defBonus rng).outDmg) :
    (resolveCombat attacker defender atkBonus defBonus rng).defender =
      { defender with hp := max 0 (defender.hp - d) } := by
  have h : (resolveCombat attacker defender atkBonus defBonus rng).defender =
      { defender with hp := if defender.hp - d < 0 then 0 else defender.hp - d } := by
    rw [hd]; rfl
  rw [h]
  congr 1
  split <;> omega

theorem resolveCombat_msg (attacker defender : Entity) (atkBonus defBonus : Int)
    (rng : Rand) :
    (resolveCombat attacker defender atkBonus defBonus rng).msg =
      (if (resolveCombat attacker defender atkBonus defBonus rng).defender.isAlive = false
       then hitText attacker.name defender.name (rng.seq rng.cur % 10 == 0)
              (resolveCombat attacker defender atkBonus defBonus rng).outDmg
            ++ (" " ++ defender.name ++ " dies!")
       else hitText attacker.name defender.name (rng.seq rng.cur % 10 == 0)
              (resolveCombat attacker defender atkBonus defBonus rng).outDmg) := by
  by_cases hc : (rng.seq rng.cur % 10 == 0) = true
  · simp only [resolveCombat, Rand.next, hitText, hc, if_true, Bool.not_eq_true']
  · simp only [resolveCombat, Rand.next, hitText, hc, Bool.not_eq_true', Bool.false_eq_true,
      if_false]

theorem hitText_no_death (a d : String) (crit : Bool) (n : Int) :
    ¬ (" dies!".data <:+ (hitText a d crit n).data) := by
  intro h
  cases crit
  · have h2 : " dies!".data <:+ " damage.".data := by
      apply not_dies_suffix_of_tail _ _ _ (by decide)
      simp only [hitText, Bool.false_eq_true, if_false, String.data_append,
        ← List.append_assoc] at h
      exact h
    revert h2; decide
  · have h2 : " dies!".data <:+ " Critical hit!".data := by
      apply not_dies_suffix_of_tail _ _ _ (by decide)
      simp only [hitText, if_true, String.data_append, ← List.append_assoc] at h
      exact h
    revert h2; decide

theorem resolveCombat_outDmg_pos (attacker defender : Entity) (atkBonus defBonus : Int)
    (rng : Rand) : 1 ≤ (resolveCombat attacker defender atkBonus defBonus rng).outDmg := by
  rw [resolveCombat_outDmg]
  have hbase : (1 : Int) ≤ max 1 (attacker.attack + atkBonus - defender.defense - defBonus
      + (((rng.seq (rng.cur + 1) % 5 : Nat) : Int) - 2)) := le_max_left _ _
  split <;> omega

/-- C1. For every attacker, defender, bonuses and random draws, with `c` the critical
roll and `v` the variance draw (always in `-2..2`), `resolveCombat` deals
`max 1 (attack + atkBonus - defense - defBonus + v)`, doubled when `c`; the damage is
at least 1; the defender's hp becomes `max 0 (hp - damage)` and nothing else of the
defender changes; the attacker is unchanged; the summary reports a death exactly when
the defender's new hp is 0. -/
theorem resolveCombat_spec (attacker defender : Entity) (atkBonus defBonus : Int)
    (rng : Rand) :
    let c : Bool := rng.seq rng.cur % 10 == 0
    let v : Int := ((rng.seq (rng.cur + 1) % 5 : Nat) : Int) - 2
    let base : Int := max 1 (attacker.attack + atkBonus - defender.defense - defBonus + v)
    let res := resolveCombat attacker defender atkBonus defBonus rng
    (-2 ≤ v ∧ v ≤ 2) ∧
    res.outDmg = (if c then 2 * base else base) ∧
    1 ≤ res.outDmg ∧
    res.defender = { defender with hp := max 0 (defender.hp - res.outDmg) } ∧
    res.attacker = attacker ∧
    (reportsDeath res.msg defender.name ↔ res.defender.hp = 0) ∧
    (res.defender.isAlive = false ↔ res.defender.hp = 0) := by
  intro c v base res
  have hv := variance_range (rng.seq (rng.cur + 1))
  have hbase : 1 ≤ base := le_max_left _ _
  have hdmg : res.outDmg = (if c then 2 * base else base) :=
    resolveCombat_outDmg attacker defender atkBonus defBonus rng
  have hpos : 1 ≤ res.outDmg := by
    rw [hdmg]; split <;> omega
  have hdef : res.defender = { defender with hp := max 0 (defender.hp - res.outDmg) } :=
    resolveCombat_defender attacker defender atkBonus defBonus rng _ rfl
  have halive : res.defender.isAlive = false ↔ res.defender.hp = 0 := by
    rw [hdef]
    simp only [Entity.isAlive, decide_eq_false_iff_not]
    omega
  refine ⟨hv, hdmg, hpos, hdef, rfl, ?_, halive⟩
  rw [← halive]
  have hmsg := resolveCombat_msg attacker defender atkBonus defBonus rng
  unfold reportsDeath
  constructor
  · intro hrep
    by_contra hal
    rw [if_neg hal] at hmsg
    have h1 : " dies!".data <:+ res.msg.data := (dies_tail defender.name).trans hrep
    rw [show res.msg = _ from hmsg] at h1
    exact hitText_no_death _ _ _ _ h1
  · intro hal
    rw [if_pos hal] at hmsg
    rw [show res.msg = _ from hmsg, String.data_append]
    exact List.suffix_append _ _

/-! ## Theorems: stat model, abilities, status effects -/

/-- C3. For every player state, `totalAttack` is the base attack plus the value of the
weapon slot when a weapon is equipped, and `totalDefense` is the base defense plus the
value of the armor slot when armor is equipped plus the shield bonus while the shield
counter is positive. -/
theorem totalAttack_totalDefense_spec (p : Player) :
    p.totalAttack = p.baseAttack + (if p.hasWeapon then p.weaponSlot.value else 0) ∧
    p.totalDefense = p.baseDefense + (if p.hasArmor then p.armorSlot.value else 0)
      + (if p.shieldTurns > 0 then p.shieldBonus else 0) := by
  constructor
  · unfold Player.totalAttack
    split <;> simp
  · unfold Player.totalDefense
    split <;> split <;> simp

theorem fireballLoop_fst (pos : Vec2) (dmg : Int) (es : List Enemy) (hits : Int) :
    (fireballLoop pos dmg es hits).1 = es.map (fun e => (fireballHit pos dmg e).1) := by
  induction es generalizing hits with
  | nil => rfl
  | cons e es ih => simp only [fireballLoop, List.map_cons, ih]

theorem fireballHit_snd (pos : Vec2) (dmg : Int) (e : Enemy) :
    (fireballHit pos dmg e).2 = inFireballRange pos e := by
  unfold fireballHit inFireballRange
  cases h : e.isAlive <;> simp
  split <;> simp [*]

theorem fireballLoop_snd (pos : Vec2) (dmg : Int) (es : List Enemy) (hits : Int) :
    (fireballLoop pos dmg es hits).2 = hits + ((es.filter (inFireballRange pos)).length : Int) := by
  induction es generalizing hits with
  | nil => simp [fireballLoop]
  | cons e es ih =>
    simp only [fireballLoop, ih, fireballHit_snd, List.filter_cons]
    cases inFireballRange pos e <;> simp
    omega

theorem fireballHit_fst (pos : Vec2) (dmg : Int) (e : Enemy) :
    (fireballHit pos dmg e).1 =
      if inFireballRange pos e then { e with hp := max 0 (e.hp - dmg) } else e := by
  unfold fireballHit inFireballRange
  cases h : e.isAlive <;> simp
  split
  · have hm : (if e.hp < dmg then 0 else e.hp - dmg) = max 0 (e.hp - dmg) := by
      split <;> omega
    rw [hm]
  · rfl

/-- C4. With `abilityCooldown = 0`, `useAbility` sets the cooldown to the class maximum
(Warrior 8, Rogue 6, Mage 10, Cleric 12) whatever the enemy list; with
`abilityCooldown > 0` it leaves the player and the enemy list as they were and returns a
message that contains the remaining number of turns. -/
theorem useAbility_cooldown (p : Player) (enemies : List Enemy) :
    (p.abilityCooldown = 0 →
      (p.useAbility enemies).2.1.abilityCooldown = cooldownMaxOf p.playerClass) ∧
    (p.abilityCooldown > 0 →
      (p.useAbility enemies).2.1 = p ∧ (p.useAbility enemies).2.2 = enemies ∧
      ∃ pre post : String,
        (p.useAbility enemies).1 = pre ++ toString p.abilityCooldown ++ post) := by
  constructor
  · intro h0
    have hn : ¬ p.abilityCooldown > 0 := by omega
    unfold Player.useAbility
    rw [if_neg hn]
    cases hc : p.playerClass <;> simp only [Player.abilityCooldownMax, hc, cooldownMaxOf]
    split <;> rfl
  · intro hpos
    unfold Player.useAbility
    rw [if_pos hpos]
    exact ⟨rfl, rfl, p.abilityName ++ " on cooldown (", " turns).", rfl⟩


/-- A closed instance of C4: the fresh Mage goes on its 10-turn cooldown, the cooling
Warrior is refused. -/
theorem useAbility_cooldown_witness :
    (readyMage.abilityCooldown = 0 ∧
      (readyMage.useAbility []).2.1.abilityCooldown = cooldownMaxOf readyMage.playerClass) ∧
    (coolingWarrior.abilityCooldown > 0 ∧
      ((coolingWarrior.useAbility []).2.1 = coolingWarrior ∧
       (coolingWarrior.useAbility []).2.2 = [] ∧
       ∃ pre post : String,
        (coolingWarrior.useAbility []).1
          = pre ++ toString coolingWarrior.abilityCooldown ++ post)) :=
  ⟨⟨rfl, (useAbility_cooldown readyMage []).1 rfl⟩,
   ⟨by decide, (useAbility_cooldown coolingWarrior []).2 (by decide)⟩⟩

/-- C5. For a Mage with `abilityCooldown = 0`, `useAbility` replaces the hp of every
living enemy within squared distance 9 by `max 0 (hp - (8 + 2 * level))` and leaves every
other enemy, and every other field of the damaged ones, as it was; the buff flag keeps
its value; the message carries the number of enemies hit (or says that none was in
range). -/
theorem useAbility_mage (p : Player) (enemies : List Enemy)
    (hc : p.playerClass = PlayerClass.Mage) (h0 : p.abilityCooldown = 0) :
    let dmg : Int := 8 + 2 * p.level
    let hits : Int := ((enemies.filter (inFireballRange p.pos)).length : Int)
    (p.useAbility enemies).2.2 =
      enemies.map (fun e =>
        if inFireballRange p.pos e then { e with hp := max 0 (e.hp - dmg) } else e) ∧
    (p.useAbility enemies).2.1 = { p with abilityCooldown := 10 } ∧
    (p.useAbility enemies).2.1.abilityBuffActive = p.abilityBuffActive ∧
    (p.useAbility enemies).1 =
      (if hits = 0 then "Fireball! No enemies in range."
       else "Fireball hits " ++ toString hits ++ " enemies for " ++ toString dmg
              ++ " damage!") := by
  intro dmg hits
  have hn : ¬ p.abilityCooldown > 0 := by omega
  have hd : 8 + p.level * 2 = dmg := by show _ = 8 + 2 * p.level; ring
  unfold Player.useAbility
  rw [if_neg hn]
  simp only [hc, Player.abilityCooldownMax, fireballLoop_fst, fireballLoop_snd, zero_add,
    fireballHit_fst, hd]
  split <;> simp_all

/-- The scenario of C5: a level-1 Mage and two enemies at squared distance 4 and 16; only
the first one loses `8 + 2 * 1 = 10` hit points. -/
theorem useAbility_mage_witness :
    (readyMage.playerClass = PlayerClass.Mage ∧ readyMage.abilityCooldown = 0 ∧
      readyMage.level = 1 ∧
      twoSkeletons.map (fun e => readyMage.pos.distanceSq e.pos) = [4, 16] ∧
      twoSkeletons.map (fun e => e.hp) = [15, 15] ∧
      (readyMage.useAbility twoSkeletons).2.2.map (fun e => e.hp) = [5, 15] ∧
      (readyMage.useAbility twoSkeletons).1 = "Fireball hits 1 enemies for 10 damage!") ∧
    ((readyMage.useAbility twoSkeletons).2.2 =
      twoSkeletons.map (fun e =>
        if inFireballRange readyMage.pos e
        then { e with hp := max 0 (e.hp - (8 + 2 * readyMage.level)) } else e) ∧
    (readyMage.useAbility twoSkeletons).2.1 = { readyMage with abilityCooldown := 10 } ∧
    (readyMage.useAbility twoSkeletons).2.1.abilityBuffActive = readyMage.abilityBuffActive ∧
    (readyMage.useAbility twoSkeletons).1 =
      (if ((twoSkeletons.filter (inFireballRange readyMage.pos)).length : Int) = 0
       then "Fireball! No enemies in range."
       else "Fireball hits "
              ++ toString ((twoSkeletons.filter (inFireballRange readyMage.pos)).length : Int)
              ++ " enemies for " ++ toString (8 + 2 * readyMage.level) ++ " damage!")) :=
  ⟨⟨rfl, rfl, rfl, by decide, by decide, by decide, by decide⟩,
   useAbility_mage readyMage twoSkeletons rfl rfl⟩

theorem countdown_nonneg (n : Int) (h : 0 ≤ n) : 0 ≤ countdown n := by
  unfold countdown; split <;> omega

theorem tickPoison_eq (p : Player) :
    p.tickPoison =
      { p with hp := if p.poisonTurns > 0 then max 0 (p.hp - p.poisonDmg) else p.hp,
               poisonTurns := countdown p.poisonTurns } := by
  unfold Player.tickPoison countdown
  split
  · have hm : (if p.hp - p.poisonDmg < 0 then 0 else p.hp - p.poisonDmg)
        = max 0 (p.hp - p.poisonDmg) := by split <;> omega
    simp only [hm]
  · rfl

theorem tickBurning_eq (p : Player) :
    p.tickBurning =
      { p with hp := if p.burningTurns > 0 then max 0 (p.hp - p.burningDmg) else p.hp,
               burningTurns := countdown p.burningTurns } := by
  unfold Player.tickBurning countdown
  split
  · have hm : (if p.hp - p.burningDmg < 0 then 0 else p.hp - p.burningDmg)
        = max 0 (p.hp - p.burningDmg) := by split <;> omega
    simp only [hm]
  · rfl

theorem tickBlind_eq (p : Player) :
    p.tickBlind = { p with blindTurns := countdown p.blindTurns } := by
  unfold Player.tickBlind countdown; split <;> rfl

theorem tickSlow_eq (p : Player) :
    p.tickSlow = { p with slowTurns := countdown p.slowTurns } := by
  unfold Player.tickSlow countdown; split <;> rfl

theorem tickHaste_eq (p : Player) :
    p.tickHaste = { p with hasteTurns := countdown p.hasteTurns } := by
  unfold Player.tickHaste countdown; split <;> rfl

theorem tickShield_eq (p : Player) :
    p.tickShield = { p with shieldTurns := countdown p.shieldTurns } := by
  unfold Player.tickShield countdown; split <;> rfl

theorem tickStatusEffects_eq (p : Player) :
    p.tickStatusEffects =
      { p with hp := if p.burningTurns > 0
                     then max 0 ((if p.poisonTurns > 0 then max 0 (p.hp - p.poisonDmg) else p.hp)
                                  - p.burningDmg)
                     else (if p.poisonTurns > 0 then max 0 (p.hp - p.poisonDmg) else p.hp),
               poisonTurns := countdown p.poisonTurns,
               burningTurns := countdown p.burningTurns,
               blindTurns := countdown p.blindTurns,
               slowTurns := countdown p.slowTurns,
               hasteTurns := countdown p.hasteTurns,
               shieldTurns := countdown p.shieldTurns } := by
  unfold Player.tickStatusEffects
  rw [tickPoison_eq]; dsimp only
  rw [tickBurning_eq]; dsimp only
  rw [tickBlind_eq]; dsimp only
  rw [tickSlow_eq]; dsimp only
  rw [tickHaste_eq]; dsimp only
  rw [tickShield_eq]

/-- C7. `tickStatusEffects` first applies the poison tick (when `poisonTurns > 0`: hp
becomes `max 0 (hp - poisonDmg)` and the counter drops by one), then the burning tick on
the resulting hp in the same way, then counts down blind, slow, haste and shield when
positive; every other field keeps its value, and a counter that starts non-negative stays
non-negative. -/
theorem tickStatusEffects_spec (p : Player) :
    let hp1 : Int := if p.poisonTurns > 0 then max 0 (p.hp - p.poisonDmg) else p.hp
    let hp2 : Int := if p.burningTurns > 0 then max 0 (hp1 - p.burningDmg) else hp1
    p.tickStatusEffects =
      { p with hp := hp2,
               poisonTurns := countdown p.poisonTurns,
               burningTurns := countdown p.burningTurns,
               blindTurns := countdown p.blindTurns,
               slowTurns := countdown p.slowTurns,
               hasteTurns := countdown p.hasteTurns,
               shieldTurns := countdown p.shieldTurns } ∧
    (0 ≤ p.poisonTurns → 0 ≤ p.tickStatusEffects.poisonTurns) ∧
    (0 ≤ p.burningTurns → 0 ≤ p.tickStatusEffects.burningTurns) ∧
    (0 ≤ p.blindTurns → 0 ≤ p.tickStatusEffects.blindTurns) ∧
    (0 ≤ p.slowTurns → 0 ≤ p.tickStatusEffects.slowTurns) ∧
    (0 ≤ p.hasteTurns → 0 ≤ p.tickStatusEffects.hasteTurns) ∧
    (0 ≤ p.shieldTurns → 0 ≤ p.tickStatusEffects.shieldTurns) := by
  intro hp1 hp2
  have heq : p.tickStatusEffects =
      { p with hp := hp2,
               poisonTurns := countdown p.poisonTurns,
               burningTurns := countdown p.burningTurns,
               blindTurns := countdown p.blindTurns,
               slowTurns := countdown p.slowTurns,
               hasteTurns := countdown p.hasteTurns,
               shieldTurns := countdown p.shieldTurns } :=
    tickStatusEffects_eq p
  refine ⟨heq, ?_, ?_, ?_, ?_, ?_, ?_⟩ <;> intro h <;> rw [heq] <;>
    exact countdown_nonneg _ h

/-- C7 at a poisoned, burning and blinded Warrior: hp 10 drops to 7 and then to 5, the
three running counters drop by one, the idle ones stay 0. -/
theorem tickStatusEffects_spec_witness :
    (0 ≤ ailingWarrior.poisonTurns ∧ 0 ≤ ailingWarrior.burningTurns ∧
      0 ≤ ailingWarrior.blindTurns ∧ 0 ≤ ailingWarrior.slowTurns ∧
      0 ≤ ailingWarrior.hasteTurns ∧ 0 ≤ ailingWarrior.shieldTurns) ∧
    (ailingWarrior.tickStatusEffects.hp = 5 ∧
      ailingWarrior.tickStatusEffects.poisonTurns = 1 ∧
      ailingWarrior.tickStatusEffects.burningTurns = 0 ∧
      ailingWarrior.tickStatusEffects.blindTurns = 0) ∧
    (0 ≤ ailingWarrior.tickStatusEffects.poisonTurns ∧
      0 ≤ ailingWarrior.tickStatusEffects.burningTurns ∧
      0 ≤ ailingWarrior.tickStatusEffects.blindTurns ∧
      0 ≤ ailingWarrior.tickStatusEffects.slowTurns ∧
      0 ≤ ailingWarrior.tickStatusEffects.hasteTurns ∧
      0 ≤ ailingWarrior.tickStatusEffects.shieldTurns) :=
  ⟨⟨by decide, by decide, by decide, by decide, by decide, by decide⟩,
   ⟨by decide, by decide, by decide, by decide⟩,
   ⟨(tickStatusEffects_spec ailingWarrior).2.1 (by decide),
    (tickStatusEffects_spec ailingWarrior).2.2.1 (by decide),
    (tickStatusEffects_spec ailingWarrior).2.2.2.1 (by decide),
    (tickStatusEffects_spec ailingWarrior).2.2.2.2.1 (by decide),
    (tickStatusEffects_spec ailingWarrior).2.2.2.2.2.1 (by decide),
    (tickStatusEffects_spec ailingWarrior).2.2.2.2.2.2 (by decide)⟩⟩

/-! ## Theorems: the hit-point bounds -/


theorem resolveCombat_hpInv (a d : Entity) (ab db : Int) (rng : Rand) (h : hpInv d) :
    hpInv (resolveCombat a d ab db rng).defender := by
  have h1 := resolveCombat_outDmg_pos a d ab db rng
  have h2 := resolveCombat_defender a d ab db rng _ rfl
  rw [h2]
  unfold hpInv at *
  dsimp only at *
  omega

theorem tickStatusEffects_hpInv (p : Player) (h : hpInv p.toEntity) (hp : 0 ≤ p.poisonDmg)
    (hb : 0 ≤ p.burningDmg) : hpInv p.tickStatusEffects.toEntity := by
  rw [tickStatusEffects_eq]
  unfold hpInv at *
  dsimp only
  split <;> split <;> omega

theorem fireball_hpInv (pos : Vec2) (dmg : Int) (hd : 0 ≤ dmg) (e : Enemy)
    (h : hpInv e.toEntity) :
    hpInv (if inFireballRange pos e then { e with hp := max 0 (e.hp - dmg) } else e).toEntity := by
  split
  · unfold hpInv at *
    dsimp only
    omega
  · exact h

theorem useAbility_hpInv (p : Player) (es : List Enemy) (h : hpInv p.toEntity)
    (hes : ∀ e ∈ es, hpInv e.toEntity) (hl : 0 ≤ 8 + 2 * p.level) :
    hpInv (p.useAbility es).2.1.toEntity ∧ ∀ e ∈ (p.useAbility es).2.2, hpInv e.toEntity := by
  unfold Player.useAbility
  split
  · exact ⟨h, hes⟩
  · cases hc : p.playerClass
    · exact ⟨h, hes⟩
    · exact ⟨h, hes⟩
    · have hd : (0:Int) ≤ 8 + p.level * 2 := by omega
      dsimp only
      simp only [fireballLoop_fst, fireballHit_fst]
      have key : ∀ e ∈ es.map (fun e => if inFireballRange p.pos e
          then ({ e with hp := max 0 (e.hp - (8 + p.level * 2)) } : Enemy) else e),
          hpInv e.toEntity := by
        intro e he
        rw [List.mem_map] at he
        obtain ⟨e0, he0, rfl⟩ := he
        exact fireball_hpInv p.pos _ hd e0 (hes e0 he0)
      split
      · exact ⟨h, key⟩
      · exact ⟨h, key⟩
    · refine ⟨?_, hes⟩
      unfold hpInv at *
      dsimp only
      have : 0 ≤ Int.tdiv p.maxHp 2 := Int.tdiv_nonneg (by omega) (by decide)
      omega

theorem equipItem_hp (p : Player) (i : Int) :
    (p.equipItem i).2.toEntity = p.toEntity := by
  unfold Player.equipItem
  split
  · rfl
  · split
    · rfl
    · split
      · rfl
      · split <;> rfl

theorem useItem_hpInv (p : Player) (i : Int) (h : hpInv p.toEntity)
    (hv : ∀ item, p.inventory.get i = some item → 0 ≤ item.value) :
    hpInv (p.useItem i).2.toEntity := by
  unfold Player.useItem
  split
  · exact h
  · split
    · exact h
    · rename_i item hitem
      have hval := hv item hitem
      split
      · unfold hpInv at *
        dsimp only
        split
        · have : 0 ≤ Int.tdiv (item.value * 3) 2 := Int.tdiv_nonneg (by omega) (by decide)
          omega
        · omega
      · exact h
      · exact h
      · exact h
      · rw [equipItem_hp]; exact h
      · rw [equipItem_hp]; exact h
      · exact h
      · exact h
      · exact h

theorem applyLevelChoice_hpInv (p : Player) (c : Int) (h : hpInv p.toEntity)
    (hl : 0 ≤ p.lvlHp) : hpInv (p.applyLevelChoice c).toEntity := by
  unfold Player.applyLevelChoice
  unfold hpInv at *
  split
  · dsimp only; omega
  · split
    · dsimp only; omega
    · split
      · dsimp only; omega
      · dsimp only; omega

/-- C2 (as amended). The bounds `0 ≤ hp ≤ maxHp` are preserved by `resolveCombat` (for the
defender), by `tickStatusEffects` (with non-negative poison and burning damage), by
`useAbility` (for the player and for every enemy, provided the Fireball damage
`8 + 2 * level` is non-negative), by `useItem` (with a non-negative item value) and by
`applyLevelChoice` (with `lvlHp ≥ 0`); and `isAlive` holds exactly when `hp > 0`. -/
theorem hp_bounds_invariant :
    (∀ (a d : Entity) (ab db : Int) (rng : Rand),
      hpInv d → hpInv (resolveCombat a d ab db rng).defender) ∧
    (∀ p : Player, hpInv p.toEntity → 0 ≤ p.poisonDmg → 0 ≤ p.burningDmg →
      hpInv p.tickStatusEffects.toEntity) ∧
    (∀ (p : Player) (es : List Enemy), hpInv p.toEntity → (∀ e ∈ es, hpInv e.toEntity) →
      0 ≤ 8 + 2 * p.level →
      hpInv (p.useAbility es).2.1.toEntity ∧ ∀ e ∈ (p.useAbility es).2.2, hpInv e.toEntity) ∧
    (∀ (p : Player) (i : Int), hpInv p.toEntity →
      (∀ item, p.inventory.get i = some item → 0 ≤ item.value) →
      hpInv (p.useItem i).2.toEntity) ∧
    (∀ (p : Player) (c : Int), hpInv p.toEntity → 0 ≤ p.lvlHp →
      hpInv (p.applyLevelChoice c).toEntity) ∧
    (∀ e : Entity, e.isAlive = true ↔ e.hp > 0) :=
  ⟨fun a d ab db rng h => resolveCombat_hpInv a d ab db rng h,
   fun p h hp hb => tickStatusEffects_hpInv p h hp hb,
   fun p es h hes hl => useAbility_hpInv p es h hes hl,
   fun p i h hv => useItem_hpInv p i h hv,
   fun p c h hl => applyLevelChoice_hpInv p c h hl,
   fun e => by simp [Entity.isAlive]⟩

/-- C2 as stated fails: a Mage whose level is -5 casts a Fireball of "damage" -2, and a
full-health Rat (8 of 8) in range ends with 10 hit points, above its maximum. -/
theorem hp_bounds_fireball_counterexample :
    hpInv deepMage.toEntity ∧ deepMage.abilityCooldown = 0 ∧
    (∀ e ∈ oneRat, hpInv e.toEntity) ∧
    (deepMage.useAbility oneRat).2.2.map (fun e => (e.hp, e.maxHp)) = [(10, 8)] ∧
    ¬ (∀ e ∈ (deepMage.useAbility oneRat).2.2, hpInv e.toEntity) := by
  refine ⟨by decide, rfl, by decide, by decide, by decide⟩

/-- A closed instance of each part of C2. -/
theorem hp_bounds_invariant_witness :
    (hpInv (Enemy.create EnemyType.Rat ⟨1, 0⟩).toEntity ∧
      hpInv (resolveCombat readyMage.toEntity (Enemy.create EnemyType.Rat ⟨1, 0⟩).toEntity
        0 0 calmRand).defender) ∧
    (hpInv woundedCleric.toEntity ∧ 0 ≤ woundedCleric.poisonDmg ∧
      0 ≤ woundedCleric.burningDmg ∧ hpInv woundedCleric.tickStatusEffects.toEntity) ∧
    (hpInv readyMage.toEntity ∧ (∀ e ∈ twoSkeletons, hpInv e.toEntity) ∧
      0 ≤ 8 + 2 * readyMage.level ∧
      (hpInv (readyMage.useAbility twoSkeletons).2.1.toEntity ∧
        ∀ e ∈ (readyMage.useAbility twoSkeletons).2.2, hpInv e.toEntity)) ∧
    (hpInv woundedCleric.toEntity ∧
      (∀ item, woundedCleric.inventory.get 0 = some item → 0 ≤ item.value) ∧
      hpInv (woundedCleric.useItem 0).2.toEntity) ∧
    (hpInv woundedCleric.toEntity ∧ 0 ≤ woundedCleric.lvlHp ∧
      hpInv (woundedCleric.applyLevelChoice 0).toEntity) :=
  have hpotion : ∀ item, woundedCleric.inventory.get 0 = some item → 0 ≤ item.value := by
    intro item h
    have h2 : woundedCleric.inventory.get 0 = some potion := by decide
    rw [h2] at h
    cases h
    decide
  ⟨⟨by decide, hp_bounds_invariant.1 _ _ 0 0 calmRand (by decide)⟩,
   ⟨by decide, by decide, by decide,
     hp_bounds_invariant.2.1 woundedCleric (by decide) (by decide) (by decide)⟩,
   ⟨by decide, by decide, by decide,
     hp_bounds_invariant.2.2.1 readyMage twoSkeletons (by decide) (by decide) (by decide)⟩,
   ⟨by decide, hpotion, hp_bounds_invariant.2.2.2.1 woundedCleric 0 (by decide) hpotion⟩,
   ⟨by decide, by decide,
     hp_bounds_invariant.2.2.2.2.1 woundedCleric 0 (by decide) (by decide)⟩⟩

/-! ## The loop of `Player::addXP` -/

theorem addXPBudget_step (xp level : Int) (h : xp ≥ level * 20) :
    addXPBudget (xp - level * 20) (level + 1) + 1 ≤ addXPBudget xp level := by
  unfold addXPBudget
  by_cases h1 : 1 ≤ level
  · have e1 : (-level).toNat = 0 := by omega
    have e2 : (-(level + 1)).toNat = 0 := by omega
    rw [e1, e2]
    simp only [Nat.cast_zero, mul_zero, zero_mul, add_zero]
    omega
  · by_cases h0 : level = 0
    · subst h0
      simp
      omega
    · obtain ⟨k, hk⟩ : ∃ k : Nat, level = -((k : Int) + 1) := ⟨(-level - 1).toNat, by omega⟩
      subst hk
      have e1 : (-(-((k : Int) + 1))).toNat = k + 1 := by omega
      have e2 : (-(-((k : Int) + 1) + 1)).toNat = k := by omega
      rw [e1, e2]
      have e3 : xp - -((k : Int) + 1) * 20 + 10 * (k : Int) * ((k : Int) + 1)
          = xp + 10 * ((k + 1 : Nat) : Int) * (((k + 1 : Nat) : Int) + 1) := by
        push_cast; ring
      rw [e3]
      generalize (xp + 10 * ((k + 1 : Nat) : Int) * (((k + 1 : Nat) : Int) + 1)).toNat = z
      omega

/-- The budget of `Player::addXP` is never exhausted: the loop is left because its
condition fails. -/
theorem addXPLoop_exits (fuel : Nat) (p : Player) (hf : addXPBudget p.xp p.level ≤ fuel) :
    (Player.addXPLoop fuel p).xp < (Player.addXPLoop fuel p).xpToNextLevel := by
  induction fuel generalizing p with
  | zero =>
    unfold Player.addXPLoop Player.xpToNextLevel
    unfold addXPBudget at hf
    by_contra hcon
    have h1 : (1 - p.level).toNat = 0 := by omega
    have h2 : (-p.level).toNat = 0 := by omega
    rw [h2] at hf
    simp only [Nat.cast_zero, mul_zero, zero_mul, add_zero] at hf
    omega
  | succ n ih =>
    unfold Player.addXPLoop
    split
    · rename_i hge
      apply ih
      have := addXPBudget_step p.xp p.level hge
      show addXPBudget (p.xp - p.level * 20) (p.level + 1) ≤ n
      omega
    · rename_i hlt
      omega

theorem addXP_exits (p : Player) (amount : Int) :
    (p.addXP amount).xp < (p.addXP amount).xpToNextLevel := by
  unfold Player.addXP
  exact addXPLoop_exits _ _ (le_refl _)

/-! ## Theorems: the player's attack (`Game::movePlayer`) -/

theorem addMessage_eq (g : Game) (msg : String) :
    g.addMessage msg =
      { g with messageLog := if ((g.messageLog ++ [msg]).length : Int) > 50
                             then (g.messageLog ++ [msg]).tail else g.messageLog ++ [msg] } := by
  unfold Game.addMessage; dsimp only; split <;> rfl

theorem addMessage_player (g : Game) (msg : String) : (g.addMessage msg).player = g.player := by
  rw [addMessage_eq]

theorem addMessage_enemies (g : Game) (msg : String) :
    (g.addMessage msg).enemies = g.enemies := by
  rw [addMessage_eq]

theorem addXPLoop_kept (fuel : Nat) (p : Player) :
    ((Player.addXPLoop fuel p).abilityBuffActive = p.abilityBuffActive ∧
     (Player.addXPLoop fuel p).damageDealt = p.damageDealt) ∧
    ((Player.addXPLoop fuel p).hp = p.hp ∧
     (Player.addXPLoop fuel p).killCount = p.killCount) := by
  induction fuel generalizing p with
  | zero => exact ⟨⟨rfl, rfl⟩, rfl, rfl⟩
  | succ n ih =>
    unfold Player.addXPLoop
    split
    · exact ih _
    · exact ⟨⟨rfl, rfl⟩, rfl, rfl⟩

theorem creditKill_enemies (g : Game) (t : Enemy) : (g.creditKill t).enemies = g.enemies := by
  unfold Game.creditKill; rw [addMessage_enemies]

theorem creditKill_player (g : Game) (t : Enemy) :
    (g.creditKill t).player =
      ({ g.player with killCount := g.player.killCount + 1 } : Player).addXP t.xpReward := by
  unfold Game.creditKill; rw [addMessage_player]

theorem rollLoot_frame (g : Game) (t : Enemy) (b : Bool) :
    (g.rollLoot t b).enemies = g.enemies ∧ (g.rollLoot t b).player = g.player := by
  unfold Game.rollLoot
  exact ⟨by rw [addMessage_enemies], by rw [addMessage_player]⟩

theorem dropLoot_frame (g : Game) (t : Enemy) :
    (g.dropLoot t).enemies = g.enemies ∧ (g.dropLoot t).player = g.player := by
  unfold Game.dropLoot
  dsimp only
  split
  · exact rollLoot_frame g t _
  · split
    · exact rollLoot_frame _ t _
    · exact ⟨rfl, rfl⟩

theorem bossFalls_frame (g : Game) (t : Enemy) :
    (g.bossFalls t).enemies = g.enemies ∧ (g.bossFalls t).player = g.player := by
  unfold Game.bossFalls
  dsimp only
  split <;> split <;> simp only [addMessage_enemies, addMessage_player, and_self]

theorem rewardKill_enemies (g : Game) (t : Enemy) : (g.rewardKill t).enemies = g.enemies := by
  unfold Game.rewardKill
  rw [(bossFalls_frame _ t).1, (dropLoot_frame _ t).1]
  show (g.creditKill t).enemies = _
  exact creditKill_enemies g t

theorem rewardKill_player (g : Game) (t : Enemy) :
    (g.rewardKill t).player =
      ({ g.player with killCount := g.player.killCount + 1 } : Player).addXP t.xpReward := by
  unfold Game.rewardKill
  rw [(bossFalls_frame _ t).2, (dropLoot_frame _ t).2]
  show (g.creditKill t).player = _
  exact creditKill_player g t

theorem addXP_kept (p : Player) (a : Int) :
    (p.addXP a).abilityBuffActive = p.abilityBuffActive ∧
    (p.addXP a).damageDealt = p.damageDealt := by
  unfold Player.addXP
  exact (addXPLoop_kept _ _).1

theorem vampiricHeal_frame (g : Game) :
    g.vampiricHeal.enemies = g.enemies ∧
    g.vampiricHeal.player.abilityBuffActive = g.player.abilityBuffActive ∧
    g.vampiricHeal.player.damageDealt = g.player.damageDealt := by
  unfold Game.vampiricHeal
  split
  · dsimp only
    rw [addMessage_enemies, addMessage_player]
    exact ⟨rfl, rfl, rfl⟩
  · exact ⟨rfl, rfl, rfl⟩

theorem landHit_frame (g : Game) (target : Enemy) :
    (g.landHit target).enemies = g.enemies ∧
    (g.landHit target).player.abilityBuffActive = g.player.abilityBuffActive ∧
    (g.landHit target).player.playerClass = g.player.playerClass ∧
    (g.landHit target).player.damageDealt = g.player.damageDealt + (g.strike target).outDmg := by
  unfold Game.landHit
  dsimp only
  rw [addMessage_enemies, addMessage_player]
  exact ⟨rfl, rfl, rfl, rfl⟩

theorem stunTarget_frame (g : Game) (t : Enemy) :
    (g.stunTarget t).2.enemies = g.enemies ∧ (g.stunTarget t).2.player = g.player := by
  unfold Game.stunTarget
  split
  · dsimp only; rw [addMessage_enemies, addMessage_player]; exact ⟨rfl, rfl⟩
  · exact ⟨rfl, rfl⟩

theorem stunTarget_fst (g : Game) (target : Enemy) :
    ((g.landHit target).stunTarget
        { target with toEntity := (g.strike target).defender }).1 = g.targetAfter target := by
  unfold Game.stunTarget Game.targetAfter
  rw [(landHit_frame g target).2.1, (landHit_frame g target).2.2.1]
  dsimp only
  split <;> rfl

theorem attackEnemy_enemies (g : Game) (i : Nat) (target : Enemy) :
    (g.attackEnemy i target).enemies = g.enemies.set i (g.targetAfter target) := by
  unfold Game.attackEnemy
  dsimp only
  rw [stunTarget_fst]
  have h : ((g.landHit target).stunTarget
        { target with toEntity := (g.strike target).defender }).2.clearBuff.vampiricHeal.enemies
        = g.enemies := by
    rw [(vampiricHeal_frame _).1]
    show (Game.stunTarget _ _).2.enemies = _
    rw [(stunTarget_frame _ _).1, (landHit_frame _ _).1]
  split
  · rw [rewardKill_enemies]; dsimp only; rw [h]
  · dsimp only; rw [h]

theorem attackEnemy_player (g : Game) (i : Nat) (target : Enemy) :
    (g.attackEnemy i target).player.abilityBuffActive = false ∧
    (g.attackEnemy i target).player.damageDealt
      = g.player.damageDealt + (g.strike target).outDmg := by
  unfold Game.attackEnemy
  dsimp only
  have h : ((g.landHit target).stunTarget
        { target with toEntity := (g.strike target).defender }).2.clearBuff.vampiricHeal.player.abilityBuffActive = false ∧
      ((g.landHit target).stunTarget
        { target with toEntity := (g.strike target).defender }).2.clearBuff.vampiricHeal.player.damageDealt
        = g.player.damageDealt + (g.strike target).outDmg := by
    rw [(vampiricHeal_frame _).2.1, (vampiricHeal_frame _).2.2]
    refine ⟨rfl, ?_⟩
    show (Game.stunTarget _ _).2.player.damageDealt = _
    rw [(stunTarget_frame _ _).2, (landHit_frame _ _).2.2.2]
  split
  · rw [rewardKill_player, (addXP_kept _ _).1, (addXP_kept _ _).2]
    exact h
  · exact h

theorem shieldBash_bonus (p : Player) (hcls : p.playerClass = PlayerClass.Warrior)
    (hatk : p.attack = 4) (hbase : p.baseAttack = 4) (hw : p.hasWeapon = false)
    (hbuff : p.abilityBuffActive = true) : p.attackBonus = 5 := by
  unfold Player.attackBonus Player.totalAttack
  simp [hcls, hatk, hbase, hw, hbuff]

/-- C6 (as amended). A Warrior with attack 4, nothing equipped and Shield Bash armed who
bumps, with no critical hit and variance 0, into an enemy of defense 0 with 4 hit points
left deals 4 + 5 = 9 damage; the enemy's hp becomes 0 and it is dead; the stun is given
only to a target that survives, so every other field of the enemy, `stunTurns` included,
keeps its value; `abilityBuffActive` is false afterwards. -/
theorem movePlayer_shieldBash (g : Game) (dx dy : Int) (i : Nat) (target : Enemy)
    (hcls : g.player.playerClass = PlayerClass.Warrior)
    (hatk : g.player.attack = 4) (hbase : g.player.baseAttack = 4)
    (hw : g.player.hasWeapon = false) (hbuff : g.player.abilityBuffActive = true)
    (hat : g.enemyAt (g.player.pos.x + dx) (g.player.pos.y + dy) = some i)
    (hget : g.enemies.get? i = some target)
    (hdef : target.defense = 0) (hhp : target.hp = 4)
    (hcrit : ¬ (g.rand.seq g.rand.cur % 10 = 0))
    (hvar : g.rand.seq (g.rand.cur + 1) % 5 = 2) :
    (g.movePlayer dx dy).player.damageDealt = g.player.damageDealt + 9 ∧
    (g.movePlayer dx dy).enemies.get? i = some { target with hp := 0 } ∧
    ({ target with hp := 0 } : Enemy).isAlive = false ∧
    (g.movePlayer dx dy).player.abilityBuffActive = false := by
  have hmove : g.movePlayer dx dy = g.attackEnemy i target := by
    unfold Game.movePlayer
    simp only [hat, hget]
  have hbonus := shieldBash_bonus g.player hcls hatk hbase hw hbuff
  have hout : (g.strike target).outDmg = 9 := by
    unfold Game.strike
    rw [resolveCombat_outDmg, hbonus, hvar, hatk, hdef]
    simp [hcrit]
  have hdefr : (g.strike target).defender = { target.toEntity with hp := 0 } := by
    unfold Game.strike
    rw [resolveCombat_defender _ _ _ _ _ 9 (by rw [← hout]; rfl), hhp]
    rfl
  have htarget : g.targetAfter target = { target with hp := 0 } := by
    unfold Game.targetAfter
    rw [hdefr]
    simp [Entity.isAlive]
  have hlt : i < g.enemies.length := by
    rw [List.get?_eq_some] at hget
    exact hget.1
  rw [hmove]
  refine ⟨?_, ?_, ?_, (attackEnemy_player g i target).1⟩
  · rw [(attackEnemy_player g i target).2, hout]
  · rw [attackEnemy_enemies, htarget]
    simp [hlt]
  · simp [Entity.isAlive]

/-- C6 as stated fails in the scenario itself: the Rat is hit for 9 and dies, and because
it did not survive, it is not stunned: its `stunTurns` is 0 afterwards, not 2. -/
theorem shieldBash_dead_rat_not_stunned :
    bashScene.player.attack = 4 ∧ bashScene.player.hasWeapon = false ∧
    bashScene.player.hasArmor = false ∧ bashScene.player.abilityBuffActive = true ∧
    bashScene.enemies.map (fun e => (e.type, e.hp, e.defense, e.stunTurns))
      = [(EnemyType.Rat, 4, 0, 0)] ∧
    (bashScene.movePlayer 1 0).player.damageDealt = 9 ∧
    (bashScene.movePlayer 1 0).enemies.map (fun e => (e.hp, e.isAlive)) = [(0, false)] ∧
    (bashScene.movePlayer 1 0).player.abilityBuffActive = false ∧
    (bashScene.movePlayer 1 0).enemies.map (fun e => e.stunTurns) = [0] ∧
    ¬ ((bashScene.movePlayer 1 0).enemies.map (fun e => e.stunTurns) = [2]) := by
  refine ⟨by decide, by decide, by decide, by decide, by decide, ?_, ?_, ?_, ?_, ?_⟩
  · decide
  · decide
  · decide
  · decide
  · decide

/-- The scenario of C6 (as amended): the fresh Warrior of the Shield Bash scene and the Rat
with 4 hit points left. -/
theorem movePlayer_shieldBash_witness :
    (bashScene.player.playerClass = PlayerClass.Warrior ∧ bashScene.player.attack = 4 ∧
      bashScene.player.baseAttack = 4 ∧ bashScene.player.hasWeapon = false ∧
      bashScene.player.abilityBuffActive = true ∧
      bashScene.enemyAt (bashScene.player.pos.x + 1) (bashScene.player.pos.y + 0) = some 0 ∧
      bashScene.enemies.get? 0 = some { Enemy.create EnemyType.Rat ⟨1, 0⟩ with hp := 4 }) ∧
    ((bashScene.movePlayer 1 0).player.damageDealt = bashScene.player.damageDealt + 9 ∧
      (bashScene.movePlayer 1 0).enemies.get? 0
        = some { ({ Enemy.create EnemyType.Rat ⟨1, 0⟩ with hp := 4 } : Enemy) with hp := 0 } ∧
      ({ ({ Enemy.create EnemyType.Rat ⟨1, 0⟩ with hp := 4 } : Enemy) with hp := 0 }
        : Enemy).isAlive = false ∧
      (bashScene.movePlayer 1 0).player.abilityBuffActive = false) :=
  ⟨⟨by decide, by decide, by decide, by decide, by decide, by decide, by decide⟩,
   movePlayer_shieldBash bashScene 1 0 0 { Enemy.create EnemyType.Rat ⟨1, 0⟩ with hp := 4 }
     (by decide) (by decide) (by decide) (by decide) (by decide) (by decide) (by decide)
     (by decide) (by decide) (by decide) (by decide)⟩

/-! ## Theorems: bounded A* search (`Enemy::astarStep`) -/

theorem findBestFrom_lt (arr : List Node) (rest : List Node) (i best : Nat)
    (hb : best < arr.length) (hi : i + rest.length = arr.length) :
    findBestFrom arr rest i best < arr.length := by
  induction rest generalizing i best with
  | nil => exact hb
  | cons n rest ih =>
    have hi2 : i + 1 + rest.length = arr.length := by
      simp only [List.length_cons] at hi; omega
    have hilt : i < arr.length := by
      simp only [List.length_cons] at hi; omega
    unfold findBestFrom
    split
    · split
      · exact ih (i + 1) i hilt hi2
      · exact ih (i + 1) best hb hi2
    · exact ih (i + 1) best hb hi2

theorem findBest_lt (arr : List Node) (h : 0 < arr.length) : findBest arr < arr.length := by
  unfold findBest
  apply findBestFrom_lt arr arr.tail 1 0 h
  cases arr with
  | nil => simp at h
  | cons a t => simp; omega

theorem swapRemove_length (arr : List Node) (i : Nat) (h : 0 < arr.length) :
    (swapRemove arr i).length = arr.length - 1 := by
  unfold swapRemove
  cases hl : arr.getLast? with
  | none =>
    rw [List.getLast?_eq_none_iff] at hl
    simp [hl] at h
  | some last => simp

theorem swapRemove_mem (arr : List Node) (i : Nat) (x : Node) (hx : x ∈ swapRemove arr i) :
    x ∈ arr := by
  unfold swapRemove at hx
  cases hl : arr.getLast? with
  | none => rw [hl] at hx; exact hx
  | some last =>
    rw [hl] at hx
    have h1 : x ∈ arr.set i last := List.mem_of_mem_dropLast hx
    rcases List.mem_or_eq_of_mem_set h1 with h2 | h2
    · exact h2
    · rw [h2]
      exact List.mem_of_getLast?_eq_some hl

theorem pushSucc_cases (m : Map) (ghost : Bool) (target : Vec2) (cur : Node) (s : AStar)
    (d : Int × Int) :
    (pushSucc m ghost target cur s d).closed = s.closed ∧
    (pushSucc m ghost target cur s d).parent = s.parent ∧
    (pushSucc m ghost target cur s d).expanded = s.expanded ∧
    ((pushSucc m ghost target cur s d).openList = s.openList ∨
     (s.openList.length < 64 ∧ ∃ n : Node,
        (pushSucc m ghost target cur s d).openList = s.openList ++ [n] ∧
        n.px = cur.x ∧ n.py = cur.y ∧ n.x = cur.x + d.1 ∧ n.y = cur.y + d.2 ∧
        m.passable ghost n.x n.y = true ∧ (⟨n.x, n.y⟩ : Vec2) ∉ s.closed)) := by
  unfold pushSucc
  dsimp only
  by_cases hb : m.inBounds (cur.x + d.1) (cur.y + d.2) = true
  swap
  · simp [hb]
  by_cases hc : (⟨cur.x + d.1, cur.y + d.2⟩ : Vec2) ∈ s.closed
  · simp [hb, hc]
  simp only [hb, hc, Bool.not_true, Bool.false_eq_true, if_false, decide_False]
  cases ghost
  · simp only [Bool.false_eq_true, if_false]
    by_cases hw : m.isWalkable (cur.x + d.1) (cur.y + d.2) = true
    swap
    · simp [hw]
    simp only [hw, Bool.not_true, Bool.false_eq_true, if_false]
    split
    · split
      · refine ⟨rfl, rfl, rfl, Or.inr ⟨by assumption, _, rfl, rfl, rfl, rfl, rfl, ?_, hc⟩⟩
        simp [Map.passable, hb, hw]
      · exact ⟨rfl, rfl, rfl, Or.inl rfl⟩
    · exact ⟨rfl, rfl, rfl, Or.inl rfl⟩
  · simp only [if_true]
    by_cases hw : (!m.isWalkable (cur.x + d.1) (cur.y + d.2)
        && !decide (m.getTile (cur.x + d.1) (cur.y + d.2) = Tile.Wall)) = true
    · simp [hw]
    simp only [hw, Bool.false_eq_true, if_false]
    have hp : m.passable true (cur.x + d.1) (cur.y + d.2) = true := by
      simp only [Map.passable, hb, Bool.true_and]
      revert hw
      cases m.isWalkable (cur.x + d.1) (cur.y + d.2) <;>
        cases decide (m.getTile (cur.x + d.1) (cur.y + d.2) = Tile.Wall) <;> simp
    generalize (if decide (m.getTile (cur.x + d.1) (cur.y + d.2) = Tile.Wall) = true
      then (6 : Int) else 1) = mc
    by_cases hg : cur.g + mc < s.gScoreAt ⟨cur.x + d.1, cur.y + d.2⟩
    swap
    · rw [if_neg hg]
      exact ⟨rfl, rfl, rfl, Or.inl rfl⟩
    rw [if_pos hg]
    by_cases h64 : s.openList.length < 64
    · rw [if_pos h64]
      exact ⟨rfl, rfl, rfl, Or.inr ⟨h64, _, rfl, rfl, rfl, rfl, rfl, hp, hc⟩⟩
    · rw [if_neg h64]
      exact ⟨rfl, rfl, rfl, Or.inl rfl⟩

theorem cardinal_of_dir (a : Vec2) (d : Int × Int) (hd : d ∈ dirs4) (x y : Int)
    (hx : x = a.x + d.1) (hy : y = a.y + d.2) : cardinal a ⟨x, y⟩ := by
  unfold cardinal
  simp only [dirs4, List.mem_cons, List.mem_singleton, List.not_mem_nil, or_false] at hd
  rcases hd with h | h | h | h <;> subst h <;> dsimp only at * <;> omega

/-- What the successor loop adds to the open list. -/
theorem expand_props (m : Map) (ghost : Bool) (target : Vec2) (cur : Node)
    (ds : List (Int × Int)) (s : AStar) (hds : ∀ d ∈ ds, d ∈ dirs4) :
    (ds.foldl (pushSucc m ghost target cur) s).closed = s.closed ∧
    (ds.foldl (pushSucc m ghost target cur) s).parent = s.parent ∧
    (ds.foldl (pushSucc m ghost target cur) s).expanded = s.expanded ∧
    (ds.foldl (pushSucc m ghost target cur) s).openList.length ≤ s.openList.length + ds.length ∧
    (s.openList.length ≤ 64 →
      (ds.foldl (pushSucc m ghost target cur) s).openList.length ≤ 64) ∧
    (∀ e ∈ (ds.foldl (pushSucc m ghost target cur) s).openList,
      e ∈ s.openList ∨
      (e.px = cur.x ∧ e.py = cur.y ∧ cardinal ⟨cur.x, cur.y⟩ ⟨e.x, e.y⟩ ∧
        m.passable ghost e.x e.y = true ∧ (⟨e.x, e.y⟩ : Vec2) ∉ s.closed)) := by
  induction ds generalizing s with
  | nil =>
    simp only [List.foldl_nil, List.length_nil, Nat.add_zero, le_refl, true_and]
    exact ⟨fun h => h, fun e he => Or.inl he⟩
  | cons d ds ih =>
    simp only [List.foldl_cons]
    have hd : d ∈ dirs4 := hds d (List.mem_cons_self _ _)
    obtain ⟨h1, h2, h3, h4, h5, h6⟩ :=
      ih (pushSucc m ghost target cur s d) (fun x hx => hds x (List.mem_cons_of_mem _ hx))
    obtain ⟨c1, c2, c3, c4⟩ := pushSucc_cases m ghost target cur s d
    refine ⟨h1.trans c1, h2.trans c2, h3.trans c3, ?_, ?_, ?_⟩
    · rcases c4 with c4 | ⟨_, n, c4, _⟩
      · rw [c4] at h4; simp only [List.length_cons]; omega
      · rw [c4] at h4; simp only [List.length_append, List.length_singleton] at h4
        simp only [List.length_cons]; omega
    · intro hle
      apply h5
      rcases c4 with c4 | ⟨hlt, n, c4, _⟩
      · rw [c4]; exact hle
      · rw [c4]; simp only [List.length_append, List.length_singleton]; omega
    · intro e he
      rcases h6 e he with h | ⟨a1, a2, a3, a4, a5⟩
      · rcases c4 with c4 | ⟨_, n, c4, n1, n2, n3, n4, n5, n6⟩
        · rw [c4] at h; exact Or.inl h
        · rw [c4, List.mem_append, List.mem_singleton] at h
          rcases h with h | h
          · exact Or.inl h
          · subst h
            exact Or.inr ⟨n1, n2, cardinal_of_dir ⟨cur.x, cur.y⟩ d hd _ _ n3 n4, n5, n6⟩
      · rw [c1] at a5
        exact Or.inr ⟨a1, a2, a3, a4, a5⟩

theorem ChainOK_congr (m : Map) (ghost : Bool) (pos : Vec2) (f g : Vec2 → Option Vec2)
    (l : List Vec2) (hfg : ∀ c ∈ l, f c = g c) (h : ChainOK m ghost pos f l) :
    ChainOK m ghost pos g l := by
  induction l with
  | nil => trivial
  | cons c rest ih =>
    obtain ⟨h1, h2, h3⟩ := h
    refine ⟨ih (fun x hx => hfg x (List.mem_cons_of_mem _ hx)) h1, h2, ?_⟩
    have hc : f c = g c := hfg c (List.mem_cons_self _ _)
    rcases h3 with ⟨a, b, e⟩ | ⟨a, p, hp, e, r⟩
    · exact Or.inl ⟨a, b, hc ▸ e⟩
    · exact Or.inr ⟨a, p, hp, hc ▸ e, r⟩

theorem ChainOK_root (m : Map) (ghost : Bool) (pos : Vec2) (f : Vec2 → Option Vec2)
    (l : List Vec2) (h : ChainOK m ghost pos f l) (hne : l ≠ []) : pos ∈ l := by
  induction l with
  | nil => exact absurd rfl hne
  | cons c rest ih =>
    obtain ⟨h1, _, h3⟩ := h
    rcases h3 with ⟨a, _, _⟩ | ⟨_, p, hp, _⟩
    · rw [a]; exact List.mem_cons_self _ _
    · exact List.mem_cons_of_mem _ (ih h1 (List.ne_nil_of_mem hp))

theorem walk_snoc (m : Map) (ghost : Bool) (a b c : Vec2) (hab : Walk m ghost a b)
    (hbc : cardinal b c) (hc : m.passable ghost c.x c.y = true) : Walk m ghost a c := by
  induction hab with
  | refl a => exact Walk.cons a c c hbc hc (Walk.refl c)
  | cons a b d h1 h2 _ ih => exact Walk.cons a b c h1 h2 (ih hbc)

/-- Backtracking from a closed cell other than the start ends, within one step per closed
cell, at a passable cardinal neighbour of the start from which a passable path leads to
the cell. -/
theorem traceBack_ok (m : Map) (ghost : Bool) (pos : Vec2) (parent : List (Vec2 × Vec2))
    (l : List Vec2) (h : ChainOK m ghost pos (fun c => parent.lookup c) l)
    (c : Vec2) (hc : c ∈ l) (hne : c ≠ pos) (fuel : Nat) (hfuel : l.length ≤ fuel) :
    ∃ r, traceBack parent pos fuel c = some r ∧ cardinal pos r ∧
      m.passable ghost r.x r.y = true ∧ Walk m ghost r c := by
  induction l generalizing c fuel with
  | nil => simp at hc
  | cons h0 rest ih =>
    obtain ⟨h1, h2, h3⟩ := h
    rcases List.mem_cons.mp hc with heq | hin
    · subst heq
      rcases h3 with ⟨a, _, _⟩ | ⟨_, p, hp, e, hcard, hpass⟩
      · exact absurd a hne
      · cases fuel with
        | zero => simp at hfuel
        | succ n =>
          have hn : rest.length ≤ n := by simp only [List.length_cons] at hfuel; omega
          unfold traceBack
          simp only at e
          rw [e]
          by_cases hpp : p = pos
          · have hcond : ¬ (p.x ≠ pos.x ∨ p.y ≠ pos.y) := by rw [hpp]; simp
            simp only [hcond, if_false]
            exact ⟨c, rfl, hpp ▸ hcard, hpass, Walk.refl c⟩
          · have hcond : p.x ≠ pos.x ∨ p.y ≠ pos.y := by
              by_contra hcon
              push_neg at hcon
              apply hpp
              cases p; cases pos
              simp only at hcon
              simp [hcon.1, hcon.2]
            simp only [hcond, if_true]
            obtain ⟨r, hr1, hr2, hr3, hr4⟩ := ih h1 p hp hpp n hn
            exact ⟨r, hr1, hr2, hr3, walk_snoc m ghost r p c hr4 hcard hpass⟩
    · have hlen : rest.length ≤ fuel := by simp only [List.length_cons] at hfuel; omega
      exact ih h1 c hin hne fuel hlen

theorem astarBody_eq (m : Map) (ghost : Bool) (pos target : Vec2) (s : AStar) (cur : Node)
    (hcur : s.openList.get? (findBest s.openList) = some cur) :
    astarBody m ghost pos target s =
      if decide ((⟨cur.x, cur.y⟩ : Vec2) ∈ s.closed) then
        AStarStep.next { s with openList := swapRemove s.openList (findBest s.openList) }
      else if cur.x = target.x ∧ cur.y = target.y then
        AStarStep.result (traceBack (s.close cur (findBest s.openList)).parent pos
          (s.close cur (findBest s.openList)).closed.length target)
      else
        AStarStep.next (dirs4.foldl (pushSucc m ghost target cur)
          (s.close cur (findBest s.openList))) := by
  unfold astarBody
  simp only [hcur]
  rfl

theorem close_chain (m : Map) (ghost : Bool) (pos target : Vec2) (s : AStar) (cur : Node)
    (i : Nat) (hinv : AInv m ghost pos target s) (hmem : cur ∈ s.openList)
    (hnc : (⟨cur.x, cur.y⟩ : Vec2) ∉ s.closed) :
    ChainOK m ghost pos (fun c => (s.close cur i).parent.lookup c) (s.close cur i).closed := by
  have hlook : ∀ c ∈ s.closed,
      (s.close cur i).parent.lookup c = s.parent.lookup c := by
    intro c hc
    have hne : c ≠ (⟨cur.x, cur.y⟩ : Vec2) := fun h => hnc (h ▸ hc)
    show List.lookup c ((⟨cur.x, cur.y⟩, ⟨cur.px, cur.py⟩) :: s.parent) = _
    rw [List.lookup_cons]
    have : (c == (⟨cur.x, cur.y⟩ : Vec2)) = false := by simpa using hne
    rw [this]
  have hself : (s.close cur i).parent.lookup (⟨cur.x, cur.y⟩ : Vec2)
      = some ⟨cur.px, cur.py⟩ := by
    show List.lookup _ ((⟨cur.x, cur.y⟩, ⟨cur.px, cur.py⟩) :: s.parent) = _
    rw [List.lookup_cons]
    simp
  refine ⟨ChainOK_congr m ghost pos _ _ s.closed (fun c hc => (hlook c hc).symm) hinv.chain,
    hnc, ?_⟩
  rcases hinv.opens with ⟨hnil, hopen⟩ | ⟨hne, hgood⟩
  · left
    rw [hopen] at hmem
    simp only [astarInit, List.mem_singleton] at hmem
    subst hmem
    refine ⟨rfl, hnil, ?_⟩
    exact hself
  · right
    obtain ⟨g1, g2, g3, g4⟩ := hgood cur hmem
    exact ⟨g4, ⟨cur.px, cur.py⟩, g1, hself, g2, g3⟩

theorem vec2_eq_of (a b : Vec2) (hx : a.x = b.x) (hy : a.y = b.y) : a = b := by
  cases a; cases b; simp only at hx hy; simp [hx, hy]

/-- One iteration of the `while` loop keeps the invariant and lowers the measure; when it
returns, it returns a cell: the start itself when the target is the start, otherwise a
first step of a passable path to the target. -/
theorem astarBody_spec (m : Map) (ghost : Bool) (pos target : Vec2) (s : AStar)
    (hinv : AInv m ghost pos target s) (hopen : 0 < s.openList.length)
    (hexp : s.expanded < 50) :
    (∀ s1, astarBody m ghost pos target s = AStarStep.next s1 →
      AInv m ghost pos target s1 ∧ s1.measure < s.measure) ∧
    (∀ r, astarBody m ghost pos target s = AStarStep.result r →
      ∃ v, r = some v ∧
        ((target = pos ∧ v = pos) ∨ (target ≠ pos ∧ FirstStep m ghost pos target v))) := by
  have hlt := findBest_lt s.openList hopen
  obtain ⟨cur, hcur⟩ : ∃ cur, s.openList.get? (findBest s.openList) = some cur :=
    ⟨_, List.get?_eq_get hlt⟩
  have hmem : cur ∈ s.openList := List.get?_mem hcur
  have hlen1 := swapRemove_length s.openList (findBest s.openList) hopen
  rw [astarBody_eq m ghost pos target s cur hcur]
  by_cases hclosed : (⟨cur.x, cur.y⟩ : Vec2) ∈ s.closed
  · simp only [hclosed, decide_True, if_true]
    constructor
    · intro s1 h1
      injection h1 with h1
      subst h1
      constructor
      · refine ⟨hinv.chain, hinv.keys, hinv.count, hinv.cap, ?_, ?_⟩
        · show (swapRemove _ _).length ≤ 64
          have := hinv.openCap
          omega
        · rcases hinv.opens with ⟨hnil, _⟩ | ⟨hne, hgood⟩
          · rw [hnil] at hclosed; simp at hclosed
          · exact Or.inr ⟨hne, fun e he => hgood e (swapRemove_mem _ _ e he)⟩
      · show 5 * (50 - s.expanded) + (swapRemove _ _).length < 5 * (50 - s.expanded) + _
        omega
    · intro r h1
      cases h1
  · simp only [hclosed, decide_False, Bool.false_eq_true, if_false]
    have hchain := close_chain m ghost pos target s cur (findBest s.openList) hinv hmem hclosed
    by_cases htgt : cur.x = target.x ∧ cur.y = target.y
    · simp only [htgt, and_self, if_true]
      constructor
      · intro s1 h1; cases h1
      · intro r h1
        injection h1 with h1
        subst h1
        have hct : (⟨cur.x, cur.y⟩ : Vec2) = target := vec2_eq_of _ _ htgt.1 htgt.2
        by_cases hpos : target = pos
        · refine ⟨pos, ?_, Or.inl ⟨hpos, rfl⟩⟩
          obtain ⟨_, _, h3⟩ := hchain
          rcases h3 with ⟨_, _, e⟩ | ⟨a, _⟩
          · show traceBack _ pos (s.closed.length + 1) target = some pos
            unfold traceBack
            rw [hct] at e
            simp only at e
            rw [e, hpos]
            simp
          · exact absurd (hct.trans hpos) a
        · obtain ⟨v, hv1, hv2, hv3, hv4⟩ :=
            traceBack_ok m ghost pos _ _ hchain target
              (by rw [← hct]; exact List.mem_cons_self _ _) hpos _ (le_refl _)
          exact ⟨v, hv1, Or.inr ⟨hpos, hv2, hv3, hv4⟩⟩
    · simp only [htgt, if_false]
      constructor
      swap
      · intro r h1; cases h1
      intro s1 h1
      injection h1 with h1
      subst h1
      obtain ⟨e1, e2, e3, e4, e5, e6⟩ :=
        expand_props m ghost target cur dirs4 (s.close cur (findBest s.openList))
          (fun d hd => hd)
      have hroot : pos ∈ (⟨cur.x, cur.y⟩ : Vec2) :: s.closed :=
        ChainOK_root m ghost pos _ _ hchain (List.cons_ne_nil _ _)
      have hopen1 : (s.close cur (findBest s.openList)).openList.length
          = s.openList.length - 1 := hlen1
      constructor
      · refine ⟨?_, ?_, ?_, ?_, ?_, ?_⟩
        · rw [e1, e2]; exact hchain
        · rw [e1, e2]
          show (⟨cur.x, cur.y⟩ : Vec2) :: s.parent.map Prod.fst = _ :: s.closed
          rw [hinv.keys]
        · rw [e1, e3]
          show s.expanded + 1 = s.closed.length + 1
          rw [hinv.count]
        · rw [e3]
          show s.expanded + 1 ≤ 50
          omega
        · apply e5
          rw [hopen1]
          have := hinv.openCap
          omega
        · right
          rw [e1]
          refine ⟨List.cons_ne_nil _ _, ?_⟩
          intro e he
          rcases e6 e he with hin | ⟨a1, a2, a3, a4, a5⟩
          · have hin2 : e ∈ s.openList := swapRemove_mem _ _ e hin
            rcases hinv.opens with ⟨_, hop⟩ | ⟨_, hgood⟩
            · exfalso
              have hl : (swapRemove s.openList (findBest s.openList)).length = 0 := by
                rw [hlen1, hop]; rfl
              have : e ∈ swapRemove s.openList (findBest s.openList) := hin
              rw [List.length_eq_zero] at hl
              rw [hl] at this
              simp at this
            · obtain ⟨g1, g2, g3, g4⟩ := hgood e hin2
              exact ⟨List.mem_cons_of_mem _ g1, g2, g3, g4⟩
          · refine ⟨?_, ?_, a4, ?_⟩
            · rw [a1, a2]; exact List.mem_cons_self _ _
            · rw [a1, a2]; exact a3
            · intro hpe
              apply a5
              rw [hpe]
              exact hroot
      · show 5 * (50 - _) + _ < 5 * (50 - s.expanded) + s.openList.length
        rw [e3]
        show 5 * (50 - (s.expanded + 1)) + _ < _
        have h4 : dirs4.length = 4 := rfl
        rw [h4, hopen1] at e4
        omega

theorem astarInit_inv (m : Map) (ghost : Bool) (pos target : Vec2) :
    AInv m ghost pos target (astarInit pos target) :=
  ⟨trivial, rfl, rfl, Nat.zero_le _, by show 1 ≤ 64; decide, Or.inl ⟨rfl, rfl⟩⟩

/-- With a budget above the measure the `while` loop returns: the sentinel, or the start
itself when the target is the start, or a first step of a passable path to the target. -/
theorem astarLoop_spec (m : Map) (ghost : Bool) (pos target : Vec2) (fuel : Nat) (s : AStar)
    (hinv : AInv m ghost pos target s) (hfuel : s.measure < fuel) :
    ∃ v, astarLoop m ghost pos target fuel s = some v ∧
      (v = noPath ∨ (target = pos ∧ v = pos) ∨
        (target ≠ pos ∧ FirstStep m ghost pos target v)) := by
  induction fuel generalizing s with
  | zero => omega
  | succ n ih =>
    unfold astarLoop
    by_cases hg : s.openList.length > 0 ∧ s.expanded < 50
    · rw [if_pos hg]
      obtain ⟨h1, h2⟩ := astarBody_spec m ghost pos target s hinv hg.1 hg.2
      cases hb : astarBody m ghost pos target s with
      | next s1 =>
        obtain ⟨hi, hm⟩ := h1 s1 hb
        exact ih s1 hi (by omega)
      | result r =>
        obtain ⟨v, hv, hcase⟩ := h2 r hb
        exact ⟨v, hv, Or.inr hcase⟩
    · rw [if_neg hg]
      exact ⟨noPath, rfl, Or.inl rfl⟩

theorem astarStateAfter_inv (m : Map) (ghost : Bool) (pos target : Vec2) (n : Nat) (s : AStar)
    (h : astarStateAfter m ghost pos target n = some s) : AInv m ghost pos target s := by
  induction n generalizing s with
  | zero =>
    simp only [astarStateAfter, Option.some.injEq] at h
    rw [← h]
    exact astarInit_inv m ghost pos target
  | succ k ih =>
    unfold astarStateAfter at h
    cases hk : astarStateAfter m ghost pos target k with
    | none => rw [hk] at h; cases h
    | some s0 =>
      rw [hk] at h
      simp only at h
      by_cases hg : s0.openList.length > 0 ∧ s0.expanded < 50
      · rw [if_pos hg] at h
        cases hb : astarBody m ghost pos target s0 with
        | next s1 =>
          rw [hb] at h
          simp only [Option.some.injEq] at h
          rw [← h]
          exact ((astarBody_spec m ghost pos target s0 (ih s0 hk) hg.1 hg.2).1 s1 hb).1
        | result r => rw [hb] at h; cases h
      · rw [if_neg hg] at h; cases h

/-- The states listed by `astarStateAfter` are the states the `while` loop runs through:
after `n` iterations the loop continues from the `n`-th state. -/
theorem astarLoop_passes (m : Map) (ghost : Bool) (pos target : Vec2) (n : Nat) (s : AStar)
    (h : astarStateAfter m ghost pos target n = some s) (fuel : Nat) :
    astarLoop m ghost pos target (fuel + n) (astarInit pos target)
      = astarLoop m ghost pos target fuel s := by
  induction n generalizing s fuel with
  | zero =>
    simp only [astarStateAfter, Option.some.injEq] at h
    rw [← h]; rfl
  | succ k ih =>
    unfold astarStateAfter at h
    cases hk : astarStateAfter m ghost pos target k with
    | none => rw [hk] at h; cases h
    | some s0 =>
      rw [hk] at h
      simp only at h
      by_cases hg : s0.openList.length > 0 ∧ s0.expanded < 50
      · rw [if_pos hg] at h
        cases hb : astarBody m ghost pos target s0 with
        | next s1 =>
          rw [hb] at h
          simp only [Option.some.injEq] at h
          have h1 := ih s0 hk (fuel + 1)
          rw [show fuel + (k + 1) = fuel + 1 + k by omega, h1, astarLoop, if_pos hg, hb, h]
        | result r => rw [hb] at h; cases h
      · rw [if_neg hg] at h; cases h

theorem astarStep_result (e : Enemy) (m : Map) (target : Vec2)
    (hstart : m.inBounds e.pos.x e.pos.y = true) :
    ∃ v, e.astarStep m target = some v ∧
      (v = noPath ∨ (target = e.pos ∧ v = e.pos) ∨
        (target ≠ e.pos ∧
          FirstStep m (decide (e.type = EnemyType.Ghost)) e.pos target v)) := by
  unfold Enemy.astarStep
  simp only [hstart, Bool.not_true, Bool.false_eq_true, if_false]
  exact astarLoop_spec m _ e.pos target astarBudget _ (astarInit_inv m _ e.pos target)
    (by show 5 * (50 - 0) + 1 < 252; decide)

theorem walk_last_step (m : Map) (ghost : Bool) (a c : Vec2) (h : Walk m ghost a c)
    (hne : a ≠ c) :
    ∃ b, cardinal b c ∧ (b = a ∨ m.passable ghost b.x b.y = true) := by
  induction h with
  | refl a => exact absurd rfl hne
  | cons a b c hab hb _ ih =>
    by_cases hbc : b = c
    · exact ⟨a, hbc ▸ hab, Or.inl rfl⟩
    · obtain ⟨b1, h1, h2⟩ := ih hbc
      rcases h2 with h2 | h2
      · exact ⟨b1, h1, Or.inr (h2 ▸ hb)⟩
      · exact ⟨b1, h1, Or.inr h2⟩

/-- A target other than the start whose cardinal neighbours are all impassable, none of
them being the start, is unreachable. -/
theorem enclosed_unreachable (m : Map) (ghost : Bool) (pos target : Vec2)
    (hne : pos ≠ target) (hnear : ¬ cardinal pos target)
    (hwall : ∀ b, cardinal b target → m.passable ghost b.x b.y = false) :
    ¬ Walk m ghost pos target := by
  intro hw
  obtain ⟨b, h1, h2⟩ := walk_last_step m ghost pos target hw hne
  rcases h2 with h2 | h2
  · exact hnear (h2 ▸ h1)
  · rw [hwall b h1] at h2; cases h2

/-- C8. From an in-bounds start `Enemy::astarStep` returns (the loop budget is never
exhausted and no uninitialised entry is read); in every state the search passes through
at most 50 nodes have been expanded and the open list holds at most 64 entries, and no
push makes it longer than 64; and when the target is not the start and no passable
4-connected path leads to it, the result is the sentinel (-1, -1). -/
theorem astarStep_bounded (e : Enemy) (m : Map) (target : Vec2)
    (hstart : m.inBounds e.pos.x e.pos.y = true) :
    (∃ v, e.astarStep m target = some v) ∧
    (∀ n s, astarStateAfter m (decide (e.type = EnemyType.Ghost)) e.pos target n = some s →
      s.expanded ≤ 50 ∧ s.openList.length ≤ 64) ∧
    (∀ (s : AStar) (cur : Node) (d : Int × Int), s.openList.length ≤ 64 →
      (pushSucc m (decide (e.type = EnemyType.Ghost)) target cur s d).openList.length ≤ 64) ∧
    (target ≠ e.pos → ¬ Walk m (decide (e.type = EnemyType.Ghost)) e.pos target →
      e.astarStep m target = some noPath) := by
  obtain ⟨v, hv, hcase⟩ := astarStep_result e m target hstart
  refine ⟨⟨v, hv⟩, ?_, ?_, ?_⟩
  · intro n s hs
    have hinv := astarStateAfter_inv m _ e.pos target n s hs
    exact ⟨hinv.cap, hinv.openCap⟩
  · intro s cur d hle
    obtain ⟨_, _, _, h4⟩ := pushSucc_cases m (decide (e.type = EnemyType.Ghost)) target cur s d
    rcases h4 with h4 | ⟨hlt, n, h4, _⟩
    · rw [h4]; exact hle
    · rw [h4]; simp only [List.length_append, List.length_singleton]; omega
  · intro hne hnw
    rcases hcase with h | ⟨h, _⟩ | ⟨_, h1, h2, h3⟩
    · rw [hv, h]
    · exact absurd h hne
    · exact absurd (Walk.cons e.pos v target h1 h2 h3) hnw

theorem cellMap_enclosed :
    ¬ Walk cellMap (decide (cornerRat.type = EnemyType.Ghost)) cornerRat.pos ⟨5, 5⟩ := by
  apply enclosed_unreachable
  · decide
  · decide
  · intro b hb
    unfold cardinal at hb
    simp only at hb
    obtain ⟨bx, byy⟩ := b
    simp only at hb
    rcases hb with ⟨h1, h2 | h2⟩ | ⟨h1, h2 | h2⟩
    · have hx : bx = 5 := by omega
      have hy : byy = 6 := by omega
      subst hx; subst hy; decide
    · have hx : bx = 5 := by omega
      have hy : byy = 4 := by omega
      subst hx; subst hy; decide
    · have hx : bx = 6 := by omega
      have hy : byy = 5 := by omega
      subst hx; subst hy; decide
    · have hx : bx = 4 := by omega
      have hy : byy = 5 := by omega
      subst hx; subst hy; decide

/-- C8 at a Rat in the corner of a floor on which the target (5, 5) is enclosed by four
wall tiles: the search returns the sentinel. -/
theorem astarStep_bounded_witness :
    (cellMap.inBounds cornerRat.pos.x cornerRat.pos.y = true ∧
      (⟨5, 5⟩ : Vec2) ≠ cornerRat.pos ∧
      ¬ Walk cellMap (decide (cornerRat.type = EnemyType.Ghost)) cornerRat.pos ⟨5, 5⟩) ∧
    cornerRat.astarStep cellMap ⟨5, 5⟩ = some noPath ∧
    (∀ n s, astarStateAfter cellMap (decide (cornerRat.type = EnemyType.Ghost)) cornerRat.pos
        ⟨5, 5⟩ n = some s → s.expanded ≤ 50 ∧ s.openList.length ≤ 64) :=
  ⟨⟨by decide, by decide, cellMap_enclosed⟩,
   (astarStep_bounded cornerRat cellMap ⟨5, 5⟩ (by decide)).2.2.2 (by decide) cellMap_enclosed,
   (astarStep_bounded cornerRat cellMap ⟨5, 5⟩ (by decide)).2.1⟩

/-- C9. From an in-bounds start `Enemy::astarStep` returns a cell (the backtracking loop
terminates), and when that cell is not the sentinel and the target is not the start, it
is a cardinal neighbour of the start, lies in the grid, is walkable (for a Ghost: walkable
or a wall tile), and a 4-connected path of passable cells leads from it to the target. -/
theorem astarStep_first_step (e : Enemy) (m : Map) (target : Vec2)
    (hstart : m.inBounds e.pos.x e.pos.y = true) :
    ∃ v, e.astarStep m target = some v ∧
      (v ≠ noPath → target ≠ e.pos →
        cardinal e.pos v ∧ m.inBounds v.x v.y = true ∧
        (e.type ≠ EnemyType.Ghost → m.isWalkable v.x v.y = true) ∧
        (e.type = EnemyType.Ghost →
          m.isWalkable v.x v.y = true ∨ m.getTile v.x v.y = Tile.Wall) ∧
        Walk m (decide (e.type = EnemyType.Ghost)) v target) := by
  obtain ⟨v, hv, hcase⟩ := astarStep_result e m target hstart
  refine ⟨v, hv, ?_⟩
  intro hns hne
  rcases hcase with h | ⟨h, _⟩ | ⟨_, h1, h2, h3⟩
  · exact absurd h hns
  · exact absurd h hne
  · have hp := h2
    unfold Map.passable at hp
    rw [Bool.and_eq_true, Bool.or_eq_true, Bool.and_eq_true] at hp
    refine ⟨h1, hp.1, ?_, ?_, h3⟩
    · intro hg
      rcases hp.2 with h | ⟨h, _⟩
      · exact h
      · simp [hg] at h
    · intro _
      rcases hp.2 with h | ⟨_, h⟩
      · exact Or.inl h
      · exact Or.inr (by simpa using h)

/-- C9 at a Ghost in the corner of a floor with a wall column between it and the target
(3, 0): the step returned is (1, 0), the first cell of a path through the wall. -/
theorem astarStep_first_step_witness :
    wallMap.inBounds cornerGhost.pos.x cornerGhost.pos.y = true ∧
    cornerGhost.astarStep wallMap ⟨3, 0⟩ = some ⟨1, 0⟩ ∧
    (⟨1, 0⟩ : Vec2) ≠ noPath ∧ (⟨3, 0⟩ : Vec2) ≠ cornerGhost.pos ∧
    (cardinal cornerGhost.pos ⟨1, 0⟩ ∧ wallMap.inBounds 1 0 = true ∧
      (cornerGhost.type ≠ EnemyType.Ghost → wallMap.isWalkable 1 0 = true) ∧
      (cornerGhost.type = EnemyType.Ghost →
        wallMap.isWalkable 1 0 = true ∨ wallMap.getTile 1 0 = Tile.Wall) ∧
      Walk wallMap (decide (cornerGhost.type = EnemyType.Ghost)) ⟨1, 0⟩ ⟨3, 0⟩) := by
  have hrun : cornerGhost.astarStep wallMap ⟨3, 0⟩ = some ⟨1, 0⟩ := by decide
  obtain ⟨v, hv, h⟩ := astarStep_first_step cornerGhost wallMap ⟨3, 0⟩ (by decide)
  have hv1 : v = ⟨1, 0⟩ := by
    rw [hrun] at hv
    exact (Option.some.inj hv).symm
  subst hv1
  exact ⟨by decide, hrun, by decide, by decide, h (by decide) (by decide)⟩

/-! ## Theorems: the auto-explore planner (`Game::bfsNextStep`) -/

theorem isTarget_iff (g : Game) (c : Vec2) :
    g.isTarget c.x c.y = true ↔ g.targetTile c := by
  have he : (g.enemies.any (fun e => e.isAlive && decide (e.pos.x = c.x) && decide (e.pos.y = c.y))
      = true) ↔ ∃ e ∈ g.enemies, e.isAlive = true ∧ e.pos = c := by
    rw [List.any_eq_true]
    constructor
    · rintro ⟨e, he, h⟩
      simp only [Bool.and_eq_true, decide_eq_true_eq] at h
      exact ⟨e, he, h.1.1, vec2_eq_of _ _ h.1.2 h.2⟩
    · rintro ⟨e, he, h1, h2⟩
      refine ⟨e, he, ?_⟩
      simp [h1, h2]
  have hi : (g.items.any (fun it => it.onGround && decide (it.pos.x = c.x)
      && decide (it.pos.y = c.y)) = true) ↔ ∃ it ∈ g.items, it.onGround = true ∧ it.pos = c := by
    rw [List.any_eq_true]
    constructor
    · rintro ⟨e, he, h⟩
      simp only [Bool.and_eq_true, decide_eq_true_eq] at h
      exact ⟨e, he, h.1.1, vec2_eq_of _ _ h.1.2 h.2⟩
    · rintro ⟨e, he, h1, h2⟩
      refine ⟨e, he, ?_⟩
      simp [h1, h2]
  unfold Game.targetTile
  rw [← he, ← hi]
  unfold Game.isTarget
  dsimp only
  cases g.map.isVisible c.x c.y <;> cases g.map.isExplored c.x c.y <;>
    cases List.any g.enemies _ <;> cases List.any g.items _ <;> simp

theorem walkN_snoc (m : Map) (n : Nat) (a b c : Vec2) (hab : WalkN m n a b)
    (hbc : cardinal b c) (hc : m.passable false c.x c.y = true) : WalkN m (n + 1) a c := by
  induction hab with
  | refl a => exact WalkN.cons 0 a c c hbc hc (WalkN.refl c)
  | cons n a b d h1 h2 _ ih => exact WalkN.cons (n + 1) a b c h1 h2 (ih hbc)

theorem walkN_unsnoc (m : Map) (n : Nat) (a c : Vec2) (h : WalkN m (n + 1) a c) :
    ∃ b, WalkN m n a b ∧ cardinal b c ∧ m.passable false c.x c.y = true := by
  induction n generalizing a with
  | zero =>
    cases h with
    | cons _ _ b _ h1 h2 h3 =>
      cases h3
      exact ⟨a, WalkN.refl a, h1, h2⟩
  | succ k ih =>
    cases h with
    | cons _ _ b _ h1 h2 h3 =>
      obtain ⟨b1, hb1, hb2, hb3⟩ := ih b h3
      exact ⟨b1, WalkN.cons k a b b1 h1 h2 hb1, hb2, hb3⟩

theorem get?_snoc {α : Type} (l : List α) (a : α) (i : Nat) (b : α) :
    (l ++ [a]).get? i = some b ↔ l.get? i = some b ∨ (i = l.length ∧ b = a) := by
  by_cases h : i < l.length
  · rw [List.get?_eq_getElem?, List.getElem?_append_left h, ← List.get?_eq_getElem?]
    constructor
    · exact Or.inl
    · rintro (h1 | ⟨h1, _⟩)
      · exact h1
      · omega
  · have h2 : l.length ≤ i := by omega
    rw [List.get?_eq_getElem?, List.getElem?_append_right h2, ← List.get?_eq_getElem?]
    have hnone : l.get? i = none := List.get?_eq_none.mpr h2
    rw [hnone]
    constructor
    · intro h3
      right
      by_cases h4 : i = l.length
      · rw [h4] at h3
        simp at h3
        exact ⟨h4, h3.symm⟩
      · have : i - l.length = (i - l.length - 1) + 1 := by omega
        rw [this] at h3
        simp at h3
    · rintro (h1 | ⟨h1, h3⟩)
      · cases h1
      · rw [h1, h3]; simp

theorem cardinal_dir (a c : Vec2) (h : cardinal a c) :
    ∃ d ∈ dirs4, c = ⟨a.x + d.1, a.y + d.2⟩ := by
  unfold cardinal at h
  obtain ⟨cx, cy⟩ := c
  simp only at h
  rcases h with ⟨h1, h2 | h2⟩ | ⟨h1, h2 | h2⟩
  · exact ⟨(0, -1), by decide, by subst h1; subst h2; simp; rfl⟩
  · exact ⟨(0, 1), by decide, by subst h1; subst h2; simp⟩
  · exact ⟨(-1, 0), by decide, by subst h1; subst h2; simp; rfl⟩
  · exact ⟨(1, 0), by decide, by subst h1; subst h2; simp⟩

/-- Dequeuing a cell that is the player's own or not a target leads into the successor
loop. -/
theorem dequeue_minv (g : Game) (s : Bfs) (lvl : Vec2 → Nat) (cur : Vec2)
    (hinv : BInv g s lvl) (hcur : s.queue.get? s.head = some cur)
    (hchk : cur = g.player.pos ∨ g.isTarget cur.x cur.y = false) :
    MInv g { s with head := s.head + 1 } lvl cur [] := by
  have hlt : s.head < s.queue.length := by
    rw [List.get?_eq_some] at hcur
    exact hcur.1
  have hc := hinv.core
  refine ⟨⟨hc.vis, hc.first, hc.lvl0, hc.nodup, hc.inb, hc.sorted, ?_, hc.lvlIdx, ?_, ?_⟩,
    Nat.succ_pos _, hcur, hinv.closed1, ?_, hinv.front cur hcur⟩
  · intro c hcq hne
    obtain ⟨⟨j, hj, hjq⟩, h2, h3, h4⟩ := hc.par c hcq hne
    exact ⟨⟨j, Nat.lt_succ_of_lt hj, hjq⟩, h2, h3, h4⟩
  · intro i c hi hq
    by_cases h : i < s.head
    · exact hc.checked i c h hq
    · have hi2 : i = s.head := by
        have : i < s.head + 1 := hi
        omega
      rw [hi2, hcur] at hq
      cases hq
      exact hchk
  · exact hlt
  · intro d hd
    cases hd

theorem bfsPush_cases (m : Map) (cur : Vec2) (s : Bfs) (d : Int × Int) :
    (bfsPush m cur s d = s ∧
      (m.passable false (cur.x + d.1) (cur.y + d.2) = false ∨
        (⟨cur.x + d.1, cur.y + d.2⟩ : Vec2) ∈ s.visited)) ∨
    (bfsPush m cur s d =
        { s with visited := ⟨cur.x + d.1, cur.y + d.2⟩ :: s.visited,
                 parent := (⟨cur.x + d.1, cur.y + d.2⟩, cur) :: s.parent,
                 queue := s.queue ++ [⟨cur.x + d.1, cur.y + d.2⟩] } ∧
      m.passable false (cur.x + d.1) (cur.y + d.2) = true ∧
      (⟨cur.x + d.1, cur.y + d.2⟩ : Vec2) ∉ s.visited) := by
  unfold bfsPush
  dsimp only
  by_cases hb : m.inBounds (cur.x + d.1) (cur.y + d.2) = true
  swap
  · left
    simp [hb, Map.passable]
  by_cases hv : (⟨cur.x + d.1, cur.y + d.2⟩ : Vec2) ∈ s.visited
  · left
    simp [hb, hv]
  by_cases hw : m.isWalkable (cur.x + d.1) (cur.y + d.2) = true
  swap
  · left
    simp [hb, hv, hw, Map.passable]
  · right
    simp [hb, hv, hw, Map.passable]

/-- One direction of the successor loop keeps the invariant. -/
theorem bfsPush_minv (g : Game) (s : Bfs) (lvl : Vec2 → Nat) (cur : Vec2)
    (ds : List (Int × Int)) (d : Int × Int) (hd : d ∈ dirs4) (h : MInv g s lvl cur ds) :
    ∃ lvl1, MInv g (bfsPush g.map cur s d) lvl1 cur (d :: ds) := by
  have hc := h.core
  have hmemv : ∀ c, c ∈ s.visited ↔ c ∈ s.queue := by
    intro c; rw [hc.vis, List.mem_reverse]
  rcases bfsPush_cases g.map cur s d with ⟨heq, hwhy⟩ | ⟨heq, hpass, hnv⟩
  · rw [heq]
    refine ⟨lvl, hc, h.headPos, h.curAt, h.closed0, ?_, h.frontCur⟩
    intro d1 hd1 hp
    rcases List.mem_cons.mp hd1 with h1 | h1
    · subst h1
      rcases hwhy with hw | hw
      · rw [hw] at hp; cases hp
      · have hq := (hmemv _).mp hw
        exact ⟨hq, h.frontCur _ hq⟩
    · exact h.sofar d1 h1 hp
  · rw [heq]
    have hnq : (⟨cur.x + d.1, cur.y + d.2⟩ : Vec2) ∉ s.queue := fun hq => hnv ((hmemv _).mpr hq)
    have hcurq : cur ∈ s.queue := List.get?_mem h.curAt
    have hposq : g.player.pos ∈ s.queue := List.get?_mem hc.first
    refine ⟨Function.update lvl ⟨cur.x + d.1, cur.y + d.2⟩ (lvl cur + 1), ?_⟩
    have hl : ∀ c ∈ s.queue,
        Function.update lvl ⟨cur.x + d.1, cur.y + d.2⟩ (lvl cur + 1) c = lvl c := by
      intro c hcq
      have hne : c ≠ (⟨cur.x + d.1, cur.y + d.2⟩ : Vec2) := fun hcn => hnq (hcn ▸ hcq)
      exact Function.update_noteq hne _ _
    have hln : Function.update lvl ⟨cur.x + d.1, cur.y + d.2⟩ (lvl cur + 1)
        ⟨cur.x + d.1, cur.y + d.2⟩ = lvl cur + 1 := Function.update_same _ _ _
    have hpar : ∀ c ∈ s.queue,
        ((⟨cur.x + d.1, cur.y + d.2⟩, cur) :: s.parent).lookup c = s.parent.lookup c := by
      intro c hcq
      have hne : c ≠ (⟨cur.x + d.1, cur.y + d.2⟩ : Vec2) := fun hcn => hnq (hcn ▸ hcq)
      rw [List.lookup_cons]
      have : (c == (⟨cur.x + d.1, cur.y + d.2⟩ : Vec2)) = false := by simpa using hne
      rw [this]
    have hparn : ((⟨cur.x + d.1, cur.y + d.2⟩, cur) :: s.parent).lookup
        (⟨cur.x + d.1, cur.y + d.2⟩ : Vec2) = some cur := by
      rw [List.lookup_cons]; simp
    have hcurlvl : lvl cur + 1 ≤ s.head := by
      have := hc.lvlIdx _ _ h.curAt
      have := h.headPos
      omega
    refine ⟨⟨?_, ?_, ?_, ?_, ?_, ?_, ?_, ?_, ?_, ?_⟩, h.headPos, ?_, ?_, ?_, ?_⟩
    · show _ :: s.visited = (s.queue ++ [_]).reverse
      rw [hc.vis]; simp
    · show (s.queue ++ [_]).get? 0 = _
      rw [get?_snoc]; exact Or.inl hc.first
    · rw [hl _ hposq]; exact hc.lvl0
    · show (s.queue ++ [_]).Nodup
      rw [List.nodup_append]
      refine ⟨hc.nodup, List.nodup_singleton _, ?_⟩
      intro a ha hb
      rw [List.mem_singleton] at hb
      exact hnq (hb ▸ ha)
    · intro c hcq
      have hcq1 : c ∈ s.queue ++ [(⟨cur.x + d.1, cur.y + d.2⟩ : Vec2)] := hcq
      rw [List.mem_append, List.mem_singleton] at hcq1
      rcases hcq1 with h1 | h1
      · exact hc.inb c h1
      · rw [h1]
        unfold Map.passable at hpass
        rw [Bool.and_eq_true] at hpass
        exact hpass.1
    · intro i j a b hij ha hb
      have ha1 : (s.queue ++ [(⟨cur.x + d.1, cur.y + d.2⟩ : Vec2)]).get? i = some a := ha
      have hb1 : (s.queue ++ [(⟨cur.x + d.1, cur.y + d.2⟩ : Vec2)]).get? j = some b := hb
      rw [get?_snoc] at ha1 hb1
      rcases ha1 with ha1 | ⟨ha1, ha2⟩ <;> rcases hb1 with hb1 | ⟨hb1, hb2⟩
      · rw [hl a (List.get?_mem ha1), hl b (List.get?_mem hb1)]
        exact hc.sorted i j a b hij ha1 hb1
      · rw [hl a (List.get?_mem ha1), hb2, hln]
        exact h.frontCur a (List.get?_mem ha1)
      · exfalso
        have : j < s.queue.length := (List.get?_eq_some.mp hb1).1
        omega
      · rw [ha2, hb2]
    · intro c hcq hne
      have hcq1 : c ∈ s.queue ++ [(⟨cur.x + d.1, cur.y + d.2⟩ : Vec2)] := hcq
      rw [List.mem_append, List.mem_singleton] at hcq1
      rcases hcq1 with h1 | h1
      · obtain ⟨⟨j, hj, hjq⟩, p2, p3, p4⟩ := hc.par c h1 hne
        have hpa : Bfs.parentAt { s with
            visited := ⟨cur.x + d.1, cur.y + d.2⟩ :: s.visited,
            parent := (⟨cur.x + d.1, cur.y + d.2⟩, cur) :: s.parent,
            queue := s.queue ++ [⟨cur.x + d.1, cur.y + d.2⟩] } c = s.parentAt c := by
          unfold Bfs.parentAt
          show (List.lookup c ((⟨cur.x + d.1, cur.y + d.2⟩, cur) :: s.parent)).getD _ = _
          rw [hpar c h1]
        rw [hpa]
        refine ⟨⟨j, hj, ?_⟩, p2, p3, ?_⟩
        · show (s.queue ++ [_]).get? j = _
          rw [get?_snoc]; exact Or.inl hjq
        · rw [hl c h1, hl _ (List.get?_mem hjq)]; exact p4
      · have hpa : Bfs.parentAt { s with
            visited := ⟨cur.x + d.1, cur.y + d.2⟩ :: s.visited,
            parent := (⟨cur.x + d.1, cur.y + d.2⟩, cur) :: s.parent,
            queue := s.queue ++ [⟨cur.x + d.1, cur.y + d.2⟩] } c = cur := by
          unfold Bfs.parentAt
          show (List.lookup c ((⟨cur.x + d.1, cur.y + d.2⟩, cur) :: s.parent)).getD _ = _
          rw [h1, hparn]; rfl
        rw [hpa, h1]
        have hlt1 : s.head - 1 < s.head := by have := h.headPos; omega
        refine ⟨⟨s.head - 1, hlt1, ?_⟩,
          cardinal_of_dir cur d hd _ _ rfl rfl, hpass, ?_⟩
        · show (s.queue ++ [_]).get? (s.head - 1) = _
          rw [get?_snoc]; exact Or.inl h.curAt
        · rw [hln, hl cur hcurq]
    · intro i c hq
      have hq1 : (s.queue ++ [(⟨cur.x + d.1, cur.y + d.2⟩ : Vec2)]).get? i = some c := hq
      rw [get?_snoc] at hq1
      rcases hq1 with h1 | ⟨h1, h2⟩
      · rw [hl c (List.get?_mem h1)]; exact hc.lvlIdx i c h1
      · rw [h2, hln, h1]
        have := hc.headLe
        omega
    · intro i c hi hq
      have hq1 : (s.queue ++ [(⟨cur.x + d.1, cur.y + d.2⟩ : Vec2)]).get? i = some c := hq
      have hi1 : i < s.head := hi
      rw [get?_snoc] at hq1
      rcases hq1 with h1 | ⟨h1, _⟩
      · exact hc.checked i c hi1 h1
      · have := hc.headLe
        omega
    · show s.head ≤ (s.queue ++ [_]).length
      have := hc.headLe
      simp only [List.length_append, List.length_singleton]
      omega
    · show (s.queue ++ [_]).get? (s.head - 1) = _
      rw [get?_snoc]; exact Or.inl h.curAt
    · intro i b hi hq c hcard hp
      have hq1 : (s.queue ++ [(⟨cur.x + d.1, cur.y + d.2⟩ : Vec2)]).get? i = some b := hq
      have hi1 : i < s.head - 1 := hi
      rw [get?_snoc] at hq1
      rcases hq1 with h1 | ⟨h1, _⟩
      · obtain ⟨q1, q2⟩ := h.closed0 i b hi1 h1 c hcard hp
        refine ⟨?_, ?_⟩
        · show c ∈ s.queue ++ [_]
          exact List.mem_append_left _ q1
        · rw [hl c q1, hl b (List.get?_mem h1)]; exact q2
      · have := hc.headLe
        omega
    · intro d1 hd1 hp
      rcases List.mem_cons.mp hd1 with h1 | h1
      · subst h1
        refine ⟨?_, ?_⟩
        · show _ ∈ s.queue ++ [_]
          exact List.mem_append_right _ (List.mem_singleton_self _)
        · rw [hln, hl cur hcurq]
      · obtain ⟨q1, q2⟩ := h.sofar d1 h1 hp
        refine ⟨?_, ?_⟩
        · show _ ∈ s.queue ++ [_]
          exact List.mem_append_left _ q1
        · rw [hl _ q1, hl cur hcurq]; exact q2
    · intro c hcq
      have hcq1 : c ∈ s.queue ++ [(⟨cur.x + d.1, cur.y + d.2⟩ : Vec2)] := hcq
      rw [List.mem_append, List.mem_singleton] at hcq1
      rcases hcq1 with h1 | h1
      · rw [hl c h1, hl cur hcurq]; exact h.frontCur c h1
      · rw [h1, hln, hl cur hcurq]

theorem expand_minv (g : Game) (cur : Vec2) (ds acc : List (Int × Int)) (s : Bfs)
    (lvl : Vec2 → Nat) (hds : ∀ d ∈ ds, d ∈ dirs4) (h : MInv g s lvl cur acc) :
    ∃ lvl1, MInv g (ds.foldl (bfsPush g.map cur) s) lvl1 cur (ds.reverse ++ acc) := by
  induction ds generalizing s lvl acc with
  | nil => exact ⟨lvl, h⟩
  | cons d ds ih =>
    obtain ⟨lvl1, h1⟩ := bfsPush_minv g s lvl cur acc d (hds d (List.mem_cons_self _ _)) h
    obtain ⟨lvl2, h2⟩ := ih (d :: acc) (bfsPush g.map cur s d) lvl1
      (fun x hx => hds x (List.mem_cons_of_mem _ hx)) h1
    refine ⟨lvl2, ?_⟩
    simp only [List.foldl_cons, List.reverse_cons, List.append_assoc, List.singleton_append]
    exact h2

/-- When every direction has been handled the loop invariant holds again. -/
theorem finish_binv (g : Game) (s : Bfs) (lvl : Vec2 → Nat) (cur : Vec2)
    (ds : List (Int × Int)) (hall : ∀ d ∈ dirs4, d ∈ ds) (h : MInv g s lvl cur ds) :
    BInv g s lvl := by
  have hc := h.core
  refine ⟨hc, ?_, ?_⟩
  · intro i b hi hq c hcard hp
    by_cases hlt : i < s.head - 1
    · exact h.closed0 i b hlt hq c hcard hp
    · have hi2 : i = s.head - 1 := by omega
      rw [hi2, h.curAt] at hq
      have hb : cur = b := Option.some.inj hq
      subst hb
      obtain ⟨d, hd, hcd⟩ := cardinal_dir cur c hcard
      subst hcd
      exact h.sofar d (hall d hd) hp
  · intro hd hq c hcq
    have h1 := h.frontCur c hcq
    have h2 : lvl cur ≤ lvl hd :=
      hc.sorted (s.head - 1) s.head cur hd (Nat.sub_le _ _) h.curAt hq
    omega

/-- Every cell that the player reaches in `n` steps is queued at a level of at most `n`,
unless the level at the head of the queue is still below `n`. -/
theorem reach_queued (g : Game) (s : Bfs) (lvl : Vec2 → Nat) (hinv : BInv g s lvl)
    (n : Nat) (c : Vec2) (hw : WalkN g.map n g.player.pos c) :
    (c ∈ s.queue ∧ lvl c ≤ n) ∨ (∃ h, s.queue.get? s.head = some h ∧ lvl h < n) := by
  induction n generalizing c with
  | zero =>
    cases hw
    exact Or.inl ⟨List.get?_mem hinv.core.first, by rw [hinv.core.lvl0]⟩
  | succ k ih =>
    obtain ⟨b, hb1, hb2, hb3⟩ := walkN_unsnoc g.map k g.player.pos c hw
    rcases ih b hb1 with ⟨hbq, hbl⟩ | ⟨h, hh1, hh2⟩
    · obtain ⟨i, hi⟩ := List.mem_iff_get?.mp hbq
      by_cases hlt : i < s.head
      · obtain ⟨q1, q2⟩ := hinv.closed1 i b hlt hi c hb2 hb3
        exact Or.inl ⟨q1, by omega⟩
      · have hlen : i < s.queue.length := (List.get?_eq_some.mp hi).1
        have hhl : s.head < s.queue.length := by omega
        refine Or.inr ⟨s.queue.get ⟨s.head, hhl⟩, List.get?_eq_get hhl, ?_⟩
        have := hinv.core.sorted s.head i _ b (by omega) (List.get?_eq_get hhl) hi
        omega
    · exact Or.inr ⟨h, hh1, by omega⟩

/-- Backtracking from a queued cell other than the player's ends at a walkable cardinal
neighbour of the player from which the cell is `lvl - 1` steps away. -/
theorem bfsTrace_ok (g : Game) (s : Bfs) (lvl : Vec2 → Nat) (hc : BCore g s lvl)
    (fuel : Nat) (t : Vec2) (ht : t ∈ s.queue) (hne : t ≠ g.player.pos)
    (hfuel : lvl t ≤ fuel) :
    ∃ v d, bfsTrace g.map s g.player.pos fuel t = some v ∧ cardinal g.player.pos v ∧
      g.map.passable false v.x v.y = true ∧ WalkN g.map d v t ∧ d + 1 = lvl t := by
  induction fuel generalizing t with
  | zero =>
    obtain ⟨_, _, _, h4⟩ := hc.par t ht hne
    omega
  | succ n ih =>
    obtain ⟨⟨j, _, hjq⟩, h2, h3, h4⟩ := hc.par t ht hne
    unfold bfsTrace
    have hin : g.map.inBounds t.x t.y = true := hc.inb t ht
    simp only [hin, Bool.not_true, Bool.false_eq_true, if_false]
    by_cases hpp : s.parentAt t = g.player.pos
    · have hcond : ¬ ((s.parentAt t).x ≠ g.player.pos.x ∨ (s.parentAt t).y ≠ g.player.pos.y) := by
        rw [hpp]; simp
      rw [if_neg hcond]
      refine ⟨t, 0, rfl, hpp ▸ h2, h3, WalkN.refl t, ?_⟩
      rw [h4, hpp, hc.lvl0]
    · have hcond : (s.parentAt t).x ≠ g.player.pos.x ∨ (s.parentAt t).y ≠ g.player.pos.y := by
        by_contra hcon
        push_neg at hcon
        exact hpp (vec2_eq_of _ _ hcon.1 hcon.2)
      rw [if_pos hcond]
      obtain ⟨v, d, hv1, hv2, hv3, hv4, hv5⟩ :=
        ih (s.parentAt t) (List.get?_mem hjq) hpp (by omega)
      exact ⟨v, d + 1, hv1, hv2, hv3, walkN_snoc g.map d v _ t hv4 h2 h3, by omega⟩

/-- A duplicate-free list of in-bounds cells is no longer than the grid has cells. -/
theorem inBounds_card (m : Map) (l : List Vec2) (hnd : l.Nodup)
    (hin : ∀ c ∈ l, m.inBounds c.x c.y = true) : l.length ≤ m.WIDTH * m.HEIGHT := by
  have hb : ∀ c ∈ l, 0 ≤ c.x ∧ c.x < (m.WIDTH : Int) ∧ 0 ≤ c.y ∧ c.y < (m.HEIGHT : Int) := by
    intro c hc
    have := hin c hc
    unfold Map.inBounds at this
    exact of_decide_eq_true this
  have hnd2 : (l.map (fun c : Vec2 => (c.x.toNat, c.y.toNat))).Nodup := by
    apply List.Nodup.map_on _ hnd
    intro a ha b hb2 hab
    have h1 := hb a ha
    have h2 := hb b hb2
    simp only [Prod.mk.injEq] at hab
    apply vec2_eq_of
    · omega
    · omega
  have hsub : (l.map (fun c : Vec2 => (c.x.toNat, c.y.toNat))).toFinset ⊆
      Finset.range m.WIDTH ×ˢ Finset.range m.HEIGHT := by
    intro p hp
    rw [List.mem_toFinset, List.mem_map] at hp
    obtain ⟨c, hc, rfl⟩ := hp
    have h1 := hb c hc
    rw [Finset.mem_product, Finset.mem_range, Finset.mem_range]
    constructor <;> omega
  have hcard := Finset.card_le_card hsub
  rw [List.toFinset_card_of_nodup hnd2, List.length_map, Finset.card_product,
    Finset.card_range, Finset.card_range] at hcard
  exact hcard

theorem bfsPush_head (m : Map) (cur : Vec2) (s : Bfs) (d : Int × Int) :
    (bfsPush m cur s d).head = s.head := by
  rcases bfsPush_cases m cur s d with ⟨h, _⟩ | ⟨h, _⟩ <;> rw [h]

theorem expand_head (m : Map) (cur : Vec2) (ds : List (Int × Int)) (s : Bfs) :
    (ds.foldl (bfsPush m cur) s).head = s.head := by
  induction ds generalizing s with
  | nil => rfl
  | cons d ds ih => simp only [List.foldl_cons]; rw [ih, bfsPush_head]

theorem bfsTrace_congr (m : Map) (s s1 : Bfs) (hp : s1.parent = s.parent) (pos : Vec2)
    (fuel : Nat) (t : Vec2) : bfsTrace m s1 pos fuel t = bfsTrace m s pos fuel t := by
  induction fuel generalizing t with
  | zero => rfl
  | succ n ih =>
    unfold bfsTrace
    have : s1.parentAt t = s.parentAt t := by unfold Bfs.parentAt; rw [hp]
    simp only [this, ih]

theorem inBounds_ne_noPath (m : Map) (v : Vec2) (h : m.inBounds v.x v.y = true) :
    v ≠ noPath := by
  intro hv
  unfold Map.inBounds at h
  have h1 := of_decide_eq_true h
  rw [hv] at h1
  simp [noPath] at h1

theorem bfsInit_inv (g : Game) (hin : g.map.inBounds g.player.pos.x g.player.pos.y = true) :
    BInv g g.bfsInit (fun _ => 0) := by
  refine ⟨⟨rfl, rfl, rfl, List.nodup_singleton _, ?_, ?_, ?_, ?_, ?_, Nat.zero_le _⟩, ?_, ?_⟩
  · intro c hc
    have hc1 : c ∈ [g.player.pos] := hc
    rw [List.mem_singleton] at hc1
    rw [hc1]; exact hin
  · intro i j a b _ _ _; exact le_refl _
  · intro c hc hne
    have hc1 : c ∈ [g.player.pos] := hc
    rw [List.mem_singleton] at hc1
    exact absurd hc1 hne
  · intro i c _; exact Nat.zero_le _
  · intro i c hi _
    have : i < 0 := hi
    omega
  · intro i b hi
    have : i < 0 := hi
    omega
  · intro h _ c _; exact Nat.zero_le _

/-- With a budget above the number of cells not yet dequeued the planner's loop returns a
cell that satisfies the contract. -/
theorem bfsLoop_spec (g : Game) (fuel : Nat) (s : Bfs) (lvl : Vec2 → Nat)
    (hinv : BInv g s lvl) (hfuel : g.map.WIDTH * g.map.HEIGHT - s.head < fuel) :
    ∃ v, g.bfsLoop fuel s = some v ∧ g.planOK v := by
  induction fuel generalizing s lvl with
  | zero => omega
  | succ n ih =>
    have hc := hinv.core
    have hlen := inBounds_card g.map s.queue hc.nodup hc.inb
    unfold Game.bfsLoop
    by_cases hlt : s.head < s.queue.length
    · rw [if_pos hlt]
      have hcur : s.queue.get? s.head = some (s.queue.get ⟨s.head, hlt⟩) :=
        List.get?_eq_get hlt
      generalize s.queue.get ⟨s.head, hlt⟩ = cur at hcur
      unfold Game.bfsBody
      simp only [hcur]
      by_cases hchk : (cur.x = g.player.pos.x ∧ cur.y = g.player.pos.y) ∨
          g.isTarget cur.x cur.y = false
      · rw [if_pos hchk]
        have hchk2 : cur = g.player.pos ∨ g.isTarget cur.x cur.y = false :=
          hchk.imp (fun h => vec2_eq_of _ _ h.1 h.2) id
        have hm := dequeue_minv g s lvl cur hinv hcur hchk2
        obtain ⟨lvl1, hm1⟩ := expand_minv g cur dirs4 [] _ lvl (fun d hd => hd) hm
        have hb := finish_binv g _ lvl1 cur _
          (fun d hd => List.mem_append_left _ (List.mem_reverse.mpr hd)) hm1
        apply ih _ lvl1 hb
        rw [expand_head]
        show g.map.WIDTH * g.map.HEIGHT - (s.head + 1) < n
        omega
      · rw [if_neg hchk]
        push_neg at hchk
        obtain ⟨hnp, htg⟩ := hchk
        have hne : cur ≠ g.player.pos := fun h => by
          rw [h] at hnp
          exact absurd rfl (hnp rfl)
        have htg1 : g.isTarget cur.x cur.y = true := by
          cases hx : g.isTarget cur.x cur.y
          · exact absurd hx htg
          · rfl
        have hcq : cur ∈ s.queue := List.get?_mem hcur
        have hlv : lvl cur ≤ s.queue.length := by
          have := hc.lvlIdx _ _ hcur
          omega
        obtain ⟨v, d, hv1, hv2, hv3, hv4, hv5⟩ :=
          bfsTrace_ok g s lvl hc s.queue.length cur hcq hne hlv
        refine ⟨v, ?_, ?_⟩
        · rw [bfsTrace_congr g.map s { s with head := s.head + 1 } rfl]
          exact hv1
        · right
          have hp := hv3
          unfold Map.passable at hp
          rw [Bool.and_eq_true] at hp
          have hw : g.map.isWalkable v.x v.y = true := by simpa using hp.2
          refine ⟨inBounds_ne_noPath g.map v hp.1, hv2, hp.1, hw, cur, d, hne,
            (isTarget_iff g cur).mp htg1, hv4, ?_⟩
          intro t1 n1 ht1 htt hwalk
          rcases reach_queued g s lvl hinv n1 t1 hwalk with ⟨hq, hl⟩ | ⟨h, hh1, hh2⟩
          · obtain ⟨i, hi⟩ := List.mem_iff_get?.mp hq
            by_cases hih : i < s.head
            · rcases hc.checked i t1 hih hi with h1 | h1
              · exact absurd h1 ht1
              · rw [(isTarget_iff g t1).mpr htt] at h1
                cases h1
            · have := hc.sorted s.head i cur t1 (by omega) hcur hi
              omega
          · rw [hcur] at hh1
            cases hh1
            omega
    · rw [if_neg hlt]
      refine ⟨noPath, rfl, Or.inl ⟨rfl, ?_⟩⟩
      rintro ⟨t, n1, ht1, htt, hwalk⟩
      rcases reach_queued g s lvl hinv n1 t hwalk with ⟨hq, _⟩ | ⟨h, hh1, _⟩
      · obtain ⟨i, hi⟩ := List.mem_iff_get?.mp hq
        have hil : i < s.queue.length := (List.get?_eq_some.mp hi).1
        rcases hc.checked i t (by omega) hi with h1 | h1
        · exact absurd h1 ht1
        · rw [(isTarget_iff g t).mpr htt] at h1
          cases h1
      · have : s.head < s.queue.length := (List.get?_eq_some.mp hh1).1
        exact absurd this hlt

theorem bfsNextStep_planOK (g : Game)
    (hin : g.map.inBounds g.player.pos.x g.player.pos.y = true) :
    ∃ v, g.bfsNextStep = some v ∧ g.planOK v := by
  unfold Game.bfsNextStep
  simp only [hin, Bool.not_true, Bool.false_eq_true, if_false]
  apply bfsLoop_spec g _ g.bfsInit (fun _ => 0) (bfsInit_inv g hin)
  show g.map.WIDTH * g.map.HEIGHT - 0 < g.map.WIDTH * g.map.HEIGHT + 1
  omega

/-- C10. With the player inside the grid `Game::bfsNextStep` returns a cell. It is the
sentinel (-1, -1) exactly when no target tile other than the player's own is reachable
from the player through walkable 4-connected tiles; otherwise it is a walkable cardinal
neighbour of the player from which some target is `d` walkable steps away, while no
target is fewer than `d + 1` steps away from the player: the cell is the first step of a
shortest path to a nearest target. -/
theorem bfsNextStep_spec (g : Game)
    (hin : g.map.inBounds g.player.pos.x g.player.pos.y = true) :
    ∃ v, g.bfsNextStep = some v ∧
      (v = noPath ↔
        ¬ ∃ t n, t ≠ g.player.pos ∧ g.targetTile t ∧ WalkN g.map n g.player.pos t) ∧
      (v ≠ noPath →
        cardinal g.player.pos v ∧ g.map.inBounds v.x v.y = true ∧
        g.map.isWalkable v.x v.y = true ∧
        ∃ t d, t ≠ g.player.pos ∧ g.targetTile t ∧ WalkN g.map d v t ∧
          ∀ t1 n1, t1 ≠ g.player.pos → g.targetTile t1 →
            WalkN g.map n1 g.player.pos t1 → d + 1 ≤ n1) := by
  obtain ⟨v, hv, hplan⟩ := bfsNextStep_planOK g hin
  refine ⟨v, hv, ?_, ?_⟩
  · rcases hplan with ⟨h1, h2⟩ | ⟨h1, h2, h3, h4, t, d, h5, h6, h7, _⟩
    · exact ⟨fun _ => h2, fun _ => h1⟩
    · constructor
      · intro h; exact absurd h h1
      · intro hno
        exfalso
        apply hno
        refine ⟨t, d + 1, h5, h6, WalkN.cons d g.player.pos v t h2 ?_ h7⟩
        simp [Map.passable, h3, h4]
  · intro hne
    rcases hplan with ⟨h1, _⟩ | ⟨_, h2, h3, h4, h5⟩
    · exact absurd h1 hne
    · exact ⟨h2, h3, h4, h5⟩

/-- C10 on a fully explored floor with one visible living enemy at (3, 2) and no items:
the planner returns (0, 1), from which the enemy is `d` steps away, and no walkable path
from the player to the enemy is shorter than `d + 1`. -/
theorem bfsNextStep_spec_witness :
    exploredScene.map.inBounds exploredScene.player.pos.x exploredScene.player.pos.y = true ∧
    exploredScene.bfsNextStep = some ⟨0, 1⟩ ∧
    ∃ d, WalkN exploredScene.map d ⟨0, 1⟩ ⟨3, 2⟩ ∧
      ∀ n1, WalkN exploredScene.map n1 exploredScene.player.pos ⟨3, 2⟩ → d + 1 ≤ n1 := by
  have hrun : exploredScene.bfsNextStep = some ⟨0, 1⟩ := by decide
  obtain ⟨v, hv, _, h⟩ := bfsNextStep_spec exploredScene (by decide)
  have hv1 : v = ⟨0, 1⟩ := by
    rw [hrun] at hv
    exact (Option.some.inj hv).symm
  subst hv1
  obtain ⟨_, _, _, t, d, ht1, ht2, ht3, ht4⟩ := h (by decide)
  have honly : ∀ c, exploredScene.targetTile c → c = ⟨3, 2⟩ := by
    intro c hc
    rcases hc with ⟨_, e, he, _, hpos⟩ | ⟨_, it, hit, _⟩ | hex
    · have he1 : e ∈ [Enemy.create EnemyType.Rat ⟨3, 2⟩] := he
      rw [List.mem_singleton] at he1
      rw [← hpos, he1]
      rfl
    · have hit1 : it ∈ ([] : List Item) := hit
      cases hit1
    · have : exploredScene.map.isExplored c.x c.y = true := rfl
      rw [this] at hex
      cases hex
  have ht : t = ⟨3, 2⟩ := honly t ht2
  subst ht
  exact ⟨by decide, hrun, d, ht3, fun n1 hn1 => ht4 ⟨3, 2⟩ n1 ht1 ht2 hn1⟩

/-! ## Theorems: inventory and equipment -/

theorem inventory_get_range (inv : Inventory) (i : Int) (item : Item)
    (h : inv.get i = some item) :
    0 ≤ i ∧ i < inv.size ∧ inv.items.get? i.toNat = some item := by
  unfold Inventory.get at h
  split at h
  · rename_i hr
    exact ⟨hr.1, hr.2, h⟩
  · cases h

theorem inventory_remove_items (inv : Inventory) (i : Int) (h0 : 0 ≤ i) (h1 : i < inv.size) :
    (inv.remove i).items = inv.items.eraseIdx i.toNat ∧
    (inv.remove i).size = inv.size - 1 := by
  unfold Inventory.remove
  rw [if_pos ⟨h0, h1⟩]
  refine ⟨rfl, ?_⟩
  unfold Inventory.size at *
  dsimp only
  have hlt : i.toNat < inv.items.length := by omega
  rw [List.length_eraseIdx, if_pos hlt]
  omega

theorem inventory_add_room (inv : Inventory) (item : Item) (h : inv.size < 10) :
    (inv.add item).1 = true ∧
    (inv.add item).2.items = inv.items ++ [{ item with onGround := false }] ∧
    (inv.add item).2.size = inv.size + 1 := by
  unfold Inventory.add Inventory.isFull Inventory.MAX_ITEMS
  have hn : ¬ inv.size ≥ 10 := by omega
  have hd : decide (inv.size ≥ 10) = false := by simp [hn]
  rw [hd]
  refine ⟨rfl, rfl, ?_⟩
  show Inventory.size { items := inv.items ++ [{ item with onGround := false }] } = _
  unfold Inventory.size
  simp

/-- C13. For an index below 0 or at least the inventory size, `useItem` and `equipItem`
return the empty string and the player is exactly as before. -/
theorem item_index_out_of_range (p : Player) (i : Int) (h : i < 0 ∨ i ≥ p.inventory.size) :
    p.useItem i = ("", p) ∧ p.equipItem i = ("", p) := by
  constructor
  · unfold Player.useItem
    rw [if_pos h]
  · unfold Player.equipItem
    rw [if_pos h]

theorem equipItem_weapon (p : Player) (i : Int) (item : Item)
    (hget : p.inventory.get i = some item) (hty : item.type = ItemType.Weapon) :
    p.equipItem i =
      ("Equipped " ++ item.name ++ ".",
        { p with inventory :=
                   if p.hasWeapon then
                     ((p.inventory.remove i).add { p.weaponSlot with onGround := false }).2
                   else p.inventory.remove i,
                 weaponSlot := item, hasWeapon := true, equippedWeapon := true }) := by
  obtain ⟨h0, h1, _⟩ := inventory_get_range p.inventory i item hget
  have hrange : ¬ (i < 0 ∨ i ≥ p.inventory.size) := by omega
  unfold Player.equipItem
  rw [if_neg hrange, hget]
  dsimp only
  rw [if_pos hty]

theorem equipItem_armor (p : Player) (i : Int) (item : Item)
    (hget : p.inventory.get i = some item) (hty : item.type = ItemType.Armor) :
    p.equipItem i =
      ("Equipped " ++ item.name ++ ".",
        { p with inventory :=
                   if p.hasArmor then
                     ((p.inventory.remove i).add { p.armorSlot with onGround := false }).2
                   else p.inventory.remove i,
                 armorSlot := item, hasArmor := true, equippedArmor := true }) := by
  obtain ⟨h0, h1, _⟩ := inventory_get_range p.inventory i item hget
  have hrange : ¬ (i < 0 ∨ i ≥ p.inventory.size) := by omega
  have hnw : ¬ item.type = ItemType.Weapon := by rw [hty]; decide
  unfold Player.equipItem
  rw [if_neg hrange, hget]
  dsimp only
  rw [if_neg hnw, if_pos hty]

/-- C12. For an inventory of at most `MAX_ITEMS` items and an in-range index holding a
Weapon (an Armor), `equipItem` succeeds: the slot holds that very item afterwards; when
the slot was occupied, the previous occupant (with `onGround` cleared) is the last item
of the inventory and the size is unchanged, otherwise the size drops by one; in both
cases the other items are the old ones in their old order. -/
theorem equipItem_spec (p : Player) (i : Int) (item : Item)
    (hsz : p.inventory.size ≤ Inventory.MAX_ITEMS) (hget : p.inventory.get i = some item) :
    (item.type = ItemType.Weapon →
      (p.equipItem i).1 = "Equipped " ++ item.name ++ "." ∧
      (p.equipItem i).2.weaponSlot = item ∧ (p.equipItem i).2.hasWeapon = true ∧
      (p.hasWeapon = true →
        (p.equipItem i).2.inventory.items
          = p.inventory.items.eraseIdx i.toNat ++ [{ p.weaponSlot with onGround := false }] ∧
        (p.equipItem i).2.inventory.size = p.inventory.size) ∧
      (p.hasWeapon = false →
        (p.equipItem i).2.inventory.items = p.inventory.items.eraseIdx i.toNat ∧
        (p.equipItem i).2.inventory.size = p.inventory.size - 1)) ∧
    (item.type = ItemType.Armor →
      (p.equipItem i).1 = "Equipped " ++ item.name ++ "." ∧
      (p.equipItem i).2.armorSlot = item ∧ (p.equipItem i).2.hasArmor = true ∧
      (p.hasArmor = true →
        (p.equipItem i).2.inventory.items
          = p.inventory.items.eraseIdx i.toNat ++ [{ p.armorSlot with onGround := false }] ∧
        (p.equipItem i).2.inventory.size = p.inventory.size) ∧
      (p.hasArmor = false →
        (p.equipItem i).2.inventory.items = p.inventory.items.eraseIdx i.toNat ∧
        (p.equipItem i).2.inventory.size = p.inventory.size - 1)) := by
  obtain ⟨h0, h1, _⟩ := inventory_get_range p.inventory i item hget
  have hrange : ¬ (i < 0 ∨ i ≥ p.inventory.size) := by omega
  obtain ⟨r1, r2⟩ := inventory_remove_items p.inventory i h0 h1
  have hroom : (p.inventory.remove i).size < 10 := by
    unfold Inventory.MAX_ITEMS at hsz
    omega
  obtain ⟨_, a2, a3⟩ := inventory_add_room (p.inventory.remove i)
    { p.weaponSlot with onGround := false } hroom
  obtain ⟨_, b2, b3⟩ := inventory_add_room (p.inventory.remove i)
    { p.armorSlot with onGround := false } hroom
  constructor
  · intro hty
    rw [equipItem_weapon p i item hget hty]
    refine ⟨rfl, rfl, rfl, ?_, ?_⟩
    · intro hw
      dsimp only
      rw [if_pos hw]
      exact ⟨by rw [a2, r1], by rw [a3, r2]; omega⟩
    · intro hw
      dsimp only
      rw [if_neg (by rw [hw]; decide)]
      exact ⟨r1, r2⟩
  · intro hty
    rw [equipItem_armor p i item hget hty]
    refine ⟨rfl, rfl, rfl, ?_, ?_⟩
    · intro hw
      dsimp only
      rw [if_pos hw]
      exact ⟨by rw [b2, r1], by rw [b3, r2]; omega⟩
    · intro hw
      dsimp only
      rw [if_neg (by rw [hw]; decide)]
      exact ⟨r1, r2⟩

/-- C12 on a full inventory of 10 items: the Sword at index 4 goes into the weapon slot
with its enchanted name and value, the Dagger it replaces becomes the last of again 10
items, and the potions keep their places. -/
theorem equipItem_spec_witness :
    (fullPack.inventory.size ≤ Inventory.MAX_ITEMS ∧ fullPack.inventory.size = 10 ∧
      fullPack.inventory.get 4 = some sharpSword ∧ sharpSword.type = ItemType.Weapon ∧
      fullPack.hasWeapon = true) ∧
    ((fullPack.equipItem 4).1 = "Equipped " ++ sharpSword.name ++ "." ∧
      (fullPack.equipItem 4).2.weaponSlot = sharpSword ∧
      (fullPack.equipItem 4).2.hasWeapon = true) ∧
    ((fullPack.equipItem 4).2.inventory.items
        = fullPack.inventory.items.eraseIdx (4 : Int).toNat
            ++ [{ fullPack.weaponSlot with onGround := false }] ∧
      (fullPack.equipItem 4).2.inventory.size = fullPack.inventory.size) ∧
    (fullPack.equipItem 4).2.inventory.items.map (fun it => (it.name, it.value))
      = [("Health Potion", 10), ("Health Potion", 10), ("Health Potion", 10),
         ("Health Potion", 10), ("Health Potion", 10), ("Health Potion", 10),
         ("Health Potion", 10), ("Health Potion", 10), ("Health Potion", 10),
         ("Dagger", 3)] ∧
    ((fullPack.equipItem 4).2.weaponSlot.name, (fullPack.equipItem 4).2.weaponSlot.value,
      (fullPack.equipItem 4).2.weaponSlot.enchantment)
      = ("Sharp Long Sword", 9, Enchantment.Sharp) :=
  ⟨⟨by decide, by decide, by decide, by decide, by decide⟩,
   ⟨((equipItem_spec fullPack 4 sharpSword (by decide) (by decide)).1 (by decide)).1,
    ((equipItem_spec fullPack 4 sharpSword (by decide) (by decide)).1 (by decide)).2.1,
    ((equipItem_spec fullPack 4 sharpSword (by decide) (by decide)).1 (by decide)).2.2.1⟩,
   ((equipItem_spec fullPack 4 sharpSword (by decide) (by decide)).1 (by decide)).2.2.2.1
     (by decide),
   by decide, by decide⟩

/-- C13 at the full inventory: index 10 and index -1 change nothing. -/
theorem item_index_out_of_range_witness :
    ((10 : Int) < 0 ∨ (10 : Int) ≥ fullPack.inventory.size) ∧
    ((-1 : Int) < 0 ∨ (-1 : Int) ≥ fullPack.inventory.size) ∧
    (fullPack.useItem 10 = ("", fullPack) ∧ fullPack.equipItem 10 = ("", fullPack)) ∧
    (fullPack.useItem (-1) = ("", fullPack) ∧ fullPack.equipItem (-1) = ("", fullPack)) :=
  ⟨by decide, by decide, item_index_out_of_range fullPack 10 (by decide),
   item_index_out_of_range fullPack (-1) (by decide)⟩

/-! ## Theorems: line of sight -/

/-- The occupancy invariant in terms of indices. -/
theorem occupancyOf_iff (es : List Enemy) (p : Vec2) :
    occupancyOf es p ↔
      (∀ i j ei ej, es.get? i = some ei → es.get? j = some ej → i ≠ j →
        ei.isAlive = true → ej.isAlive = true → ei.pos ≠ ej.pos) ∧
      (∀ i ei, es.get? i = some ei → ei.isAlive = true → ei.pos ≠ p) := by
  unfold occupancyOf
  constructor
  · rintro ⟨hp, hq⟩
    rw [List.pairwise_iff_getElem] at hp
    refine ⟨?_, ?_⟩
    · intro i j ei ej hi hj hne ha hb
      rw [List.get?_eq_getElem?, List.getElem?_eq_some] at hi hj
      obtain ⟨hi1, hi2⟩ := hi
      obtain ⟨hj1, hj2⟩ := hj
      rcases Nat.lt_or_gt_of_ne hne with h | h
      · have := hp i j hi1 hj1 h
        rw [hi2, hj2] at this
        exact this ha hb
      · have := hp j i hj1 hi1 h
        rw [hi2, hj2] at this
        exact fun hc => this hb ha hc.symm
    · intro i ei hi ha
      exact hq ei (List.mem_iff_get?.mpr ⟨i, hi⟩) ha
  · rintro ⟨hp, hq⟩
    refine ⟨?_, ?_⟩
    · rw [List.pairwise_iff_getElem]
      intro i j hi hj hlt ha hb
      exact hp i j _ _ (by rw [List.get?_eq_getElem?, List.getElem?_eq_some]; exact ⟨hi, rfl⟩)
        (by rw [List.get?_eq_getElem?, List.getElem?_eq_some]; exact ⟨hj, rfl⟩)
        (Nat.ne_of_lt hlt) ha hb
    · intro e he ha
      obtain ⟨i, hi⟩ := List.mem_iff_get?.mp he
      exact hq i e hi ha

theorem get?_set_self {α : Type} (l : List α) (i : Nat) (a b : α) (h : l.get? i = some a) :
    (l.set i b).get? i = some b := by
  rw [List.get?_eq_getElem?, List.getElem?_eq_some] at h
  obtain ⟨h1, _⟩ := h
  rw [List.get?_eq_getElem?, List.getElem?_set_self h1]

theorem get?_set_other {α : Type} (l : List α) (i j : Nat) (b : α) (h : j ≠ i) :
    (l.set i b).get? j = l.get? j := by
  rw [List.get?_eq_getElem?, List.get?_eq_getElem?, List.getElem?_set_ne (Ne.symm h)]

theorem set_get?_same {α : Type} (l : List α) (i : Nat) (a : α) (h : l.get? i = some a) :
    l.set i a = l := by
  apply List.ext_get?
  intro j
  by_cases hj : j = i
  · subst hj; rw [get?_set_self l j a a h, h]
  · rw [get?_set_other l i j a hj]

theorem get?_lt {α : Type} (l : List α) (i : Nat) (a : α) (h : l.get? i = some a) :
    i < l.length := by
  rw [List.get?_eq_getElem?, List.getElem?_eq_some] at h
  exact h.1

theorem get?_of_lt {α : Type} (l : List α) (i : Nat) (h : i < l.length) :
    ∃ a, l.get? i = some a :=
  ⟨l[i], by rw [List.get?_eq_getElem?, List.getElem?_eq_some]; exact ⟨h, rfl⟩⟩

/-- Writing a value at `idx` keeps the occupancy invariant when the new value, if alive,
stands neither on the player's cell nor on the cell of another living enemy. -/
theorem occupancyOf_set (es : List Enemy) (p : Vec2) (idx : Nat) (e2 : Enemy)
    (h : occupancyOf es p)
    (hfree : e2.isAlive = true → e2.pos ≠ p ∧
      ∀ j o, j ≠ idx → es.get? j = some o → o.isAlive = true → o.pos ≠ e2.pos) :
    occupancyOf (es.set idx e2) p := by
  rw [occupancyOf_iff] at h ⊢
  obtain ⟨hp, hq⟩ := h
  by_cases hlt : idx < es.length
  · obtain ⟨e, he⟩ := get?_of_lt es idx hlt
    refine ⟨?_, ?_⟩
    · intro i j ei ej hi hj hne ha hb
      by_cases hii : i = idx
      · subst hii
        rw [get?_set_self es i e e2 he] at hi
        rw [get?_set_other es i j e2 (Ne.symm hne)] at hj
        cases hi
        exact fun hc => (hfree ha).2 j ej (Ne.symm hne) hj hb hc.symm
      · rw [get?_set_other es idx i e2 hii] at hi
        by_cases hjj : j = idx
        · subst hjj
          rw [get?_set_self es j e e2 he] at hj
          cases hj
          exact (hfree hb).2 i ei hii hi ha
        · rw [get?_set_other es idx j e2 hjj] at hj
          exact hp i j ei ej hi hj hne ha hb
    · intro i ei hi ha
      by_cases hii : i = idx
      · subst hii
        rw [get?_set_self es i e e2 he] at hi
        cases hi
        exact (hfree ha).1
      · rw [get?_set_other es idx i e2 hii] at hi
        exact hq i ei hi ha
  · rw [List.set_eq_of_length_le (not_lt.mp hlt)]
    exact ⟨hp, hq⟩

/-- Appending an enemy on a free cell keeps the occupancy invariant. -/
theorem occupancyOf_snoc (es : List Enemy) (p : Vec2) (n : Enemy)
    (h : occupancyOf es p) (hp : n.pos ≠ p)
    (hfree : ∀ e ∈ es, e.isAlive = true → e.pos ≠ n.pos) :
    occupancyOf (es ++ [n]) p := by
  unfold occupancyOf at *
  obtain ⟨h1, h2⟩ := h
  refine ⟨?_, ?_⟩
  · rw [List.pairwise_append]
    refine ⟨h1, List.pairwise_singleton _ _, ?_⟩
    intro a ha b hb
    rw [List.mem_singleton] at hb
    subst hb
    intro hal _
    exact hfree a ha hal
  · intro e he
    rw [List.mem_append, List.mem_singleton] at he
    rcases he with he | he
    · exact h2 e he
    · subst he; intro _; exact hp

theorem enemyAtFrom_none (x y : Int) (es : List Enemy) :
    ∀ i, enemyAtFrom x y es i = none →
      ∀ e ∈ es, e.isAlive = true → e.pos ≠ ⟨x, y⟩ := by
  induction es with
  | nil => intro i _ e he; cases he
  | cons a as ih =>
    intro i h e he
    unfold enemyAtFrom at h
    split at h
    · cases h
    · rename_i hc
      rcases List.mem_cons.mp he with he | he
      · subst he
        intro hal hpos
        apply hc
        rw [hal, hpos]
        simp
      · exact ih (i + 1) h e he

/-- A cell that passes the summon test is walkable, holds no living enemy and is not the
player's cell. -/
theorem freeCell_spec (g : Game) (sp : Vec2) (h : g.freeCell sp = true) :
    g.map.isWalkable sp.x sp.y = true ∧ sp ≠ g.player.pos ∧
      ∀ e ∈ g.enemies, e.isAlive = true → e.pos ≠ sp := by
  unfold Game.freeCell at h
  simp only [Bool.and_eq_true, decide_eq_true_eq, Option.isNone_iff_eq_none] at h
  obtain ⟨⟨h1, h2⟩, h3⟩ := h
  exact ⟨h1, h3, enemyAtFrom_none sp.x sp.y g.enemies 0 h2⟩

theorem firstFree_spec (g : Game) (pos : Vec2) :
    ∀ (ds : List (Int × Int)) (sp : Vec2), g.firstFree pos ds = some sp →
      g.freeCell sp = true := by
  intro ds
  induction ds with
  | nil => intro sp h; cases h
  | cons d ds ih =>
    intro sp h
    unfold Game.firstFree at h
    split at h
    · rename_i hc
      cases h
      exact hc
    · exact ih sp h

theorem collidesFrom_false (idx : Nat) (pos : Vec2) (es : List Enemy) :
    ∀ k, collidesFrom idx pos es k = false →
      ∀ j o, es.get? j = some o → j + k ≠ idx → o.isAlive = true → o.pos ≠ pos := by
  induction es with
  | nil => intro k _ j o h; cases h
  | cons a as ih =>
    intro k h j o hj hne hal
    unfold collidesFrom at h
    cases j with
    | zero =>
      simp only [List.get?_cons_zero, Option.some.injEq] at hj
      subst hj
      have hc : ¬ (k = idx ∨ a.isAlive = false) := by
        rintro (h1 | h1)
        · apply hne; omega
        · rw [hal] at h1; cases h1
      rw [if_neg hc] at h
      split at h
      · cases h
      · rename_i hp
        exact fun hh => hp hh.symm
    | succ j =>
      simp only [List.get?_cons_succ] at hj
      have hrec : collidesFrom idx pos as (k + 1) = false := by
        split at h
        · exact h
        · split at h
          · cases h
          · exact h
      exact ih (k + 1) hrec j o hj (by omega) hal

theorem addMessage_map (g : Game) (msg : String) : (g.addMessage msg).map = g.map := by
  rw [addMessage_eq]

theorem addMessage_difficulty (g : Game) (msg : String) :
    (g.addMessage msg).difficulty = g.difficulty := by
  rw [addMessage_eq]

theorem addMessage_capacity (g : Game) (msg : String) :
    (g.addMessage msg).enemyCapacity = g.enemyCapacity := by
  unfold Game.addMessage; dsimp only; split <;> rfl

theorem addMessage_rand (g : Game) (msg : String) : (g.addMessage msg).rand = g.rand := by
  rw [addMessage_eq]

theorem enrageStep_refl (e : Enemy) : enrageStep e e := Or.inl ⟨rfl, rfl⟩

theorem enrageStep_trans (a b c : Enemy) (h1 : enrageStep a b) (h2 : enrageStep b c) :
    enrageStep a c := by
  unfold enrageStep at *
  rcases h1 with ⟨h1, h1a⟩ | ⟨h1, h1b, h1a⟩
  · rcases h2 with ⟨h2, h2a⟩ | ⟨h2, h2b, h2a⟩
    · exact Or.inl ⟨h2.trans h1, h2a.trans h1a⟩
    · exact Or.inr ⟨h1 ▸ h2, h2b, by rw [h2a, h1a]⟩
  · rcases h2 with ⟨h2, h2a⟩ | ⟨h2, h2b, h2a⟩
    · exact Or.inr ⟨h1, h2.trans h1b, by rw [h2a, h1a]⟩
    · rw [h1b] at h2; cases h2

theorem same_refl (e : Enemy) : Same e e :=
  ⟨rfl, rfl, rfl, fun h => h, enrageStep_refl e⟩

theorem same_trans (a b c : Enemy) (h1 : Same a b) (h2 : Same b c) : Same a c :=
  ⟨h2.type.trans h1.type, h2.hp.trans h1.hp, h2.maxHp.trans h1.maxHp,
   fun h => h2.awake (h1.awake h), enrageStep_trans a b c h1.rage h2.rage⟩

theorem same_alive (a b : Enemy) (h : Same a b) : b.isAlive = a.isAlive := by
  unfold Entity.isAlive
  rw [h.hp]

/-- A step that writes a new value at `idx` and leaves the rest of the list, the grid, the
player's cell and the difficulty alone. -/
theorem evolve_set (idx : Nat) (g g2 : Game) (e e2 : Enemy)
    (hmap : g2.map = g.map) (hpp : g2.player.pos = g.player.pos)
    (hdiff : g2.difficulty = g.difficulty) (hcap : g2.enemyCapacity = g.enemyCapacity)
    (hget : g.enemies.get? idx = some e)
    (hen : g2.enemies = g.enemies.set idx e2)
    (hsame : Same e e2)
    (hocc : g.occupancy → e2.isAlive = true → e2.pos ≠ g.player.pos ∧
      ∀ j o, j ≠ idx → g.enemies.get? j = some o → o.isAlive = true → o.pos ≠ e2.pos)
    (hin : g.map.walkableInside → g.enemiesInside → e2.isAlive = true →
      g.map.inBounds e2.pos.x e2.pos.y = true) :
    Evolve idx 0 g g2 := by
  refine ⟨hmap, hpp, hdiff, hcap, ?_, ?_, ?_⟩
  · intro e1 he1
    rw [hget] at he1
    cases he1
    exact ⟨e2, [], by rw [hen, List.append_nil], hsame, le_refl _, by
      intro n hn; cases hn⟩
  · intro ho
    unfold Game.occupancy at *
    rw [hen, hpp]
    exact occupancyOf_set g.enemies g.player.pos idx e2 ho (hocc ho)
  · intro hw hi
    unfold Game.enemiesInside insideOf at *
    rw [hen, hmap]
    intro o ho hal
    rcases List.mem_or_eq_of_mem_set ho with h | h
    · exact hi o h hal
    · subst h
      exact hin hw hi hal

/-- A step that changes the enemy at `idx` in place, without moving it. -/
theorem evolve_inplace (idx : Nat) (g g2 : Game) (e e2 : Enemy)
    (hmap : g2.map = g.map) (hpp : g2.player.pos = g.player.pos)
    (hdiff : g2.difficulty = g.difficulty) (hcap : g2.enemyCapacity = g.enemyCapacity)
    (hget : g.enemies.get? idx = some e)
    (hen : g2.enemies = g.enemies.set idx e2)
    (hsame : Same e e2) (hpos : e2.pos = e.pos) :
    Evolve idx 0 g g2 := by
  have hal : e2.isAlive = e.isAlive := same_alive e e2 hsame
  apply evolve_set idx g g2 e e2 hmap hpp hdiff hcap hget hen hsame
  · intro ho ha
    unfold Game.occupancy at ho
    rw [occupancyOf_iff] at ho
    rw [hal] at ha
    rw [hpos]
    refine ⟨ho.2 idx e hget ha, ?_⟩
    intro j o hj hjo hoa
    exact ho.1 j idx o e hjo hget hj hoa ha
  · intro _ hi ha
    rw [hal] at ha
    rw [hpos]
    exact hi e (List.mem_iff_get?.mpr ⟨idx, hget⟩) ha

/-- A step that leaves the enemy list, the grid, the player's cell and the difficulty
alone. -/
theorem evolve_still (idx : Nat) (g g2 : Game) (e : Enemy)
    (hmap : g2.map = g.map) (hpp : g2.player.pos = g.player.pos)
    (hdiff : g2.difficulty = g.difficulty) (hcap : g2.enemyCapacity = g.enemyCapacity)
    (hget : g.enemies.get? idx = some e)
    (hen : g2.enemies = g.enemies) :
    Evolve idx 0 g g2 :=
  evolve_inplace idx g g2 e e hmap hpp hdiff hcap hget
    (by rw [hen, set_get?_same g.enemies idx e hget]) (same_refl e) rfl

/-- A step that appends one summoned enemy on a free cell. -/
theorem evolve_push (idx : Nat) (g g2 : Game) (e n : Enemy)
    (hmap : g2.map = g.map) (hpp : g2.player.pos = g.player.pos)
    (hdiff : g2.difficulty = g.difficulty) (hcap : g2.enemyCapacity = g.enemyCapacity)
    (hget : g.enemies.get? idx = some e)
    (hen : g2.enemies = g.enemies ++ [n])
    (hfresh : Fresh n) (hfree : g.freeCell n.pos = true) :
    Evolve idx 1 g g2 := by
  obtain ⟨hw, hp, hf⟩ := freeCell_spec g n.pos hfree
  refine ⟨hmap, hpp, hdiff, hcap, ?_, ?_, ?_⟩
  · intro e1 he1
    rw [hget] at he1
    cases he1
    refine ⟨e, [n], by rw [hen, set_get?_same g.enemies idx e hget], same_refl e, le_refl _, ?_⟩
    intro k hk
    rw [List.mem_singleton] at hk
    subst hk
    exact hfresh
  · intro ho
    unfold Game.occupancy at *
    rw [hen, hpp]
    exact occupancyOf_snoc g.enemies g.player.pos n ho hp hf
  · intro hwi hi
    unfold Game.enemiesInside insideOf at *
    rw [hen, hmap]
    intro o ho hal
    rw [List.mem_append, List.mem_singleton] at ho
    rcases ho with h | h
    · exact hi o h hal
    · subst h
      exact hwi _ _ hw

theorem evolve_mono (idx k k2 : Nat) (g g2 : Game) (h : Evolve idx k g g2) (hk : k ≤ k2) :
    Evolve idx k2 g g2 := by
  refine ⟨h.map, h.ppos, h.diff, h.cap, ?_, h.occ, h.inside⟩
  intro e he
  obtain ⟨e2, fresh, h1, h2, h3, h4⟩ := h.shape e he
  exact ⟨e2, fresh, h1, h2, le_trans h3 hk, h4⟩

theorem evolve_trans (idx k1 k2 : Nat) (g g1 g2 : Game)
    (h1 : Evolve idx k1 g g1) (h2 : Evolve idx k2 g1 g2) :
    Evolve idx (k1 + k2) g g2 := by
  refine ⟨h2.map.trans h1.map, h2.ppos.trans h1.ppos, h2.diff.trans h1.diff,
    h2.cap.trans h1.cap, ?_,
    fun ho => h2.occ (h1.occ ho), ?_⟩
  · intro e he
    obtain ⟨e1, f1, ha, hb, hc, hd⟩ := h1.shape e he
    have hlt := get?_lt _ _ _ he
    have hg1 : g1.enemies.get? idx = some e1 := by
      rw [ha, List.get?_eq_getElem?,
        List.getElem?_append_left (by rw [List.length_set]; exact hlt),
        ← List.get?_eq_getElem?]
      exact get?_set_self _ _ _ _ he
    obtain ⟨e2, f2, ha2, hb2, hc2, hd2⟩ := h2.shape e1 hg1
    refine ⟨e2, f1 ++ f2, ?_, same_trans e e1 e2 hb hb2, ?_, ?_⟩
    · rw [ha2, ha, List.set_append, if_pos (by rw [List.length_set]; exact hlt),
        List.set_set, List.append_assoc]
    · rw [List.length_append]; omega
    · intro n hn
      rw [List.mem_append] at hn
      rcases hn with h | h
      · exact hd n h
      · exact hd2 n h
  · intro hw hi
    exact h2.inside (h1.map ▸ hw) (h1.inside hw hi)

/-- After a step the enemy at `idx` is still there. -/
theorem evolve_get (idx k : Nat) (g g2 : Game) (e : Enemy) (h : Evolve idx k g g2)
    (hget : g.enemies.get? idx = some e) :
    ∃ e2, g2.enemies.get? idx = some e2 ∧ Same e e2 := by
  obtain ⟨e1, f1, ha, hb, _, _⟩ := h.shape e hget
  have hlt := get?_lt _ _ _ hget
  refine ⟨e1, ?_, hb⟩
  rw [ha, List.get?_eq_getElem?,
    List.getElem?_append_left (by rw [List.length_set]; exact hlt),
    ← List.get?_eq_getElem?]
  exact get?_set_self _ _ _ _ hget

theorem stunTick_evolve (g : Game) (idx : Nat) (e : Enemy)
    (hget : g.enemies.get? idx = some e) : Evolve idx 0 g (g.stunTick idx e) :=
  evolve_inplace idx g _ e _ rfl rfl rfl rfl hget rfl
    ⟨rfl, rfl, rfl, fun h => h, Or.inl ⟨rfl, rfl⟩⟩ rfl

theorem dragonTimer_evolve (g : Game) (idx : Nat) (e : Enemy)
    (hget : g.enemies.get? idx = some e) : Evolve idx 0 g (g.dragonTimer idx e) := by
  unfold Game.dragonTimer
  split
  · exact evolve_inplace idx g _ e _ rfl rfl rfl rfl hget rfl
      ⟨rfl, rfl, rfl, fun h => h, Or.inl ⟨rfl, rfl⟩⟩ rfl
  · exact evolve_still idx g g e rfl rfl rfl rfl hget rfl

theorem dragonRage_evolve (g : Game) (idx : Nat) (e : Enemy)
    (hget : g.enemies.get? idx = some e) : Evolve idx 0 g (g.dragonRage idx e) := by
  unfold Game.dragonRage
  split
  · rename_i hc
    refine evolve_inplace idx g _ e { e with enraged := true, attack := e.attack + 4 }
      ?_ ?_ ?_ ?_ hget ?_ ⟨rfl, rfl, rfl, fun h => h, Or.inr ⟨hc.2.1, rfl, rfl⟩⟩ rfl
    · rw [addMessage_map]; rfl
    · rw [addMessage_player]; rfl
    · rw [addMessage_difficulty]; rfl
    · rw [addMessage_capacity]; rfl
    · rw [addMessage_enemies]; rfl
  · exact evolve_still idx g g e rfl rfl rfl rfl hget rfl

theorem applyDifficulty_kept (g : Game) (e : Enemy) :
    (g.applyDifficulty e).type = e.type ∧ (g.applyDifficulty e).pos = e.pos := by
  unfold Game.applyDifficulty
  split <;> exact ⟨rfl, rfl⟩

theorem create_kept (t : EnemyType) (pos : Vec2) :
    (Enemy.create t pos).type = t ∧ (Enemy.create t pos).pos = pos := by
  cases t <;> exact ⟨rfl, rfl⟩

/-- A summon that finds the vector full is undefined. -/
theorem pushEnemy_none (g : Game) (t : EnemyType) (sp : Vec2)
    (h : g.enemyCapacity ≤ g.enemies.length) : g.pushEnemy t sp = none := by
  unfold Game.pushEnemy
  rw [if_neg (Nat.not_lt.mpr h)]

/-- The state that a summon leaves when it returns. -/
theorem pushEnemy_some (g g2 : Game) (t : EnemyType) (sp : Vec2)
    (h : g.pushEnemy t sp = some g2) :
    g.enemies.length < g.enemyCapacity ∧
      g2 = { g with enemies :=
        g.enemies ++ [{ (g.applyDifficulty (Enemy.create t sp)) with awake := true }] } := by
  unfold Game.pushEnemy at h
  by_cases hr : g.enemies.length < g.enemyCapacity
  · rw [if_pos hr] at h
    cases h
    exact ⟨hr, rfl⟩
  · rw [if_neg hr] at h
    cases h

/-- A summon into a vector with a free slot returns. -/
theorem pushEnemy_room (g : Game) (t : EnemyType) (sp : Vec2)
    (h : g.enemies.length < g.enemyCapacity) :
    g.pushEnemy t sp = some { g with enemies :=
      g.enemies ++ [{ (g.applyDifficulty (Enemy.create t sp)) with awake := true }] } := by
  unfold Game.pushEnemy
  rw [if_pos h]

theorem pushEnemy_evolve (g : Game) (idx : Nat) (e : Enemy) (t : EnemyType) (sp : Vec2)
    (hget : g.enemies.get? idx = some e)
    (ht : t = EnemyType.Skeleton ∨ t = EnemyType.Ghost) (hfree : g.freeCell sp = true)
    (hroom : g.enemies.length < g.enemyCapacity) :
    ∃ g2, g.pushEnemy t sp = some g2 ∧ Evolve idx 1 g g2 := by
  have h1 := applyDifficulty_kept g (Enemy.create t sp)
  have h2 := create_kept t sp
  refine ⟨_, pushEnemy_room g t sp hroom, ?_⟩
  refine evolve_push idx g _ e
    { (g.applyDifficulty (Enemy.create t sp)) with awake := true } rfl rfl rfl rfl hget rfl
    ?_ ?_
  · refine ⟨?_, rfl⟩
    show (g.applyDifficulty (Enemy.create t sp)).type = _ ∨
      (g.applyDifficulty (Enemy.create t sp)).type = _
    rw [h1.1, h2.1]
    exact ht
  · show g.freeCell (g.applyDifficulty (Enemy.create t sp)).pos = true
    rw [h1.2, h2.2]
    exact hfree

/-- A step between games with the same grid, player cell, difficulty, capacity and enemy list as
the ends of another step. -/
theorem evolve_congr (idx k : Nat) (g g2 h h2 : Game) (hev : Evolve idx k g g2)
    (a1 : h.map = g.map) (a2 : h.player.pos = g.player.pos) (a3 : h.difficulty = g.difficulty)
    (a4 : h.enemies = g.enemies) (a5 : h.enemyCapacity = g.enemyCapacity)
    (b1 : h2.map = g2.map) (b2 : h2.player.pos = g2.player.pos)
    (b3 : h2.difficulty = g2.difficulty) (b4 : h2.enemies = g2.enemies)
    (b5 : h2.enemyCapacity = g2.enemyCapacity) :
    Evolve idx k h h2 := by
  refine ⟨?_, ?_, ?_, ?_, ?_, ?_, ?_⟩
  · rw [b1, a1]; exact hev.map
  · rw [b2, a2]; exact hev.ppos
  · rw [b3, a3]; exact hev.diff
  · rw [b5, a5]; exact hev.cap
  · intro e he
    rw [a4] at he
    rw [b4, a4]
    exact hev.shape e he
  · intro ho
    unfold Game.occupancy at *
    rw [a4, a2] at ho
    rw [b4, b2]
    exact hev.occ ho
  · intro hw hi
    unfold Game.enemiesInside at *
    rw [a1] at hw
    rw [a4, a1] at hi
    rw [b4, b1]
    exact hev.inside hw hi

theorem timer_evolve (g : Game) (idx : Nat) (e : Enemy) (t : Int)
    (hget : g.enemies.get? idx = some e) :
    Evolve idx 0 g (g.setEnemy idx { e with summonTimer := t }) :=
  evolve_inplace idx g _ e _ rfl rfl rfl rfl hget rfl
    ⟨rfl, rfl, rfl, fun h => h, Or.inl ⟨rfl, rfl⟩⟩ rfl

theorem setEnemy_get (g : Game) (idx : Nat) (e e2 : Enemy)
    (hget : g.enemies.get? idx = some e) :
    (g.setEnemy idx e2).enemies.get? idx = some e2 :=
  get?_set_self g.enemies idx e e2 hget

theorem setEnemy_length (g : Game) (idx : Nat) (e : Enemy) :
    (g.setEnemy idx e).enemies.length = g.enemies.length := by
  show (g.enemies.set idx e).length = _
  rw [List.length_set]

/-- With a free slot in the vector the Necromancer's summon returns; it adds at most one
enemy, on a free cell, and keeps `count` equal to the length of the list. -/
theorem necroSummon_evolve (s : Pass) (idx : Nat) (e : Enemy)
    (hget : s.game.enemies.get? idx = some e)
    (hroom : s.game.enemies.length + (if e.type = EnemyType.Necromancer then 1 else 0)
      ≤ s.game.enemyCapacity) :
    ∃ s2, s.necroSummon idx e = some s2 ∧
      Evolve idx (if e.type = EnemyType.Necromancer then 1 else 0) s.game s2.game ∧
      (s.count = s.game.enemies.length → s2.count = s2.game.enemies.length) := by
  unfold Pass.necroSummon
  by_cases hc : e.type = EnemyType.Necromancer ∧ e.awake = true
  · rw [if_pos hc.1] at hroom
    rw [if_pos hc, if_pos hc.1]
    by_cases ht : e.summonTimer + 1 ≥ 5
    · rw [if_pos ht]
      dsimp only
      have h1 := timer_evolve s.game idx e 0 hget
      have hg1 := setEnemy_get s.game idx e { e with summonTimer := 0 } hget
      split
      · rename_i sp hsp
        obtain ⟨g2, hg2, h2⟩ := pushEnemy_evolve _ idx _ EnemyType.Skeleton sp hg1
          (Or.inl rfl) (firstFree_spec _ _ _ _ hsp)
          (by show (s.game.setEnemy idx _).enemies.length < s.game.enemyCapacity
              rw [setEnemy_length]; omega)
        rw [hg2]
        dsimp only
        refine ⟨_, rfl, ?_, fun _ => rfl⟩
        have h3 := evolve_trans idx 0 1 _ _ _ h1 h2
        exact evolve_congr idx 1 _ _ _ _ h3 rfl rfl rfl rfl rfl (addMessage_map _ _)
          (by rw [addMessage_player]) (addMessage_difficulty _ _) (addMessage_enemies _ _)
          (addMessage_capacity _ _)
      · refine ⟨_, rfl, evolve_mono idx 0 1 _ _ h1 (by omega), ?_⟩
        intro hcount
        show s.count = _
        rw [hcount]
        show _ = (s.game.enemies.set idx _).length
        rw [List.length_set]
    · rw [if_neg ht]
      refine ⟨_, rfl, evolve_mono idx 0 1 _ _ (timer_evolve s.game idx e _ hget) (by omega), ?_⟩
      intro hcount
      show s.count = _
      rw [hcount]
      show _ = (s.game.enemies.set idx _).length
      rw [List.length_set]
  · rw [if_neg hc]
    exact ⟨s, rfl, evolve_mono idx 0 _ _ _ (evolve_still idx _ _ e rfl rfl rfl rfl hget rfl)
      (Nat.zero_le _), fun h => h⟩

theorem summonType_kind (r : Nat) :
    (if r % 2 = 0 then EnemyType.Skeleton else EnemyType.Ghost) = EnemyType.Skeleton ∨
      (if r % 2 = 0 then EnemyType.Skeleton else EnemyType.Ghost) = EnemyType.Ghost := by
  split
  · exact Or.inl rfl
  · exact Or.inr rfl

/-- With a free slot in the vector the Lich's timed summon returns; it adds at most one
enemy, on a free cell, and keeps `count` equal to the length of the list. -/
theorem lichSummon_evolve (s : Pass) (idx : Nat) (e : Enemy)
    (hget : s.game.enemies.get? idx = some e)
    (hroom : s.game.enemies.length + (if e.type = EnemyType.Lich then 1 else 0)
      ≤ s.game.enemyCapacity) :
    ∃ s2, s.lichSummon idx e = some s2 ∧
      Evolve idx (if e.type = EnemyType.Lich then 1 else 0) s.game s2.game ∧
      (s.count = s.game.enemies.length → s2.count = s2.game.enemies.length) := by
  unfold Pass.lichSummon
  by_cases hc : e.type = EnemyType.Lich ∧ e.awake = true
  · rw [if_pos hc.1] at hroom
    rw [if_pos hc, if_pos hc.1]
    by_cases ht : e.summonTimer + 1 ≥ 4
    · rw [if_pos ht]
      dsimp only
      have h1 := timer_evolve s.game idx e 0 hget
      have hg1 := setEnemy_get s.game idx e { e with summonTimer := 0 } hget
      split
      · rename_i sp hsp
        have hfree := firstFree_spec _ _ _ _ hsp
        obtain ⟨g2, hg2, h2⟩ := pushEnemy_evolve
          ({ (s.game.setEnemy idx { e with summonTimer := 0 }) with
              rand := ((s.game.setEnemy idx { e with summonTimer := 0 }).rand.next).2 } : Game)
          idx _ (if ((s.game.setEnemy idx { e with summonTimer := 0 }).rand.next).1 % 2 = 0
            then EnemyType.Skeleton else EnemyType.Ghost) sp hg1
          (summonType_kind _) hfree
          (by show (s.game.setEnemy idx _).enemies.length < s.game.enemyCapacity
              rw [setEnemy_length]; omega)
        rw [hg2]
        dsimp only
        refine ⟨_, rfl, ?_, fun _ => rfl⟩
        have h3 := evolve_trans idx 0 1 _ _ _ h1
          (evolve_congr idx 1 _ _ _ _ h2 rfl rfl rfl rfl rfl rfl rfl rfl rfl rfl)
        exact evolve_congr idx 1 _ _ _ _ h3 rfl rfl rfl rfl rfl (addMessage_map _ _)
          (by rw [addMessage_player]) (addMessage_difficulty _ _) (addMessage_enemies _ _)
          (addMessage_capacity _ _)
      · refine ⟨_, rfl, evolve_mono idx 0 1 _ _ h1 (by omega), ?_⟩
        intro hcount
        show s.count = _
        rw [hcount]
        show _ = (s.game.enemies.set idx _).length
        rw [List.length_set]
    · rw [if_neg ht]
      refine ⟨_, rfl, evolve_mono idx 0 1 _ _ (timer_evolve s.game idx e _ hget) (by omega), ?_⟩
      intro hcount
      show s.count = _
      rw [hcount]
      show _ = (s.game.enemies.set idx _).length
      rw [List.length_set]
  · rw [if_neg hc]
    exact ⟨s, rfl, evolve_mono idx 0 _ _ _ (evolve_still idx _ _ e rfl rfl rfl rfl hget rfl)
      (Nat.zero_le _), fun h => h⟩

/-- The cell found by the Lich's teleport loop is walkable, holds no living enemy and is
not the player's cell. -/
theorem lichTeleport_spec (g : Game) :
    ∀ (n : Nat) (rng : Rand) (c : Vec2), (g.lichTeleport n rng).1 = some c →
      g.map.isWalkable c.x c.y = true ∧ c ≠ g.player.pos ∧
        ∀ e ∈ g.enemies, e.isAlive = true → e.pos ≠ c := by
  intro n
  induction n with
  | zero => intro rng c h; cases h
  | succ n ih =>
    intro rng c h
    unfold Game.lichTeleport at h
    dsimp only at h
    split at h
    · rename_i hc
      simp only [Option.some.injEq] at h
      subst h
      simp only [Bool.and_eq_true, Bool.not_eq_true', Bool.and_eq_false_imp,
        decide_eq_true_eq, decide_eq_false_iff_not, Option.isNone_iff_eq_none] at hc
      obtain ⟨⟨h1, h2⟩, h3⟩ := hc
      refine ⟨h1, ?_, enemyAtFrom_none _ _ g.enemies 0 h2⟩
      intro hp
      have hx : ((rng.next.1 % g.map.WIDTH : Nat) : Int) = g.player.pos.x := by rw [← hp]
      have hy : ((rng.next.2.next.1 % g.map.HEIGHT : Nat) : Int) = g.player.pos.y := by
        rw [← hp]
      exact h3 hx hy
    · exact ih _ c h

/-- The first half of the Lich's phase change: the Lich is enraged and stands where it
stood or on a free cell. -/
theorem lichVanish_evolve (g : Game) (idx : Nat) (e : Enemy)
    (hget : g.enemies.get? idx = some e) (hen : e.enraged = false) :
    Evolve idx 0 g (g.lichVanish idx e) := by
  have hsp := lichTeleport_spec (g.setEnemy idx { e with enraged := true, attack := e.attack + 4 })
    100 (g.setEnemy idx { e with enraged := true, attack := e.attack + 4 }).rand
  unfold Game.lichVanish
  dsimp only
  generalize ((g.setEnemy idx { e with enraged := true, attack := e.attack + 4 }).lichTeleport
    100 (g.setEnemy idx { e with enraged := true, attack := e.attack + 4 }).rand) = tp at *
  have hsp2 : ∀ c, tp.1 = some c → g.map.isWalkable c.x c.y = true ∧ c ≠ g.player.pos ∧
      ∀ j o, j ≠ idx → g.enemies.get? j = some o → o.isAlive = true → o.pos ≠ c := by
    intro c hc
    obtain ⟨h1, h2, h3⟩ := hsp c hc
    refine ⟨h1, h2, ?_⟩
    intro j o hj hjo hal
    apply h3 o ?_ hal
    apply List.mem_iff_get?.mpr
    exact ⟨j, by
      show (g.enemies.set idx _).get? j = some o
      rw [get?_set_other _ _ _ _ hj]; exact hjo⟩
  refine evolve_set idx g _ e
    (Enemy.vanish { e with enraged := true, attack := e.attack + 4 } tp.1) rfl rfl rfl rfl hget
    ?_ ?_ ?_ ?_
  · show (List.set (List.set g.enemies idx _) idx _) = _
    rw [List.set_set]
  · cases tp.1 with
    | none => exact ⟨rfl, rfl, rfl, fun h => h, Or.inr ⟨hen, rfl, rfl⟩⟩
    | some c => exact ⟨rfl, rfl, rfl, fun h => h, Or.inr ⟨hen, rfl, rfl⟩⟩
  · intro ho hal
    cases htp : tp.1 with
    | none =>
      rw [htp] at hal
      unfold Game.occupancy at ho
      rw [occupancyOf_iff] at ho
      have hal2 : e.isAlive = true := hal
      show e.pos ≠ _ ∧ ∀ j o, j ≠ idx → g.enemies.get? j = some o → o.isAlive = true →
        o.pos ≠ e.pos
      exact ⟨ho.2 idx e hget hal2, fun j o hj hjo hoa => ho.1 j idx o e hjo hget hj hoa hal2⟩
    | some c =>
      obtain ⟨_, h2, h3⟩ := hsp2 c htp
      exact ⟨h2, h3⟩
  · intro hw hi hal
    cases htp : tp.1 with
    | none =>
      rw [htp] at hal
      exact hi e (List.mem_iff_get?.mpr ⟨idx, hget⟩) hal
    | some c =>
      obtain ⟨h1, _, _⟩ := hsp2 c htp
      exact hw _ _ h1

theorem evolve_length (idx k : Nat) (g g2 : Game) (e : Enemy) (h : Evolve idx k g g2)
    (hget : g.enemies.get? idx = some e) :
    g.enemies.length ≤ g2.enemies.length ∧ g2.enemies.length ≤ g.enemies.length + k := by
  obtain ⟨e2, fresh, ha, _, hb, _⟩ := h.shape e hget
  rw [ha, List.length_append, List.length_set]
  omega

/-- With three free slots, less those already used, the Lich's wave returns; it adds at
most three enemies minus those already summoned, each on a free cell, and keeps `count`
equal to the length of the list. -/
theorem wave_evolve (idx : Nat) (pos : Vec2) :
    ∀ (ds : List (Int × Int)) (summoned : Nat) (s : Pass) (e : Enemy),
      s.game.enemies.get? idx = some e →
      s.game.enemies.length + (3 - summoned) ≤ s.game.enemyCapacity →
      ∃ s2, Pass.wave pos ds summoned s = some s2 ∧
        Evolve idx (3 - summoned) s.game s2.game ∧
        (s.count = s.game.enemies.length → s2.count = s2.game.enemies.length) := by
  intro ds
  induction ds with
  | nil =>
    intro summoned s e hget _
    unfold Pass.wave
    exact ⟨s, rfl, evolve_mono idx 0 _ _ _ (evolve_still idx _ _ e rfl rfl rfl rfl hget rfl)
      (Nat.zero_le _), fun h => h⟩
  | cons d ds ih =>
    intro summoned s e hget hroom
    unfold Pass.wave
    by_cases hs : summoned < 3
    · rw [if_pos hs]
      by_cases hf : s.game.freeCell (pos.add ⟨d.1, d.2⟩) = true
      · rw [if_pos hf]
        dsimp only
        obtain ⟨g2, hg2, h2⟩ := pushEnemy_evolve
          ({ s.game with rand := (s.game.rand.next).2 } : Game)
          idx e (if (s.game.rand.next).1 % 2 = 0 then EnemyType.Skeleton else EnemyType.Ghost)
          (pos.add ⟨d.1, d.2⟩) hget (summonType_kind _) hf
          (by show s.game.enemies.length < s.game.enemyCapacity; omega)
        rw [hg2]
        dsimp only
        have h3 : Evolve idx 1 s.game g2 :=
          evolve_congr idx 1 _ _ _ _ h2 rfl rfl rfl rfl rfl rfl rfl rfl rfl rfl
        obtain ⟨e1, he1, _⟩ := evolve_get idx 1 _ _ e h3 hget
        have hlen := (evolve_length idx 1 _ _ e h3 hget).2
        obtain ⟨s2, hs2, h4, h5⟩ := ih (summoned + 1)
          { game := g2, count := g2.enemies.length } e1 he1
          (by show g2.enemies.length + _ ≤ g2.enemyCapacity
              rw [h3.cap]; omega)
        refine ⟨s2, hs2, evolve_mono idx _ _ _ _ (evolve_trans idx 1 _ _ _ _ h3 h4)
          (by omega), ?_⟩
        intro _
        exact h5 rfl
      · rw [if_neg hf]
        exact ih summoned s e hget hroom
    · rw [if_neg hs]
      exact ⟨s, rfl, evolve_mono idx 0 _ _ _ (evolve_still idx _ _ e rfl rfl rfl rfl hget rfl)
        (Nat.zero_le _), fun h => h⟩

/-- With three free slots in the vector the Lich's phase change returns; it adds at most
three enemies and keeps `count` equal to the length of the list. -/
theorem lichPhase_evolve (s : Pass) (idx : Nat) (e : Enemy)
    (hget : s.game.enemies.get? idx = some e)
    (hroom : s.game.enemies.length + (if e.type = EnemyType.Lich then 3 else 0)
      ≤ s.game.enemyCapacity) :
    ∃ s2, s.lichPhase idx e = some s2 ∧
      Evolve idx (if e.type = EnemyType.Lich then 3 else 0) s.game s2.game ∧
      (s.count = s.game.enemies.length → s2.count = s2.game.enemies.length) := by
  unfold Pass.lichPhase
  by_cases hc : e.type = EnemyType.Lich ∧ e.enraged = false ∧ e.hp ≤ Int.tdiv e.maxHp 2
  · rw [if_pos hc.1] at hroom
    rw [if_pos hc, if_pos hc.1]
    have h1 := lichVanish_evolve s.game idx e hget hc.2.1
    obtain ⟨e1, he1, _⟩ := evolve_get idx 0 _ _ e h1 hget
    have hlen := (evolve_length idx 0 _ _ e h1 hget).2
    obtain ⟨s2, hs2, h2, h3⟩ := wave_evolve idx (s.game.lichAfter idx e).pos dirs4 0
      { s with game := s.game.lichVanish idx e } e1 he1
      (by show (s.game.lichVanish idx e).enemies.length + (3 - 0)
            ≤ (s.game.lichVanish idx e).enemyCapacity
          rw [h1.cap]; omega)
    rw [hs2]
    dsimp only
    refine ⟨_, rfl, ?_, ?_⟩
    · have h4 := evolve_trans idx 0 3 _ _ _ h1 h2
      exact evolve_congr idx 3 _ _ _ _ h4 rfl rfl rfl rfl rfl (addMessage_map _ _)
        (by rw [addMessage_player]) (addMessage_difficulty _ _) (addMessage_enemies _ _)
        (addMessage_capacity _ _)
    · intro hcount
      show s2.count = (s2.game.addMessage _).enemies.length
      rw [addMessage_enemies]
      apply h3
      show s.count = (s.game.lichVanish idx e).enemies.length
      rw [hcount]
      have := h1.shape e hget
      obtain ⟨e2, fresh, ha, _, hb, _⟩ := this
      rw [ha, List.length_append, List.length_set]
      have : fresh.length = 0 := by omega
      omega
  · rw [if_neg hc]
    exact ⟨s, rfl, evolve_mono idx 0 _ _ _ (evolve_still idx _ _ e rfl rfl rfl rfl hget rfl)
      (Nat.zero_le _), fun h => h⟩

theorem cardinal_x (a : Vec2) (s : Int) (hs : s = 1 ∨ s = -1) : cardinal a ⟨a.x + s, a.y⟩ := by
  unfold cardinal
  right
  rcases hs with h | h <;> subst h
  · exact ⟨rfl, Or.inr rfl⟩
  · exact ⟨rfl, Or.inl rfl⟩

theorem cardinal_y (a : Vec2) (s : Int) (hs : s = 1 ∨ s = -1) : cardinal a ⟨a.x, a.y + s⟩ := by
  unfold cardinal
  left
  rcases hs with h | h <;> subst h
  · exact ⟨rfl, Or.inr rfl⟩
  · exact ⟨rfl, Or.inl rfl⟩

theorem sign_pm (c : Prop) [Decidable c] :
    (if c then (1 : Int) else -1) = 1 ∨ (if c then (1 : Int) else -1) = -1 := by
  split
  · exact Or.inl rfl
  · exact Or.inr rfl

theorem stepped_stay (m : Map) (e : Enemy) : Stepped m e e :=
  ⟨same_refl e, rfl, rfl, Or.inl rfl⟩

theorem stepped_walk (m : Map) (e : Enemy) (c : Vec2) (hc : cardinal e.pos c)
    (hw : m.isWalkable c.x c.y = true ∨ m.inBounds c.x c.y = true) :
    Stepped m e { e with pos := c } :=
  ⟨⟨rfl, rfl, rfl, fun h => h, Or.inl ⟨rfl, rfl⟩⟩, rfl, rfl, Or.inr ⟨hc, hw⟩⟩

/-- Trying one cell, then a second one, then staying is a move. -/
theorem stepped_try (m : Map) (e : Enemy) (a b : Vec2) (ha : cardinal e.pos a)
    (hb : b = e.pos ∨ cardinal e.pos b) :
    Stepped m e (if m.isWalkable a.x a.y = true then { e with pos := a }
      else if m.isWalkable b.x b.y = true then { e with pos := b } else e) := by
  by_cases h1 : m.isWalkable a.x a.y = true
  · rw [if_pos h1]
    exact stepped_walk m e a ha (Or.inl h1)
  · rw [if_neg h1]
    by_cases h2 : m.isWalkable b.x b.y = true
    · rw [if_pos h2]
      rcases hb with hb | hb
      · exact ⟨⟨rfl, rfl, rfl, fun h => h, Or.inl ⟨rfl, rfl⟩⟩, rfl, rfl, Or.inl hb⟩
      · exact stepped_walk m e b hb (Or.inl h2)
    · rw [if_neg h2]
      exact stepped_stay m e

theorem cardinal_pick (a : Vec2) (c : Prop) [Decidable c] (s t : Int)
    (hs : s = 1 ∨ s = -1) (ht : t = 1 ∨ t = -1) :
    cardinal a (if c then ⟨a.x + s, a.y⟩ else ⟨a.x, a.y + t⟩) := by
  split
  · exact cardinal_x a s hs
  · exact cardinal_y a t ht

theorem moveAwayFrom_stepped (e : Enemy) (m : Map) (target : Vec2) :
    Stepped m e (e.moveAwayFrom m target) := by
  unfold Enemy.moveAwayFrom
  dsimp only
  exact stepped_try m e _ _ (cardinal_pick _ _ _ _ (sign_pm _) (sign_pm _))
    (Or.inr (cardinal_pick _ _ _ _ (sign_pm _) (sign_pm _)))

theorem greedyStep_stepped (e : Enemy) (m : Map) (target : Vec2) :
    Stepped m e (e.greedyStep m target) := by
  unfold Enemy.greedyStep
  dsimp only
  refine stepped_try m e _ _ (cardinal_pick _ _ _ _ (sign_pm _) (sign_pm _)) ?_
  split
  · split
    · exact Or.inr (cardinal_x _ _ (sign_pm _))
    · exact Or.inl rfl
  · split
    · exact Or.inr (cardinal_y _ _ (sign_pm _))
    · exact Or.inl rfl

/-- From a cell inside the grid `Enemy::moveToward` returns, and the result is a move. -/
theorem moveToward_stepped (e : Enemy) (m : Map) (target : Vec2)
    (hin : m.inBounds e.pos.x e.pos.y = true) :
    ∃ r, e.moveToward m target = some r ∧ Stepped m e r := by
  obtain ⟨v, hv, hcase⟩ := astarStep_result e m target hin
  unfold Enemy.moveToward
  rw [hv]
  dsimp only
  by_cases hc : v.x ≥ 0 ∧ (if e.type = EnemyType.Ghost then m.inBounds v.x v.y
      else m.isWalkable v.x v.y) = true
  · rw [if_pos hc]
    refine ⟨_, rfl, ?_⟩
    rcases hcase with h | ⟨_, h⟩ | ⟨_, h1, _, _⟩
    · exfalso
      rw [h] at hc
      have := hc.1
      simp [noPath] at this
    · exact ⟨⟨rfl, rfl, rfl, fun h => h, Or.inl ⟨rfl, rfl⟩⟩, rfl, rfl, Or.inl h⟩
    · refine stepped_walk m e v h1 ?_
      have h2 := hc.2
      split at h2
      · exact Or.inr h2
      · exact Or.inl h2
  · rw [if_neg hc]
    exact ⟨_, rfl, greedyStep_stepped e m target⟩

theorem wanderDir_cardinal (a : Vec2) (k : Nat) : cardinal a (a.add (wanderDir k)) := by
  unfold wanderDir cardinal Vec2.add
  split <;> dsimp only <;> omega

theorem wander_stepped (e : Enemy) (m : Map) (rng : Rand) :
    Stepped m e (e.wander m rng).1 := by
  unfold Enemy.wander
  dsimp only
  by_cases h3 : (rng.next).1 % 3 ≠ 0
  · rw [if_pos h3]
    exact stepped_stay m e
  · rw [if_neg h3]
    have hcard := wanderDir_cardinal e.pos ((rng.next).2.next.1 % 4)
    by_cases hc : (if e.type = EnemyType.Ghost then
        m.inBounds (e.pos.add (wanderDir ((rng.next).2.next.1 % 4))).x
          (e.pos.add (wanderDir ((rng.next).2.next.1 % 4))).y
        else m.isWalkable (e.pos.add (wanderDir ((rng.next).2.next.1 % 4))).x
          (e.pos.add (wanderDir ((rng.next).2.next.1 % 4))).y) = true
    · rw [if_pos hc]
      refine stepped_walk m e _ hcard ?_
      split at hc
      · exact Or.inr hc
      · exact Or.inl hc
    · rw [if_neg hc]
      exact stepped_stay m e

theorem stepped_awake (m : Map) (e r : Enemy) (h : Stepped m { e with awake := true } r) :
    Stepped m e r ∧ r.awake = true := by
  obtain ⟨hs, ha, hr, hp⟩ := h
  exact ⟨⟨⟨hs.type, hs.hp, hs.maxHp, fun _ => hs.awake rfl, Or.inl ⟨hr, ha⟩⟩, ha, hr, hp⟩,
    hs.awake rfl⟩

/-- A living enemy inside the grid: `Enemy::update` returns, the result is a move, and the
enemy is awake afterwards when it was awake or within squared distance 64 of the player. -/
theorem update_spec (e : Enemy) (m : Map) (playerPos : Vec2) (rng : Rand)
    (hin : e.isAlive = true → m.inBounds e.pos.x e.pos.y = true) :
    ∃ r rng2, e.update m playerPos rng = some (r, rng2) ∧ Stepped m e r ∧
      (e.isAlive = true → e.pos.distanceSq playerPos ≤ 64 → r.awake = true) := by
  unfold Enemy.update
  by_cases hal : e.isAlive = true
  · have hn : (!e.isAlive) = false := by rw [hal]; rfl
    rw [hn]
    simp only [Bool.false_eq_true, if_false]
    by_cases hd : e.pos.distanceSq playerPos ≤ 64
    · rw [if_pos hd]
      simp only [if_true]
      split
      · have := stepped_awake m e _ (moveAwayFrom_stepped { e with awake := true } m playerPos)
        exact ⟨_, _, rfl, this.1, fun _ _ => this.2⟩
      · split
        · have := stepped_awake m e _ (stepped_stay m { e with awake := true })
          exact ⟨_, _, rfl, this.1, fun _ _ => this.2⟩
        · obtain ⟨r, hr, hs⟩ := moveToward_stepped { e with awake := true } m playerPos (hin hal)
          rw [hr]
          have := stepped_awake m e _ hs
          exact ⟨_, _, rfl, this.1, fun _ _ => this.2⟩
    · rw [if_neg hd]
      split
      · split
        · exact ⟨_, _, rfl, moveAwayFrom_stepped e m playerPos, fun _ h => absurd h hd⟩
        · split
          · exact ⟨_, _, rfl, stepped_stay m e, fun _ h => absurd h hd⟩
          · obtain ⟨r, hr, hs⟩ := moveToward_stepped e m playerPos (hin hal)
            rw [hr]
            exact ⟨_, _, rfl, hs, fun _ h => absurd h hd⟩
      · exact ⟨_, _, rfl, wander_stepped e m rng, fun _ h => absurd h hd⟩
  · have hn : (!e.isAlive) = true := by
      cases h : e.isAlive
      · rfl
      · exact absurd h hal
    rw [hn]
    simp only [if_true]
    exact ⟨_, _, rfl, stepped_stay m e, fun h => absurd h hal⟩

/-- The collision check leaves the moved enemy on its new cell only when that cell is free;
otherwise it is back on its old cell. -/
theorem settle_evolve (g : Game) (idx : Nat) (e e1 : Enemy)
    (hget : g.enemies.get? idx = some e) (hs : Stepped g.map e e1) :
    Evolve idx 0 g (g.settle idx e.pos e1) := by
  obtain ⟨hsame, _, _, hpos⟩ := hs
  have hal : e1.isAlive = e.isAlive := same_alive e e1 hsame
  have hback : Evolve idx 0 g (g.setEnemy idx { e1 with pos := e.pos }) :=
    evolve_inplace idx g _ e _ rfl rfl rfl rfl hget rfl
      ⟨hsame.type, hsame.hp, hsame.maxHp, hsame.awake, hsame.rage⟩ rfl
  unfold Game.settle
  by_cases h1 : e1.pos = g.player.pos
  · rw [if_pos h1]; exact hback
  · rw [if_neg h1]
    by_cases h2 : collidesFrom idx e1.pos g.enemies 0 = true
    · rw [if_pos h2]; exact hback
    · rw [if_neg h2]
      have h3 : collidesFrom idx e1.pos g.enemies 0 = false := by
        cases h : collidesFrom idx e1.pos g.enemies 0
        · rfl
        · exact absurd h h2
      refine evolve_set idx g _ e e1 rfl rfl rfl rfl hget rfl hsame ?_ ?_
      · intro _ _
        refine ⟨h1, ?_⟩
        intro j o hj hjo hoa
        exact collidesFrom_false idx e1.pos g.enemies 0 h3 j o hjo (by omega) hoa
      · intro hw hi ha
        rw [hal] at ha
        rcases hpos with hp | ⟨_, hp | hp⟩
        · rw [hp]; exact hi e (List.mem_iff_get?.mpr ⟨idx, hget⟩) ha
        · exact hw _ _ hp
        · exact hp

/-- The enemy that the collision check leaves at `idx`. -/
theorem settle_get (g : Game) (idx : Nat) (e e1 : Enemy)
    (hget : g.enemies.get? idx = some e) :
    (g.settle idx e.pos e1).enemies.get? idx = some e1 ∨
      (g.settle idx e.pos e1).enemies.get? idx = some { e1 with pos := e.pos } := by
  unfold Game.settle
  split
  · exact Or.inr (setEnemy_get g idx e _ hget)
  · split
    · exact Or.inr (setEnemy_get g idx e _ hget)
    · exact Or.inl (setEnemy_get g idx e _ hget)

theorem settle_player (g : Game) (idx : Nat) (p : Vec2) (e1 : Enemy) :
    (g.settle idx p e1).player = g.player := by
  unfold Game.settle
  split
  · rfl
  · split <;> rfl

/-- The movement part of the loop body returns for a living enemy inside the grid, leaves
the player alone, and is a step of the enemy phase. -/
theorem moveEnemy_evolve (g : Game) (idx : Nat) (e : Enemy)
    (hget : g.enemies.get? idx = some e)
    (hin : e.isAlive = true → g.map.inBounds e.pos.x e.pos.y = true) :
    ∃ g2, g.moveEnemy idx e = some g2 ∧ Evolve idx 0 g g2 ∧ g2.player = g.player ∧
      ∃ e2, g2.enemies.get? idx = some e2 ∧ Stepped g.map e e2 := by
  unfold Game.moveEnemy
  dsimp only
  by_cases hskip : (decide (g.map.getTile e.pos.x e.pos.y = Tile.Water)
      && decide ((g.rand.next).1 % 2 = 0)) = true
  · rw [if_pos hskip]
    refine ⟨_, rfl, ?_, ?_, e, ?_, stepped_stay _ e⟩
    · split
      · exact evolve_still idx _ _ e rfl rfl rfl rfl hget rfl
      · exact evolve_still idx _ _ e rfl rfl rfl rfl hget rfl
    · split <;> rfl
    · split <;> exact hget
  · rw [if_neg hskip]
    generalize hg1 : (if decide (g.map.getTile e.pos.x e.pos.y = Tile.Water) = true then
      ({ g with rand := (g.rand.next).2 } : Game) else g) = g1
    have hv : g1.map = g.map ∧ g1.player = g.player ∧ g1.difficulty = g.difficulty ∧
        g1.enemies = g.enemies ∧ g1.enemyCapacity = g.enemyCapacity := by
      rw [← hg1]
      split <;> exact ⟨rfl, rfl, rfl, rfl, rfl⟩
    obtain ⟨hm, hp, hd, he, hcp⟩ := hv
    obtain ⟨r, rng2, hr, hst, _⟩ := update_spec e g1.map g1.player.pos g1.rand
      (by rw [hm]; exact hin)
    rw [hr]
    dsimp only
    have hget1 : ({ g1 with rand := rng2 } : Game).enemies.get? idx = some e := by
      show g1.enemies.get? idx = some e
      rw [he]; exact hget
    have hev := settle_evolve ({ g1 with rand := rng2 } : Game) idx e r hget1 hst
    refine ⟨_, rfl, ?_, ?_, ?_⟩
    · exact evolve_congr idx 0 _ _ _ _ hev hm.symm (by rw [← hp]) hd.symm he.symm hcp.symm
        rfl rfl rfl rfl rfl
    · rw [settle_player]; exact hp
    · rcases settle_get ({ g1 with rand := rng2 } : Game) idx e r hget1 with h | h
      · exact ⟨r, h, hm ▸ hst⟩
      · refine ⟨_, h, ?_⟩
        obtain ⟨hsame, ha, hen, _⟩ := hst
        exact ⟨⟨hsame.type, hsame.hp, hsame.maxHp, hsame.awake, hsame.rage⟩, ha, hen, Or.inl rfl⟩

theorem shoot_view (g : Game) (e : Enemy) (d : Int) :
    (g.shoot e d).map = g.map ∧ (g.shoot e d).player.pos = g.player.pos ∧
      (g.shoot e d).difficulty = g.difficulty ∧ (g.shoot e d).enemies = g.enemies := by
  unfold Game.shoot
  dsimp only
  rw [addMessage_map, addMessage_player, addMessage_difficulty, addMessage_enemies]
  exact ⟨rfl, rfl, rfl, rfl⟩

theorem meleeHit_view (g : Game) (e : Enemy) :
    (g.meleeHit e).map = g.map ∧ (g.meleeHit e).player.pos = g.player.pos ∧
      (g.meleeHit e).difficulty = g.difficulty ∧ (g.meleeHit e).enemies = g.enemies := by
  unfold Game.meleeHit
  dsimp only
  rw [addMessage_map, addMessage_player, addMessage_difficulty, addMessage_enemies]
  exact ⟨rfl, rfl, rfl, rfl⟩

theorem ghostTouch_view (g : Game) (e : Enemy) :
    (g.ghostTouch e).map = g.map ∧ (g.ghostTouch e).player.pos = g.player.pos ∧
      (g.ghostTouch e).difficulty = g.difficulty ∧ (g.ghostTouch e).enemies = g.enemies := by
  unfold Game.ghostTouch
  split
  · rw [addMessage_map, addMessage_player, addMessage_difficulty, addMessage_enemies]
    exact ⟨rfl, rfl, rfl, rfl⟩
  · exact ⟨rfl, rfl, rfl, rfl⟩

theorem demonFire_view (g : Game) (e : Enemy) :
    (g.demonFire e).map = g.map ∧ (g.demonFire e).player.pos = g.player.pos ∧
      (g.demonFire e).difficulty = g.difficulty ∧ (g.demonFire e).enemies = g.enemies := by
  unfold Game.demonFire
  split
  · rw [addMessage_map, addMessage_player, addMessage_difficulty, addMessage_enemies]
    exact ⟨rfl, rfl, rfl, rfl⟩
  · exact ⟨rfl, rfl, rfl, rfl⟩

theorem shoot_cap (g : Game) (e : Enemy) (d : Int) :
    (g.shoot e d).enemyCapacity = g.enemyCapacity := by
  unfold Game.shoot
  dsimp only
  rw [addMessage_capacity]

theorem melee_cap (g : Game) (e : Enemy) : (g.melee e).enemyCapacity = g.enemyCapacity := by
  have h1 : (g.meleeHit e).enemyCapacity = g.enemyCapacity := by
    unfold Game.meleeHit
    dsimp only
    rw [addMessage_capacity]
  have h2 : ∀ h : Game, (h.ghostTouch e).enemyCapacity = h.enemyCapacity := by
    intro h
    unfold Game.ghostTouch
    split
    · rw [addMessage_capacity]
    · rfl
  have h3 : ∀ h : Game, (h.demonFire e).enemyCapacity = h.enemyCapacity := by
    intro h
    unfold Game.demonFire
    split
    · rw [addMessage_capacity]
    · rfl
  unfold Game.melee
  rw [h3, h2, h1]

theorem melee_view (g : Game) (e : Enemy) :
    (g.melee e).map = g.map ∧ (g.melee e).player.pos = g.player.pos ∧
      (g.melee e).difficulty = g.difficulty ∧ (g.melee e).enemies = g.enemies := by
  unfold Game.melee
  obtain ⟨a1, a2, a3, a4⟩ := meleeHit_view g e
  obtain ⟨b1, b2, b3, b4⟩ := ghostTouch_view (g.meleeHit e) e
  obtain ⟨c1, c2, c3, c4⟩ := demonFire_view ((g.meleeHit e).ghostTouch e) e
  exact ⟨c1.trans (b1.trans a1), c2.trans (b2.trans a2), c3.trans (b3.trans a3),
    c4.trans (b4.trans a4)⟩

/-- The last part of the loop body returns for a living enemy inside the grid and is a
step of the enemy phase. -/
theorem act_evolve (g : Game) (idx : Nat) (e : Enemy)
    (hget : g.enemies.get? idx = some e)
    (hin : e.isAlive = true → g.map.inBounds e.pos.x e.pos.y = true) :
    ∃ g2, g.act idx e = some g2 ∧ Evolve idx 0 g g2 := by
  unfold Game.act
  dsimp only
  split
  · obtain ⟨a1, a2, a3, a4⟩ := shoot_view g e (e.rangedAttackDamage g.map g.player.pos)
    exact ⟨_, rfl, evolve_still idx _ _ e a1 a2 a3 (shoot_cap g e _) hget a4⟩
  · split
    · obtain ⟨a1, a2, a3, a4⟩ := melee_view g e
      exact ⟨_, rfl, evolve_still idx _ _ e a1 a2 a3 (melee_cap g e) hget a4⟩
    · obtain ⟨g2, h1, h2, _⟩ := moveEnemy_evolve g idx e hget hin
      exact ⟨g2, h1, h2⟩

/-- The number of enemies that the blocks of a loop body can add, block by block. -/
theorem summonCap_split (t : EnemyType) :
    summonCap t = (if t = EnemyType.Necromancer then 1 else 0) +
      (if t = EnemyType.Lich then 3 else 0) + (if t = EnemyType.Lich then 1 else 0) ∧
    ((if t = EnemyType.Necromancer then 1 else 0) = 0 ∨
      (if t = EnemyType.Lich then 3 else 0) = 0) := by
  unfold summonCap
  cases t <;> simp

/-- With room in the vector for the summons of this enemy, the summoning and phase blocks
return, add at most as many enemies as the type of the enemy allows, and keep `count`
equal to the length of the list. -/
theorem specials_evolve (s : Pass) (idx : Nat) (e : Enemy)
    (hget : s.game.enemies.get? idx = some e)
    (hroom : s.game.enemies.length + summonCap e.type ≤ s.game.enemyCapacity) :
    ∃ s5, s.specials idx = some s5 ∧ Evolve idx (summonCap e.type) s.game s5.game ∧
      (s.count = s.game.enemies.length → s5.count = s5.game.enemies.length) := by
  unfold Pass.specials
  rw [hget]
  dsimp only
  have h1 := dragonRage_evolve s.game idx e hget
  obtain ⟨e2, hg2, hs2⟩ := evolve_get idx 0 _ _ e h1 hget
  have hl1 := evolve_length idx 0 _ _ e h1 hget
  rw [hg2]
  dsimp only
  have ht2 : e2.type = e.type := hs2.type
  obtain ⟨hsplit, hexcl⟩ := summonCap_split e.type
  obtain ⟨s2, hn2, h2, hc2⟩ := necroSummon_evolve { s with game := s.game.dragonRage idx e }
    idx e2 hg2 (by
      show (s.game.dragonRage idx e).enemies.length + _ ≤ (s.game.dragonRage idx e).enemyCapacity
      rw [h1.cap, ht2]; omega)
  rw [hn2]
  dsimp only
  obtain ⟨e3, hg3, hs3⟩ := evolve_get idx _ _ _ e2 h2 hg2
  have hl2 := evolve_length idx _ _ _ e2 h2 hg2
  have hcap2 : s2.game.enemyCapacity = s.game.enemyCapacity := h2.cap.trans h1.cap
  have ht3 : e3.type = e.type := hs3.type.trans ht2
  rw [ht2] at hl2
  rw [hg3]
  dsimp only
  obtain ⟨s3, hn3, h3, hc3⟩ := lichPhase_evolve s2 idx e3 hg3 (by
    rw [hcap2, ht3]
    have hl2b : s2.game.enemies.length
        ≤ s.game.enemies.length + (if e.type = EnemyType.Necromancer then 1 else 0) := by
      have := hl2.2
      have h0 : ({ s with game := s.game.dragonRage idx e } : Pass).game.enemies.length
          = (s.game.dragonRage idx e).enemies.length := rfl
      omega
    omega)
  rw [hn3]
  dsimp only
  obtain ⟨e4, hg4, hs4⟩ := evolve_get idx _ _ _ e3 h3 hg3
  have hl3 := evolve_length idx _ _ _ e3 h3 hg3
  have hcap3 : s3.game.enemyCapacity = s.game.enemyCapacity := h3.cap.trans hcap2
  have ht4 : e4.type = e.type := hs4.type.trans ht3
  rw [ht3] at hl3
  rw [hg4]
  dsimp only
  obtain ⟨s4, hn4, h4, hc4⟩ := lichSummon_evolve s3 idx e4 hg4 (by
    rw [hcap3, ht4]
    have hl2b : s2.game.enemies.length
        ≤ s.game.enemies.length + (if e.type = EnemyType.Necromancer then 1 else 0) := by
      have := hl2.2
      have h0 : ({ s with game := s.game.dragonRage idx e } : Pass).game.enemies.length
          = (s.game.dragonRage idx e).enemies.length := rfl
      omega
    have := hl3.2
    omega)
  refine ⟨s4, hn4, ?_, ?_⟩
  · have hall := evolve_trans idx _ _ _ _ _ (evolve_trans idx _ _ _ _ _
      (evolve_trans idx _ _ _ _ _ h1 h2) h3) h4
    refine evolve_mono idx _ _ _ _ hall ?_
    rw [ht2, ht3, ht4]
    omega
  · intro hcount
    apply hc4
    apply hc3
    apply hc2
    show s.count = (s.game.dragonRage idx e).enemies.length
    omega

/-- The loop body for the enemy at `idx` returns when the living enemies stand inside the
grid and the vector has room for the summons of this enemy; it is a step of the enemy phase
that adds at most as many enemies as the type of the enemy allows, and it keeps `count`
equal to the length of the list. -/
theorem enemyTurn_evolve (s : Pass) (idx : Nat) (e : Enemy)
    (hget : s.game.enemies.get? idx = some e)
    (hw : s.game.map.walkableInside) (hi : s.game.enemiesInside)
    (hroom : s.game.enemies.length + summonCap e.type ≤ s.game.enemyCapacity) :
    ∃ s2, s.enemyTurn idx = some s2 ∧ Evolve idx (summonCap e.type) s.game s2.game ∧
      (s.count = s.game.enemies.length → s2.count = s2.game.enemies.length) := by
  unfold Pass.enemyTurn
  rw [hget]
  dsimp only
  by_cases hal : e.isAlive = false
  · rw [if_pos hal]
    exact ⟨s, rfl, evolve_mono idx 0 _ _ _ (evolve_still idx _ _ e rfl rfl rfl rfl hget rfl)
      (Nat.zero_le _), fun h => h⟩
  · rw [if_neg hal]
    by_cases hst : e.stunTurns > 0
    · rw [if_pos hst]
      have h1 := stunTick_evolve s.game idx e hget
      refine ⟨_, rfl, evolve_mono idx 0 _ _ _ h1 (Nat.zero_le _), ?_⟩
      intro hc
      have := evolve_length idx 0 _ _ e h1 hget
      show s.count = (s.game.stunTick idx e).enemies.length
      omega
    · rw [if_neg hst]
      have h1 := dragonTimer_evolve s.game idx e hget
      obtain ⟨e1, hg1, hs1⟩ := evolve_get idx 0 _ _ e h1 hget
      have hl1 := evolve_length idx 0 _ _ e h1 hget
      rw [hg1]
      dsimp only
      by_cases hsk : e1.dragonSkips = true
      · rw [if_pos hsk]
        refine ⟨_, rfl, evolve_mono idx 0 _ _ _ h1 (Nat.zero_le _), ?_⟩
        intro hc
        show s.count = (s.game.dragonTimer idx e).enemies.length
        omega
      · rw [if_neg hsk]
        obtain ⟨s5, hs5, hev5, hc5⟩ := specials_evolve
          { s with game := s.game.dragonTimer idx e } idx e1 hg1 (by
            show (s.game.dragonTimer idx e).enemies.length + _
              ≤ (s.game.dragonTimer idx e).enemyCapacity
            rw [h1.cap, hs1.type]; omega)
        rw [hs5]
        dsimp only
        have hev : Evolve idx (0 + summonCap e1.type) s.game s5.game :=
          evolve_trans idx _ _ _ _ _ h1 hev5
        obtain ⟨e5, hg5, hs5a⟩ := evolve_get idx _ _ _ e hev hget
        rw [hg5]
        dsimp only
        have hi5 : s5.game.enemiesInside := hev.inside hw hi
        have hin5 : e5.isAlive = true → s5.game.map.inBounds e5.pos.x e5.pos.y = true :=
          fun ha => hi5 e5 (List.mem_iff_get?.mpr ⟨idx, hg5⟩) ha
        obtain ⟨g6, hg6, hev6⟩ := act_evolve s5.game idx e5 hg5 hin5
        rw [hg6]
        dsimp only
        refine ⟨_, rfl, ?_, ?_⟩
        · have := evolve_trans idx _ _ _ _ _ hev hev6
          refine evolve_mono idx _ _ _ _ this ?_
          rw [hs1.type]
          omega
        · intro hc
          have h5 := hc5 (by
            show s.count = (s.game.dragonTimer idx e).enemies.length
            omega)
          have := evolve_length idx 0 _ _ e5 hev6 hg5
          show s5.count = g6.enemies.length
          omega

theorem capList_le (l : List Enemy) :
    (l.map (fun e => summonCap e.type)).sum ≤ 4 * l.length := by
  induction l with
  | nil => simp
  | cons a as ih =>
    simp only [List.map_cons, List.sum_cons, List.length_cons]
    have : summonCap a.type ≤ 4 := by unfold summonCap; split <;> omega
    omega

theorem capList_fresh (l : List Enemy) (h : ∀ n ∈ l, Fresh n) :
    (l.map (fun e => summonCap e.type)).sum = 0 := by
  induction l with
  | nil => simp
  | cons a as ih =>
    simp only [List.map_cons, List.sum_cons]
    have h1 := (h a (List.mem_cons_self _ _)).1
    have : summonCap a.type = 0 := by
      rcases h1 with h1 | h1 <;> rw [h1] <;> rfl
    rw [this, ih (fun n hn => h n (List.mem_cons_of_mem _ hn))]

/-- A step of the enemy phase for the enemy at `idx` lowers the number of loop bodies
still to come. -/
theorem evolve_measure (idx : Nat) (g g2 : Game) (e : Enemy)
    (hget : g.enemies.get? idx = some e) (h : Evolve idx (summonCap e.type) g g2) :
    (g2.enemies.length - (idx + 1)) + capSum g2.enemies (idx + 1) <
      (g.enemies.length - idx) + capSum g.enemies idx := by
  obtain ⟨e2, fresh, ha, _, hb, hc⟩ := h.shape e hget
  have hlt := get?_lt _ _ _ hget
  have hdrop : g.enemies.drop idx = e :: g.enemies.drop (idx + 1) := by
    rw [List.get?_eq_getElem?, List.getElem?_eq_some] at hget
    obtain ⟨h1, h2⟩ := hget
    rw [← h2]
    exact List.drop_eq_getElem_cons h1
  have h1 : capSum g.enemies idx = summonCap e.type + capSum g.enemies (idx + 1) := by
    unfold capSum
    rw [hdrop, List.map_cons, List.sum_cons]
  have h2 : capSum g2.enemies (idx + 1) = capSum g.enemies (idx + 1) := by
    unfold capSum
    rw [ha, List.drop_append_of_le_length (by rw [List.length_set]; omega),
      List.drop_set_of_lt _ _ (by omega), List.map_append, List.sum_append,
      capList_fresh fresh hc, Nat.add_zero]
  have h3 : g2.enemies.length = g.enemies.length + fresh.length := by
    rw [ha, List.length_append, List.length_set]
  rw [h1, h2, h3]
  omega

/-- How a step for the enemy at `idx` changes the summons still possible: the list grows
by no more than the summons of this enemy, and those of the later enemies stay. -/
theorem evolve_capSum (idx : Nat) (g g2 : Game) (e : Enemy)
    (hget : g.enemies.get? idx = some e) (h : Evolve idx (summonCap e.type) g g2) :
    capSum g.enemies idx = summonCap e.type + capSum g.enemies (idx + 1) ∧
      capSum g2.enemies (idx + 1) = capSum g.enemies (idx + 1) ∧
      g2.enemies.length ≤ g.enemies.length + summonCap e.type := by
  obtain ⟨e2, fresh, ha, _, hb, hc⟩ := h.shape e hget
  have hlt := get?_lt _ _ _ hget
  have hdrop : g.enemies.drop idx = e :: g.enemies.drop (idx + 1) := by
    rw [List.get?_eq_getElem?, List.getElem?_eq_some] at hget
    obtain ⟨h1, h2⟩ := hget
    rw [← h2]
    exact List.drop_eq_getElem_cons h1
  refine ⟨?_, ?_, ?_⟩
  · unfold capSum
    rw [hdrop, List.map_cons, List.sum_cons]
  · unfold capSum
    rw [ha, List.drop_append_of_le_length (by rw [List.length_set]; omega),
      List.drop_set_of_lt _ _ (by omega), List.map_append, List.sum_append,
      capList_fresh fresh hc, Nat.add_zero]
  · rw [ha, List.length_append, List.length_set]
    omega

/-- A step of the enemy phase keeps the summons that the whole list can make. -/
theorem evolve_capTotal (idx k : Nat) (g g2 : Game) (e : Enemy)
    (hget : g.enemies.get? idx = some e) (h : Evolve idx k g g2) :
    capSum g2.enemies 0 = capSum g.enemies 0 := by
  obtain ⟨e2, fresh, ha, hs, _, hc⟩ := h.shape e hget
  have hmap : (g.enemies.set idx e2).map (fun a => summonCap a.type)
      = g.enemies.map (fun a => summonCap a.type) := by
    rw [List.map_set]
    apply List.ext_get?
    intro n
    by_cases hn : n = idx
    · subst hn
      have hmg : (g.enemies.map (fun a => summonCap a.type)).get? n
          = some (summonCap e.type) := by
        rw [List.get?_eq_getElem?, List.getElem?_map, ← List.get?_eq_getElem?, hget]
        rfl
      rw [get?_set_self _ _ _ _ hmg, hmg, hs.type]
    · rw [List.get?_eq_getElem?, List.getElem?_set_ne (fun h => hn h.symm),
        ← List.get?_eq_getElem?]
  unfold capSum
  rw [List.drop_zero, List.drop_zero, ha, List.map_append, List.sum_append,
    capList_fresh fresh hc, Nat.add_zero, hmap]

/-- The loop rule of the enemy phase: when the living enemies stand inside the grid, the
vector has room for the summons still possible and the budget covers the bodies still to
come, the loop returns; a property that every loop body carries from `idx` to `idx + 1`
holds at the end, where `idx = count` is the length of the final list. -/
theorem loop_rule (Q : Pass → Nat → Prop)
    (hQ : ∀ (s : Pass) (idx : Nat) (s2 : Pass) (e : Enemy),
      s.count = s.game.enemies.length → s.game.enemies.get? idx = some e →
      s.game.enemiesInside →
      s.enemyTurn idx = some s2 → Evolve idx (summonCap e.type) s.game s2.game →
      Q s idx → Q s2 (idx + 1)) :
    ∀ (fuel : Nat) (s : Pass) (idx : Nat),
      s.count = s.game.enemies.length → idx ≤ s.count →
      s.game.map.walkableInside → s.game.enemiesInside →
      s.game.enemies.length + capSum s.game.enemies idx ≤ s.game.enemyCapacity → Q s idx →
      (s.game.enemies.length - idx) + capSum s.game.enemies idx < fuel →
      ∃ s2, Pass.loop fuel s idx = some s2.game ∧ s2.count = s2.game.enemies.length ∧
        Q s2 s2.count ∧ s2.game.enemiesInside ∧ s2.game.map = s.game.map ∧
        s2.game.player.pos = s.game.player.pos := by
  intro fuel
  induction fuel with
  | zero => intro s idx _ _ _ _ _ _ h; omega
  | succ n ih =>
    intro s idx hc hle hw hi hroom hq hf
    unfold Pass.loop
    by_cases hlt : idx < s.count
    · rw [if_pos hlt]
      obtain ⟨e, hget⟩ := get?_of_lt s.game.enemies idx (by omega)
      have hdrop : capSum s.game.enemies idx
          = summonCap e.type + capSum s.game.enemies (idx + 1) := by
        have hg := hget
        rw [List.get?_eq_getElem?, List.getElem?_eq_some] at hg
        obtain ⟨h1, h2⟩ := hg
        unfold capSum
        rw [List.drop_eq_getElem_cons h1, List.map_cons, List.sum_cons, h2]
      obtain ⟨s1, hs1, hev, hc1⟩ := enemyTurn_evolve s idx e hget hw hi (by omega)
      rw [hs1]
      dsimp only
      have hm := evolve_measure idx _ _ e hget hev
      have hl := evolve_length idx _ _ _ e hev hget
      have hk := evolve_capSum idx _ _ e hget hev
      have hc1a := hc1 hc
      obtain ⟨s2, h1, h2, h3, h4, h5, h6⟩ := ih s1 (idx + 1) hc1a (by omega)
        (hev.map ▸ hw) (hev.inside hw hi) (by rw [hev.cap]; omega)
        (hQ s idx s1 e hc hget hi hs1 hev hq) (by omega)
      exact ⟨s2, h1, h2, h3, h4, h5.trans hev.map, h6.trans hev.ppos⟩
    · rw [if_neg hlt]
      have : idx = s.count := by omega
      subst this
      exact ⟨s, rfl, hc, hq, hi, rfl, rfl⟩

/-- The rule for a whole pass of `Game::updateEnemies`. -/
theorem updateEnemies_rule (Q : Pass → Nat → Prop)
    (hQ : ∀ (s : Pass) (idx : Nat) (s2 : Pass) (e : Enemy),
      s.count = s.game.enemies.length → s.game.enemies.get? idx = some e →
      s.game.enemiesInside →
      s.enemyTurn idx = some s2 → Evolve idx (summonCap e.type) s.game s2.game →
      Q s idx → Q s2 (idx + 1))
    (g : Game) (hw : g.map.walkableInside) (hi : g.enemiesInside) (hroom : g.hasRoom 1)
    (h0 : Q { game := g, count := g.enemies.length } 0) :
    ∃ s2, g.updateEnemies = some s2.game ∧ s2.count = s2.game.enemies.length ∧
      Q s2 s2.count ∧ s2.game.enemiesInside ∧ s2.game.map = g.map ∧
      s2.game.player.pos = g.player.pos := by
  unfold Game.updateEnemies
  unfold Game.hasRoom at hroom
  refine loop_rule Q hQ (passBudget g) { game := g, count := g.enemies.length } 0 rfl
    (Nat.zero_le _) hw hi (by show g.enemies.length + capSum g.enemies 0 ≤ g.enemyCapacity; omega) h0 ?_
  show (g.enemies.length - 0) + capSum g.enemies 0 < 5 * g.enemies.length + 1
  have := capList_le g.enemies
  unfold capSum
  rw [List.drop_zero]
  omega

/-- A step for the enemy at `idx` leaves the enemies at the other indices alone. -/
theorem evolve_other (idx k : Nat) (g g2 : Game) (e a : Enemy) (i : Nat)
    (h : Evolve idx k g g2) (hget : g.enemies.get? idx = some e) (hne : i ≠ idx)
    (hi : g.enemies.get? i = some a) : g2.enemies.get? i = some a := by
  obtain ⟨e2, fresh, ha, _, _, _⟩ := h.shape e hget
  have hlt := get?_lt _ _ _ hi
  rw [ha, List.get?_eq_getElem?,
    List.getElem?_append_left (by rw [List.length_set]; exact hlt),
    ← List.get?_eq_getElem?, get?_set_other _ _ _ _ hne]
  exact hi

/-- A step of the enemy phase keeps every enemy of the list in its place in the list, with
its type and health, its awake flag not cleared and at most one enrage. -/
theorem evolve_same (idx k : Nat) (g g2 : Game) (e a : Enemy) (i : Nat)
    (h : Evolve idx k g g2) (hget : g.enemies.get? idx = some e)
    (hi : g.enemies.get? i = some a) :
    ∃ a2, g2.enemies.get? i = some a2 ∧ Same a a2 := by
  by_cases hne : i = idx
  · subst hne
    rw [hget] at hi
    cases hi
    exact evolve_get i k g g2 e h hget
  · exact ⟨a, evolve_other idx k g g2 e a i h hget hne hi, same_refl a⟩

/-- A pass of `Game::updateEnemies` returns when the living enemies stand inside the grid
and the vector has room for the summons of one pass; it keeps every enemy of the list in
its place, with its type and health, its awake flag not cleared and at most one enrage;
the living enemies still stand inside the grid; and the room left in the vector is the
room it had less one pass. -/
theorem updateEnemies_same (g : Game) (n : Nat) (hw : g.map.walkableInside)
    (hi : g.enemiesInside) (hroom : g.hasRoom (n + 1)) :
    ∃ g2, g.updateEnemies = some g2 ∧ g2.map = g.map ∧ g2.enemiesInside ∧
      (∀ i a, g.enemies.get? i = some a → ∃ a2, g2.enemies.get? i = some a2 ∧ Same a a2) ∧
      g2.hasRoom n := by
  have hroom1 : g.hasRoom 1 := by
    unfold Game.hasRoom at *
    have : 1 * capSum g.enemies 0 ≤ (n + 1) * capSum g.enemies 0 :=
      Nat.mul_le_mul_right _ (by omega)
    omega
  obtain ⟨s2, h1, hcnt, h3, h4, h5, _⟩ := updateEnemies_rule
    (fun s idx => (∀ i a, g.enemies.get? i = some a →
        ∃ a2, s.game.enemies.get? i = some a2 ∧ Same a a2) ∧
      s.game.enemyCapacity = g.enemyCapacity ∧
      capSum s.game.enemies 0 = capSum g.enemies 0 ∧
      s.game.enemies.length + capSum s.game.enemies idx ≤
        g.enemies.length + capSum g.enemies 0)
    (by
      intro s idx s2 e _ hget _ _ hev hq
      obtain ⟨hq1, hq2, hq3, hq4⟩ := hq
      refine ⟨?_, hev.cap.trans hq2, (evolve_capTotal idx _ _ _ e hget hev).trans hq3, ?_⟩
      · intro i a hia
        obtain ⟨a1, ha1, hs1⟩ := hq1 i a hia
        obtain ⟨a2, ha2, hs2⟩ := evolve_same idx _ _ _ e a1 i hev hget ha1
        exact ⟨a2, ha2, same_trans a a1 a2 hs1 hs2⟩
      · obtain ⟨k1, k2, k3⟩ := evolve_capSum idx _ _ e hget hev
        omega)
    g hw hi hroom1 ⟨fun i a hia => ⟨a, hia, same_refl a⟩, rfl, rfl, le_refl _⟩
  obtain ⟨q1, q2, q3, q4⟩ := h3
  refine ⟨s2.game, h1, h5, h4, q1, ?_⟩
  unfold Game.hasRoom at *
  rw [q2, q3]
  have : (n + 1) * capSum g.enemies 0 = n * capSum g.enemies 0 + capSum g.enemies 0 := by
    rw [Nat.add_mul, Nat.one_mul]
  omega

/-- A sequence of passes of `Game::updateEnemies` returns when the living enemies stand
inside the grid and the vector has room for the summons of these passes, and keeps every
enemy of the list in its place, with its type and health, its awake flag not cleared and
at most one enrage. -/
theorem passes_same (n : Nat) :
    ∀ (g : Game), g.map.walkableInside → g.enemiesInside → g.hasRoom n →
      ∃ g2, Game.passes n g = some g2 ∧
        ∀ i a, g.enemies.get? i = some a → ∃ a2, g2.enemies.get? i = some a2 ∧ Same a a2 := by
  induction n with
  | zero =>
    intro g _ _ _
    exact ⟨g, rfl, fun i a hia => ⟨a, hia, same_refl a⟩⟩
  | succ n ih =>
    intro g hw hi hroom
    obtain ⟨g1, h1, hm, hi1, hs1, hr1⟩ := updateEnemies_same g n hw hi hroom
    obtain ⟨g2, h2, hs2⟩ := ih g1 (hm ▸ hw) hi1 hr1
    refine ⟨g2, ?_, ?_⟩
    · unfold Game.passes
      rw [h1]
      exact h2
    · intro i a hia
      obtain ⟨a1, ha1, hsa⟩ := hs1 i a hia
      obtain ⟨a2, ha2, hsb⟩ := hs2 i a1 ha1
      exact ⟨a2, ha2, same_trans a a1 a2 hsa hsb⟩

/-- Occupancy after a pass. -/
theorem updateEnemies_occ (g : Game) (hw : g.map.walkableInside) (hi : g.enemiesInside)
    (hroom : g.hasRoom 1) (ho : g.occupancy) :
    ∃ g2, g.updateEnemies = some g2 ∧ g2.occupancy ∧ g2.enemiesInside ∧
      g2.player.pos = g.player.pos := by
  obtain ⟨s2, h1, _, h3, h4, _, h6⟩ := updateEnemies_rule
    (fun s _ => s.game.occupancy)
    (by
      intro s idx s2 e _ _ _ _ hev hq
      exact hev.occ hq)
    g hw hi hroom ho
  exact ⟨s2.game, h1, h3, h4, h6⟩

/-- A summon that returns leaves the enemy at `idx`, the player and the random source as
they were. -/
theorem pushEnemy_get (g g2 : Game) (idx : Nat) (e : Enemy) (t : EnemyType) (sp : Vec2)
    (hget : g.enemies.get? idx = some e) (h : g.pushEnemy t sp = some g2) :
    g2.enemies.get? idx = some e ∧ g2.player = g.player ∧ g2.rand = g.rand := by
  obtain ⟨_, h2⟩ := pushEnemy_some g g2 t sp h
  subst h2
  refine ⟨?_, rfl, rfl⟩
  show (g.enemies ++ [_]).get? idx = some e
  rw [get?_snoc]
  exact Or.inl hget

theorem dragonTimer_held (g : Game) (idx : Nat) (e : Enemy)
    (hget : g.enemies.get? idx = some e) :
    (g.dragonTimer idx e).player = g.player ∧ (g.dragonTimer idx e).rand = g.rand ∧
      ∃ e2, (g.dragonTimer idx e).enemies.get? idx = some e2 ∧ e2.pos = e.pos ∧
        e2.name = e.name ∧ e2.attack = e.attack ∧ e2.enraged = e.enraged ∧
        e2.stunTurns = e.stunTurns := by
  unfold Game.dragonTimer
  split
  · exact ⟨rfl, rfl, _, setEnemy_get g idx e _ hget, rfl, rfl, rfl, rfl, rfl⟩
  · exact ⟨rfl, rfl, e, hget, rfl, rfl, rfl, rfl, rfl⟩

theorem dragonRage_held (g : Game) (idx : Nat) (e : Enemy)
    (hget : g.enemies.get? idx = some e) :
    (g.dragonRage idx e).player = g.player ∧ (g.dragonRage idx e).rand = g.rand ∧
      ∃ e2, (g.dragonRage idx e).enemies.get? idx = some e2 ∧ e2.pos = e.pos ∧
        e2.name = e.name := by
  unfold Game.dragonRage
  split
  · rw [addMessage_player, addMessage_enemies, addMessage_rand]
    exact ⟨rfl, rfl, _, setEnemy_get g idx e _ hget, rfl, rfl⟩
  · exact ⟨rfl, rfl, e, hget, rfl, rfl⟩

theorem necroSummon_held (s s2 : Pass) (idx : Nat) (e : Enemy)
    (hget : s.game.enemies.get? idx = some e) (h : s.necroSummon idx e = some s2) :
    s2.game.player = s.game.player ∧ s2.game.rand = s.game.rand ∧
      ∃ e2, s2.game.enemies.get? idx = some e2 ∧ e2.pos = e.pos ∧ e2.name = e.name := by
  unfold Pass.necroSummon at h
  by_cases hc : e.type = EnemyType.Necromancer ∧ e.awake = true
  · rw [if_pos hc] at h
    by_cases ht : e.summonTimer + 1 ≥ 5
    · rw [if_pos ht] at h
      dsimp only at h
      cases hf : (s.game.setEnemy idx { e with summonTimer := 0 }).firstFree e.pos dirs4 with
      | none =>
        rw [hf] at h
        cases h
        exact ⟨rfl, rfl, _, setEnemy_get s.game idx e _ hget, rfl, rfl⟩
      | some sp =>
        rw [hf] at h
        dsimp only at h
        cases hp : (s.game.setEnemy idx { e with summonTimer := 0 }).pushEnemy
            EnemyType.Skeleton sp with
        | none => rw [hp] at h; cases h
        | some g2 =>
          rw [hp] at h
          cases h
          obtain ⟨k1, k2, k3⟩ := pushEnemy_get _ g2 idx _ _ _
            (setEnemy_get s.game idx e { e with summonTimer := 0 } hget) hp
          dsimp only
          rw [addMessage_player, addMessage_enemies, addMessage_rand, k2, k3]
          exact ⟨rfl, rfl, _, k1, rfl, rfl⟩
    · rw [if_neg ht] at h
      cases h
      exact ⟨rfl, rfl, _, setEnemy_get s.game idx e _ hget, rfl, rfl⟩
  · rw [if_neg hc] at h
    cases h
    exact ⟨rfl, rfl, e, hget, rfl, rfl⟩

theorem lichSummon_held (s s2 : Pass) (idx : Nat) (e : Enemy)
    (hget : s.game.enemies.get? idx = some e) (h : s.lichSummon idx e = some s2) :
    s2.game.player = s.game.player ∧
      ∃ e2, s2.game.enemies.get? idx = some e2 ∧ e2.pos = e.pos ∧ e2.name = e.name := by
  unfold Pass.lichSummon at h
  by_cases hc : e.type = EnemyType.Lich ∧ e.awake = true
  · rw [if_pos hc] at h
    by_cases ht : e.summonTimer + 1 ≥ 4
    · rw [if_pos ht] at h
      dsimp only at h
      cases hf : (s.game.setEnemy idx { e with summonTimer := 0 }).firstFree e.pos dirs4 with
      | none =>
        rw [hf] at h
        cases h
        exact ⟨rfl, _, setEnemy_get s.game idx e _ hget, rfl, rfl⟩
      | some sp =>
        rw [hf] at h
        dsimp only at h
        cases hp : ({ (s.game.setEnemy idx { e with summonTimer := 0 }) with
            rand := ((s.game.setEnemy idx { e with summonTimer := 0 }).rand.next).2 }
              : Game).pushEnemy
            (if ((s.game.setEnemy idx { e with summonTimer := 0 }).rand.next).1 % 2 = 0
              then EnemyType.Skeleton else EnemyType.Ghost) sp with
        | none => rw [hp] at h; cases h
        | some g2 =>
          rw [hp] at h
          cases h
          obtain ⟨k1, k2, _⟩ := pushEnemy_get _ g2 idx _ _ _
            (show ({ (s.game.setEnemy idx { e with summonTimer := 0 }) with
              rand := ((s.game.setEnemy idx { e with summonTimer := 0 }).rand.next).2 }
                : Game).enemies.get? idx = some _ from
              setEnemy_get s.game idx e { e with summonTimer := 0 } hget) hp
          dsimp only
          rw [addMessage_player, addMessage_enemies, k2]
          exact ⟨rfl, _, k1, rfl, rfl⟩
    · rw [if_neg ht] at h
      cases h
      exact ⟨rfl, _, setEnemy_get s.game idx e _ hget, rfl, rfl⟩
  · rw [if_neg hc] at h
    cases h
    exact ⟨rfl, e, hget, rfl, rfl⟩

/-- With room in the vector the summoning and phase blocks return and leave the player
alone, and without a phase change of the Lich the enemy keeps its cell and its name. -/
theorem specials_held (s : Pass) (idx : Nat) (e : Enemy)
    (hget : s.game.enemies.get? idx = some e)
    (hnp : ¬ (e.type = EnemyType.Lich ∧ e.enraged = false ∧ e.hp ≤ Int.tdiv e.maxHp 2))
    (hroom : s.game.enemies.length + summonCap e.type ≤ s.game.enemyCapacity) :
    ∃ s5 e5, s.specials idx = some s5 ∧ s5.game.player = s.game.player ∧
      s5.game.enemies.get? idx = some e5 ∧ e5.pos = e.pos ∧ e5.name = e.name ∧ Same e e5 ∧
      s5.game.enemies.length ≤ s.game.enemies.length + 1 := by
  obtain ⟨s5, hs5, hev, _⟩ := specials_evolve s idx e hget hroom
  obtain ⟨e5, hg5, hsame⟩ := evolve_get idx _ _ _ e hev hget
  refine ⟨s5, e5, hs5, ?_⟩
  unfold Pass.specials at hs5
  rw [hget] at hs5
  dsimp only at hs5
  obtain ⟨p1, _, e2, hg2, hpos2, hname2⟩ := dragonRage_held s.game idx e hget
  have hev1 := dragonRage_evolve s.game idx e hget
  obtain ⟨e2b, hg2b, hsame2⟩ := evolve_get idx 0 _ _ e hev1 hget
  have he2 : e2b = e2 := by rw [hg2] at hg2b; exact (Option.some.inj hg2b).symm
  subst he2
  have hl2 := evolve_length idx 0 _ _ e hev1 hget
  have ht2 : e2b.type = e.type := hsame2.type
  obtain ⟨hsplit, hexcl⟩ := summonCap_split e.type
  rw [hg2] at hs5
  dsimp only at hs5
  obtain ⟨s2, hn2, hev3, _⟩ := necroSummon_evolve { s with game := s.game.dragonRage idx e }
    idx e2b hg2 (by
      show (s.game.dragonRage idx e).enemies.length + _ ≤ (s.game.dragonRage idx e).enemyCapacity
      rw [hev1.cap, ht2]; omega)
  rw [hn2] at hs5
  dsimp only at hs5
  obtain ⟨p2, _, e3, hg3, hpos3, hname3⟩ :=
    necroSummon_held { s with game := s.game.dragonRage idx e } s2 idx e2b hg2 hn2
  obtain ⟨e3b, hg3b, hsame3⟩ := evolve_get idx _ _ _ e2b hev3 hg2
  have he3 : e3b = e3 := by rw [hg3] at hg3b; exact (Option.some.inj hg3b).symm
  subst he3
  have hl3 := evolve_length idx _ _ _ e2b hev3 hg2
  have hcap2 : s2.game.enemyCapacity = s.game.enemyCapacity := hev3.cap.trans hev1.cap
  have ht3 : e3b.type = e.type := hsame3.type.trans ht2
  rw [ht2] at hl3
  have hl3' : s2.game.enemies.length
      ≤ s.game.enemies.length + (if e.type = EnemyType.Necromancer then 1 else 0) := by
    have := hl3.2
    have h0 : ({ s with game := s.game.dragonRage idx e } : Pass).game.enemies.length
        = (s.game.dragonRage idx e).enemies.length := rfl
    omega
  rw [hg3] at hs5
  dsimp only at hs5
  have hskip : ¬ (e3b.type = EnemyType.Lich ∧ e3b.enraged = false ∧
      e3b.hp ≤ Int.tdiv e3b.maxHp 2) := by
    rintro ⟨h1, h2, h3⟩
    have hs13 := same_trans e e2b e3b hsame2 hsame3
    apply hnp
    refine ⟨hs13.type ▸ h1, ?_, ?_⟩
    · rcases hs13.rage with ⟨h, _⟩ | ⟨h, _, _⟩
      · rw [← h]; exact h2
      · exact h
    · rw [← hs13.hp, ← hs13.maxHp]; exact h3
  have hph : s2.lichPhase idx e3b = some s2 := by
    unfold Pass.lichPhase
    rw [if_neg hskip]
  rw [hph] at hs5
  dsimp only at hs5
  rw [hg3] at hs5
  dsimp only at hs5
  obtain ⟨p4, e4, hg4, hpos4, hname4⟩ := lichSummon_held s2 s5 idx e3b hg3 hs5
  obtain ⟨s4, hn4, hev4, _⟩ := lichSummon_evolve s2 idx e3b hg3 (by
    rw [hcap2, ht3]; omega)
  rw [hs5] at hn4
  cases hn4
  have hl4 := evolve_length idx _ _ _ e3b hev4 hg3
  rw [hg4] at hg5
  have he5 : e4 = e5 := Option.some.inj hg5
  subst he5
  refine ⟨p4.trans (p2.trans p1), hg4, hpos4.trans (hpos3.trans hpos2),
    hname4.trans (hname3.trans hname2), hsame, ?_⟩
  rw [ht3] at hl4
  have hl4' := hl4.2
  by_cases hN : e.type = EnemyType.Necromancer
  · have hL : ¬ e.type = EnemyType.Lich := by rw [hN]; decide
    rw [if_pos hN] at hl3'
    rw [if_neg hL] at hl4'
    omega
  · rw [if_neg hN] at hl3'
    have : (if e.type = EnemyType.Lich then 1 else 0) ≤ 1 := by split <;> omega
    omega

/-- The enemy that the Dragon's turn counter leaves at `idx`. -/
theorem dragonTimer_get (g : Game) (idx : Nat) (e : Enemy)
    (hget : g.enemies.get? idx = some e) :
    (g.dragonTimer idx e).enemies.get? idx =
      some (if e.type = EnemyType.Dragon ∧ e.enraged = false then
        { e with summonTimer := e.summonTimer + 1 } else e) := by
  unfold Game.dragonTimer
  split
  · exact setEnemy_get g idx e _ hget
  · exact hget

theorem dragonTimer_view (g : Game) (idx : Nat) (e : Enemy) :
    (g.dragonTimer idx e).player = g.player ∧ (g.dragonTimer idx e).map = g.map ∧
      (g.dragonTimer idx e).rand = g.rand ∧
      (g.dragonTimer idx e).enemies.length = g.enemies.length := by
  unfold Game.dragonTimer
  split
  · exact ⟨rfl, rfl, rfl, List.length_set _ _ _⟩
  · exact ⟨rfl, rfl, rfl, rfl⟩

/-- The loop body for a living, unstunned enemy that does not skip its turn: the special
blocks, then the action. -/
theorem enemyTurn_path (s : Pass) (idx : Nat) (e e1 : Enemy) (s5 : Pass) (e5 : Enemy)
    (hget : s.game.enemies.get? idx = some e)
    (hal : e.isAlive = true) (hst : e.stunTurns ≤ 0)
    (he1 : (s.game.dragonTimer idx e).enemies.get? idx = some e1)
    (hsk : e1.dragonSkips = false)
    (hs5 : Pass.specials { s with game := s.game.dragonTimer idx e } idx = some s5)
    (hg5 : s5.game.enemies.get? idx = some e5) :
    s.enemyTurn idx =
      match s5.game.act idx e5 with
      | none => none
      | some g6 => some { s5 with game := g6 } := by
  unfold Pass.enemyTurn
  rw [hget]
  dsimp only
  rw [if_neg (by rw [hal]; exact Bool.noConfusion), if_neg (by omega), he1]
  dsimp only
  rw [hsk]
  simp only [Bool.false_eq_true, if_false]
  rw [hs5]
  dsimp only
  have hm : ∀ o : Option Enemy, o = some e5 →
      (match o with
        | none => (none : Option Pass)
        | some e5 =>
          match s5.game.act idx e5 with
          | none => none
          | some g6 => some { s5 with game := g6 }) =
      match s5.game.act idx e5 with
      | none => none
      | some g6 => some { s5 with game := g6 } := by
    intro o ho
    subst ho
    rfl
  exact hm _ hg5

/-- For an enemy that is neither Dragon, Necromancer nor Lich the special blocks do
nothing. -/
theorem specials_plain (s : Pass) (idx : Nat) (e : Enemy)
    (hget : s.game.enemies.get? idx = some e)
    (h1 : e.type ≠ EnemyType.Dragon) (h2 : e.type ≠ EnemyType.Necromancer)
    (h3 : e.type ≠ EnemyType.Lich) : s.specials idx = some s := by
  unfold Pass.specials
  rw [hget]
  dsimp only
  have hr : s.game.dragonRage idx e = s.game := by
    unfold Game.dragonRage
    rw [if_neg (fun h => h1 h.1)]
  rw [hr, hget]
  dsimp only
  have hn : Pass.necroSummon { s with game := s.game } idx e = some s := by
    unfold Pass.necroSummon
    rw [if_neg (fun h => h2 h.1)]
  rw [hn]
  dsimp only
  rw [hget]
  dsimp only
  have hp : s.lichPhase idx e = some s := by
    unfold Pass.lichPhase
    rw [if_neg (fun h => h3 h.1)]
  rw [hp]
  dsimp only
  rw [hget]
  dsimp only
  unfold Pass.lichSummon
  rw [if_neg (fun h => h3 h.1)]

/-- The action of an enemy returns for a living enemy inside the grid; it adds no enemy and
moves the enemy by at most one cardinal step. -/
theorem act_stepped (g : Game) (idx : Nat) (e : Enemy)
    (hget : g.enemies.get? idx = some e)
    (hin : e.isAlive = true → g.map.inBounds e.pos.x e.pos.y = true) :
    ∃ g2 e2, g.act idx e = some g2 ∧ g2.enemies.get? idx = some e2 ∧ Stepped g.map e e2 ∧
      g2.enemies.length = g.enemies.length := by
  unfold Game.act
  dsimp only
  split
  · obtain ⟨_, _, _, a4⟩ := shoot_view g e (e.rangedAttackDamage g.map g.player.pos)
    exact ⟨_, e, rfl, by rw [a4]; exact hget, stepped_stay _ e, by rw [a4]⟩
  · split
    · obtain ⟨_, _, _, a4⟩ := melee_view g e
      exact ⟨_, e, rfl, by rw [a4]; exact hget, stepped_stay _ e, by rw [a4]⟩
    · obtain ⟨g2, h1, h2, _, e2, h3, h4⟩ := moveEnemy_evolve g idx e hget hin
      have := evolve_length idx 0 _ _ e h2 hget
      exact ⟨g2, e2, h1, h3, h4, by omega⟩

/-- The loop body for an enemy that is already enraged, with room in the vector for its
summons: its attack stays, it moves by at most one cardinal step, and at most one enemy is
added. -/
theorem enemyTurn_enraged (s : Pass) (idx : Nat) (e : Enemy)
    (hget : s.game.enemies.get? idx = some e) (hen : e.enraged = true)
    (hw : s.game.map.walkableInside) (hi : s.game.enemiesInside)
    (hroom : s.game.enemies.length + summonCap e.type ≤ s.game.enemyCapacity) :
    ∃ s2 e2, s.enemyTurn idx = some s2 ∧ s2.game.enemies.get? idx = some e2 ∧
      e2.attack = e.attack ∧ e2.enraged = true ∧
      (e2.pos = e.pos ∨ cardinal e.pos e2.pos) ∧
      s2.game.enemies.length ≤ s.game.enemies.length + 1 := by
  by_cases hal : e.isAlive = true
  · by_cases hst : e.stunTurns > 0
    · refine ⟨{ s with game := s.game.stunTick idx e }, _, ?_,
        setEnemy_get s.game idx e _ hget, rfl, hen, Or.inl rfl, ?_⟩
      · unfold Pass.enemyTurn
        rw [hget]
        dsimp only
        rw [if_neg (by rw [hal]; exact Bool.noConfusion), if_pos hst]
      · show (s.game.enemies.set idx _).length ≤ _
        rw [List.length_set]; omega
    · have ht : s.game.dragonTimer idx e = s.game := by
        unfold Game.dragonTimer
        rw [if_neg (fun h => by rw [hen] at h; exact Bool.noConfusion h.2)]
      obtain ⟨s5, e5, hs5, hp5, hg5, hpos5, _, hsame5, hlen5⟩ := specials_held s idx e hget
        (fun h => by rw [hen] at h; exact Bool.noConfusion h.2.1) hroom
      have hi5 : s5.game.enemiesInside := by
        obtain ⟨s5c, hs5c, hev5c, _⟩ := specials_evolve s idx e hget hroom
        rw [hs5] at hs5c
        cases hs5c
        exact hev5c.inside hw hi
      obtain ⟨g6, e6, hact, hg6, hst6, hlen6⟩ := act_stepped s5.game idx e5 hg5
        (fun ha => hi5 e5 (List.mem_iff_get?.mpr ⟨idx, hg5⟩) ha)
      have hpath := enemyTurn_path s idx e e s5 e5 hget hal (by omega)
        (by rw [ht]; exact hget)
        (by unfold Enemy.dragonSkips; rw [hen]; simp)
        (by rw [ht]; exact hs5) hg5
      rw [hact] at hpath
      refine ⟨_, e6, hpath, hg6, ?_, ?_, ?_, ?_⟩
      · rw [hst6.2.1]
        rcases hsame5.rage with ⟨_, h⟩ | ⟨h, _, _⟩
        · exact h
        · rw [hen] at h; cases h
      · rw [hst6.2.2.1]
        rcases hsame5.rage with ⟨h, _⟩ | ⟨h, _, _⟩
        · rw [h]; exact hen
        · rw [hen] at h; cases h
      · rw [← hpos5]
        rcases hst6.2.2.2 with h | ⟨h, _⟩
        · exact Or.inl h
        · exact Or.inr h
      · show g6.enemies.length ≤ _
        omega
  · refine ⟨s, e, ?_, hget, rfl, hen, Or.inl rfl, by omega⟩
    unfold Pass.enemyTurn
    rw [hget]
    dsimp only
    have : e.isAlive = false := by
      cases h : e.isAlive
      · rfl
      · exact absurd h hal
    rw [if_pos this]

theorem openMap_walkableInside : openMap.walkableInside := by
  intro x y h
  simp only [openMap, decide_eq_true_eq] at h
  simp only [Map.inBounds, openMap, decide_eq_true_eq]
  omega

/-- The value of `Enemy::rangedAttackDamage` by cases. -/
theorem rangedAttackDamage_eq (a : Enemy) (m : Map) (t : Vec2) :
    a.rangedAttackDamage m t =
      if a.type = EnemyType.Archer ∧ 2 < a.pos.distanceSq t ∧ a.pos.distanceSq t ≤ 36 ∧
          a.hasLineOfSight m t = some true then a.attack else 0 := by
  unfold Enemy.rangedAttackDamage
  by_cases ht : a.type = EnemyType.Archer
  · rw [if_neg (fun h => h ht)]
    dsimp only
    by_cases hd1 : a.pos.distanceSq t ≤ 2
    · rw [if_pos hd1, if_neg (fun h => by omega)]
    · rw [if_neg hd1]
      by_cases hd2 : a.pos.distanceSq t > 36
      · rw [if_pos hd2, if_neg (fun h => by omega)]
      · rw [if_neg hd2]
        cases hl : a.hasLineOfSight m t with
        | none => rw [if_neg (fun h => by cases h.2.2.2)]
        | some b =>
          cases b with
          | true => rw [if_pos ⟨ht, by omega, by omega, rfl⟩]
          | false => rw [if_neg (fun h => by cases h.2.2.2)]
  · rw [if_pos ht, if_neg (fun h => ht h.1)]

theorem shoot_player (g : Game) (e : Enemy) (d : Int) :
    (g.shoot e d).player.hp = max 0 (g.player.hp - g.shotDamage d) ∧
      (g.shoot e d).player.damageTaken = g.player.damageTaken + g.shotDamage d ∧
      (g.shoot e d).player.lastDamageSource = "a " ++ e.name := by
  unfold Game.shoot
  dsimp only
  rw [addMessage_player]
  dsimp only
  refine ⟨?_, rfl, rfl⟩
  split
  · rw [max_eq_left (by omega)]
  · rw [max_eq_right (by omega)]

theorem meleeHit_player (g : Game) (e : Enemy) :
    (g.meleeHit e).player.toEntity = (g.bite e).defender ∧
      (g.meleeHit e).player.blindTurns = g.player.blindTurns ∧
      (g.meleeHit e).player.burningTurns = g.player.burningTurns ∧
      (g.meleeHit e).player.burningDmg = g.player.burningDmg ∧
      (g.meleeHit e).player.damageTaken = g.player.damageTaken + (g.bite e).outDmg := by
  unfold Game.meleeHit
  dsimp only
  rw [addMessage_player]
  exact ⟨rfl, rfl, rfl, rfl, rfl⟩

theorem ghostTouch_player (g : Game) (e : Enemy) :
    (g.ghostTouch e).player.toEntity = g.player.toEntity ∧
      (g.ghostTouch e).player.blindTurns =
        (if e.type = EnemyType.Ghost ∧ g.player.isAlive = true then 3
         else g.player.blindTurns) ∧
      (g.ghostTouch e).player.burningTurns = g.player.burningTurns ∧
      (g.ghostTouch e).player.burningDmg = g.player.burningDmg := by
  unfold Game.ghostTouch
  split
  · rw [addMessage_player]
    exact ⟨rfl, rfl, rfl, rfl⟩
  · exact ⟨rfl, rfl, rfl, rfl⟩

theorem demonFire_player (g : Game) (e : Enemy) :
    (g.demonFire e).player.toEntity = g.player.toEntity ∧
      (g.demonFire e).player.blindTurns = g.player.blindTurns ∧
      (g.demonFire e).player.burningTurns =
        (if e.type = EnemyType.Demon ∧ g.player.isAlive = true then 3
         else g.player.burningTurns) ∧
      (g.demonFire e).player.burningDmg =
        (if e.type = EnemyType.Demon ∧ g.player.isAlive = true then 2
         else g.player.burningDmg) := by
  unfold Game.demonFire
  split
  · rw [addMessage_player]
    exact ⟨rfl, rfl, rfl, rfl⟩
  · exact ⟨rfl, rfl, rfl, rfl⟩

/-- The player after the melee branch: hit by the exchange, blinded for 3 turns by a Ghost
and set ablaze (3 turns, 2 per turn) by a Demon when the hit left the player alive. -/
theorem melee_player (g : Game) (e : Enemy) :
    (g.melee e).player.toEntity = (g.bite e).defender ∧
      (g.melee e).player.blindTurns =
        (if e.type = EnemyType.Ghost ∧ (g.bite e).defender.isAlive = true then 3
         else g.player.blindTurns) ∧
      (g.melee e).player.burningTurns =
        (if e.type = EnemyType.Demon ∧ (g.bite e).defender.isAlive = true then 3
         else g.player.burningTurns) ∧
      (g.melee e).player.burningDmg =
        (if e.type = EnemyType.Demon ∧ (g.bite e).defender.isAlive = true then 2
         else g.player.burningDmg) := by
  unfold Game.melee
  obtain ⟨a1, a2, a3, a4, _⟩ := meleeHit_player g e
  obtain ⟨b1, b2, b3, b4⟩ := ghostTouch_player (g.meleeHit e) e
  obtain ⟨c1, c2, c3, c4⟩ := demonFire_player ((g.meleeHit e).ghostTouch e) e
  have hal1 : (g.meleeHit e).player.isAlive = (g.bite e).defender.isAlive := by
    show (g.meleeHit e).player.toEntity.isAlive = _
    rw [a1]
  have hal2 : ((g.meleeHit e).ghostTouch e).player.isAlive = (g.bite e).defender.isAlive := by
    show ((g.meleeHit e).ghostTouch e).player.toEntity.isAlive = _
    rw [b1, a1]
  refine ⟨c1.trans (b1.trans a1), ?_, ?_, ?_⟩
  · rw [c2, b2, hal1, a2]
  · rw [c3, hal2, b3, a3]
  · rw [c4, hal2, b4, a4]

/-- The action of an enemy within squared distance 2 of the player is the melee branch. -/
theorem act_melee (g : Game) (idx : Nat) (e : Enemy)
    (hd : e.pos.distanceSq g.player.pos ≤ 2) : g.act idx e = some (g.melee e) := by
  unfold Game.act
  dsimp only
  have h0 : e.rangedAttackDamage g.map g.player.pos = 0 := by
    rw [rangedAttackDamage_eq, if_neg (fun h => by omega)]
  rw [h0, if_neg (by omega), if_pos hd]

/-- The damage of the exchange of the melee branch, against the player's total defense. -/
theorem bite_outDmg (g : Game) (e : Enemy) :
    (g.bite e).outDmg =
      (if (g.rand.seq g.rand.cur % 10 == 0) = true then
        2 * max 1 (e.attack - g.player.totalDefense
          + (((g.rand.seq (g.rand.cur + 1) % 5 : Nat) : Int) - 2))
      else max 1 (e.attack - g.player.totalDefense
          + (((g.rand.seq (g.rand.cur + 1) % 5 : Nat) : Int) - 2))) := by
  unfold Game.bite
  rw [resolveCombat_outDmg]
  have h : ∀ v : Int, e.toEntity.attack + 0 - g.player.toEntity.defense
      - (g.player.totalDefense - g.player.defense) + v
      = e.attack - g.player.totalDefense + v := by
    intro v
    show e.attack + 0 - g.player.defense - (g.player.totalDefense - g.player.defense) + v = _
    omega
  rw [h]
/-! ## Theorems: ranged attacks, enrage, occupancy, waking, melee and summons -/

/-- The summoning and phase blocks of an enemy that summons into a full vector are
undefined: the `push_back` reallocates under the reference `e`. -/
theorem specials_full (s : Pass) (idx : Nat) (e : Enemy) (sp : Vec2)
    (hget : s.game.enemies.get? idx = some e) (hs : e.summonsNow)
    (hfree : (s.game.setEnemy idx { e with summonTimer := 0 }).firstFree e.pos dirs4 = some sp)
    (hfull : s.game.enemyCapacity ≤ s.game.enemies.length) :
    s.specials idx = none := by
  obtain ⟨_, _, haw, hty⟩ := hs
  have hnd : e.type ≠ EnemyType.Dragon := by
    rcases hty with h | h <;> rw [h.1] <;> decide
  unfold Pass.specials
  rw [hget]
  dsimp only
  have hr : s.game.dragonRage idx e = s.game := by
    unfold Game.dragonRage
    rw [if_neg (fun h => hnd h.1)]
  rw [hr, hget]
  dsimp only
  rcases hty with ⟨ht, htm⟩ | ⟨ht, htm, hph⟩
  · have hn : Pass.necroSummon { s with game := s.game } idx e = none := by
      unfold Pass.necroSummon
      rw [if_pos ⟨ht, haw⟩, if_pos htm]
      dsimp only
      rw [hfree]
      dsimp only
      rw [pushEnemy_none _ _ _ (by
        show s.game.enemyCapacity ≤ (s.game.setEnemy idx _).enemies.length
        rw [setEnemy_length]; exact hfull)]
    rw [hn]
  · have hn : Pass.necroSummon { s with game := s.game } idx e = some s := by
      unfold Pass.necroSummon
      rw [if_neg (fun h => by rw [ht] at h; exact absurd h.1 (by decide))]
    rw [hn]
    dsimp only
    rw [hget]
    dsimp only
    have hp : s.lichPhase idx e = some s := by
      unfold Pass.lichPhase
      rw [if_neg (fun h => hph h.2)]
    rw [hp]
    dsimp only
    rw [hget]
    dsimp only
    unfold Pass.lichSummon
    rw [if_pos ⟨ht, haw⟩, if_pos htm]
    dsimp only
    rw [hfree]
    dsimp only
    rw [pushEnemy_none _ _ _ (by
      show s.game.enemyCapacity ≤ (s.game.setEnemy idx _).enemies.length
      rw [setEnemy_length]; exact hfull)]

/-- The loop body of an enemy that summons into a full vector is undefined. -/
theorem summon_undefined (s : Pass) (idx : Nat) (e : Enemy) (sp : Vec2)
    (hget : s.game.enemies.get? idx = some e) (hs : e.summonsNow)
    (hfree : (s.game.setEnemy idx { e with summonTimer := 0 }).firstFree e.pos dirs4 = some sp)
    (hfull : s.game.enemyCapacity ≤ s.game.enemies.length) :
    s.enemyTurn idx = none := by
  have hsp := specials_full s idx e sp hget hs hfree hfull
  obtain ⟨hal, hst, _, hty⟩ := hs
  have hnd : e.type ≠ EnemyType.Dragon := by
    rcases hty with h | h <;> rw [h.1] <;> decide
  have ht : s.game.dragonTimer idx e = s.game := by
    unfold Game.dragonTimer
    rw [if_neg (fun h => hnd h.1)]
  have hsk : ¬ e.dragonSkips = true := by
    unfold Enemy.dragonSkips
    simp [hnd]
  unfold Pass.enemyTurn
  rw [hget]
  dsimp only
  rw [if_neg (by rw [hal]; exact Bool.noConfusion), if_neg (by omega), ht, hget]
  dsimp only
  rw [if_neg hsk]
  have hsp2 : Pass.specials { s with game := s.game } idx = none := hsp
  rw [hsp2]

/-- A pass whose first enemy summons into a full vector is undefined. -/
theorem updateEnemies_undefined (g : Game) (e : Enemy) (sp : Vec2)
    (hget : g.enemies.get? 0 = some e) (hs : e.summonsNow)
    (hfree : (g.setEnemy 0 { e with summonTimer := 0 }).firstFree e.pos dirs4 = some sp)
    (hfull : g.enemyCapacity ≤ g.enemies.length) :
    g.updateEnemies = none := by
  have hlt := get?_lt _ _ _ hget
  unfold Game.updateEnemies passBudget
  unfold Pass.loop
  rw [if_pos hlt, summon_undefined { game := g, count := g.enemies.length } 0 e sp hget hs
    hfree hfull]

/-- The pass up to and after the loop body of the enemy at index `i`: when the loop reaches
`i` the enemy is as at the start of the pass, the grid and the player's cell are those of
the start, and the vector has room for the summons of this enemy; the body returns, the
pass returns, and the enemy is at the end of the pass as its own body left it. -/
theorem pass_reaches (g : Game) (i : Nat) (e : Enemy)
    (hget : g.enemies.get? i = some e)
    (hw : g.map.walkableInside) (hi : g.enemiesInside) (hroom : g.hasRoom 1) :
    ∃ (sa sb : Pass) (g2 : Game) (e2 : Enemy),
      Pass.runTo { game := g, count := g.enemies.length } i = some sa ∧
      sa.enemyTurn i = some sb ∧ g.updateEnemies = some g2 ∧
      (sa.game.enemies.get? i = some e ∧ sa.game.map = g.map ∧
        sa.game.player.pos = g.player.pos ∧ sa.game.enemiesInside ∧
        sa.count = sa.game.enemies.length ∧
        sa.game.enemies.length + summonCap e.type ≤ sa.game.enemyCapacity) ∧
      sb.game.enemies.get? i = some e2 ∧ g2.enemies.get? i = some e2 := by
  have hlt := get?_lt _ _ _ hget
  obtain ⟨s2, h1, h2, h3, _, _, _⟩ := updateEnemies_rule
    (fun s idx =>
      Pass.runTo { game := g, count := g.enemies.length } idx = some s ∧
      s.game.map = g.map ∧ s.game.player.pos = g.player.pos ∧
      g.enemies.length ≤ s.game.enemies.length ∧
      s.game.enemies.length + capSum s.game.enemies idx ≤ s.game.enemyCapacity ∧
      (idx ≤ i → s.game.enemies.get? i = some e) ∧
      (i < idx → ∃ (sa sb : Pass) (e2 : Enemy),
        Pass.runTo { game := g, count := g.enemies.length } i = some sa ∧
        sa.enemyTurn i = some sb ∧
        (sa.game.enemies.get? i = some e ∧ sa.game.map = g.map ∧
          sa.game.player.pos = g.player.pos ∧ sa.game.enemiesInside ∧
          sa.count = sa.game.enemies.length ∧
          sa.game.enemies.length + summonCap e.type ≤ sa.game.enemyCapacity) ∧
        sb.game.enemies.get? i = some e2 ∧ s.game.enemies.get? i = some e2))
    (by
      intro s idx s2 a hc hga hins hturn hev hq
      obtain ⟨q1, q2, q3, q4, q5, q6, q7⟩ := hq
      obtain ⟨k1, k2, k3⟩ := evolve_capSum idx _ _ a hga hev
      have hl := evolve_length idx _ _ _ a hev hga
      refine ⟨?_, hev.map.trans q2, hev.ppos.trans q3, le_trans q4 hl.1, ?_, ?_, ?_⟩
      · unfold Pass.runTo
        rw [q1]
        exact hturn
      · rw [hev.cap]; omega
      · intro hle
        exact evolve_other idx _ _ _ a e i hev hga (by omega) (q6 (by omega))
      · intro hlt2
        by_cases hii : i = idx
        · subst hii
          have hge := q6 (le_refl _)
          have hae : a = e := by rw [hga] at hge; exact Option.some.inj hge
          subst hae
          obtain ⟨e2, he2, _⟩ := evolve_get i _ _ _ a hev hga
          exact ⟨s, s2, e2, q1, hturn, ⟨hga, q2, q3, hins, hc, by omega⟩, he2, he2⟩
        · obtain ⟨sa, sb, e2, r1, r2, r3, r4, r5⟩ := q7 (by omega)
          exact ⟨sa, sb, e2, r1, r2, r3, r4,
            evolve_other idx _ _ _ a e2 i hev hga hii r5⟩)
    g hw hi hroom
    ⟨rfl, rfl, rfl, le_refl _, by
      unfold Game.hasRoom at hroom
      show g.enemies.length + capSum g.enemies 0 ≤ g.enemyCapacity
      omega, fun _ => hget, fun h => by omega⟩
  obtain ⟨q1, q2, q3, q4, q5, q6, q7⟩ := h3
  obtain ⟨sa, sb, e2, r1, r2, r3, r4, r5⟩ := q7 (by omega)
  exact ⟨sa, sb, s2.game, e2, r1, r2, h1, r3, r4, r5⟩

/-- C16 fails in the code. A summon whose `push_back` finds the vector `enemies` full
reallocates it while the loop body goes on using the reference `Enemy& e = enemies[idx]`:
a pass whose first enemy summons into a full vector has no defined result, and nothing
holds after it. In the other passes the claim holds: on a grid whose walkable cells lie
inside it, with the living enemies inside the grid and room in the vector for the summons
of the pass, the pass returns, and if before it no two living enemies share a cell and none
stands on the player's cell, the same holds after it. The blocks that place or move an
enemy each preserve the invariant: the Necromancer's summon, the Lich's teleport with its
wave, the Lich's timed summon, and the collision check after a move, which puts the enemy
back on its old cell when the new one is the player's or another living enemy's. -/
theorem updateEnemies_occupancy (g : Game) (hw : g.map.walkableInside)
    (hi : g.enemiesInside) (hroom : g.hasRoom 1) (ho : g.occupancy) :
    (∃ g2, g.updateEnemies = some g2 ∧ g2.occupancy ∧ g2.player.pos = g.player.pos) ∧
    (∀ (s : Pass) (idx : Nat) (e : Enemy), s.game.enemies.get? idx = some e →
      s.game.occupancy →
      s.game.enemies.length + summonCap e.type ≤ s.game.enemyCapacity →
      (∃ s2, s.necroSummon idx e = some s2 ∧ s2.game.occupancy) ∧
      (∃ s2, s.lichPhase idx e = some s2 ∧ s2.game.occupancy) ∧
      (∃ s2, s.lichSummon idx e = some s2 ∧ s2.game.occupancy) ∧
      (∀ e1, Stepped s.game.map e e1 → (s.game.settle idx e.pos e1).occupancy) ∧
      (∀ e1, Stepped s.game.map e e1 →
        (e1.pos = s.game.player.pos ∨ collidesFrom idx e1.pos s.game.enemies 0 = true) →
        (s.game.settle idx e.pos e1).enemies.get? idx = some { e1 with pos := e.pos })) ∧
    (∀ (h : Game) (e : Enemy) (sp : Vec2), h.enemies.get? 0 = some e → e.summonsNow →
      (h.setEnemy 0 { e with summonTimer := 0 }).firstFree e.pos dirs4 = some sp →
      h.enemyCapacity ≤ h.enemies.length → h.updateEnemies = none) := by
  obtain ⟨g2, h1, h2, _, h4⟩ := updateEnemies_occ g hw hi hroom ho
  refine ⟨⟨g2, h1, h2, h4⟩, ?_, updateEnemies_undefined⟩
  intro s idx e hget hocc hrm
  obtain ⟨hsplit, _⟩ := summonCap_split e.type
  obtain ⟨a, a1, a2, _⟩ := necroSummon_evolve s idx e hget (by omega)
  obtain ⟨b, b1, b2, _⟩ := lichPhase_evolve s idx e hget (by omega)
  obtain ⟨c, c1, c2, _⟩ := lichSummon_evolve s idx e hget (by omega)
  refine ⟨⟨a, a1, a2.occ hocc⟩, ⟨b, b1, b2.occ hocc⟩, ⟨c, c1, c2.occ hocc⟩,
    fun e1 hs => (settle_evolve s.game idx e e1 hget hs).occ hocc, ?_⟩
  intro e1 _ hc
  unfold Game.settle
  by_cases h1 : e1.pos = s.game.player.pos
  · rw [if_pos h1]
    exact setEnemy_get s.game idx e _ hget
  · rw [if_neg h1]
    rcases hc with hc | hc
    · exact absurd hc h1
    · rw [if_pos hc]
      exact setEnemy_get s.game idx e _ hget

set_option maxRecDepth 100000 in
set_option maxHeartbeats 4000000 in
/-- The failing run of C16 and a run with spare capacity. On the crowded floor in a vector
of capacity 16 the Lich teleports and calls its wave, the Necromancer raises a Skeleton,
the Rat bites; the pass returns and no two living enemies share a cell afterwards. The
Necromancer about to summon, alone in a vector with `capacity() == size() == 1`: the
occupancy invariant holds before the pass, the cell (5, 4) next to the Necromancer is free,
and the pass has no defined result. -/
theorem updateEnemies_occupancy_witness :
    (crowdScene.map.walkableInside ∧ crowdScene.enemiesInside ∧ crowdScene.hasRoom 1 ∧
      crowdScene.occupancy) ∧
    (∃ g2, crowdScene.updateEnemies = some g2 ∧ g2.occupancy ∧
      g2.player.pos = crowdScene.player.pos) ∧
    (fullNecroScene.occupancy ∧ fullNecroScene.enemies.length = 1 ∧
      fullNecroScene.enemyCapacity = 1 ∧ fullNecroScene.updateEnemies = none) :=
  ⟨⟨openMap_walkableInside, by decide, by decide, by decide⟩,
   (updateEnemies_occupancy crowdScene openMap_walkableInside (by decide) (by decide)
     (by decide)).1,
   by decide, rfl, rfl,
   (updateEnemies_occupancy crowdScene openMap_walkableInside (by decide) (by decide)
     (by decide)).2.2 fullNecroScene
     { Enemy.create EnemyType.Necromancer ⟨5, 5⟩ with awake := true, summonTimer := 4 }
     ⟨5, 4⟩ rfl (by decide) (by decide) (by decide)⟩

/-- C11 fails in the code. A summon whose `push_back` finds the vector `enemies` full
reallocates it while the loop body goes on using the reference `Enemy& e = enemies[idx]`:
a sequence of passes whose first enemy summons into a full vector has no defined result,
and neither the attack nor the enrage flag is determined after it. In the other sequences
the claim holds: over any sequence of passes of `Game::updateEnemies` (on a grid whose
walkable cells lie inside it, with the living enemies inside the grid and room in the
vector for the summons of these passes) the passes return, and every enemy keeps its place
in the list and its type; either its enrage flag and attack are as at the start, or the
flag went from false to true and the attack is 4 higher; an enemy that starts enraged ends
enraged with the same attack. In a loop body that starts with the enemy enraged the
Dragon's enrage block and the Lich's phase block do nothing, the attack stays, the enemy
moves by at most one cardinal step (no teleport) and at most one enemy is added (the timed
summon, no wave). -/
theorem enrage_once (n : Nat) (g : Game) (hw : g.map.walkableInside)
    (hi : g.enemiesInside) (hroom : g.hasRoom n) :
    (∃ g2, Game.passes n g = some g2 ∧
      ∀ i e, g.enemies.get? i = some e →
        ∃ e2, g2.enemies.get? i = some e2 ∧ e2.type = e.type ∧ enrageStep e e2 ∧
          (e.enraged = true → e2.enraged = true ∧ e2.attack = e.attack)) ∧
    (∀ (s : Pass) (idx : Nat) (e : Enemy), s.game.enemies.get? idx = some e →
      e.enraged = true → s.game.map.walkableInside → s.game.enemiesInside →
      s.game.enemies.length + summonCap e.type ≤ s.game.enemyCapacity →
      s.game.dragonRage idx e = s.game ∧ s.lichPhase idx e = some s ∧
      ∃ s2 e2, s.enemyTurn idx = some s2 ∧ s2.game.enemies.get? idx = some e2 ∧
        e2.attack = e.attack ∧ e2.enraged = true ∧
        (e2.pos = e.pos ∨ cardinal e.pos e2.pos) ∧
        s2.game.enemies.length ≤ s.game.enemies.length + 1) ∧
    (∀ (m : Nat) (h : Game) (e : Enemy) (sp : Vec2), h.enemies.get? 0 = some e →
      e.summonsNow →
      (h.setEnemy 0 { e with summonTimer := 0 }).firstFree e.pos dirs4 = some sp →
      h.enemyCapacity ≤ h.enemies.length → Game.passes (m + 1) h = none) := by
  refine ⟨?_, ?_, ?_⟩
  · obtain ⟨g2, h1, h2⟩ := passes_same n g hw hi hroom
    refine ⟨g2, h1, ?_⟩
    intro i e hie
    obtain ⟨e2, he2, hs⟩ := h2 i e hie
    refine ⟨e2, he2, hs.type, hs.rage, ?_⟩
    intro hen
    rcases hs.rage with ⟨ha, hb⟩ | ⟨ha, _, _⟩
    · exact ⟨ha.trans hen, hb⟩
    · rw [hen] at ha; cases ha
  · intro s idx e hget hen hws his hrm
    refine ⟨?_, ?_, enemyTurn_enraged s idx e hget hen hws his hrm⟩
    · unfold Game.dragonRage
      rw [if_neg (fun h => by rw [hen] at h; exact Bool.noConfusion h.2.1)]
    · unfold Pass.lichPhase
      rw [if_neg (fun h => by rw [hen] at h; exact Bool.noConfusion h.2.1)]
  · intro m h e sp hget hs hfree hfull
    unfold Game.passes
    rw [updateEnemies_undefined h e sp hget hs hfree hfull]

set_option maxRecDepth 100000 in
set_option maxHeartbeats 4000000 in
/-- The failing runs of C11 and a run with spare capacity. The Lich at half health (attack
16) in a vector of capacity 16: after one pass it is enraged with attack 20, after two
passes its attack is still 20, and three passes return with the enrage flag and the attack
of every enemy changed at most once. The same Lich alone in a vector with
`capacity() == size() == 1`: the pass in which it changes phase has no defined result (the
wave reallocates the vector). The enraged Lich (attack 20) whose summon counter stands at
3, alone in a full vector: the pass has no defined result, so its attack after the pass is
not determined. -/
theorem enrage_once_witness :
    (lichScene.map.walkableInside ∧ lichScene.enemiesInside ∧ lichScene.hasRoom 3) ∧
    (Game.passes 1 lichScene).map
      (fun g => g.enemies.head?.map (fun e => (e.enraged, e.attack))) = some (some (true, 20)) ∧
    (Game.passes 2 lichScene).map
      (fun g => g.enemies.head?.map (fun e => (e.enraged, e.attack))) = some (some (true, 20)) ∧
    (∃ g2, Game.passes 3 lichScene = some g2 ∧
      ∀ i e, lichScene.enemies.get? i = some e →
        ∃ e2, g2.enemies.get? i = some e2 ∧ e2.type = e.type ∧ enrageStep e e2 ∧
          (e.enraged = true → e2.enraged = true ∧ e2.attack = e.attack)) ∧
    ((fullLichScene.enemies.length, fullLichScene.enemyCapacity) = (1, 1) ∧
      (Game.passes 1 fullLichScene).isSome = false) ∧
    (fullRageScene.enemies.map (fun e => (e.enraged, e.attack)) = [(true, 20)] ∧
      Game.passes 1 fullRageScene = none) :=
  ⟨⟨openMap_walkableInside, by decide, by decide⟩, by decide, by decide,
   (enrage_once 3 lichScene openMap_walkableInside (by decide) (by decide)).1,
   ⟨rfl, by decide⟩,
   ⟨by decide,
    (enrage_once 3 lichScene openMap_walkableInside (by decide) (by decide)).2.2 0
      fullRageScene
      { Enemy.create EnemyType.Lich ⟨5, 6⟩ with
          awake := true, hp := 40, enraged := true, attack := 20, summonTimer := 3 }
      ⟨5, 5⟩ rfl (by decide) (by decide) (by decide)⟩⟩

/-- C17 fails in the code. A summon whose `push_back` finds the vector `enemies` full
reallocates it while the loop body goes on using the reference `Enemy& e = enemies[idx]`:
the loop body of an enemy that summons into a full vector has no defined result, and the
awake flags after it are not determined. Apart from that the claim holds. For a living
enemy inside the grid `Enemy::update` returns, leaves the enemy awake whenever its squared
distance to the player is at most 64, and never clears the awake flag. With room in the
vector for its summons, a loop body of `Game::updateEnemies` returns and clears the awake
flag of no enemy of the list, and over any sequence of passes every enemy that is awake at
the start is awake at the end (on a grid whose walkable cells lie inside it, with the
living enemies inside the grid and room in the vector for the summons of these passes,
where the passes return). -/
theorem awake_irreversible (n : Nat) (g : Game) (hw : g.map.walkableInside)
    (hi : g.enemiesInside) (hroom : g.hasRoom n) :
    (∀ (e : Enemy) (m : Map) (p : Vec2) (rng : Rand),
      (e.isAlive = true → m.inBounds e.pos.x e.pos.y = true) →
      ∃ r rng2, e.update m p rng = some (r, rng2) ∧
        (e.isAlive = true → e.pos.distanceSq p ≤ 64 → r.awake = true) ∧
        (e.awake = true → r.awake = true)) ∧
    (∀ (s : Pass) (idx : Nat) (e : Enemy), s.game.enemies.get? idx = some e →
      s.game.map.walkableInside → s.game.enemiesInside →
      s.game.enemies.length + summonCap e.type ≤ s.game.enemyCapacity →
      ∃ s2, s.enemyTurn idx = some s2 ∧
        ∀ i a, s.game.enemies.get? i = some a → a.awake = true →
          ∃ a2, s2.game.enemies.get? i = some a2 ∧ a2.awake = true) ∧
    (∃ g2, Game.passes n g = some g2 ∧
      ∀ i e, g.enemies.get? i = some e → e.awake = true →
        ∃ e2, g2.enemies.get? i = some e2 ∧ e2.awake = true) ∧
    (∀ (s : Pass) (idx : Nat) (e : Enemy) (sp : Vec2), s.game.enemies.get? idx = some e →
      e.summonsNow →
      (s.game.setEnemy idx { e with summonTimer := 0 }).firstFree e.pos dirs4 = some sp →
      s.game.enemyCapacity ≤ s.game.enemies.length → s.enemyTurn idx = none) := by
  refine ⟨?_, ?_, ?_, summon_undefined⟩
  · intro e m p rng hin
    obtain ⟨r, rng2, h1, h2, h3⟩ := update_spec e m p rng hin
    exact ⟨r, rng2, h1, h3, h2.1.awake⟩
  · intro s idx e hget hws his hrm
    obtain ⟨s2, h1, hev, _⟩ := enemyTurn_evolve s idx e hget hws his hrm
    refine ⟨s2, h1, ?_⟩
    intro i a hia haw
    obtain ⟨a2, ha2, hs⟩ := evolve_same idx _ _ _ e a i hev hget hia
    exact ⟨a2, ha2, hs.awake haw⟩
  · obtain ⟨g2, h1, h2⟩ := passes_same n g hw hi hroom
    refine ⟨g2, h1, ?_⟩
    intro i e hie haw
    obtain ⟨e2, he2, hs⟩ := h2 i e hie
    exact ⟨e2, he2, hs.awake haw⟩

set_option maxRecDepth 100000 in
set_option maxHeartbeats 4000000 in
/-- The failing run of C17 and a run with spare capacity. On the crowded floor in a vector
of capacity 16 the sleeping Rat bites and stays asleep in the first pass (the melee branch
does not call `Enemy::update`), the sleeping Skeleton at squared distance 52 wakes up in
it, and after two passes the Lich and the Necromancer, awake at the start, are still
awake. The awake Necromancer about to summon, alone in a vector with
`capacity() == size() == 1`: its loop body, which raises a Skeleton, has no defined result,
and neither has the pass; nor has the pass on the crowded floor in a vector with
`capacity() == size() == 4`. -/
theorem awake_irreversible_witness :
    (crowdScene.map.walkableInside ∧ crowdScene.enemiesInside ∧ crowdScene.hasRoom 2) ∧
    (crowdScene.enemies.map (fun e => e.awake) = [true, true, false, false]) ∧
    (crowdScene.updateEnemies).map (fun g => (g.enemies.take 4).map (fun e => e.awake))
      = some [true, true, false, true] ∧
    (∃ g2, Game.passes 2 crowdScene = some g2 ∧
      ∀ i e, crowdScene.enemies.get? i = some e → e.awake = true →
        ∃ e2, g2.enemies.get? i = some e2 ∧ e2.awake = true) ∧
    ((fullNecroScene.enemies.map (fun e => e.awake), fullNecroScene.enemyCapacity)
        = ([true], 1) ∧
      Pass.enemyTurn { game := fullNecroScene, count := 1 } 0 = none ∧
      (Game.passes 1 fullNecroScene).isSome = false ∧
      (fullCrowdScene.updateEnemies).isSome = false) :=
  ⟨⟨openMap_walkableInside, by decide, by decide⟩, by decide, by decide,
   (awake_irreversible 2 crowdScene openMap_walkableInside (by decide) (by decide)).2.2.1,
   ⟨by decide,
    (awake_irreversible 2 crowdScene openMap_walkableInside (by decide) (by decide)).2.2.2
      { game := fullNecroScene, count := 1 } 0
      { Enemy.create EnemyType.Necromancer ⟨5, 5⟩ with awake := true, summonTimer := 4 }
      ⟨5, 4⟩ rfl (by decide) (by decide) (by decide),
    by decide, by decide⟩⟩

/-- The loop body of a living, unstunned enemy within squared distance 2 of the player
that neither skips its turn nor changes phase, with room in the vector for its summons:
the special blocks, then the melee branch. -/
theorem melee_turn (s : Pass) (idx : Nat) (e : Enemy)
    (hget : s.game.enemies.get? idx = some e) (hal : e.isAlive = true)
    (hst : e.stunTurns ≤ 0)
    (hdr : ¬ (e.type = EnemyType.Dragon ∧ e.enraged = false ∧
      Int.tmod (e.summonTimer + 1) 2 = 0))
    (hnp : ¬ (e.type = EnemyType.Lich ∧ e.enraged = false ∧ e.hp ≤ Int.tdiv e.maxHp 2))
    (hd : e.pos.distanceSq s.game.player.pos ≤ 2)
    (hroom : s.game.enemies.length + summonCap e.type ≤ s.game.enemyCapacity) :
    ∃ (s5 : Pass) (e5 : Enemy),
      s5.game.player = s.game.player ∧ s5.game.enemies.get? idx = some e5 ∧
      e5.pos = e.pos ∧ e5.name = e.name ∧ e5.type = e.type ∧ enrageStep e e5 ∧
      s.enemyTurn idx = some { s5 with game := s5.game.melee e5 } := by
  have he1 := dragonTimer_get s.game idx e hget
  obtain ⟨hp1, _, _, hlen1⟩ := dragonTimer_view s.game idx e
  have hcap1 := (dragonTimer_evolve s.game idx e hget).cap
  generalize hE : (if e.type = EnemyType.Dragon ∧ e.enraged = false then
    ({ e with summonTimer := e.summonTimer + 1 } : Enemy) else e) = e1 at he1
  have hk : e1.pos = e.pos ∧ e1.name = e.name ∧ e1.type = e.type ∧ e1.hp = e.hp ∧
      e1.maxHp = e.maxHp ∧ e1.enraged = e.enraged ∧ e1.attack = e.attack ∧
      e1.dragonSkips = false := by
    rw [← hE]
    by_cases hc : e.type = EnemyType.Dragon ∧ e.enraged = false
    · rw [if_pos hc]
      refine ⟨rfl, rfl, rfl, rfl, rfl, rfl, rfl, ?_⟩
      unfold Enemy.dragonSkips
      have : ¬ Int.tmod (e.summonTimer + 1) 2 = 0 := fun h => hdr ⟨hc.1, hc.2, h⟩
      simp [this]
    · rw [if_neg hc]
      refine ⟨rfl, rfl, rfl, rfl, rfl, rfl, rfl, ?_⟩
      unfold Enemy.dragonSkips
      by_cases ht : e.type = EnemyType.Dragon
      · have : e.enraged = true := by
          cases h : e.enraged
          · exact absurd ⟨ht, h⟩ hc
          · rfl
        simp [this]
      · simp [ht]
  obtain ⟨k1, k2, k3, k4, k5, k6, k7, k8⟩ := hk
  obtain ⟨s5, e5, hs5, hp5, hg5, hpos5, hname5, hsame5, _⟩ := specials_held
    { s with game := s.game.dragonTimer idx e } idx e1 he1
    (by rw [k3, k6, k4, k5]; exact hnp)
    (by
      show (s.game.dragonTimer idx e).enemies.length + _ ≤ (s.game.dragonTimer idx e).enemyCapacity
      rw [hlen1, hcap1, k3]; exact hroom)
  have hpl : s5.game.player = s.game.player := hp5.trans hp1
  refine ⟨s5, e5, hpl, hg5, hpos5.trans k1, hname5.trans k2, hsame5.type.trans k3, ?_, ?_⟩
  · have := hsame5.rage
    unfold enrageStep at *
    rw [k6, k7] at this
    exact this
  · rw [enemyTurn_path s idx e e1 s5 e5 hget hal hst he1 k8 hs5 hg5,
      act_melee s5.game idx e5 (by rw [hpos5, k1, hpl]; exact hd)]


/-- C18 (as amended). In a pass of `Game::updateEnemies` (on a grid whose walkable cells lie
inside it, with the living enemies inside the grid and room in the vector for the summons
of the pass) a living, unstunned enemy within squared distance 2 of the player that is not
a Dragon on its skipped turn and not a Lich about to change phase (unenraged at half health
or below, which teleports first) attacks instead of moving. The loop reaches the enemy as
it was at the start of the pass; after the summoning blocks, which leave the player and the
enemy's cell alone, its loop body is the melee branch, which leaves the enemy list as it
is; the pass returns, and at its end the enemy stands on the cell where it stood at the
start. The hit is the exchange of `resolveCombat` against the player's total defense: with
`c` the critical roll and `v` the variance the damage is
`max(1, attack - totalDefense() + v)`, doubled on a critical hit, and the player's hp is
lowered by it and clamped at 0. When the attacker is a Ghost and the player survives,
`blindTurns` becomes 3; when it is a Demon and the player survives, `burningTurns` becomes
3 and `burningDmg` 2; otherwise these counters stay. -/
theorem melee_contact (g : Game) (i : Nat) (e : Enemy)
    (hget : g.enemies.get? i = some e) (hal : e.isAlive = true)
    (hst : e.stunTurns ≤ 0)
    (hdr : ¬ (e.type = EnemyType.Dragon ∧ e.enraged = false ∧
      Int.tmod (e.summonTimer + 1) 2 = 0))
    (hnp : ¬ (e.type = EnemyType.Lich ∧ e.enraged = false ∧ e.hp ≤ Int.tdiv e.maxHp 2))
    (hd : e.pos.distanceSq g.player.pos ≤ 2)
    (hw : g.map.walkableInside) (hi : g.enemiesInside) (hroom : g.hasRoom 1) :
    ∃ (sa s5 : Pass) (e5 : Enemy) (g2 : Game),
      (Pass.runTo { game := g, count := g.enemies.length } i = some sa ∧
        sa.game.enemies.get? i = some e ∧ sa.game.player.pos = g.player.pos) ∧
      (s5.game.player = sa.game.player ∧ s5.game.enemies.get? i = some e5 ∧
        e5.pos = e.pos ∧ e5.name = e.name ∧ e5.type = e.type ∧ enrageStep e e5) ∧
      sa.enemyTurn i = some { s5 with game := s5.game.melee e5 } ∧
      (s5.game.melee e5).enemies = s5.game.enemies ∧
      (g.updateEnemies = some g2 ∧ g2.enemies.get? i = some e5) ∧
      (let p := sa.game.player
       let res := resolveCombat e5.toEntity p.toEntity 0 (p.totalDefense - p.defense)
         s5.game.rand
       let c : Bool := s5.game.rand.seq s5.game.rand.cur % 10 == 0
       let v : Int := ((s5.game.rand.seq (s5.game.rand.cur + 1) % 5 : Nat) : Int) - 2
       let base : Int := max 1 (e5.attack - p.totalDefense + v)
       let after := (s5.game.melee e5).player
       res.outDmg = (if c = true then 2 * base else base) ∧
       after.hp = max 0 (p.hp - res.outDmg) ∧
       (e.type = EnemyType.Ghost → p.hp - res.outDmg > 0 → after.blindTurns = 3) ∧
       (e.type = EnemyType.Demon → p.hp - res.outDmg > 0 →
         after.burningTurns = 3 ∧ after.burningDmg = 2) ∧
       (¬ (e.type = EnemyType.Ghost ∧ p.hp - res.outDmg > 0) →
         after.blindTurns = p.blindTurns) ∧
       (¬ (e.type = EnemyType.Demon ∧ p.hp - res.outDmg > 0) →
         after.burningTurns = p.burningTurns ∧ after.burningDmg = p.burningDmg)) := by
  obtain ⟨sa, sb, g2, e2, r1, r2, r3, ⟨a1, _, a3, _, _, a6⟩, r5, r6⟩ :=
    pass_reaches g i e hget hw hi hroom
  obtain ⟨s5, e5, hpl, hg5, hpos, hname, htype, hrage, hturn⟩ :=
    melee_turn sa i e a1 hal hst hdr hnp (by rw [a3]; exact hd) a6
  have hen := (melee_view s5.game e5).2.2.2
  have hsb : sb = { s5 with game := s5.game.melee e5 } := by
    rw [hturn] at r2
    exact (Option.some.inj r2).symm
  have he2 : e2 = e5 := by
    rw [hsb] at r5
    have h7 : (s5.game.melee e5).enemies.get? i = some e2 := r5
    rw [hen, hg5] at h7
    exact (Option.some.inj h7).symm
  refine ⟨sa, s5, e5, g2, ⟨r1, a1, a3⟩, ⟨hpl, hg5, hpos, hname, htype, hrage⟩, hturn, hen,
    ⟨r3, by rw [r6, he2]⟩, ?_⟩
  dsimp only
  obtain ⟨m1, m2, m3, m4⟩ := melee_player s5.game e5
  have hb := bite_outDmg s5.game e5
  have hbite : s5.game.bite e5 = resolveCombat e5.toEntity sa.game.player.toEntity 0
      (sa.game.player.totalDefense - sa.game.player.defense) s5.game.rand := by
    unfold Game.bite
    rw [hpl]
  rw [hbite, hpl] at hb
  rw [hbite] at m1 m2 m3 m4
  rw [hpl] at m2 m3 m4
  have hdef := resolveCombat_defender e5.toEntity sa.game.player.toEntity 0
    (sa.game.player.totalDefense - sa.game.player.defense) s5.game.rand _ rfl
  have hhp : (s5.game.melee e5).player.hp = max 0 (sa.game.player.hp -
      (resolveCombat e5.toEntity sa.game.player.toEntity 0
        (sa.game.player.totalDefense - sa.game.player.defense) s5.game.rand).outDmg) := by
    show (s5.game.melee e5).player.toEntity.hp = _
    rw [m1, hdef]
  have halive : (resolveCombat e5.toEntity sa.game.player.toEntity 0
        (sa.game.player.totalDefense - sa.game.player.defense) s5.game.rand).defender.isAlive
        = true ↔ sa.game.player.hp -
      (resolveCombat e5.toEntity sa.game.player.toEntity 0
        (sa.game.player.totalDefense - sa.game.player.defense) s5.game.rand).outDmg > 0 := by
    rw [hdef]
    unfold Entity.isAlive
    simp only [decide_eq_true_eq]
    constructor
    · intro h
      by_contra hc
      rw [max_eq_left (by omega)] at h
      omega
    · intro h
      rw [max_eq_right (by omega)]
      exact h
  rw [htype] at m2 m3 m4
  refine ⟨hb, hhp, ?_, ?_, ?_, ?_⟩
  · intro ht hs
    rw [m2, if_pos ⟨ht, halive.mpr hs⟩]
  · intro ht hs
    rw [m3, m4, if_pos ⟨ht, halive.mpr hs⟩, if_pos ⟨ht, halive.mpr hs⟩]
    exact ⟨rfl, rfl⟩
  · intro hn
    rw [m2, if_neg (fun h => hn ⟨h.1, halive.mp h.2⟩)]
  · intro hn
    rw [m3, m4, if_neg (fun h => hn ⟨h.1, halive.mp h.2⟩),
      if_neg (fun h => hn ⟨h.1, halive.mp h.2⟩)]
    exact ⟨rfl, rfl⟩

set_option maxRecDepth 100000 in
set_option maxHeartbeats 4000000 in
/-- C18 at the Ghost next to the player (attack 8 against total defense 4, no critical
hit, variance 0), alone in a vector of capacity 16: its loop body is the melee branch, the
player loses 4 of 40 hit points and is blinded for 3 turns, and at the end of the pass the
Ghost stands on (4, 4). -/
theorem melee_contact_witness :
    (ghostScene.enemies.get? 0 =
        some { Enemy.create EnemyType.Ghost ⟨4, 4⟩ with awake := true } ∧
      ({ Enemy.create EnemyType.Ghost ⟨4, 4⟩ with awake := true } : Enemy).pos.distanceSq
        ghostScene.player.pos ≤ 2 ∧
      ghostScene.map.walkableInside ∧ ghostScene.enemiesInside ∧ ghostScene.hasRoom 1) ∧
    (ghostScene.updateEnemies).map
      (fun g => (g.player.hp, g.player.blindTurns,
        g.enemies.map (fun e => e.pos))) = some (36, 3, [⟨4, 4⟩]) ∧
    ∃ (e5 : Enemy) (g2 : Game),
      ghostScene.updateEnemies = some g2 ∧ g2.enemies.get? 0 = some e5 ∧ e5.pos = ⟨4, 4⟩ := by
  refine ⟨⟨rfl, by decide, openMap_walkableInside, by decide, by decide⟩, by decide, ?_⟩
  obtain ⟨_, _, e5, g2, _, ⟨_, _, hpos, _⟩, _, _, ⟨h1, h2⟩, _⟩ :=
    melee_contact ghostScene 0
      { Enemy.create EnemyType.Ghost ⟨4, 4⟩ with awake := true } rfl (by decide) (by decide)
      (by decide) (by decide) (by decide) openMap_walkableInside (by decide) (by decide)
  exact ⟨e5, g2, h1, h2, hpos⟩

set_option maxRecDepth 100000 in
set_option maxHeartbeats 4000000 in
/-- C18 as stated fails. A Lich at half health next to the player, alone in a vector of
capacity 16 (the three push_backs of its wave do not reallocate): it is alive, awake, not
fleeing, not stunned, has no ranged shot and stands at squared distance 1, yet in the pass
it does not attack (the player keeps all 40 hit points and has taken no damage) and it
leaves its cell (5, 4) for (2, 2): the phase change teleports it before the melee test. -/
theorem lich_phase_change_preempts_melee :
    (lichScene.enemies.map (fun e => (e.type, e.pos, e.isAlive, e.awake))
      = [(EnemyType.Lich, ⟨5, 4⟩, true, true)]) ∧
    (lichScene.enemies.map (fun e => (e.shouldFlee, e.stunTurns,
        e.rangedAttackDamage lichScene.map lichScene.player.pos,
        e.pos.distanceSq lichScene.player.pos))
      = [(false, 0, 0, 1)]) ∧
    (lichScene.player.hp = 40 ∧ lichScene.enemyCapacity = 16) ∧
    (lichScene.updateEnemies).map
      (fun g => (g.player.hp, g.player.damageTaken, g.enemies.head?.map (fun e => e.pos),
        g.enemies.length))
      = some (40, 0, some ⟨2, 2⟩, 4) :=
  ⟨by decide, by decide, ⟨by decide, rfl⟩, by decide⟩

/-- C20 (as amended). An enemy appended by a summon is processed in the pass that created
it. With room in the vector for its summons, a loop body returns and keeps the loop bound
`count` equal to the length of the enemy list (each summon sets it to the new size), and
a pass (on a grid whose walkable cells lie inside it, with the living enemies inside the
grid and room in the vector for the summons of the pass) returns after running the loop
body once for each index below the length of the final list, in order: the enemies present
at the start and every enemy appended during the pass. -/
theorem summoned_enemies_processed (g : Game) (hw : g.map.walkableInside)
    (hi : g.enemiesInside) (hroom : g.hasRoom 1) :
    (∀ (s : Pass) (idx : Nat) (e : Enemy), s.game.enemies.get? idx = some e →
      s.count = s.game.enemies.length →
      s.game.map.walkableInside → s.game.enemiesInside →
      s.game.enemies.length + summonCap e.type ≤ s.game.enemyCapacity →
      ∃ s2, s.enemyTurn idx = some s2 ∧ s2.count = s2.game.enemies.length ∧
        s.game.enemies.length ≤ s2.game.enemies.length) ∧
    ∃ s2, g.updateEnemies = some s2.game ∧ s2.count = s2.game.enemies.length ∧
      g.enemies.length ≤ s2.game.enemies.length ∧
      Pass.runTo { game := g, count := g.enemies.length } s2.game.enemies.length = some s2 := by
  refine ⟨?_, ?_⟩
  · intro s idx e hget hc hws his hrm
    obtain ⟨s2, h1, hev, h2⟩ := enemyTurn_evolve s idx e hget hws his hrm
    exact ⟨s2, h1, h2 hc, (evolve_length idx _ _ _ e hev hget).1⟩
  · obtain ⟨s2, h1, h2, h3, _, _, _⟩ := updateEnemies_rule
      (fun s idx => Pass.runTo { game := g, count := g.enemies.length } idx = some s ∧
        g.enemies.length ≤ s.game.enemies.length)
      (by
        intro s idx s2 e _ hget _ hturn hev hq
        refine ⟨?_, le_trans hq.2 (evolve_length idx _ _ _ e hev hget).1⟩
        unfold Pass.runTo
        rw [hq.1]
        exact hturn)
      g hw hi hroom ⟨rfl, le_refl _⟩
    refine ⟨s2, h1, h2, h3.2, ?_⟩
    rw [← h2]
    exact h3.1

set_option maxRecDepth 100000 in
set_option maxHeartbeats 4000000 in
/-- C20 at the Necromancer about to summon, alone in a vector of capacity 16: the pass
returns with two enemies in the list, and it ran the loop body for index 0 and for
index 1. -/
theorem summoned_enemies_processed_witness :
    (necroScene.map.walkableInside ∧ necroScene.enemiesInside ∧ necroScene.hasRoom 1) ∧
    necroScene.enemies.length = 1 ∧
    ∃ s2, necroScene.updateEnemies = some s2.game ∧ s2.game.enemies.length = 2 ∧
      Pass.runTo { game := necroScene, count := 1 } 2 = some s2 := by
  refine ⟨⟨openMap_walkableInside, by decide, by decide⟩, rfl, ?_⟩
  obtain ⟨s2, h1, _, _, h4⟩ :=
    (summoned_enemies_processed necroScene openMap_walkableInside (by decide) (by decide)).2
  have hlen : (necroScene.updateEnemies).map (fun g => g.enemies.length) = some 2 := by decide
  rw [h1] at hlen
  simp only [Option.map_some', Option.some.injEq] at hlen
  rw [hlen] at h4
  exact ⟨s2, h1, hlen, h4⟩

set_option maxRecDepth 100000 in
set_option maxHeartbeats 4000000 in
/-- C20 as stated fails. An awake Necromancer two cells below the player with its summon
counter at 4, alone in a vector of capacity 16 (the push_back does not reallocate): the
pass starts with one enemy, the Necromancer raises a Skeleton on (5, 4), next to the
player, and in the same pass that Skeleton hits the player for 2 (40 to 38 hit points). -/
theorem summoned_skeleton_attacks_same_pass :
    necroScene.enemies.map (fun e => (e.type, e.pos)) = [(EnemyType.Necromancer, ⟨5, 5⟩)] ∧
    (necroScene.player.hp = 40 ∧ necroScene.enemyCapacity = 16) ∧
    (necroScene.updateEnemies).map
      (fun g => (g.player.hp, g.enemies.map (fun e => (e.type, e.pos)), g.messageLog))
      = some (38, [(EnemyType.Necromancer, ⟨5, 6⟩), (EnemyType.Skeleton, ⟨5, 4⟩)],
          ["The Necromancer raises a Skeleton!", "Skeleton hits Player for 2 damage."]) :=
  ⟨by decide, ⟨by decide, rfl⟩, by decide⟩

/-! ## Theorems: the turn handler -/

theorem addMessage_view (g : Game) (msg : String) :
    (g.addMessage msg).player = g.player ∧ (g.addMessage msg).enemies = g.enemies ∧
      (g.addMessage msg).map = g.map ∧ (g.addMessage msg).rand = g.rand ∧
      (g.addMessage msg).state = g.state ∧ (g.addMessage msg).autoExploring = g.autoExploring := by
  rw [addMessage_eq]
  exact ⟨rfl, rfl, rfl, rfl, rfl, rfl⟩

theorem tickCooldown_eq (p : Player) :
    p.tickCooldown = { p with abilityCooldown := countdown p.abilityCooldown } := by
  unfold Player.tickCooldown countdown
  split <;> rfl

/-- The poison bookkeeping touches only the damage statistics and the log. -/
theorem poisonNote_frame (g : Game) :
    (g.poisonNote.player.turnsPlayed = g.player.turnsPlayed ∧
     g.poisonNote.player.abilityCooldown = g.player.abilityCooldown ∧
     g.poisonNote.player.toEntity = g.player.toEntity ∧
     g.poisonNote.player.poisonTurns = g.player.poisonTurns ∧
     g.poisonNote.player.poisonDmg = g.player.poisonDmg ∧
     g.poisonNote.player.burningTurns = g.player.burningTurns ∧
     g.poisonNote.player.burningDmg = g.player.burningDmg) ∧
    (g.poisonNote.player.blindTurns = g.player.blindTurns ∧
     g.poisonNote.player.slowTurns = g.player.slowTurns ∧
     g.poisonNote.player.hasteTurns = g.player.hasteTurns ∧
     g.poisonNote.player.shieldTurns = g.player.shieldTurns) ∧
    g.poisonNote.enemies = g.enemies ∧ g.poisonNote.map = g.map ∧
    g.poisonNote.rand = g.rand := by
  unfold Game.poisonNote
  split
  · rw [addMessage_player, addMessage_enemies, addMessage_map, addMessage_rand]
    exact ⟨⟨rfl, rfl, rfl, rfl, rfl, rfl, rfl⟩, ⟨rfl, rfl, rfl, rfl⟩, rfl, rfl, rfl⟩
  · exact ⟨⟨rfl, rfl, rfl, rfl, rfl, rfl, rfl⟩, ⟨rfl, rfl, rfl, rfl⟩, rfl, rfl, rfl⟩

/-- The burning bookkeeping touches only the damage statistics and the log. -/
theorem burningNote_frame (g : Game) :
    (g.burningNote.player.turnsPlayed = g.player.turnsPlayed ∧
     g.burningNote.player.abilityCooldown = g.player.abilityCooldown ∧
     g.burningNote.player.toEntity = g.player.toEntity ∧
     g.burningNote.player.poisonTurns = g.player.poisonTurns ∧
     g.burningNote.player.poisonDmg = g.player.poisonDmg ∧
     g.burningNote.player.burningTurns = g.player.burningTurns ∧
     g.burningNote.player.burningDmg = g.player.burningDmg) ∧
    (g.burningNote.player.blindTurns = g.player.blindTurns ∧
     g.burningNote.player.slowTurns = g.player.slowTurns ∧
     g.burningNote.player.hasteTurns = g.player.hasteTurns ∧
     g.burningNote.player.shieldTurns = g.player.shieldTurns) ∧
    g.burningNote.enemies = g.enemies ∧ g.burningNote.map = g.map ∧
    g.burningNote.rand = g.rand := by
  unfold Game.burningNote
  split
  · rw [addMessage_player, addMessage_enemies, addMessage_map, addMessage_rand]
    exact ⟨⟨rfl, rfl, rfl, rfl, rfl, rfl, rfl⟩, ⟨rfl, rfl, rfl, rfl⟩, rfl, rfl, rfl⟩
  · exact ⟨⟨rfl, rfl, rfl, rfl, rfl, rfl, rfl⟩, ⟨rfl, rfl, rfl, rfl⟩, rfl, rfl, rfl⟩

/-- The counters after the statements between the `switch` and the enemy phase: the turn
counter is one higher, the cooldown and the six status counters are counted down, the hit
points are those after the poison and the burning tick, and the enemies are untouched. -/
theorem turnTicks_counters (g : Game) :
    (g.turnTicks.player.turnsPlayed = g.player.turnsPlayed + 1 ∧
     g.turnTicks.player.abilityCooldown = countdown g.player.abilityCooldown ∧
     g.turnTicks.player.hp = g.player.tickStatusEffects.hp) ∧
    (g.turnTicks.player.poisonTurns = countdown g.player.poisonTurns ∧
     g.turnTicks.player.burningTurns = countdown g.player.burningTurns ∧
     g.turnTicks.player.blindTurns = countdown g.player.blindTurns ∧
     g.turnTicks.player.slowTurns = countdown g.player.slowTurns ∧
     g.turnTicks.player.hasteTurns = countdown g.player.hasteTurns ∧
     g.turnTicks.player.shieldTurns = countdown g.player.shieldTurns) ∧
    g.turnTicks.enemies = g.enemies ∧ g.turnTicks.map = g.map ∧
    g.turnTicks.rand = g.rand := by
  obtain ⟨⟨a1, a2, a3, a4, a5, a6, a7⟩, ⟨a8, a9, a10, a11⟩, a12, a13, a14⟩ :=
    poisonNote_frame g.clockTick
  obtain ⟨⟨b1, b2, b3, b4, b5, b6, b7⟩, ⟨b8, b9, b10, b11⟩, b12, b13, b14⟩ :=
    burningNote_frame g.clockTick.poisonNote
  have hc : g.clockTick.player =
      { g.player with turnsPlayed := g.player.turnsPlayed + 1,
                      abilityCooldown := countdown g.player.abilityCooldown } := by
    unfold Game.clockTick
    rw [tickCooldown_eq]
  have hhp : g.clockTick.poisonNote.burningNote.player.hp = g.player.hp := by
    show g.clockTick.poisonNote.burningNote.player.toEntity.hp = _
    rw [b3, a3, hc]
  unfold Game.turnTicks Game.statusTick
  dsimp only
  rw [tickStatusEffects_eq]
  dsimp only
  rw [b1, a1, b2, a2, b4, a4, b5, a5, b6, a6, b7, a7, b8, a8, b9, a9, b10, a10, b11, a11,
    hhp, b12, a12, b13, a13, b14, a14, hc, tickStatusEffects_eq]
  exact ⟨⟨rfl, rfl, rfl⟩, ⟨rfl, rfl, rfl, rfl, rfl, rfl⟩, rfl, rfl, rfl⟩

theorem pushEnemy_player (g g2 : Game) (t : EnemyType) (sp : Vec2)
    (h : g.pushEnemy t sp = some g2) : g2.player = g.player := by
  obtain ⟨_, h2⟩ := pushEnemy_some g g2 t sp h
  rw [h2]

theorem wave_player (pos : Vec2) :
    ∀ (ds : List (Int × Int)) (summoned : Nat) (s s2 : Pass),
      Pass.wave pos ds summoned s = some s2 → s2.game.player = s.game.player := by
  intro ds
  induction ds with
  | nil =>
    intro summoned s s2 h
    unfold Pass.wave at h
    cases h
    rfl
  | cons d ds ih =>
    intro summoned s s2 h
    unfold Pass.wave at h
    by_cases hs : summoned < 3
    · rw [if_pos hs] at h
      by_cases hf : s.game.freeCell (pos.add ⟨d.1, d.2⟩) = true
      · rw [if_pos hf] at h
        dsimp only at h
        cases hp : ({ s.game with rand := (s.game.rand.next).2 } : Game).pushEnemy
            (if (s.game.rand.next).1 % 2 = 0 then EnemyType.Skeleton else EnemyType.Ghost)
            (pos.add ⟨d.1, d.2⟩) with
        | none => rw [hp] at h; cases h
        | some g1 =>
          rw [hp] at h
          dsimp only at h
          rw [ih _ _ _ h]
          show g1.player = s.game.player
          exact pushEnemy_player ({ s.game with rand := (s.game.rand.next).2 } : Game) g1 _ _ hp
      · rw [if_neg hf] at h
        exact ih summoned s s2 h
    · rw [if_neg hs] at h
      cases h
      rfl

theorem lichPhase_player (s s2 : Pass) (idx : Nat) (e : Enemy)
    (h : s.lichPhase idx e = some s2) : s2.game.player = s.game.player := by
  unfold Pass.lichPhase at h
  by_cases hc : e.type = EnemyType.Lich ∧ e.enraged = false ∧ e.hp ≤ Int.tdiv e.maxHp 2
  · rw [if_pos hc] at h
    cases hw : Pass.wave (s.game.lichAfter idx e).pos dirs4 0
        { s with game := s.game.lichVanish idx e } with
    | none => rw [hw] at h; cases h
    | some s3 =>
      rw [hw] at h
      cases h
      dsimp only
      rw [addMessage_player, wave_player _ _ _ _ _ hw]
      rfl
  · rw [if_neg hc] at h
    cases h
    rfl

theorem dragonRage_player (g : Game) (idx : Nat) (e : Enemy) :
    (g.dragonRage idx e).player = g.player := by
  unfold Game.dragonRage
  split
  · rw [addMessage_player]; rfl
  · rfl

theorem necroSummon_player (s s2 : Pass) (idx : Nat) (e : Enemy)
    (h : s.necroSummon idx e = some s2) : s2.game.player = s.game.player := by
  unfold Pass.necroSummon at h
  by_cases hc : e.type = EnemyType.Necromancer ∧ e.awake = true
  · rw [if_pos hc] at h
    by_cases ht : e.summonTimer + 1 ≥ 5
    · rw [if_pos ht] at h
      dsimp only at h
      cases hf : (s.game.setEnemy idx { e with summonTimer := 0 }).firstFree e.pos dirs4 with
      | none =>
        rw [hf] at h
        cases h
        rfl
      | some sp =>
        rw [hf] at h
        dsimp only at h
        cases hp : (s.game.setEnemy idx { e with summonTimer := 0 }).pushEnemy
            EnemyType.Skeleton sp with
        | none => rw [hp] at h; cases h
        | some g2 =>
          rw [hp] at h
          cases h
          dsimp only
          rw [addMessage_player, pushEnemy_player _ _ _ _ hp]
          rfl
    · rw [if_neg ht] at h
      cases h
      rfl
  · rw [if_neg hc] at h
    cases h
    rfl

theorem lichSummon_player (s s2 : Pass) (idx : Nat) (e : Enemy)
    (h : s.lichSummon idx e = some s2) : s2.game.player = s.game.player := by
  unfold Pass.lichSummon at h
  by_cases hc : e.type = EnemyType.Lich ∧ e.awake = true
  · rw [if_pos hc] at h
    by_cases ht : e.summonTimer + 1 ≥ 4
    · rw [if_pos ht] at h
      dsimp only at h
      cases hf : (s.game.setEnemy idx { e with summonTimer := 0 }).firstFree e.pos dirs4 with
      | none =>
        rw [hf] at h
        cases h
        rfl
      | some sp =>
        rw [hf] at h
        dsimp only at h
        cases hp : ({ (s.game.setEnemy idx { e with summonTimer := 0 }) with
            rand := ((s.game.setEnemy idx { e with summonTimer := 0 }).rand.next).2 }
              : Game).pushEnemy
            (if ((s.game.setEnemy idx { e with summonTimer := 0 }).rand.next).1 % 2 = 0
              then EnemyType.Skeleton else EnemyType.Ghost) sp with
        | none => rw [hp] at h; cases h
        | some g2 =>
          rw [hp] at h
          cases h
          dsimp only
          rw [addMessage_player, pushEnemy_player _ _ _ _ hp]
          rfl
    · rw [if_neg ht] at h
      cases h
      rfl
  · rw [if_neg hc] at h
    cases h
    rfl

/-- The summoning and phase blocks leave the player alone. -/
theorem specials_player (s : Pass) (idx : Nat) (s5 : Pass) (h : s.specials idx = some s5) :
    s5.game.player = s.game.player := by
  unfold Pass.specials at h
  cases h1 : s.game.enemies.get? idx with
  | none => rw [h1] at h; cases h
  | some e1 =>
    rw [h1] at h
    dsimp only at h
    cases h2 : (s.game.dragonRage idx e1).enemies.get? idx with
    | none => rw [h2] at h; cases h
    | some e2 =>
      rw [h2] at h
      dsimp only at h
      cases hn : Pass.necroSummon { s with game := s.game.dragonRage idx e1 } idx e2 with
      | none => rw [hn] at h; cases h
      | some s2 =>
        rw [hn] at h
        dsimp only at h
        cases h3 : s2.game.enemies.get? idx with
        | none => rw [h3] at h; cases h
        | some e3 =>
          rw [h3] at h
          dsimp only at h
          cases hp : s2.lichPhase idx e3 with
          | none => rw [hp] at h; cases h
          | some s3 =>
            rw [hp] at h
            dsimp only at h
            cases h4 : s3.game.enemies.get? idx with
            | none => rw [h4] at h; cases h
            | some e4 =>
              rw [h4] at h
              dsimp only at h
              rw [lichSummon_player _ _ _ _ h, lichPhase_player _ _ _ _ hp,
                necroSummon_player _ _ _ _ hn]
              exact dragonRage_player s.game idx e1

theorem shoot_clock (g : Game) (e : Enemy) (d : Int) :
    (g.shoot e d).player.clock = g.player.clock := by
  unfold Game.shoot Player.clock
  dsimp only
  rw [addMessage_player]

theorem melee_clock (g : Game) (e : Enemy) : (g.melee e).player.clock = g.player.clock := by
  have h1 : (g.meleeHit e).player.clock = g.player.clock := by
    unfold Game.meleeHit Player.clock
    dsimp only
    rw [addMessage_player]
  have h2 : ∀ g : Game, (g.ghostTouch e).player.clock = g.player.clock := by
    intro g
    unfold Game.ghostTouch Player.clock
    split
    · rw [addMessage_player]
    · rfl
  have h3 : ∀ g : Game, (g.demonFire e).player.clock = g.player.clock := by
    intro g
    unfold Game.demonFire Player.clock
    split
    · rw [addMessage_player]
    · rfl
  unfold Game.melee
  rw [h3, h2, h1]

theorem moveEnemy_player (g : Game) (idx : Nat) (e : Enemy) (g2 : Game)
    (h : g.moveEnemy idx e = some g2) : g2.player = g.player := by
  unfold Game.moveEnemy at h
  dsimp only at h
  split at h
  · simp only [Option.some.injEq] at h
    rw [← h]
    split <;> rfl
  · have hp : (if decide (g.map.getTile e.pos.x e.pos.y = Tile.Water) = true then
        ({ g with rand := (g.rand.next).2 } : Game) else g).player = g.player := by
      split <;> rfl
    split at h
    · cases h
    · simp only [Option.some.injEq] at h
      rw [← h, settle_player]
      exact hp

theorem act_clock (g : Game) (idx : Nat) (e : Enemy) (g2 : Game)
    (h : g.act idx e = some g2) : g2.player.clock = g.player.clock := by
  unfold Game.act at h
  dsimp only at h
  split at h
  · simp only [Option.some.injEq] at h
    rw [← h]; exact shoot_clock g e _
  · split at h
    · simp only [Option.some.injEq] at h
      rw [← h]; exact melee_clock g e
    · rw [moveEnemy_player g idx e g2 h]

/-- A loop body of the enemy phase leaves the player's clock alone. -/
theorem enemyTurn_clock (s : Pass) (idx : Nat) (s2 : Pass) (h : s.enemyTurn idx = some s2) :
    s2.game.player.clock = s.game.player.clock := by
  unfold Pass.enemyTurn at h
  cases h0 : s.game.enemies.get? idx with
  | none => rw [h0] at h; cases h
  | some e =>
    rw [h0] at h
    dsimp only at h
    split at h
    · simp only [Option.some.injEq] at h
      rw [← h]
    · split at h
      · simp only [Option.some.injEq] at h
        rw [← h]
        rfl
      · have hp1 := (dragonTimer_view s.game idx e).1
        cases h1 : (s.game.dragonTimer idx e).enemies.get? idx with
        | none => rw [h1] at h; cases h
        | some e1 =>
          rw [h1] at h
          dsimp only at h
          split at h
          · simp only [Option.some.injEq] at h
            rw [← h]
            show (s.game.dragonTimer idx e).player.clock = _
            rw [hp1]
          · cases h5 : Pass.specials { s with game := s.game.dragonTimer idx e } idx with
            | none => rw [h5] at h; cases h
            | some s5 =>
              rw [h5] at h
              dsimp only at h
              have hp5 := specials_player _ idx s5 h5
              cases h6 : s5.game.enemies.get? idx with
              | none => rw [h6] at h; cases h
              | some e5 =>
                rw [h6] at h
                dsimp only at h
                cases h7 : s5.game.act idx e5 with
                | none => rw [h7] at h; cases h
                | some g6 =>
                  rw [h7] at h
                  simp only [Option.some.injEq] at h
                  rw [← h]
                  show g6.player.clock = _
                  rw [act_clock s5.game idx e5 g6 h7, hp5]
                  show (s.game.dragonTimer idx e).player.clock = _
                  rw [hp1]

theorem loop_clock : ∀ (fuel : Nat) (s : Pass) (idx : Nat) (g2 : Game),
    Pass.loop fuel s idx = some g2 → g2.player.clock = s.game.player.clock := by
  intro fuel
  induction fuel with
  | zero => intro s idx g2 h; cases h
  | succ n ih =>
    intro s idx g2 h
    unfold Pass.loop at h
    split at h
    · cases h1 : s.enemyTurn idx with
      | none => rw [h1] at h; cases h
      | some s1 =>
        rw [h1] at h
        dsimp only at h
        rw [ih s1 (idx + 1) g2 h, enemyTurn_clock s idx s1 h1]
    · simp only [Option.some.injEq] at h
      rw [← h]

/-- A pass of `Game::updateEnemies` leaves the player's clock alone. -/
theorem updateEnemies_clock (g g2 : Game) (h : g.updateEnemies = some g2) :
    g2.player.clock = g.player.clock :=
  loop_clock _ _ _ g2 h

theorem slowRoll_view (g : Game) :
    g.slowRoll.player = g.player ∧ g.slowRoll.enemies = g.enemies ∧
      g.slowRoll.map = g.map ∧ g.slowRoll.state = g.state := by
  unfold Game.slowRoll
  split <;> exact ⟨rfl, rfl, rfl, rfl⟩

/-- Without auto-explore and without a lost slow roll `Game::handlePlaying` is the
`switch`. -/
theorem handlePlaying_dispatch (g : Game) (o : Outside) (hauto : g.autoExploring = false)
    (hslow : ¬ (g.player.slowTurns > 0 ∧ (g.rand.next).1 % 2 = 0)) :
    g.handlePlaying o = g.slowRoll.dispatch o := by
  unfold Game.handlePlaying
  rw [hauto]
  simp only [Bool.false_eq_true, if_false]
  unfold Game.keyTurn
  rw [if_neg hslow]

/-- A move into a cell that is not walkable and holds no living enemy changes nothing. -/
theorem movePlayer_blocked (g : Game) (dx dy : Int)
    (hfree : g.enemyAt (g.player.pos.x + dx) (g.player.pos.y + dy) = none)
    (hwall : g.map.isWalkable (g.player.pos.x + dx) (g.player.pos.y + dy) = false) :
    g.movePlayer dx dy = g := by
  unfold Game.movePlayer
  dsimp only
  rw [hfree]
  dsimp only
  rw [hwall]
  rfl

theorem dispatch_move (g : Game) (o : Outside) (d : Int × Int) (hk : o.key.dir = some d) :
    g.dispatch o = (g.movePlayer d.1 d.2).advanceTurn o := by
  unfold Game.dispatch
  cases hkey : o.key <;> rw [hkey] at hk <;> simp [Key.dir] at hk <;> subst hk <;> rfl

theorem creditKills_none : ∀ (es : List Enemy) (g : Game),
    (∀ e ∈ es, ¬ (e.isAlive = false ∧ e.xpReward > 0)) → creditKills es g = (es, g) := by
  intro es
  induction es with
  | nil => intro g _; rfl
  | cons e es ih =>
    intro g h
    unfold creditKills
    rw [if_neg (h e (List.mem_cons_self _ _))]
    dsimp only
    rw [ih g (fun a ha => h a (List.mem_cons_of_mem _ ha))]

theorem cooldownText_ne (a b : String) : a ++ " on cooldown (" ++ b ++ " turns)." ≠ "" := by
  intro h
  have := congrArg String.length h
  simp only [String.length_append] at this
  have h8 : " turns).".length = 8 := by decide
  have h0 : "".length = 0 := by decide
  omega

/-- The ability key while the ability is on cooldown, with no uncredited kill in the list:
only the cooldown notice is logged. -/
theorem abilityKey_cooldown (g : Game) (hcd : g.player.abilityCooldown > 0)
    (hk : ∀ e ∈ g.enemies, ¬ (e.isAlive = false ∧ e.xpReward > 0)) :
    g.abilityKey = g.addMessage (g.player.abilityName ++ " on cooldown (" ++
      toString g.player.abilityCooldown ++ " turns).") := by
  unfold Game.abilityKey
  have hu : g.player.useAbility g.enemies =
      (g.player.abilityName ++ " on cooldown (" ++ toString g.player.abilityCooldown
        ++ " turns).", g.player, g.enemies) := by
    unfold Player.useAbility
    rw [if_pos hcd]
  rw [hu]
  dsimp only
  rw [if_pos (cooldownText_ne _ _)]
  have he : (({ g with player := g.player, enemies := g.enemies } : Game).addMessage
      (g.player.abilityName ++ " on cooldown (" ++ toString g.player.abilityCooldown
        ++ " turns).")).enemies = g.enemies := by
    rw [addMessage_enemies]
  rw [he, creditKills_none g.enemies _ hk]
  dsimp only
  have : ∀ h : Game, h.enemies = g.enemies → ({ h with enemies := g.enemies } : Game) = h := by
    intro h hh
    rw [← hh]
  rw [this _ he]

/-- The stairs key on a tile that is not a downward staircase: only a notice is logged. -/
theorem descendStairs_off (g : Game) (o : Outside)
    (ht : g.map.getTile g.player.pos.x g.player.pos.y ≠ Tile.StairsDown) :
    g.descendStairs o = g.addMessage
      (if g.map.getTile g.player.pos.x g.player.pos.y = Tile.StairsUp then
        "These stairs lead up. You can't go back." else "No stairs here.") := by
  unfold Game.descendStairs
  dsimp only
  by_cases hu : g.map.getTile g.player.pos.x g.player.pos.y = Tile.StairsUp
  · rw [if_pos hu, if_pos hu]
  · rw [if_neg hu, if_neg hu, if_pos ht]

/-- A passive key returns at once, with the player and the enemies as they were. -/
theorem dispatch_passive (g : Game) (o : Outside) (hk : o.key.passive = true) :
    ∃ g2, g.dispatch o = some g2 ∧ g2.player = g.player ∧ g2.enemies = g.enemies := by
  unfold Game.dispatch
  cases hkey : o.key <;> rw [hkey] at hk <;>
    first
      | exact absurd hk (by decide)
      | exact ⟨_, rfl, rfl, rfl⟩
      | exact ⟨_, rfl, addMessage_player _ _, addMessage_enemies _ _⟩

theorem afterEnemies_still (g : Game) (o : Outside) (hh : g.player.hasteTurns ≤ 0) :
    (g.afterEnemies o).player = g.player ∧ (g.afterEnemies o).enemies = g.enemies := by
  have hg1 : (if g.player.hasteTurns > 0 then g.hasteMove o.hasteKey else g) = g :=
    if_neg (by omega)
  unfold Game.afterEnemies
  by_cases ha : g.player.isAlive = false
  · rw [if_pos ha]
    exact ⟨rfl, rfl⟩
  · rw [if_neg ha]
    dsimp only
    rw [hg1, if_neg (fun h => by omega)]
    by_cases hl : g.refreshFov.player.pendingLevelUps > 0
    · rw [if_pos hl]
      exact ⟨rfl, rfl⟩
    · rw [if_neg hl]
      exact ⟨rfl, rfl⟩

/-- When the turn advances and no haste bonus action follows, the handler returns with the
turn counter one higher and the cooldown counted down. -/
theorem advanceTurn_clock (g : Game) (o : Outside) (g2 : Game)
    (h : g.advanceTurn o = some g2) (hh : g.player.hasteTurns ≤ 1) :
    g2.player.turnsPlayed = g.player.turnsPlayed + 1 ∧
      g2.player.abilityCooldown = countdown g.player.abilityCooldown := by
  unfold Game.advanceTurn at h
  cases h1 : g.turnTicks.updateEnemies with
  | none => rw [h1] at h; cases h
  | some g1 =>
    rw [h1] at h
    simp only [Option.some.injEq] at h
    have hc := updateEnemies_clock _ _ h1
    obtain ⟨⟨c1, c2, _⟩, ⟨_, _, _, _, c7, _⟩, _⟩ := turnTicks_counters g
    unfold Player.clock at hc
    simp only [Prod.mk.injEq] at hc
    obtain ⟨k1, k2, _, _, k5, _⟩ := hc
    have hh1 : g1.player.hasteTurns ≤ 0 := by
      rw [k5, c7]
      unfold countdown
      split <;> omega
    rw [← h, (afterEnemies_still g1 o hh1).1, k1, k2, c1, c2]
    exact ⟨rfl, rfl⟩

/-- C19 (as amended). When auto-explore is not running and the turn is not lost to the slow
roll (not both `slowTurns > 0` and an even draw), a movement key toward a cell that is not
walkable and holds no enemy, the ability key while the ability is on cooldown (with no dead
enemy in the list that still has a positive `xpReward`), and the stairs key off a downward
staircase do advance the turn: `Game::handlePlaying` then runs the turn advance on the
game as it was (after the slow roll's draw), with at most a notice added to the log:
`turnsPlayed` is raised by one, the cooldown and the six status counters are counted down,
the poison and burning ticks are applied to the hit points, and the enemy phase runs on the
result; whenever the handler returns and no haste bonus action follows (`hasteTurns <= 1`),
the final state has `turnsPlayed` one higher and the cooldown counted down. Under the same
two conditions the passive keys (the `default` branch and the keys that open a screen,
start auto-explore, save or quit) return with the player and the enemies unchanged. -/
theorem noop_intents_advance_turn (g : Game) (o : Outside) (hauto : g.autoExploring = false)
    (hslow : ¬ (g.player.slowTurns > 0 ∧ (g.rand.next).1 % 2 = 0)) :
    (∀ d : Int × Int, o.key.dir = some d →
      g.enemyAt (g.player.pos.x + d.1) (g.player.pos.y + d.2) = none →
      g.map.isWalkable (g.player.pos.x + d.1) (g.player.pos.y + d.2) = false →
      g.handlePlaying o = g.slowRoll.advanceTurn o) ∧
    (o.key = Key.Ability → g.player.abilityCooldown > 0 →
      (∀ e ∈ g.enemies, ¬ (e.isAlive = false ∧ e.xpReward > 0)) →
      g.handlePlaying o =
        (g.slowRoll.addMessage (g.player.abilityName ++ " on cooldown (" ++
          toString g.player.abilityCooldown ++ " turns).")).advanceTurn o) ∧
    (o.key = Key.Stairs → g.map.getTile g.player.pos.x g.player.pos.y ≠ Tile.StairsDown →
      g.handlePlaying o =
        (g.slowRoll.addMessage
          (if g.map.getTile g.player.pos.x g.player.pos.y = Tile.StairsUp then
            "These stairs lead up. You can't go back." else "No stairs here.")).advanceTurn o) ∧
    (∀ g1 : Game, g1.player = g.player → g1.enemies = g.enemies →
      (g1.advanceTurn o =
        match g1.turnTicks.updateEnemies with
        | none => none
        | some g2 => some (g2.afterEnemies o)) ∧
      (g1.turnTicks.player.turnsPlayed = g.player.turnsPlayed + 1 ∧
        g1.turnTicks.player.abilityCooldown = countdown g.player.abilityCooldown ∧
        g1.turnTicks.player.hp = g.player.tickStatusEffects.hp ∧
        g1.turnTicks.player.poisonTurns = countdown g.player.poisonTurns ∧
        g1.turnTicks.player.burningTurns = countdown g.player.burningTurns ∧
        g1.turnTicks.player.blindTurns = countdown g.player.blindTurns ∧
        g1.turnTicks.player.slowTurns = countdown g.player.slowTurns ∧
        g1.turnTicks.player.hasteTurns = countdown g.player.hasteTurns ∧
        g1.turnTicks.player.shieldTurns = countdown g.player.shieldTurns ∧
        g1.turnTicks.enemies = g.enemies) ∧
      (∀ g2, g1.advanceTurn o = some g2 → g.player.hasteTurns ≤ 1 →
        g2.player.turnsPlayed = g.player.turnsPlayed + 1 ∧
        g2.player.abilityCooldown = countdown g.player.abilityCooldown)) ∧
    (o.key.passive = true →
      ∃ g2, g.handlePlaying o = some g2 ∧ g2.player = g.player ∧ g2.enemies = g.enemies) := by
  have hd := handlePlaying_dispatch g o hauto hslow
  obtain ⟨v1, v2, v3, _⟩ := slowRoll_view g
  refine ⟨?_, ?_, ?_, ?_, ?_⟩
  · intro d hk hfree hwall
    rw [hd, dispatch_move g.slowRoll o d hk, movePlayer_blocked g.slowRoll d.1 d.2 ?_ ?_]
    · unfold Game.enemyAt
      rw [v1, v2]
      exact hfree
    · rw [v1, v3]
      exact hwall
  · intro hk hcd hkills
    rw [hd]
    have : g.slowRoll.dispatch o = g.slowRoll.abilityKey.advanceTurn o := by
      unfold Game.dispatch
      rw [hk]
    rw [this, abilityKey_cooldown g.slowRoll (by rw [v1]; exact hcd)
      (by rw [v2]; exact hkills), v1]
  · intro hk ht
    rw [hd]
    have : g.slowRoll.dispatch o = (g.slowRoll.descendStairs o).advanceTurn o := by
      unfold Game.dispatch
      rw [hk]
    rw [this, descendStairs_off g.slowRoll o (by rw [v1, v3]; exact ht), v1, v3]
  · intro g1 hp he
    obtain ⟨⟨c1, c2, c3⟩, ⟨c4, c5, c6, c7, c8, c9⟩, c10, _, _⟩ := turnTicks_counters g1
    rw [hp] at c1 c2 c3 c4 c5 c6 c7 c8 c9
    rw [he] at c10
    refine ⟨rfl, ⟨c1, c2, c3, c4, c5, c6, c7, c8, c9, c10⟩, ?_⟩
    intro g2 h2 hh
    have := advanceTurn_clock g1 o g2 h2 (by rw [hp]; exact hh)
    rw [hp] at this
    exact this
  · intro hk
    rw [hd]
    obtain ⟨g2, h1, h2, h3⟩ := dispatch_passive g.slowRoll o hk
    exact ⟨g2, h1, h2.trans v1, h3.trans v2⟩

set_option maxRecDepth 100000 in
set_option maxHeartbeats 4000000 in
/-- C19 at the Warrior with three turns of cooldown left who presses the ability key: the
handler is the turn advance after the cooldown notice, and it returns with `turnsPlayed`
1 and cooldown 2. -/
theorem noop_intents_advance_turn_witness :
    (cooldownScene.autoExploring = false ∧
      ¬ (cooldownScene.player.slowTurns > 0 ∧ (cooldownScene.rand.next).1 % 2 = 0) ∧
      (pressKey Key.Ability).key = Key.Ability ∧ cooldownScene.player.abilityCooldown > 0 ∧
      ∀ e ∈ cooldownScene.enemies, ¬ (e.isAlive = false ∧ e.xpReward > 0)) ∧
    cooldownScene.handlePlaying (pressKey Key.Ability) =
      (cooldownScene.slowRoll.addMessage "Shield Bash on cooldown (3 turns).").advanceTurn
        (pressKey Key.Ability) ∧
    ∃ g2, cooldownScene.handlePlaying (pressKey Key.Ability) = some g2 ∧
      g2.player.turnsPlayed = 1 ∧ g2.player.abilityCooldown = 2 := by
  have h := noop_intents_advance_turn cooldownScene (pressKey Key.Ability) rfl (by decide)
  have hab := h.2.1 rfl (by decide) (by decide)
  have hret : (cooldownScene.handlePlaying (pressKey Key.Ability)).isSome = true := by decide
  refine ⟨⟨rfl, by decide, rfl, by decide, by decide⟩, hab, ?_⟩
  cases hg : cooldownScene.handlePlaying (pressKey Key.Ability) with
  | none => rw [hg] at hret; cases hret
  | some g2 =>
    rw [hg] at hab
    have := (h.2.2.2.1 _ (addMessage_player _ _) (addMessage_enemies _ _)).2.2 g2 hab.symm
      (by decide)
    exact ⟨g2, rfl, this⟩

set_option maxRecDepth 100000 in
set_option maxHeartbeats 4000000 in
/-- C19 as stated fails. A Warrior with three turns of cooldown left, standing at the origin
of the open floor (no cell above it, no stairs under it), not slowed, with a sleeping Rat
on (3, 2) and auto-explore off: a move up into the void, the ability key and the stairs
key each advance the turn: `turnsPlayed` goes from 0 to 1, the cooldown from 3 to 2, and
the Rat wakes up and moves to (3, 1). The Help key leaves everything as it was. -/
theorem noop_intent_ticks_turn :
    (cooldownScene.autoExploring = false ∧ cooldownScene.player.slowTurns = 0 ∧
      cooldownScene.map.isWalkable 0 (-1) = false ∧ cooldownScene.enemyAt 0 (-1) = none ∧
      cooldownScene.map.getTile 0 0 = Tile.Floor) ∧
    (cooldownScene.player.pos, cooldownScene.player.turnsPlayed,
      cooldownScene.player.abilityCooldown,
      cooldownScene.enemies.map (fun e => (e.pos, e.awake)))
      = (⟨0, 0⟩, 0, 3, [(⟨3, 2⟩, false)]) ∧
    (cooldownScene.handlePlaying (pressKey Key.Up)).map
      (fun g => (g.player.turnsPlayed, g.player.abilityCooldown,
        g.enemies.map (fun e => (e.pos, e.awake)))) = some (1, 2, [(⟨3, 1⟩, true)]) ∧
    (cooldownScene.handlePlaying (pressKey Key.Ability)).map
      (fun g => (g.player.turnsPlayed, g.player.abilityCooldown,
        g.enemies.map (fun e => (e.pos, e.awake)))) = some (1, 2, [(⟨3, 1⟩, true)]) ∧
    (cooldownScene.handlePlaying (pressKey Key.Stairs)).map
      (fun g => (g.player.turnsPlayed, g.player.abilityCooldown,
        g.enemies.map (fun e => (e.pos, e.awake)))) = some (1, 2, [(⟨3, 1⟩, true)]) ∧
    (cooldownScene.handlePlaying (pressKey Key.Help)).map
      (fun g => (g.player.turnsPlayed, g.player.abilityCooldown,
        g.enemies.map (fun e => (e.pos, e.awake)))) = some (0, 3, [(⟨3, 2⟩, false)]) :=
  ⟨⟨rfl, rfl, by decide, by decide, by decide⟩, by decide, by decide, by decide, by decide,
   by decide⟩

/-! ## Theorems: inventory bound, item constructor, experience, Backstab -/

theorem inventory_call_size (inv : Inventory) (c : InvCall) (h : inv.size ≤ 10) :
    (inv.call c).size ≤ 10 := by
  cases c with
  | add item =>
    show (inv.add item).2.size ≤ 10
    unfold Inventory.add Inventory.isFull Inventory.MAX_ITEMS
    by_cases hf : inv.size ≥ 10
    · have hd : decide (inv.size ≥ 10) = true := by simp [hf]
      rw [hd]
      exact h
    · have hd : decide (inv.size ≥ 10) = false := by simp [hf]
      rw [hd]
      show Inventory.size { items := inv.items ++ [{ item with onGround := false }] } ≤ 10
      unfold Inventory.size at *
      simp only [List.length_append, List.length_singleton]
      push_cast
      omega
  | remove index =>
    show (inv.remove index).size ≤ 10
    unfold Inventory.remove
    by_cases hr : index ≥ 0 ∧ index < inv.size
    · rw [if_pos hr]
      have := List.length_eraseIdx_le inv.items index.toNat
      unfold Inventory.size at *
      dsimp only
      omega
    · rw [if_neg hr]
      exact h

theorem inventory_run_size (calls : List InvCall) :
    ∀ inv : Inventory, inv.size ≤ 10 → (inv.run calls).size ≤ 10 := by
  induction calls with
  | nil => intro inv h; exact h
  | cons c cs ih =>
    intro inv h
    exact ih (inv.call c) (inventory_call_size inv c h)

/-- C21. `Inventory::add` on an inventory with fewer than 10 items returns true and the
inventory is the old item list followed by the item with `onGround = false`; on an
inventory with 10 items (or more) it returns false and the inventory is as before. Every
sequence of `add` and `remove` calls from the empty inventory ends with at most 10 items,
and `remove(i)` with `i < 0` or `i >= size()` changes nothing. -/
theorem inventory_add_remove_spec :
    (∀ (inv : Inventory) (item : Item), inv.size < 10 →
      inv.add item = (true, { items := inv.items ++ [{ item with onGround := false }] }) ∧
      (inv.add item).2.size = inv.size + 1) ∧
    (∀ (inv : Inventory) (item : Item), inv.size ≥ 10 → inv.add item = (false, inv)) ∧
    (∀ calls : List InvCall, (Inventory.empty.run calls).size ≤ 10) ∧
    (∀ (inv : Inventory) (i : Int), i < 0 ∨ i ≥ inv.size → inv.remove i = inv) := by
  refine ⟨?_, ?_, ?_, ?_⟩
  · intro inv item h
    refine ⟨?_, (inventory_add_room inv item h).2.2⟩
    unfold Inventory.add Inventory.isFull Inventory.MAX_ITEMS
    have hd : decide (inv.size ≥ 10) = false := by
      have : ¬ inv.size ≥ 10 := by omega
      simp [this]
    rw [hd]
    rfl
  · intro inv item h
    unfold Inventory.add Inventory.isFull Inventory.MAX_ITEMS
    have hd : decide (inv.size ≥ 10) = true := by simp [h]
    rw [hd]
    rfl
  · intro calls
    exact inventory_run_size calls Inventory.empty (by decide)
  · intro inv i h
    unfold Inventory.remove
    rw [if_neg (by omega)]

/-- C22 as stated fails. A Dagger of base value 1 made Rusty: the constructor yields
value 1, not `1 + (-1) = 0`; and with base value 0 it yields 1, not -1. -/
theorem rusty_value_clamped :
    (Item.new ⟨0, 0⟩ "Dagger" '/' ItemType.Weapon 1 Enchantment.Rusty).value = 1 ∧
    1 + enchantmentValueMod Enchantment.Rusty = 0 ∧
    (Item.new ⟨0, 0⟩ "Dagger" '/' ItemType.Weapon 0 Enchantment.Rusty).value = 1 ∧
    0 + enchantmentValueMod Enchantment.Rusty = -1 := by
  decide

/-- C22 (as amended). For an enchantment other than None the `Item` constructor yields the name
`prefix(e)` followed by the given name and the value `max(1, v + m(e))`, which is
`v + m(e)` exactly when `v + m(e) >= 1`; `m` is Rusty -1, Sharp +2, Flaming +1, Frozen +1,
Vampiric +1, Blessed +3, Legendary +5, so `-1 <= m(e) <= 5`. With None the name and the
value are the arguments. The other fields are the arguments, and `onGround` is true. -/
theorem item_constructor_spec (pos : Vec2) (name : String) (glyph : Char) (type : ItemType)
    (v : Int) (e : Enchantment) :
    (e ≠ Enchantment.None →
      (Item.new pos name glyph type v e).name = enchantmentLabel e ++ name ∧
      (Item.new pos name glyph type v e).value = max 1 (v + enchantmentValueMod e) ∧
      (v + enchantmentValueMod e ≥ 1 →
        (Item.new pos name glyph type v e).value = v + enchantmentValueMod e) ∧
      (v + enchantmentValueMod e < 1 → (Item.new pos name glyph type v e).value = 1)) ∧
    (e = Enchantment.None →
      (Item.new pos name glyph type v e).name = name ∧
      (Item.new pos name glyph type v e).value = v) ∧
    ((Item.new pos name glyph type v e).pos = pos ∧
      (Item.new pos name glyph type v e).glyph = glyph ∧
      (Item.new pos name glyph type v e).type = type ∧
      (Item.new pos name glyph type v e).onGround = true ∧
      (Item.new pos name glyph type v e).enchantment = e) ∧
    (enchantmentValueMod Enchantment.None = 0 ∧ enchantmentValueMod Enchantment.Rusty = -1 ∧
      enchantmentValueMod Enchantment.Sharp = 2 ∧ enchantmentValueMod Enchantment.Flaming = 1 ∧
      enchantmentValueMod Enchantment.Frozen = 1 ∧
      enchantmentValueMod Enchantment.Vampiric = 1 ∧
      enchantmentValueMod Enchantment.Blessed = 3 ∧
      enchantmentValueMod Enchantment.Legendary = 5) ∧
    (-1 ≤ enchantmentValueMod e ∧ enchantmentValueMod e ≤ 5) := by
  refine ⟨?_, ?_, ?_, ⟨rfl, rfl, rfl, rfl, rfl, rfl, rfl, rfl⟩, ?_⟩
  · intro hne
    unfold Item.new
    dsimp only
    rw [if_pos hne]
    refine ⟨rfl, rfl, ?_, ?_⟩
    · intro h
      exact max_eq_right h
    · intro h
      exact max_eq_left (by omega)
  · intro he
    unfold Item.new
    dsimp only
    rw [if_neg (fun h => h he)]
    exact ⟨rfl, rfl⟩
  · unfold Item.new
    dsimp only
    split <;> exact ⟨rfl, rfl, rfl, rfl, rfl⟩
  · cases e <;> decide

theorem levelsCost_zero (lo : Int) : levelsCost lo 0 = 0 := by
  unfold levelsCost; simp

theorem levelsCost_shift (lo : Int) (n : Nat) :
    levelsCost lo (n + 1) = 20 * lo + levelsCost (lo + 1) n := by
  unfold levelsCost
  rw [Finset.sum_range_succ']
  have : ∀ k : Nat, 20 * (lo + ((k + 1 : Nat) : Int)) = 20 * (lo + 1 + (k : Int)) := by
    intro k; push_cast; ring
  simp only [this]
  push_cast
  ring

/-- The loop of `Player::addXP` from level at least 1 and non-negative experience: the
experience stays non-negative, the level does not drop, every level gained is counted in
`pendingLevelUps`, and the experience spent is the cost of the levels gained. -/
theorem addXPLoop_spec (fuel : Nat) :
    ∀ p : Player, 1 ≤ p.level → 0 ≤ p.xp →
      0 ≤ (Player.addXPLoop fuel p).xp ∧ p.level ≤ (Player.addXPLoop fuel p).level ∧
      (Player.addXPLoop fuel p).pendingLevelUps
        = p.pendingLevelUps + ((Player.addXPLoop fuel p).level - p.level) ∧
      p.xp = (Player.addXPLoop fuel p).xp
        + levelsCost p.level ((Player.addXPLoop fuel p).level - p.level).toNat := by
  induction fuel with
  | zero =>
    intro p _ hx
    unfold Player.addXPLoop
    refine ⟨hx, le_refl _, by omega, ?_⟩
    rw [sub_self, Int.toNat_zero, levelsCost_zero, add_zero]
  | succ n ih =>
    intro p hl hx
    unfold Player.addXPLoop
    by_cases hge : p.xp ≥ p.xpToNextLevel
    · rw [if_pos hge]
      have hge2 : p.xp ≥ p.level * 20 := hge
      obtain ⟨h1, h2, h3, h4⟩ := ih
        { p with xp := p.xp - p.xpToNextLevel, level := p.level + 1,
                 pendingLevelUps := p.pendingLevelUps + 1 }
        (by show 1 ≤ p.level + 1; omega)
        (by show 0 ≤ p.xp - p.level * 20; omega)
      generalize Player.addXPLoop n
        { p with xp := p.xp - p.xpToNextLevel, level := p.level + 1,
                 pendingLevelUps := p.pendingLevelUps + 1 } = q at h1 h2 h3 h4 ⊢
      have h2' : p.level + 1 ≤ q.level := h2
      have h3' : q.pendingLevelUps = p.pendingLevelUps + 1 + (q.level - (p.level + 1)) := h3
      have h4' : p.xp - p.level * 20 = q.xp + levelsCost (p.level + 1)
          (q.level - (p.level + 1)).toNat := h4
      refine ⟨h1, by omega, by omega, ?_⟩
      have hn : (q.level - p.level).toNat = (q.level - (p.level + 1)).toNat + 1 := by omega
      rw [hn, levelsCost_shift]
      omega
    · rw [if_neg hge]
      refine ⟨hx, le_refl _, by omega, ?_⟩
      rw [sub_self, Int.toNat_zero, levelsCost_zero, add_zero]

/-- C29. For a player with level at least 1 and `0 <= xp < 20 * level` and an amount of at
least 0, `Player::addXP` returns (the loop ends within its budget) with
`0 <= xp < 20 * level` for the new level; the level does not drop, `pendingLevelUps` grows
by exactly the number of levels gained, and experience is conserved: the old experience
plus the amount is the new experience plus the sum of `20 * l` over the levels `l` from
the old level up to, not including, the new one. -/
theorem addXP_spec (p : Player) (amount : Int) (hl : 1 ≤ p.level) (hx0 : 0 ≤ p.xp)
    (_hx1 : p.xp < 20 * p.level) (ha : 0 ≤ amount) :
    0 ≤ (p.addXP amount).xp ∧ (p.addXP amount).xp < 20 * (p.addXP amount).level ∧
    p.level ≤ (p.addXP amount).level ∧
    (p.addXP amount).pendingLevelUps
      = p.pendingLevelUps + ((p.addXP amount).level - p.level) ∧
    p.xp + amount = (p.addXP amount).xp
      + levelsCost p.level ((p.addXP amount).level - p.level).toNat := by
  have hex := addXP_exits p amount
  unfold Player.xpToNextLevel at hex
  have hs := addXPLoop_spec (addXPBudget (p.xp + amount) p.level)
    { p with xp := p.xp + amount } hl (by show 0 ≤ p.xp + amount; omega)
  have heq : p.addXP amount = Player.addXPLoop (addXPBudget (p.xp + amount) p.level)
      { p with xp := p.xp + amount } := rfl
  rw [heq] at hex ⊢
  obtain ⟨h1, h2, h3, h4⟩ := hs
  exact ⟨h1, by omega, h2, h3, h4⟩

/-- C29 at a level-1 Warrior with 5 experience who gains 100: levels 1, 2 and 3 cost 20,
40 and 60, so it ends at level 3 with 45 experience and two pending level-ups. -/
theorem addXP_spec_witness :
    (1 ≤ (Player.new PlayerClass.Warrior).level ∧
      ({ Player.new PlayerClass.Warrior with xp := 5 } : Player).xp < 20 * 1) ∧
    (({ Player.new PlayerClass.Warrior with xp := 5 } : Player).addXP 100).xp = 45 ∧
    (({ Player.new PlayerClass.Warrior with xp := 5 } : Player).addXP 100).level = 3 ∧
    (({ Player.new PlayerClass.Warrior with xp := 5 } : Player).addXP 100).pendingLevelUps = 2 ∧
    (5 : Int) + 100 = 45 + levelsCost 1 2 ∧
    (5 : Int) + 100 = (({ Player.new PlayerClass.Warrior with xp := 5 } : Player).addXP 100).xp
      + levelsCost 1
        ((({ Player.new PlayerClass.Warrior with xp := 5 } : Player).addXP 100).level
          - 1).toNat :=
  ⟨⟨by decide, by decide⟩, by decide, by decide, by decide, by decide,
   (addXP_spec { Player.new PlayerClass.Warrior with xp := 5 } 100 (by decide) (by decide)
     (by decide) (by decide)).2.2.2.2⟩

theorem backstab_bonus (p : Player) (hcls : p.playerClass = PlayerClass.Rogue)
    (hbuff : p.abilityBuffActive = true) :
    p.attack + p.attackBonus = 3 * p.totalAttack
      + (if p.hasWeapon ∧ p.weaponSlot.enchantment = Enchantment.Flaming then 2 else 0) := by
  unfold Player.attackBonus
  simp only [hcls, hbuff, if_true]
  by_cases hf : p.hasWeapon ∧ p.weaponSlot.enchantment = Enchantment.Flaming
  · simp only [hf, and_self, if_true, reduceCtorEq, if_false]
    ring
  · simp only [hf, if_false, reduceCtorEq]
    ring

/-- C26. A Rogue with Backstab armed who bumps into an enemy: whatever the stale `attack`
field holds, the attack value entering the damage formula (`attack` plus the bonus handed
to `resolveCombat`) is `3 * totalAttack()`, plus 2 with a Flaming weapon; the damage is
`max 1 (3 * totalAttack() + flame - target.defense + v)`, doubled on a critical hit; the
target loses that many hit points (not below 0) and no other field of it changes, so no
stun is applied; `abilityBuffActive` is false afterwards. -/
theorem movePlayer_backstab (g : Game) (dx dy : Int) (i : Nat) (target : Enemy)
    (hcls : g.player.playerClass = PlayerClass.Rogue)
    (hbuff : g.player.abilityBuffActive = true)
    (hat : g.enemyAt (g.player.pos.x + dx) (g.player.pos.y + dy) = some i)
    (hget : g.enemies.get? i = some target) :
    let flame : Int :=
      if g.player.hasWeapon ∧ g.player.weaponSlot.enchantment = Enchantment.Flaming
      then 2 else 0
    let c : Bool := g.rand.seq g.rand.cur % 10 == 0
    let v : Int := ((g.rand.seq (g.rand.cur + 1) % 5 : Nat) : Int) - 2
    let base : Int := max 1 (3 * g.player.totalAttack + flame - target.defense + v)
    let dmg : Int := if c then 2 * base else base
    g.player.attack + g.player.attackBonus = 3 * g.player.totalAttack + flame ∧
    (g.strike target).outDmg = dmg ∧
    (g.movePlayer dx dy).player.damageDealt = g.player.damageDealt + dmg ∧
    (g.movePlayer dx dy).enemies.get? i
      = some { target with hp := max 0 (target.hp - dmg) } ∧
    (∀ t2, (g.movePlayer dx dy).enemies.get? i = some t2 → t2.stunTurns = target.stunTurns) ∧
    (g.movePlayer dx dy).player.abilityBuffActive = false := by
  intro flame c v base dmg
  have hmove : g.movePlayer dx dy = g.attackEnemy i target := by
    unfold Game.movePlayer
    simp only [hat, hget]
  have hbonus : g.player.attack + g.player.attackBonus = 3 * g.player.totalAttack + flame :=
    backstab_bonus g.player hcls hbuff
  have hout : (g.strike target).outDmg = dmg := by
    unfold Game.strike
    rw [resolveCombat_outDmg]
    show (if (g.rand.seq g.rand.cur % 10 == 0) = true then
        2 * max 1 (g.player.attack + g.player.attackBonus - target.defense - 0 + v)
      else max 1 (g.player.attack + g.player.attackBonus - target.defense - 0 + v)) = dmg
    rw [hbonus, sub_zero]
  have hdefr : (g.strike target).defender
      = { target.toEntity with hp := max 0 (target.hp - dmg) } := by
    unfold Game.strike
    rw [resolveCombat_defender _ _ _ _ _ dmg (by rw [← hout]; rfl)]
  have htarget : g.targetAfter target = { target with hp := max 0 (target.hp - dmg) } := by
    unfold Game.targetAfter
    rw [hdefr]
    simp [hcls]
  have hlt : i < g.enemies.length := by
    rw [List.get?_eq_some] at hget
    exact hget.1
  have hgot : (g.movePlayer dx dy).enemies.get? i
      = some { target with hp := max 0 (target.hp - dmg) } := by
    rw [hmove, attackEnemy_enemies, htarget]
    simp [hlt]
  rw [hmove] at hgot ⊢
  refine ⟨hbonus, hout, ?_, hgot, ?_, (attackEnemy_player g i target).1⟩
  · rw [(attackEnemy_player g i target).2, hout]
  · intro t2 h2
    rw [hgot] at h2
    cases h2
    rfl

/-- C26 in the Backstab scene: the Rogue's stale `attack` field holds 1, its total attack
is 7 + 3 = 10, and the Dragon (defense 6) is hit for 3 * 10 - 6 + 0 = 24; it survives with
36 hit points and is not stunned. -/
theorem movePlayer_backstab_witness :
    (backstabScene.player.playerClass = PlayerClass.Rogue ∧
      backstabScene.player.abilityBuffActive = true ∧
      backstabScene.player.attack = 1 ∧ backstabScene.player.totalAttack = 10 ∧
      backstabScene.enemies.map (fun e => (e.type, e.hp, e.defense, e.stunTurns))
        = [(EnemyType.Dragon, 60, 6, 0)]) ∧
    (backstabScene.movePlayer 1 0).player.damageDealt = 24 ∧
    (backstabScene.movePlayer 1 0).enemies.map (fun e => (e.hp, e.isAlive, e.stunTurns))
      = [(36, true, 0)] ∧
    (backstabScene.movePlayer 1 0).player.abilityBuffActive = false ∧
    backstabScene.player.attack + backstabScene.player.attackBonus
      = 3 * backstabScene.player.totalAttack
        + (if backstabScene.player.hasWeapon ∧
              backstabScene.player.weaponSlot.enchantment = Enchantment.Flaming
           then 2 else 0) :=
  ⟨⟨by decide, by decide, by decide, by decide, by decide⟩, by decide, by decide, by decide,
   (movePlayer_backstab backstabScene 1 0 0 (Enemy.create EnemyType.Dragon ⟨1, 0⟩)
     (by decide) (by decide) (by decide) (by decide)).1⟩

/-! ## Theorems: fleeing, the greedy fallback, water -/

theorem moveAwayFrom_eq (e : Enemy) (m : Map) (target : Vec2) :
    e.moveAwayFrom m target =
      if m.isWalkable (e.awayFirst target).x (e.awayFirst target).y = true then
        { e with pos := e.awayFirst target }
      else if m.isWalkable (e.awaySecond target).x (e.awaySecond target).y = true then
        { e with pos := e.awaySecond target }
      else e := rfl

theorem away_step_x (a t : Vec2) :
    (a.distanceSq t) < (Vec2.distanceSq ⟨a.x + (if a.x - t.x ≥ 0 then 1 else -1), a.y⟩ t) := by
  unfold Vec2.distanceSq
  dsimp only
  split <;> nlinarith

theorem away_step_y (a t : Vec2) :
    (a.distanceSq t) < (Vec2.distanceSq ⟨a.x, a.y + (if a.y - t.y ≥ 0 then 1 else -1)⟩ t) := by
  unfold Vec2.distanceSq
  dsimp only
  split <;> nlinarith

theorem awayFirst_spec (e : Enemy) (t : Vec2) :
    cardinal e.pos (e.awayFirst t) ∧ e.pos.distanceSq t < (e.awayFirst t).distanceSq t := by
  unfold Enemy.awayFirst
  dsimp only
  refine ⟨cardinal_pick _ _ _ _ (sign_pm _) (sign_pm _), ?_⟩
  split
  · exact away_step_x e.pos t
  · exact away_step_y e.pos t

theorem awaySecond_spec (e : Enemy) (t : Vec2) :
    cardinal e.pos (e.awaySecond t) ∧ e.pos.distanceSq t < (e.awaySecond t).distanceSq t := by
  unfold Enemy.awaySecond
  dsimp only
  refine ⟨cardinal_pick _ _ _ _ (sign_pm _) (sign_pm _), ?_⟩
  split
  · exact away_step_x e.pos t
  · exact away_step_y e.pos t

theorem update_awake_flee (e : Enemy) (m : Map) (playerPos : Vec2) (rng : Rand)
    (hal : e.isAlive = true) (haw : e.awake = true)
    (hf : e.type = EnemyType.Necromancer ∨ e.hp * 4 < e.maxHp) :
    e.update m playerPos rng = some (e.moveAwayFrom m playerPos, rng) := by
  have he : ({ e with awake := true } : Enemy) = e := by
    cases e
    simp only at haw
    subst haw
    rfl
  have hflee : (e.shouldFlee || decide (e.type = EnemyType.Necromancer)) = true := by
    unfold Enemy.shouldFlee
    rcases hf with h | h
    · simp [h]
    · simp [h]
  unfold Enemy.update
  have hn : (!e.isAlive) = false := by rw [hal]; rfl
  rw [hn]
  simp only [Bool.false_eq_true, if_false]
  by_cases hd : e.pos.distanceSq playerPos ≤ 64
  · rw [if_pos hd, he, if_pos haw, if_pos hflee]
  · rw [if_neg hd, if_pos haw, if_pos hflee]

/-- C25. For an awake living enemy that is a Necromancer or has `hp * 4 < maxHp`,
`Enemy::update` returns the enemy moved by `moveAwayFrom` and nothing else (the random
source is not drawn from). Only the position can change: it becomes the first candidate
when that cell is walkable, else the second when that one is walkable, else it stays. Both
candidates are cardinal neighbours whose squared distance to the player is strictly
greater than before; the first lies on the axis of the greater absolute displacement from
the player (the x axis on ties), the second on the other axis. -/
theorem update_flees (e : Enemy) (m : Map) (playerPos : Vec2) (rng : Rand)
    (hal : e.isAlive = true) (haw : e.awake = true)
    (hf : e.type = EnemyType.Necromancer ∨ e.hp * 4 < e.maxHp) :
    let first := e.awayFirst playerPos
    let second := e.awaySecond playerPos
    let r := e.moveAwayFrom m playerPos
    e.update m playerPos rng = some (r, rng) ∧
    ({ r with pos := e.pos } : Enemy) = e ∧
    (m.isWalkable first.x first.y = true → r.pos = first) ∧
    (m.isWalkable first.x first.y = false → m.isWalkable second.x second.y = true →
      r.pos = second) ∧
    (m.isWalkable first.x first.y = false → m.isWalkable second.x second.y = false →
      r.pos = e.pos) ∧
    (r.pos = e.pos ∨
      (m.isWalkable r.pos.x r.pos.y = true ∧ cardinal e.pos r.pos ∧
        e.pos.distanceSq playerPos < r.pos.distanceSq playerPos)) ∧
    (cardinal e.pos first ∧ e.pos.distanceSq playerPos < first.distanceSq playerPos) ∧
    (cardinal e.pos second ∧ e.pos.distanceSq playerPos < second.distanceSq playerPos) ∧
    ((e.pos.x - playerPos.x).natAbs ≥ (e.pos.y - playerPos.y).natAbs →
      first.y = e.pos.y ∧ second.x = e.pos.x) ∧
    ((e.pos.x - playerPos.x).natAbs < (e.pos.y - playerPos.y).natAbs →
      first.x = e.pos.x ∧ second.y = e.pos.y) := by
  intro first second r
  have h1 := awayFirst_spec e playerPos
  have h2 := awaySecond_spec e playerPos
  have hr : r = (if m.isWalkable first.x first.y = true then { e with pos := first }
      else if m.isWalkable second.x second.y = true then { e with pos := second }
      else e) := moveAwayFrom_eq e m playerPos
  refine ⟨update_awake_flee e m playerPos rng hal haw hf, ?_, ?_, ?_, ?_, ?_, h1, h2, ?_, ?_⟩
  · rw [hr]
    by_cases hw1 : m.isWalkable first.x first.y = true
    · rw [if_pos hw1]
    · rw [if_neg hw1]
      by_cases hw2 : m.isWalkable second.x second.y = true
      · rw [if_pos hw2]
      · rw [if_neg hw2]
  · intro hw1
    rw [hr, if_pos hw1]
  · intro hw1 hw2
    rw [hr, if_neg (by rw [hw1]; decide), if_pos hw2]
  · intro hw1 hw2
    rw [hr, if_neg (by rw [hw1]; decide), if_neg (by rw [hw2]; decide)]
  · rw [hr]
    by_cases hw1 : m.isWalkable first.x first.y = true
    · rw [if_pos hw1]
      exact Or.inr ⟨hw1, h1⟩
    · rw [if_neg hw1]
      by_cases hw2 : m.isWalkable second.x second.y = true
      · rw [if_pos hw2]
        exact Or.inr ⟨hw2, h2⟩
      · rw [if_neg hw2]
        exact Or.inl rfl
  · intro hge
    show (e.awayFirst playerPos).y = e.pos.y ∧ (e.awaySecond playerPos).x = e.pos.x
    unfold Enemy.awayFirst Enemy.awaySecond
    dsimp only
    simp only [if_pos hge, if_neg (Nat.not_lt.mpr hge)]
    exact ⟨trivial, trivial⟩
  · intro hlt
    show (e.awayFirst playerPos).x = e.pos.x ∧ (e.awaySecond playerPos).y = e.pos.y
    unfold Enemy.awayFirst Enemy.awaySecond
    dsimp only
    simp only [if_neg (Nat.not_le.mpr hlt), if_pos hlt]
    exact ⟨trivial, trivial⟩

/-- C25 at the awake Necromancer on (5, 5) with the player on (5, 3): the displacement is
(0, 2), so the first candidate is (5, 6) on the y axis, and the Necromancer steps there,
from squared distance 4 to 9. -/
theorem update_flees_witness :
    ((awakeNecro.type, awakeNecro.isAlive, awakeNecro.awake, awakeNecro.pos.x,
        awakeNecro.pos.y) = (EnemyType.Necromancer, true, true, 5, 5)) ∧
    awakeNecro.awayFirst ⟨5, 3⟩ = ⟨5, 6⟩ ∧
    (awakeNecro.moveAwayFrom openMap ⟨5, 3⟩).pos = ⟨5, 6⟩ ∧
    awakeNecro.pos.distanceSq ⟨5, 3⟩ = 4 ∧
    (awakeNecro.moveAwayFrom openMap ⟨5, 3⟩).pos.distanceSq ⟨5, 3⟩ = 9 ∧
    awakeNecro.update openMap ⟨5, 3⟩ calmRand
      = some (awakeNecro.moveAwayFrom openMap ⟨5, 3⟩, calmRand) :=
  ⟨by decide, by decide, by decide, by decide, by decide,
   (update_flees awakeNecro openMap ⟨5, 3⟩ calmRand (by decide) (by decide)
     (Or.inl (by decide))).1⟩

theorem greedyStep_eq (e : Enemy) (m : Map) (target : Vec2) :
    e.greedyStep m target =
      if m.isWalkable (e.towardFirst target).x (e.towardFirst target).y = true then
        { e with pos := e.towardFirst target }
      else if m.isWalkable (e.towardSecond target).x (e.towardSecond target).y = true then
        { e with pos := e.towardSecond target }
      else e := rfl

/-- When the A* search returns the sentinel, `Enemy::moveToward` is the greedy fallback. -/
theorem moveToward_noPath (e : Enemy) (m : Map) (target : Vec2)
    (hno : e.astarStep m target = some noPath) :
    e.moveToward m target = some (e.greedyStep m target) := by
  have hm : ∀ o, o = some noPath →
      (match o with
        | none => none
        | some step =>
          if step.x ≥ 0 ∧
              (if e.type = EnemyType.Ghost then m.inBounds step.x step.y
               else m.isWalkable step.x step.y) = true then
            some { e with pos := step }
          else some (e.greedyStep m target)) = some (e.greedyStep m target) := by
    intro o ho
    subst ho
    have hx : ¬ (noPath.x ≥ 0 ∧
        (if e.type = EnemyType.Ghost then m.inBounds noPath.x noPath.y
         else m.isWalkable noPath.x noPath.y) = true) := by
      intro h
      have h1 : noPath.x ≥ 0 := h.1
      revert h1
      decide
    exact if_neg hx
  exact hm _ hno

set_option maxRecDepth 1000000 in
set_option maxHeartbeats 40000000 in
/-- From (0, 5) the Ghost's search for (9, 5) beyond the wall block gives up: the cost of
crossing eight wall cells keeps the target beyond the 50 expansions. -/
theorem ghost_astar_gives_up : wallGhost.astarStep thickWallMap ⟨9, 5⟩ = some noPath := by
  decide

/-- The first candidate of the greedy fallback is neither the enemy's cell nor the second
candidate. -/
theorem towardFirst_ne (e : Enemy) (target : Vec2) :
    e.towardFirst target ≠ e.pos ∧ e.towardFirst target ≠ e.towardSecond target := by
  have hx : ∀ a b : Vec2, a.x ≠ b.x → a ≠ b := fun a b h1 h2 => h1 (by rw [h2])
  have hy : ∀ a b : Vec2, a.y ≠ b.y → a ≠ b := fun a b h1 h2 => h1 (by rw [h2])
  unfold Enemy.towardFirst Enemy.towardSecond
  dsimp only
  by_cases hge : (target.x - e.pos.x).natAbs ≥ (target.y - e.pos.y).natAbs
  · rw [if_pos hge, if_neg (Nat.not_lt.mpr hge)]
    have h1 : e.pos.x + (if target.x - e.pos.x > 0 then 1 else -1) ≠ e.pos.x := by
      split <;> omega
    refine ⟨hx _ _ h1, ?_⟩
    by_cases hdy : target.y - e.pos.y ≠ 0
    · rw [if_pos hdy]
      exact hx _ _ h1
    · rw [if_neg hdy]
      exact hx _ _ h1
  · rw [if_neg hge, if_pos (Nat.not_le.mp hge)]
    have h1 : e.pos.y + (if target.y - e.pos.y > 0 then 1 else -1) ≠ e.pos.y := by
      split <;> omega
    refine ⟨hy _ _ h1, ?_⟩
    by_cases hdx : target.x - e.pos.x ≠ 0
    · rw [if_pos hdx]
      exact hy _ _ h1
    · rw [if_neg hdx]
      exact hy _ _ h1

/-- C24 fails in the code. When `astarStep` returns the sentinel, `Enemy::moveToward` is one
greedy step toward the target. The first candidate lies on the axis of the greater
absolute displacement (the x axis on ties), the second on the other axis (it is the
enemy's own cell when the displacement there is 0). The test of a candidate is
`isWalkable` for every enemy type: the fallback leaves out the wall exception that the A*
step of the same function and the A* search apply to a Ghost. The enemy moves to the first
candidate when it is walkable, else to the second when that is walkable, else it stays;
only the position can change, and the new position is the old one or a walkable cell. So a
Ghost whose first candidate is a cell that its A* search may enter (in bounds and a wall
tile) but that is not walkable does not step onto it. -/
theorem moveToward_fallback (e : Enemy) (m : Map) (target : Vec2)
    (hno : e.astarStep m target = some noPath) :
    let first := e.towardFirst target
    let second := e.towardSecond target
    let r := e.greedyStep m target
    e.moveToward m target = some r ∧
    ({ r with pos := e.pos } : Enemy) = e ∧
    (m.isWalkable first.x first.y = true → r.pos = first) ∧
    (m.isWalkable first.x first.y = false → m.isWalkable second.x second.y = true →
      r.pos = second) ∧
    (m.isWalkable first.x first.y = false → m.isWalkable second.x second.y = false →
      r.pos = e.pos) ∧
    (r.pos = e.pos ∨ m.isWalkable r.pos.x r.pos.y = true) ∧
    ((target.x - e.pos.x).natAbs ≥ (target.y - e.pos.y).natAbs →
      first = ⟨e.pos.x + (if target.x - e.pos.x > 0 then 1 else -1), e.pos.y⟩ ∧
      second = (if target.y - e.pos.y ≠ 0
        then ⟨e.pos.x, e.pos.y + (if target.y - e.pos.y > 0 then 1 else -1)⟩ else e.pos)) ∧
    ((target.x - e.pos.x).natAbs < (target.y - e.pos.y).natAbs →
      first = ⟨e.pos.x, e.pos.y + (if target.y - e.pos.y > 0 then 1 else -1)⟩ ∧
      second = (if target.x - e.pos.x ≠ 0
        then ⟨e.pos.x + (if target.x - e.pos.x > 0 then 1 else -1), e.pos.y⟩ else e.pos)) ∧
    (e.type = EnemyType.Ghost → m.passable true first.x first.y = true →
      m.isWalkable first.x first.y = false → r.pos ≠ first) := by
  intro first second r
  have hr : r = (if m.isWalkable first.x first.y = true then { e with pos := first }
      else if m.isWalkable second.x second.y = true then { e with pos := second }
      else e) := greedyStep_eq e m target
  refine ⟨moveToward_noPath e m target hno, ?_, ?_, ?_, ?_, ?_, ?_, ?_, ?_⟩
  · rw [hr]
    by_cases hw1 : m.isWalkable first.x first.y = true
    · rw [if_pos hw1]
    · rw [if_neg hw1]
      by_cases hw2 : m.isWalkable second.x second.y = true
      · rw [if_pos hw2]
      · rw [if_neg hw2]
  · intro hw1
    rw [hr, if_pos hw1]
  · intro hw1 hw2
    rw [hr, if_neg (by rw [hw1]; decide), if_pos hw2]
  · intro hw1 hw2
    rw [hr, if_neg (by rw [hw1]; decide), if_neg (by rw [hw2]; decide)]
  · rw [hr]
    by_cases hw1 : m.isWalkable first.x first.y = true
    · rw [if_pos hw1]
      exact Or.inr hw1
    · rw [if_neg hw1]
      by_cases hw2 : m.isWalkable second.x second.y = true
      · rw [if_pos hw2]
        exact Or.inr hw2
      · rw [if_neg hw2]
        exact Or.inl rfl
  · intro hge
    show e.towardFirst target = _ ∧ e.towardSecond target = _
    unfold Enemy.towardFirst Enemy.towardSecond
    dsimp only
    exact ⟨if_pos hge, if_neg (Nat.not_lt.mpr hge)⟩
  · intro hlt
    show e.towardFirst target = _ ∧ e.towardSecond target = _
    unfold Enemy.towardFirst Enemy.towardSecond
    dsimp only
    exact ⟨if_neg (Nat.not_le.mpr hlt), if_pos hlt⟩
  · intro _ _ hw1
    obtain ⟨n1, n2⟩ := towardFirst_ne e target
    rw [hr, if_neg (by rw [hw1]; decide)]
    by_cases hw2 : m.isWalkable second.x second.y = true
    · rw [if_pos hw2]
      exact fun h => n2 h.symm
    · rw [if_neg hw2]
      exact fun h => n1 h.symm

/-- The failing run of C24: a Ghost on (0, 5) seeks (9, 5) behind a block of wall tiles;
the A* search gives up. The cell (1, 5) toward the target is a wall tile inside the grid,
which the A* passability test accepts for a Ghost, but the fallback tests `isWalkable`
only: the Ghost does not step onto the wall and stays on (0, 5). -/
theorem moveToward_fallback_witness :
    (wallGhost.type = EnemyType.Ghost ∧ wallGhost.pos = ⟨0, 5⟩ ∧
      wallGhost.astarStep thickWallMap ⟨9, 5⟩ = some noPath ∧
      wallGhost.towardFirst ⟨9, 5⟩ = ⟨1, 5⟩ ∧
      thickWallMap.getTile 1 5 = Tile.Wall ∧ thickWallMap.isWalkable 1 5 = false ∧
      thickWallMap.passable true 1 5 = true) ∧
    wallGhost.moveToward thickWallMap ⟨9, 5⟩
      = some (wallGhost.greedyStep thickWallMap ⟨9, 5⟩) ∧
    (wallGhost.greedyStep thickWallMap ⟨9, 5⟩).pos = ⟨0, 5⟩ ∧
    (wallGhost.greedyStep thickWallMap ⟨9, 5⟩).pos ≠ wallGhost.towardFirst ⟨9, 5⟩ :=
  ⟨⟨by decide, by decide, ghost_astar_gives_up, by decide, by decide, by decide, by decide⟩,
   (moveToward_fallback wallGhost thickWallMap ⟨9, 5⟩ ghost_astar_gives_up).1,
   by decide,
   (moveToward_fallback wallGhost thickWallMap ⟨9, 5⟩ ghost_astar_gives_up).2.2.2.2.2.2.2.2
     (by decide) (by decide) (by decide)⟩

/-- The movement part of the loop body for an enemy on a water tile when the draw is even:
nothing but the random source changes. -/
theorem moveEnemy_water_skip (g : Game) (idx : Nat) (e : Enemy)
    (hw : g.map.getTile e.pos.x e.pos.y = Tile.Water) (hr : (g.rand.next).1 % 2 = 0) :
    g.moveEnemy idx e = some { g with rand := (g.rand.next).2 } := by
  unfold Game.moveEnemy
  simp only [hw, hr, decide_True, Bool.and_self, if_true]

/-- The player's hit points and damage counter after the melee branch. -/
theorem melee_damage (g : Game) (e : Enemy) :
    1 ≤ (g.bite e).outDmg ∧
    (g.melee e).player.hp = max 0 (g.player.hp - (g.bite e).outDmg) := by
  have h1 : 1 ≤ (g.bite e).outDmg := resolveCombat_outDmg_pos _ _ _ _ _
  refine ⟨h1, ?_⟩
  have h2 : (g.melee e).player.toEntity = (g.bite e).defender := (melee_player g e).1
  have h3 : (g.bite e).defender = { g.player.toEntity with
      hp := max 0 (g.player.hp - (g.bite e).outDmg) } :=
    resolveCombat_defender _ _ _ _ _ _ rfl
  show (g.melee e).player.toEntity.hp = _
  rw [h2, h3]

set_option maxRecDepth 100000 in
set_option maxHeartbeats 4000000 in
/-- C23 as stated fails. The Rat stands on a water tile next to the player, and every draw
of the random source is even, so a water roll could only come up as a skip. The pass still
runs the Rat's melee attack: the player loses a hit point. The water roll is not drawn
(the one exchange of `resolveCombat` takes the first two draws). -/
theorem water_enemy_still_bites :
    (pondScene.enemies.map (fun e => (e.type, e.isAlive, e.pos,
        pondScene.map.getTile e.pos.x e.pos.y))
      = [(EnemyType.Rat, true, ⟨4, 4⟩, Tile.Water)]) ∧
    (∀ n, pondScene.rand.seq n % 2 = 0) ∧
    pondScene.player.hp = 40 ∧
    (pondScene.updateEnemies).map
      (fun g => (g.player.hp, g.player.damageTaken, g.player.lastDamageSource, g.rand.cur))
      = some (39, 1, "a Rat", 2) :=
  ⟨by decide, fun n => show (2 : Nat) % 2 = 0 from rfl, by decide, by decide⟩

/-- The value of a ranged shot is the attack value. -/
theorem ranged_value (e : Enemy) (m : Map) (t : Vec2)
    (hr : e.rangedAttackDamage m t > 0) : e.rangedAttackDamage m t = e.attack := by
  have heq := rangedAttackDamage_eq e m t
  by_cases hc : e.type = EnemyType.Archer ∧ 2 < e.pos.distanceSq t ∧
      e.pos.distanceSq t ≤ 36 ∧ e.hasLineOfSight m t = some true
  · rw [if_pos hc] at heq; exact heq
  · rw [if_neg hc] at heq; omega

/-- C23 (as amended). The water roll belongs to the movement only. Take a living, unstunned
enemy of any type whose loop body reaches its action part (it is not a Dragon on a skipped
turn, and the enrage, summon and phase blocks have run and have left the game `s5` with the
enemy `e5` at the index), and let the enemy then stand on a water tile. With a ranged shot
the enemy shoots, and within squared distance 2 it attacks in melee, whatever the tile
under it; in both cases the player is hit for at least 1 and no water roll is drawn. Only
an enemy with neither attack reaches the roll, and when that draw is even the rest of the
loop body changes nothing but the random source: the enemy list (the enemy's position
included) and the player are as the earlier blocks left them. -/
theorem water_delay_spec (s : Pass) (idx : Nat) (e e1 : Enemy) (s5 : Pass) (e5 : Enemy)
    (hget : s.game.enemies.get? idx = some e) (hal : e.isAlive = true)
    (hst : e.stunTurns ≤ 0)
    (he1 : (s.game.dragonTimer idx e).enemies.get? idx = some e1)
    (hsk : e1.dragonSkips = false)
    (hs5 : Pass.specials { s with game := s.game.dragonTimer idx e } idx = some s5)
    (hg5 : s5.game.enemies.get? idx = some e5)
    (hwater : s5.game.map.getTile e5.pos.x e5.pos.y = Tile.Water) :
    (e5.rangedAttackDamage s5.game.map s5.game.player.pos > 0 →
      s.enemyTurn idx = some { s5 with game := s5.game.shoot e5 e5.attack } ∧
      1 ≤ s5.game.shotDamage e5.attack ∧
      (s5.game.shoot e5 e5.attack).player.hp
        = max 0 (s5.game.player.hp - s5.game.shotDamage e5.attack)) ∧
    (e5.pos.distanceSq s5.game.player.pos ≤ 2 →
      s.enemyTurn idx = some { s5 with game := s5.game.melee e5 } ∧
      1 ≤ (s5.game.bite e5).outDmg ∧
      (s5.game.melee e5).player.hp
        = max 0 (s5.game.player.hp - (s5.game.bite e5).outDmg)) ∧
    (e5.rangedAttackDamage s5.game.map s5.game.player.pos ≤ 0 →
      2 < e5.pos.distanceSq s5.game.player.pos → (s5.game.rand.next).1 % 2 = 0 →
      s.enemyTurn idx
        = some { s5 with game := { s5.game with rand := (s5.game.rand.next).2 } } ∧
      ({ s5.game with rand := (s5.game.rand.next).2 } : Game).enemies = s5.game.enemies ∧
      ({ s5.game with rand := (s5.game.rand.next).2 } : Game).enemies.get? idx = some e5 ∧
      ({ s5.game with rand := (s5.game.rand.next).2 } : Game).player = s5.game.player) := by
  have hturn := enemyTurn_path s idx e e1 s5 e5 hget hal hst he1 hsk hs5 hg5
  refine ⟨?_, ?_, ?_⟩
  · intro hr
    have hv := ranged_value e5 s5.game.map s5.game.player.pos hr
    refine ⟨?_, le_max_left _ _, (shoot_player _ _ _).1⟩
    have hact : s5.game.act idx e5 = some (s5.game.shoot e5 e5.attack) := by
      unfold Game.act
      dsimp only
      rw [if_pos hr, hv]
    rw [hturn, hact]
  · intro hd
    rw [hturn, act_melee s5.game idx e5 hd]
    exact ⟨rfl, melee_damage s5.game e5⟩
  · intro hr hd hroll
    refine ⟨?_, rfl, hg5, rfl⟩
    rw [hturn]
    have hact : s5.game.act idx e5 = s5.game.moveEnemy idx e5 := by
      unfold Game.act
      dsimp only
      rw [if_neg (by omega), if_neg (by omega)]
    rw [hact, moveEnemy_water_skip s5.game idx e5 hwater hroll]

set_option maxRecDepth 100000 in
set_option maxHeartbeats 4000000 in
/-- C23 (as amended) at the Rat in the water on (4, 7), at squared distance 17 from the
player: the special blocks leave the game as it is, the draw is even, and the loop body
only advances the random source. -/
theorem water_delay_spec_witness :
    (farPondScene.enemies.get? 0
        = some { Enemy.create EnemyType.Rat ⟨4, 7⟩ with awake := true } ∧
      farPondScene.map.getTile 4 7 = Tile.Water ∧
      (farPondScene.rand.next).1 % 2 = 0) ∧
    (Pass.enemyTurn { game := farPondScene, count := 1 } 0).map
      (fun s => (s.game.player.hp, s.game.rand.cur, s.game.enemies.map (fun e => e.pos)))
      = some (40, 1, [⟨4, 7⟩]) ∧
    Pass.enemyTurn { game := farPondScene, count := 1 } 0
      = some { game := { farPondScene with rand := (farPondScene.rand.next).2 }, count := 1 } :=
  ⟨⟨by decide, by decide, by decide⟩, by decide,
   ((water_delay_spec { game := farPondScene, count := 1 } 0
      { Enemy.create EnemyType.Rat ⟨4, 7⟩ with awake := true }
      { Enemy.create EnemyType.Rat ⟨4, 7⟩ with awake := true }
      { game := farPondScene, count := 1 }
      { Enemy.create EnemyType.Rat ⟨4, 7⟩ with awake := true }
      (by decide) (by decide) (by decide) (by decide) (by decide)
      (specials_plain { game := farPondScene, count := 1 } 0
        { Enemy.create EnemyType.Rat ⟨4, 7⟩ with awake := true } (by decide) (by decide)
        (by decide) (by decide))
      (by decide) (by decide)).2.2
      (by decide) (by decide) (by decide)).1⟩

/-! ## Theorems: the win and the kill rewards (`Game::handlePlaying`) -/

/-- The end of `Game::handlePlaying` for a living player without haste who has pending
level-ups: the state is set to `LevelUp`, whatever it was. -/
theorem afterEnemies_levelUp (g : Game) (o : Outside) (hal : g.player.isAlive = true)
    (hh : g.player.hasteTurns ≤ 0) (hp : g.player.pendingLevelUps > 0) :
    (g.afterEnemies o).state = GameState.LevelUp := by
  have hg1 : (if g.player.hasteTurns > 0 then g.hasteMove o.hasteKey else g) = g :=
    if_neg (by omega)
  unfold Game.afterEnemies
  rw [if_neg (by rw [hal]; exact Bool.noConfusion)]
  dsimp only
  rw [hg1, if_neg (fun h => by omega)]
  have hl : g.refreshFov.player.pendingLevelUps > 0 := hp
  rw [if_pos hl]

theorem slowRoll_idle (g : Game) (hs : g.player.slowTurns ≤ 0) : g.slowRoll = g := by
  unfold Game.slowRoll
  rw [if_neg (by omega)]

/-- C27 fails in the code. A movement key whose attack set the state to `Win`: when the
enemy phase returns with the player alive, without haste and with pending level-ups,
`Game::handlePlaying` returns with the state `LevelUp`; the final level-up check
overwrites the win. -/
theorem win_overwritten_by_levelUp (g : Game) (o : Outside) (d : Int × Int)
    (hauto : g.autoExploring = false) (hslow : g.player.slowTurns ≤ 0)
    (hk : o.key.dir = some d)
    (hwin : (g.movePlayer d.1 d.2).state = GameState.Win)
    (hpass : ((g.movePlayer d.1 d.2).turnTicks.updateEnemies).map
      (fun g1 => (g1.player.isAlive, decide (g1.player.hasteTurns ≤ 0),
        decide (g1.player.pendingLevelUps > 0))) = some (true, true, true)) :
    (g.movePlayer d.1 d.2).state = GameState.Win ∧
    (g.handlePlaying o).map (fun g2 => g2.state) = some GameState.LevelUp ∧
    (g.handlePlaying o).map (fun g2 => g2.state) ≠ some GameState.Win := by
  have hrun : (g.handlePlaying o).map (fun g2 => g2.state) = some GameState.LevelUp := by
    rw [handlePlaying_dispatch g o hauto (fun h => by omega), slowRoll_idle g hslow,
      dispatch_move g o d hk]
    unfold Game.advanceTurn
    cases h1 : (g.movePlayer d.1 d.2).turnTicks.updateEnemies with
    | none => rw [h1] at hpass; cases hpass
    | some g1 =>
      rw [h1] at hpass
      simp only [Option.map_some', Option.some.injEq, Prod.mk.injEq, decide_eq_true_eq] at hpass
      obtain ⟨hal, hh, hp⟩ := hpass
      show some (g1.afterEnemies o).state = _
      rw [afterEnemies_levelUp g1 o hal hh hp]
  refine ⟨hwin, hrun, ?_⟩
  rw [hrun]
  decide

set_option maxRecDepth 100000 in
set_option maxHeartbeats 4000000 in
/-- The failing run of C27: on floor 8 a level-1 Warrior strikes the Lich that has 1 hit
point left. The Lich dies and `movePlayer` sets the state to `Win`; the 200 experience
points make four level-ups pending; the player is alive (40 hit points) after the enemy
phase; and `Game::handlePlaying` returns with the state `LevelUp`. -/
theorem win_overwritten_by_levelUp_witness :
    (bossScene.currentFloor = 8 ∧
      bossScene.enemies.map (fun e => (e.type, e.hp, e.pos)) = [(EnemyType.Lich, 1, ⟨5, 4⟩)] ∧
      bossScene.player.pos = ⟨5, 3⟩ ∧ bossScene.state = GameState.Playing) ∧
    ((bossScene.movePlayer 0 1).state, (bossScene.movePlayer 0 1).player.pendingLevelUps,
      (bossScene.movePlayer 0 1).enemies.map (fun e => e.isAlive))
      = (GameState.Win, 4, [false]) ∧
    (bossScene.handlePlaying (pressKey Key.Down)).map
      (fun g => (g.state, g.player.hp, g.player.isAlive, g.player.pendingLevelUps))
      = some (GameState.LevelUp, 40, true, 4) ∧
    (bossScene.handlePlaying (pressKey Key.Down)).map (fun g2 => g2.state)
      ≠ some GameState.Win :=
  ⟨⟨by decide, by decide, by decide, by decide⟩, by decide, by decide,
   (win_overwritten_by_levelUp bossScene (pressKey Key.Down) (0, 1) (by decide) (by decide)
     (by decide) (by decide) (by decide)).2.2⟩

theorem addXP_killCount (p : Player) (a : Int) : (p.addXP a).killCount = p.killCount := by
  unfold Player.addXP
  exact (addXPLoop_kept _ _).2.2

theorem rollSpoil_frame (g : Game) (t : Enemy) (b : Bool) :
    (g.rollSpoil t b).player = g.player := rfl

theorem dropSpoil_frame (g : Game) (t : Enemy) : (g.dropSpoil t).player = g.player := by
  unfold Game.dropSpoil
  dsimp only
  split
  · rfl
  · split <;> rfl

/-- One credit of the ability branch raises the kill count by one. -/
theorem spoils_killCount (g : Game) (e : Enemy) :
    ((((g.creditKill e).dropGold e).dropSpoil e).bossFalls e).player.killCount
      = g.player.killCount + 1 := by
  rw [(bossFalls_frame _ e).2, dropSpoil_frame]
  show (g.creditKill e).player.killCount = _
  rw [creditKill_player, addXP_killCount]

/-- The loop of the ability branch never lowers the kill count. -/
theorem creditKills_mono : ∀ (es : List Enemy) (g : Game),
    g.player.killCount ≤ (creditKills es g).2.player.killCount := by
  intro es
  induction es with
  | nil => intro g; exact le_refl _
  | cons e es ih =>
    intro g
    unfold creditKills
    by_cases hc : e.isAlive = false ∧ e.xpReward > 0
    · rw [if_pos hc]
      dsimp only
      have h1 := ih ((((g.creditKill e).dropGold e).dropSpoil e).bossFalls e)
      rw [spoils_killCount] at h1
      omega
    · rw [if_neg hc]
      exact ih g

/-- The loop of the ability branch credits a kill for a dead enemy of the list whose
`xpReward` is positive. -/
theorem creditKills_credits : ∀ (es : List Enemy) (g : Game) (t : Enemy), t ∈ es →
    t.isAlive = false → t.xpReward > 0 →
    g.player.killCount + 1 ≤ (creditKills es g).2.player.killCount := by
  intro es
  induction es with
  | nil => intro g t ht; cases ht
  | cons e es ih =>
    intro g t ht hd hx
    unfold creditKills
    by_cases hc : e.isAlive = false ∧ e.xpReward > 0
    · rw [if_pos hc]
      dsimp only
      have h1 := creditKills_mono es ((((g.creditKill e).dropGold e).dropSpoil e).bossFalls e)
      rw [spoils_killCount] at h1
      exact h1
    · rw [if_neg hc]
      rcases List.mem_cons.mp ht with h | h
      · exact absurd ⟨h ▸ hd, h ▸ hx⟩ hc
      · exact ih g t h hd hx

/-- The ability of a class other than the Mage, or an ability on cooldown, leaves the
enemy list and the kill count as they are. -/
theorem useAbility_enemies (p : Player) (es : List Enemy)
    (hc : p.playerClass ≠ PlayerClass.Mage ∨ p.abilityCooldown > 0) :
    (p.useAbility es).2.2 = es ∧ (p.useAbility es).2.1.killCount = p.killCount := by
  unfold Player.useAbility
  by_cases hcd : p.abilityCooldown > 0
  · rw [if_pos hcd]
    exact ⟨rfl, rfl⟩
  · rw [if_neg hcd]
    rcases hc with hc | hc
    · cases hcls : p.playerClass
      · exact ⟨rfl, rfl⟩
      · exact ⟨rfl, rfl⟩
      · exact absurd hcls hc
      · exact ⟨rfl, rfl⟩
    · exact absurd hc hcd

/-- The ability key credits a kill for a dead enemy of the list whose `xpReward` is
positive. -/
theorem abilityKey_credits (g : Game) (t : Enemy)
    (hc : g.player.playerClass ≠ PlayerClass.Mage ∨ g.player.abilityCooldown > 0)
    (ht : t ∈ g.enemies) (hd : t.isAlive = false) (hx : t.xpReward > 0) :
    g.player.killCount + 1 ≤ g.abilityKey.player.killCount := by
  obtain ⟨he, hk⟩ := useAbility_enemies g.player g.enemies hc
  unfold Game.abilityKey
  dsimp only
  generalize hg2 : (if (g.player.useAbility g.enemies).1 ≠ "" then
      ({ g with player := (g.player.useAbility g.enemies).2.1,
                enemies := (g.player.useAbility g.enemies).2.2 } : Game).addMessage
        (g.player.useAbility g.enemies).1
    else { g with player := (g.player.useAbility g.enemies).2.1,
                  enemies := (g.player.useAbility g.enemies).2.2 }) = g2
  have h2 : g2.enemies = g.enemies ∧ g2.player.killCount = g.player.killCount := by
    rw [← hg2]
    split
    · rw [addMessage_enemies, addMessage_player]
      exact ⟨he, hk⟩
    · exact ⟨he, hk⟩
  have h3 := creditKills_credits g2.enemies g2 t (by rw [h2.1]; exact ht) hd hx
  show g.player.killCount + 1 ≤ (creditKills g2.enemies g2).2.player.killCount
  omega

theorem landHit_killCount (g : Game) (target : Enemy) :
    (g.landHit target).player.killCount = g.player.killCount := by
  unfold Game.landHit
  dsimp only
  rw [addMessage_player]

theorem vampiricHeal_killCount (g : Game) :
    g.vampiricHeal.player.killCount = g.player.killCount := by
  unfold Game.vampiricHeal
  split
  · dsimp only
    rw [addMessage_player]
  · rfl

theorem targetAfter_xpReward (g : Game) (target : Enemy) :
    (g.targetAfter target).xpReward = target.xpReward := by
  unfold Game.targetAfter
  dsimp only
  split <;> rfl

/-- The attack branch of `Game::movePlayer` on a target that dies: one kill is counted. -/
theorem attackEnemy_killCount (g : Game) (i : Nat) (target : Enemy)
    (hdead : (g.targetAfter target).isAlive = false) :
    (g.attackEnemy i target).player.killCount = g.player.killCount + 1 := by
  unfold Game.attackEnemy
  dsimp only
  rw [stunTarget_fst, hdead]
  simp only [Bool.not_false, if_true]
  rw [rewardKill_player, addXP_killCount]
  show (Game.vampiricHeal _).player.killCount + 1 = _
  rw [vampiricHeal_killCount]
  show (Game.stunTarget _ _).2.player.killCount + 1 = _
  rw [(stunTarget_frame _ _).2, landHit_killCount]

/-- C28 fails in the code. When `movePlayer` kills an enemy whose `xpReward` is positive,
the kill is counted once, and the dead enemy stays in the list with its `xpReward` as it
was: the kill handling of `movePlayer` does not clear it. The loop of the ability key
credits every dead enemy with a positive `xpReward`, so a later press of the ability key
(an ability on cooldown, or one of a class other than the Mage) counts the same kill a
second time. -/
theorem kill_rewarded_again (g : Game) (dx dy : Int) (i : Nat) (target : Enemy)
    (hat : g.enemyAt (g.player.pos.x + dx) (g.player.pos.y + dy) = some i)
    (hget : g.enemies.get? i = some target)
    (hdead : (g.targetAfter target).isAlive = false) (hxp : target.xpReward > 0)
    (hcls : (g.movePlayer dx dy).player.playerClass ≠ PlayerClass.Mage ∨
      (g.movePlayer dx dy).player.abilityCooldown > 0) :
    (g.movePlayer dx dy).player.killCount = g.player.killCount + 1 ∧
    (g.movePlayer dx dy).enemies.get? i = some (g.targetAfter target) ∧
    (g.targetAfter target).xpReward = target.xpReward ∧
    g.player.killCount + 2 ≤ (g.movePlayer dx dy).abilityKey.player.killCount := by
  have hmove : g.movePlayer dx dy = g.attackEnemy i target := by
    unfold Game.movePlayer
    simp only [hat, hget]
  have hlt : i < g.enemies.length := by
    rw [List.get?_eq_some] at hget
    exact hget.1
  have hk := attackEnemy_killCount g i target hdead
  have hen : (g.attackEnemy i target).enemies.get? i = some (g.targetAfter target) := by
    rw [attackEnemy_enemies]
    simp [hlt]
  rw [hmove] at hcls ⊢
  refine ⟨hk, hen, targetAfter_xpReward g target, ?_⟩
  have hmem : g.targetAfter target ∈ (g.attackEnemy i target).enemies :=
    List.get?_mem hen
  have h2 := abilityKey_credits (g.attackEnemy i target) (g.targetAfter target) hcls hmem hdead
    (by rw [targetAfter_xpReward]; exact hxp)
  omega

set_option maxRecDepth 100000 in
set_option maxHeartbeats 4000000 in
/-- The failing run of C28: the Warrior kills the Rat (5 experience points) with a move
down; a gold pile drops and the kill count is 1 with 5 experience points. On the next turn
the ability key is pressed: whether the ability is still on cooldown or fires, the dead
Rat is credited again: the kill count is 2, the experience 10, and a second gold pile lies
on the floor. -/
theorem kill_rewarded_again_witness :
    (ratKillScene.enemies.map (fun e => (e.type, e.hp, e.xpReward)) = [(EnemyType.Rat, 1, 5)] ∧
      (ratKillScene.player.killCount, ratKillScene.player.xp, ratKillScene.items.length)
        = (0, 0, 0)) ∧
    (ratKillScene.handlePlaying (pressKey Key.Down)).map
      (fun g => (g.player.killCount, g.player.xp, g.items.length, g.player.abilityCooldown))
      = some (1, 5, 1, 2) ∧
    (ratKillScene.handlePlaying (pressKey Key.Down)).map
      (fun g => g.enemies.map (fun e => (e.isAlive, e.xpReward))) = some [(false, 5)] ∧
    ((ratKillScene.handlePlaying (pressKey Key.Down)).bind
        (fun g => g.handlePlaying (pressKey Key.Ability))).map
      (fun g => (g.player.killCount, g.player.xp, g.items.length)) = some (2, 10, 2) ∧
    ((readyKillScene.handlePlaying (pressKey Key.Down)).bind
        (fun g => g.handlePlaying (pressKey Key.Ability))).map
      (fun g => (g.player.killCount, g.player.xp, g.items.length, g.player.abilityBuffActive))
      = some (2, 10, 2, true) ∧
    ratKillScene.player.killCount + 2
      ≤ (ratKillScene.movePlayer 0 1).abilityKey.player.killCount :=
  ⟨⟨by decide, by decide⟩, by decide, by decide, by decide, by decide,
   (kill_rewarded_again ratKillScene 0 1 0
     { Enemy.create EnemyType.Rat ⟨5, 4⟩ with awake := true, hp := 1 }
     (by decide) (by decide) (by decide) (by decide) (Or.inl (by decide))).2.2.2⟩

/-! ## Theorems: optimality of the A* search (`Enemy::astarStep`) -/

theorem moveCost_range (m : Map) (ghost : Bool) (c : Vec2) :
    1 ≤ m.moveCost ghost c ∧ m.moveCost ghost c ≤ 6 := by
  unfold Map.moveCost
  split <;> omega

theorem manhattan_step (a b t : Vec2) (h : cardinal a b) :
    manhattan a.x a.y t.x t.y ≤ 1 + manhattan b.x b.y t.x t.y := by
  unfold cardinal at h
  unfold manhattan
  omega

theorem walkC_cast (m : Map) (ghost : Bool) (a b : Vec2) (k k2 : Int)
    (h : WalkC m ghost a b k) (hk : k = k2) : WalkC m ghost a b k2 := hk ▸ h

theorem walkC_nonneg (m : Map) (ghost : Bool) (a b : Vec2) (k : Int)
    (h : WalkC m ghost a b k) : 0 ≤ k := by
  induction h with
  | refl a => exact le_refl _
  | cons a b c k _ _ _ ih =>
    have := (moveCost_range m ghost b).1
    omega

/-- The Manhattan distance is consistent with the costs: it drops by at most the cost of
a path. -/
theorem walkC_heur (m : Map) (ghost : Bool) (t a b : Vec2) (k : Int)
    (h : WalkC m ghost a b k) :
    manhattan a.x a.y t.x t.y ≤ k + manhattan b.x b.y t.x t.y := by
  induction h with
  | refl a => omega
  | cons a b c k hc _ _ ih =>
    have h1 := manhattan_step a b t hc
    have h2 := (moveCost_range m ghost b).1
    omega

theorem walkC_snoc (m : Map) (ghost : Bool) (a b c : Vec2) (k : Int)
    (hab : WalkC m ghost a b k) (hbc : cardinal b c)
    (hc : m.passable ghost c.x c.y = true) :
    WalkC m ghost a c (k + m.moveCost ghost c) := by
  induction hab with
  | refl a =>
    exact walkC_cast m ghost a c _ _ (WalkC.cons a c c 0 hbc hc (WalkC.refl c)) (by omega)
  | cons a b d k h1 h2 _ ih =>
    exact walkC_cast m ghost a c _ _ (WalkC.cons a b c _ h1 h2 (ih hbc)) (by omega)

theorem pathCost_snoc (m : Map) (ghost : Bool) (l : List Vec2) (c : Vec2) :
    pathCost m ghost (l ++ [c]) = pathCost m ghost l + m.moveCost ghost c := by
  unfold pathCost
  simp

theorem pathFrom_snoc (m : Map) (ghost : Bool) (l : List Vec2) (a p c : Vec2)
    (h : PathFrom m ghost a l) (hl : l.getLast? = some p) (hpc : cardinal p c)
    (hc : m.passable ghost c.x c.y = true) : PathFrom m ghost a (l ++ [c]) := by
  induction l generalizing a with
  | nil => cases hl
  | cons b rest ih =>
    obtain ⟨h1, h2, h3⟩ := h
    cases rest with
    | nil =>
      simp only [List.getLast?_singleton, Option.some.injEq] at hl
      subst hl
      exact ⟨h1, h2, hpc, hc, trivial⟩
    | cons b2 rest2 =>
      have hl2 : (b2 :: rest2).getLast? = some p := by
        rw [List.getLast?_cons_cons] at hl
        exact hl
      exact ⟨h1, h2, ih b h3 hl2⟩

/-- A path given by its list of cells is a path of the cost of the list. -/
theorem walkC_of_path (m : Map) (ghost : Bool) (l : List Vec2) (a c : Vec2)
    (h : PathFrom m ghost a l) (hl : l.getLast? = some c) :
    WalkC m ghost a c (pathCost m ghost l) := by
  induction l generalizing a with
  | nil => cases hl
  | cons b rest ih =>
    obtain ⟨h1, h2, h3⟩ := h
    cases rest with
    | nil =>
      simp only [List.getLast?_singleton, Option.some.injEq] at hl
      subst hl
      exact walkC_cast m ghost a b _ _ (WalkC.cons a b b 0 h1 h2 (WalkC.refl b))
        (by unfold pathCost; simp)
    | cons b2 rest2 =>
      have hl2 : (b2 :: rest2).getLast? = some c := by
        rw [List.getLast?_cons_cons] at hl
        exact hl
      exact walkC_cast m ghost a c _ _ (WalkC.cons a b c _ h1 h2 (ih b h3 hl2))
        (by unfold pathCost; simp)

/-- The scan of the open list returns an entry of least `f`. -/
theorem findBestFrom_min (arr : List Node) : ∀ (rest : List Node) (i best : Nat),
    rest = arr.drop i → best < arr.length →
    (∀ j a b, j < i → arr.get? j = some a → arr.get? best = some b → b.f ≤ a.f) →
    ∀ j a b, arr.get? j = some a → arr.get? (findBestFrom arr rest i best) = some b →
      b.f ≤ a.f := by
  intro rest
  induction rest with
  | nil =>
    intro i best hrest hb hmin j a b ha hbst
    unfold findBestFrom at hbst
    have hlen : arr.length ≤ i := by
      by_contra hc
      have : (arr.drop i).length = arr.length - i := List.length_drop i arr
      rw [← hrest] at this
      simp only [List.length_nil] at this
      omega
    have hj : j < arr.length := by
      rw [List.get?_eq_some] at ha
      exact ha.1
    exact hmin j a b (by omega) ha hbst
  | cons n rest ih =>
    intro i best hrest hb hmin j a b ha hbst
    have hi : arr.get? i = some n := by
      have h0 : (arr.drop i).get? 0 = some n := by rw [← hrest]; rfl
      rw [List.get?_eq_getElem?, List.getElem?_drop] at h0
      rw [List.get?_eq_getElem?]
      simpa using h0
    have hrest2 : rest = arr.drop (i + 1) := by
      have h1 : (n :: rest).tail = (arr.drop i).tail := by rw [hrest]
      simp only [List.tail_cons, List.tail_drop] at h1
      exact h1
    have hilt : i < arr.length := by
      rw [List.get?_eq_some] at hi
      exact hi.1
    obtain ⟨bb, hbb⟩ : ∃ bb, arr.get? best = some bb := ⟨_, List.get?_eq_get hb⟩
    unfold findBestFrom at hbst
    rw [hbb] at hbst
    dsimp only at hbst
    by_cases hlt : n.f < bb.f
    · rw [if_pos hlt] at hbst
      refine ih (i + 1) i hrest2 hilt ?_ j a b ha hbst
      intro j2 a2 b2 hj2 ha2 hb2
      rw [hi] at hb2
      cases hb2
      by_cases hje : j2 = i
      · subst hje
        rw [hi] at ha2
        cases ha2
        exact le_refl _
      · have := hmin j2 a2 bb (by omega) ha2 hbb
        omega
    · rw [if_neg hlt] at hbst
      refine ih (i + 1) best hrest2 hb ?_ j a b ha hbst
      intro j2 a2 b2 hj2 ha2 hb2
      rw [hbb] at hb2
      cases hb2
      by_cases hje : j2 = i
      · subst hje
        rw [hi] at ha2
        cases ha2
        omega
      · exact hmin j2 a2 bb (by omega) ha2 hbb

theorem findBest_min (arr : List Node) (cur : Node)
    (hcur : arr.get? (findBest arr) = some cur) : ∀ e ∈ arr, cur.f ≤ e.f := by
  intro e he
  obtain ⟨j, hj⟩ := List.get?_of_mem he
  have hpos : 0 < arr.length := by
    cases arr with
    | nil => cases he
    | cons a t => simp
  unfold findBest at hcur
  refine findBestFrom_min arr arr.tail 1 0 ?_ hpos ?_ j e cur hj hcur
  · simp
  · intro j2 a b hj2 ha hb
    have : j2 = 0 := by omega
    subst this
    rw [ha] at hb
    cases hb
    exact le_refl _

/-- Removing the entry at index `i` keeps every entry that differs from it. -/
theorem swapRemove_keeps (arr : List Node) (i : Nat) (e cur : Node)
    (hcur : arr.get? i = some cur) (he : e ∈ arr) (hne : e ≠ cur) :
    e ∈ swapRemove arr i := by
  have hi : i < arr.length := by
    rw [List.get?_eq_some] at hcur
    exact hcur.1
  obtain ⟨j, hj⟩ := List.get?_of_mem he
  have hjl : j < arr.length := by
    rw [List.get?_eq_some] at hj
    exact hj.1
  have hji : j ≠ i := by
    intro h
    subst h
    rw [hcur] at hj
    cases hj
    exact hne rfl
  unfold swapRemove
  cases hl : arr.getLast? with
  | none =>
    rw [List.getLast?_eq_none_iff] at hl
    rw [hl] at he
    cases he
  | some last =>
    dsimp only
    have hlast : arr.get? (arr.length - 1) = some last := by
      rw [List.getLast?_eq_getElem?] at hl
      rw [List.get?_eq_getElem?]
      exact hl
    rw [List.dropLast_eq_take]
    have hlen : (arr.set i last).length = arr.length := List.length_set _ _ _
    rw [hlen]
    by_cases hjlast : j = arr.length - 1
    · have he2 : e = last := by
        rw [hjlast, hlast] at hj
        cases hj
        rfl
      have hi2 : i < arr.length - 1 := by omega
      have h1 : ((arr.set i last).take (arr.length - 1)).get? i = some e := by
        rw [List.get?_eq_getElem?, List.getElem?_take_of_lt hi2, List.getElem?_set_self (by omega : i < arr.length), he2]
      exact List.get?_mem h1
    · have hj2 : j < arr.length - 1 := by omega
      have h1 : ((arr.set i last).take (arr.length - 1)).get? j = some e := by
        rw [List.get?_eq_getElem?, List.getElem?_take_of_lt hj2,
          List.getElem?_set_ne (fun h => hji h.symm), ← List.get?_eq_getElem?]
        exact hj
      exact List.get?_mem h1

theorem gScoreAt_cons_self (s : AStar) (n : Vec2) (g : Int) :
    ({ s with gScore := (n, g) :: s.gScore } : AStar).gScoreAt n = g := by
  unfold AStar.gScoreAt
  simp [List.lookup_cons]

theorem gScoreAt_cons_other (s : AStar) (n c : Vec2) (g : Int) (h : c ≠ n) :
    ({ s with gScore := (n, g) :: s.gScore } : AStar).gScoreAt c = s.gScoreAt c := by
  unfold AStar.gScoreAt
  have : (c == n) = false := by simpa using h
  simp [List.lookup_cons, this]

/-- The successor of `cur` in the direction `d` as the successor loop pushes it. -/
theorem pushSucc_char (m : Map) (ghost : Bool) (target : Vec2) (cur : Node) (s : AStar)
    (d : Int × Int) :
    ((m.passable ghost (cur.x + d.1) (cur.y + d.2) = false ∨
        (⟨cur.x + d.1, cur.y + d.2⟩ : Vec2) ∈ s.closed ∨
        ¬ (cur.g + m.moveCost ghost ⟨cur.x + d.1, cur.y + d.2⟩
            < s.gScoreAt ⟨cur.x + d.1, cur.y + d.2⟩)) ∧
      pushSucc m ghost target cur s d = s ∧ dropsSucc m ghost cur s d = false) ∨
    (m.passable ghost (cur.x + d.1) (cur.y + d.2) = true ∧
      (⟨cur.x + d.1, cur.y + d.2⟩ : Vec2) ∉ s.closed ∧
      cur.g + m.moveCost ghost ⟨cur.x + d.1, cur.y + d.2⟩
        < s.gScoreAt ⟨cur.x + d.1, cur.y + d.2⟩ ∧
      s.openList.length < 64 ∧
      pushSucc m ghost target cur s d =
        { s with
            gScore := (⟨cur.x + d.1, cur.y + d.2⟩,
              cur.g + m.moveCost ghost ⟨cur.x + d.1, cur.y + d.2⟩) :: s.gScore,
            openList := s.openList ++
              [⟨cur.x + d.1, cur.y + d.2,
                cur.g + m.moveCost ghost ⟨cur.x + d.1, cur.y + d.2⟩,
                cur.g + m.moveCost ghost ⟨cur.x + d.1, cur.y + d.2⟩
                  + manhattan (cur.x + d.1) (cur.y + d.2) target.x target.y,
                cur.x, cur.y⟩] } ∧
      dropsSucc m ghost cur s d = false) ∨
    dropsSucc m ghost cur s d = true := by
  unfold pushSucc dropsSucc Map.moveCost Map.passable
  dsimp only
  by_cases hb : m.inBounds (cur.x + d.1) (cur.y + d.2) = true
  swap
  · left
    simp [hb]
  by_cases hc : (⟨cur.x + d.1, cur.y + d.2⟩ : Vec2) ∈ s.closed
  · left
    simp [hb, hc]
  simp only [hb, hc, Bool.not_true, Bool.false_eq_true, if_false, decide_False, Bool.true_and,
    not_false_eq_true, true_and, false_or]
  cases ghost
  · simp only [Bool.false_eq_true, if_false, false_and, Bool.false_and, Bool.or_false]
    by_cases hw : m.isWalkable (cur.x + d.1) (cur.y + d.2) = true
    swap
    · left
      simp [hw]
    simp only [hw, Bool.not_true, Bool.false_eq_true, if_false]
    by_cases hg : cur.g + 1 < s.gScoreAt ⟨cur.x + d.1, cur.y + d.2⟩
    swap
    · left
      simp [hg]
    simp only [hg, if_true]
    by_cases h64 : s.openList.length < 64
    · right; left
      simp [h64]
    · right; right
      simp [h64]
  · simp only [if_true, true_and, Bool.true_and]
    by_cases hw : (!m.isWalkable (cur.x + d.1) (cur.y + d.2)
        && !decide (m.getTile (cur.x + d.1) (cur.y + d.2) = Tile.Wall)) = true
    · left
      simp only [hw, if_true, and_self, and_true]
      left
      revert hw
      cases m.isWalkable (cur.x + d.1) (cur.y + d.2) <;>
        cases decide (m.getTile (cur.x + d.1) (cur.y + d.2) = Tile.Wall) <;> simp
    simp only [hw, Bool.false_eq_true, if_false]
    have hp : (m.isWalkable (cur.x + d.1) (cur.y + d.2)
        || decide (m.getTile (cur.x + d.1) (cur.y + d.2) = Tile.Wall)) = true := by
      revert hw
      cases m.isWalkable (cur.x + d.1) (cur.y + d.2) <;>
        cases decide (m.getTile (cur.x + d.1) (cur.y + d.2) = Tile.Wall) <;> simp
    have hcost : (if decide (m.getTile (cur.x + d.1) (cur.y + d.2) = Tile.Wall) = true
        then (6 : Int) else 1)
        = (if m.getTile (cur.x + d.1) (cur.y + d.2) = Tile.Wall then 6 else 1) := by
      by_cases ht : m.getTile (cur.x + d.1) (cur.y + d.2) = Tile.Wall
      · simp [ht]
      · simp [ht]
    rw [hcost]
    generalize (if m.getTile (cur.x + d.1) (cur.y + d.2) = Tile.Wall then (6 : Int) else 1)
      = mc
    by_cases hg : cur.g + mc < s.gScoreAt ⟨cur.x + d.1, cur.y + d.2⟩
    swap
    · left
      simp [hg]
    simp only [hg, if_true]
    by_cases h64 : s.openList.length < 64
    · right; left
      simp [h64, hp]
    · right; right
      simp [h64]

theorem ocore_weaken (m : Map) (ghost : Bool) (pos target : Vec2) (s : AStar)
    (R R2 : Vec2 → Vec2 → Prop) (h : OCore m ghost pos target s R)
    (hr : ∀ c n, cardinal c n → R2 c n → R c n) : OCore m ghost pos target s R2 :=
  ⟨h.entries, h.backed, fun c hc n h1 h2 h3 => h.relaxed c hc n h1 h2 (hr c n h1 h3), h.lower,
    h.links, h.root, h.bound⟩

theorem node_cell (e : Node) (c : Vec2) (h : (⟨e.x, e.y⟩ : Vec2) = c) :
    e.x = c.x ∧ e.y = c.y := by
  subst h
  exact ⟨rfl, rfl⟩

/-- Along a path that leaves the closed cells, the open list holds an entry whose `f` is
at most the cost of the path plus the Manhattan distance of its end. -/
theorem frontier_entry (m : Map) (ghost : Bool) (pos target : Vec2) (s : AStar)
    (R : Vec2 → Vec2 → Prop) (hR : ∀ c n, R c n)
    (hO : OCore m ghost pos target s R) (hcap : s.expanded ≤ 50) :
    ∀ a x k, WalkC m ghost a x k → ∀ ka, a ∈ s.closed → x ∉ s.closed →
      WalkC m ghost pos a ka →
      ∃ e ∈ s.openList, e.f ≤ ka + k + manhattan x.x x.y target.x target.y := by
  intro a x k hw
  induction hw with
  | refl a =>
    intro ka ha hx _
    exact absurd ha hx
  | cons a b x k hab hb hw ih =>
    intro ka ha hx hpre
    by_cases hbc : b ∈ s.closed
    · obtain ⟨e, he, hf⟩ := ih (ka + m.moveCost ghost b) hbc hx
        (walkC_snoc m ghost pos a b ka hpre hab hb)
      exact ⟨e, he, by omega⟩
    · have hga := hO.lower a ha ka hpre
      have hgb : s.gScoreAt b ≤ s.gScoreAt a + m.moveCost ghost b := by
        rcases hO.relaxed a ha b hab hb (hR a b) with h | h
        · exact absurd h hbc
        · exact h
      have hba := (hO.bound a ha).2
      have hc6 := (moveCost_range m ghost b).2
      have hexp : (s.expanded : Int) ≤ 50 := by exact_mod_cast hcap
      obtain ⟨e, he, hcell, hg⟩ := hO.backed b hbc (by omega)
      obtain ⟨hf, _⟩ := hO.entries e he
      obtain ⟨hx1, hy1⟩ := node_cell e b hcell
      rw [hx1, hy1] at hf
      have hh := walkC_heur m ghost target b x k hw
      exact ⟨e, he, by omega⟩

theorem lookup_cons_self (l : List (Vec2 × Vec2)) (c p : Vec2) :
    List.lookup c ((c, p) :: l) = some p := by
  rw [List.lookup_cons]
  simp

theorem lookup_cons_other (l : List (Vec2 × Vec2)) (c x p : Vec2) (h : c ≠ x) :
    List.lookup c ((x, p) :: l) = List.lookup c l := by
  rw [List.lookup_cons]
  have : (c == x) = false := by simpa using h
  rw [this]

/-- Closing the popped entry `cur`: its `g` is the `gScore` of its cell and no path from
the start to the cell costs less; the cost invariant holds with the successor loop of the
cell still to run. -/
theorem close_cost (m : Map) (ghost : Bool) (pos target : Vec2) (s : AStar) (cur : Node)
    (hA : AInv m ghost pos target s) (hO : OInv m ghost pos target s)
    (hcur : s.openList.get? (findBest s.openList) = some cur)
    (hnc : (⟨cur.x, cur.y⟩ : Vec2) ∉ s.closed) :
    s.gScoreAt ⟨cur.x, cur.y⟩ = cur.g ∧
    OCore m ghost pos target (s.close cur (findBest s.openList))
      (succDone ⟨cur.x, cur.y⟩ (fun _ => False)) := by
  have hmem : cur ∈ s.openList := List.get?_mem hcur
  have hmin := findBest_min s.openList cur hcur
  obtain ⟨cf, cG, c0, cB, cP⟩ := hO.entries cur hmem
  have hexp : (s.expanded : Int) ≤ 50 := by exact_mod_cast hA.cap
  -- no path to the cell is cheaper than `cur.g`
  have hK : ∀ k, WalkC m ghost pos ⟨cur.x, cur.y⟩ k → cur.g ≤ k := by
    intro k hw
    by_cases hnil : s.closed = []
    · rcases cP with ⟨_, h0, _⟩ | ⟨hp, _⟩
      · have := walkC_nonneg m ghost _ _ k hw
        omega
      · rw [hnil] at hp
        cases hp
    · have hroot : pos ∈ s.closed := ChainOK_root m ghost pos _ _ hA.chain hnil
      obtain ⟨e, he, hf⟩ := frontier_entry m ghost pos target s _ (fun _ _ => trivial) hO hA.cap
        pos ⟨cur.x, cur.y⟩ k hw 0 hroot hnc (WalkC.refl pos)
      have := hmin e he
      dsimp only at hf
      omega
  -- the popped `g` is the cell's `gScore`
  have hG : s.gScoreAt ⟨cur.x, cur.y⟩ = cur.g := by
    obtain ⟨e, he, hcell, hg⟩ := hO.backed ⟨cur.x, cur.y⟩ hnc (by omega)
    obtain ⟨hf, _⟩ := hO.entries e he
    obtain ⟨hx1, hy1⟩ := node_cell e _ hcell
    rw [hx1, hy1] at hf
    dsimp only at hf
    have := hmin e he
    omega
  refine ⟨hG, ?_⟩
  have hopens : s.closed = [] → ∀ e, e ∉ swapRemove s.openList (findBest s.openList) := by
    intro hnil e he
    rcases hA.opens with ⟨_, hop⟩ | ⟨hne, _⟩
    · have hl : (swapRemove s.openList (findBest s.openList)).length = 0 := by
        rw [swapRemove_length _ _ (by rw [hop]; exact Nat.zero_lt_one), hop]
        rfl
      rw [List.length_eq_zero] at hl
      rw [hl] at he
      cases he
    · exact hne hnil
  have hcast : ((s.close cur (findBest s.openList)).expanded : Int) = (s.expanded : Int) + 1 := by
    show ((s.expanded + 1 : Nat) : Int) = _
    push_cast
    rfl
  refine ⟨?_, ?_, ?_, ?_, ?_, hO.root, ?_⟩
  · intro e he
    have he2 : e ∈ s.openList := swapRemove_mem _ _ e he
    obtain ⟨e1, e2, e3, e4, e5⟩ := hO.entries e he2
    refine ⟨e1, e2, e3, ?_, ?_⟩
    · rw [hcast]; omega
    · rcases e5 with ⟨hnil, _, _⟩ | ⟨hp, hg⟩
      · exact absurd he (hopens hnil e)
      · exact Or.inr ⟨List.mem_cons_of_mem _ hp, hg⟩
  · intro c hc hlt
    have hc2 : c ∉ s.closed := fun h => hc (List.mem_cons_of_mem _ h)
    have hcx : c ≠ (⟨cur.x, cur.y⟩ : Vec2) := fun h => hc (h ▸ List.mem_cons_self _ _)
    obtain ⟨e, he, hcell, hg⟩ := hO.backed c hc2 hlt
    refine ⟨e, swapRemove_keeps _ _ e cur hcur he ?_, hcell, hg⟩
    intro hec
    apply hcx
    rw [← hcell, hec]
  · intro c hc n h1 h2 h3
    rcases h3 with h3 | ⟨d, hd, _⟩
    · have hc2 : c ∈ s.closed := by
        rcases List.mem_cons.mp hc with h | h
        · exact absurd h h3
        · exact h
      rcases hO.relaxed c hc2 n h1 h2 trivial with h | h
      · exact Or.inl (List.mem_cons_of_mem _ h)
      · exact Or.inr h
    · exact absurd hd (fun h => h)
  · intro c hc k hw
    rcases List.mem_cons.mp hc with h | h
    · subst h
      show s.gScoreAt _ ≤ k
      rw [hG]
      exact hK k hw
    · exact hO.lower c h k hw
  · intro c hc hcp
    rcases List.mem_cons.mp hc with h | h
    · subst h
      refine ⟨⟨cur.px, cur.py⟩, lookup_cons_self _ _ _, ?_, ?_⟩
      · rcases cP with ⟨_, _, hp⟩ | ⟨hp, _⟩
        · exact absurd hp hcp
        · exact List.mem_cons_of_mem _ hp
      · rcases cP with ⟨_, _, hp⟩ | ⟨_, hg⟩
        · exact absurd hp hcp
        · show s.gScoreAt _ = s.gScoreAt _ + _
          rw [hG]
          exact hg
    · have hcx : c ≠ (⟨cur.x, cur.y⟩ : Vec2) := fun h2 => hnc (h2 ▸ h)
      obtain ⟨p, hp1, hp2, hp3⟩ := hO.links c h hcp
      refine ⟨p, ?_, List.mem_cons_of_mem _ hp2, hp3⟩
      show List.lookup c ((⟨cur.x, cur.y⟩, ⟨cur.px, cur.py⟩) :: s.parent) = _
      rw [lookup_cons_other _ _ _ _ hcx]
      exact hp1
  · intro c hc
    rw [hcast]
    rcases List.mem_cons.mp hc with h | h
    · subst h
      show 0 ≤ s.gScoreAt _ ∧ s.gScoreAt _ ≤ _
      rw [hG]
      omega
    · have := hO.bound c h
      show 0 ≤ s.gScoreAt c ∧ s.gScoreAt c ≤ _
      omega

/-- One direction of the successor loop, without a drop, keeps the cost invariant and
makes the direction a processed one. -/
theorem pushSucc_cost (m : Map) (ghost : Bool) (pos target : Vec2) (cur : Node) (t : AStar)
    (D : Int × Int → Prop) (d : Int × Int) (hd : d ∈ dirs4)
    (hO : OCore m ghost pos target t (succDone ⟨cur.x, cur.y⟩ D))
    (hx : (⟨cur.x, cur.y⟩ : Vec2) ∈ t.closed) (hpos : pos ∈ t.closed)
    (hG : t.gScoreAt ⟨cur.x, cur.y⟩ = cur.g)
    (hB : cur.g + 6 ≤ 6 * (t.expanded : Int))
    (hnd : dropsSucc m ghost cur t d = false) :
    OCore m ghost pos target (pushSucc m ghost target cur t d)
      (succDone ⟨cur.x, cur.y⟩ (fun d2 => D d2 ∨ d2 = d)) ∧
    (pushSucc m ghost target cur t d).closed = t.closed ∧
    (pushSucc m ghost target cur t d).expanded = t.expanded ∧
    (pushSucc m ghost target cur t d).parent = t.parent ∧
    (pushSucc m ghost target cur t d).gScoreAt ⟨cur.x, cur.y⟩ = cur.g := by
  have hcard : cardinal ⟨cur.x, cur.y⟩ ⟨cur.x + d.1, cur.y + d.2⟩ :=
    cardinal_of_dir ⟨cur.x, cur.y⟩ d hd _ _ rfl rfl
  have hcost := moveCost_range m ghost ⟨cur.x + d.1, cur.y + d.2⟩
  have hg0 := (hO.bound _ hx).1
  rw [hG] at hg0
  rcases pushSucc_char m ghost target cur t d with
    ⟨hcase, hsame, _⟩ | ⟨hp, hnc, hlt, _, hpush, _⟩ | hdrop
  · rw [hsame]
    refine ⟨?_, rfl, rfl, rfl, hG⟩
    refine ⟨hO.entries, hO.backed, ?_, hO.lower, hO.links, hO.root, hO.bound⟩
    intro c hc n h1 h2 h3
    rcases h3 with h3 | ⟨d2, hd2 | hd2, hn⟩
    · exact hO.relaxed c hc n h1 h2 (Or.inl h3)
    · exact hO.relaxed c hc n h1 h2 (Or.inr ⟨d2, hd2, hn⟩)
    · by_cases hcx : c = (⟨cur.x, cur.y⟩ : Vec2)
      swap
      · exact hO.relaxed c hc n h1 h2 (Or.inl hcx)
      subst hd2
      subst hn
      subst hcx
      dsimp only at h2 ⊢
      rcases hcase with h | h | h
      · rw [h] at h2
        cases h2
      · exact Or.inl h
      · right
        rw [hG]
        omega
  · rw [hpush]
    have hGn : ∀ c, c ≠ (⟨cur.x + d.1, cur.y + d.2⟩ : Vec2) →
        ({ t with
            gScore := (⟨cur.x + d.1, cur.y + d.2⟩,
              cur.g + m.moveCost ghost ⟨cur.x + d.1, cur.y + d.2⟩) :: t.gScore,
            openList := t.openList ++
              [⟨cur.x + d.1, cur.y + d.2,
                cur.g + m.moveCost ghost ⟨cur.x + d.1, cur.y + d.2⟩,
                cur.g + m.moveCost ghost ⟨cur.x + d.1, cur.y + d.2⟩
                  + manhattan (cur.x + d.1) (cur.y + d.2) target.x target.y,
                cur.x, cur.y⟩] } : AStar).gScoreAt c = t.gScoreAt c := by
      intro c hc
      exact gScoreAt_cons_other t _ c _ hc
    have hGs : ({ t with
            gScore := (⟨cur.x + d.1, cur.y + d.2⟩,
              cur.g + m.moveCost ghost ⟨cur.x + d.1, cur.y + d.2⟩) :: t.gScore,
            openList := t.openList ++
              [⟨cur.x + d.1, cur.y + d.2,
                cur.g + m.moveCost ghost ⟨cur.x + d.1, cur.y + d.2⟩,
                cur.g + m.moveCost ghost ⟨cur.x + d.1, cur.y + d.2⟩
                  + manhattan (cur.x + d.1) (cur.y + d.2) target.x target.y,
                cur.x, cur.y⟩] } : AStar).gScoreAt ⟨cur.x + d.1, cur.y + d.2⟩
        = cur.g + m.moveCost ghost ⟨cur.x + d.1, cur.y + d.2⟩ :=
      gScoreAt_cons_self t _ _
    generalize hT : ({ t with
            gScore := (⟨cur.x + d.1, cur.y + d.2⟩,
              cur.g + m.moveCost ghost ⟨cur.x + d.1, cur.y + d.2⟩) :: t.gScore,
            openList := t.openList ++
              [⟨cur.x + d.1, cur.y + d.2,
                cur.g + m.moveCost ghost ⟨cur.x + d.1, cur.y + d.2⟩,
                cur.g + m.moveCost ghost ⟨cur.x + d.1, cur.y + d.2⟩
                  + manhattan (cur.x + d.1) (cur.y + d.2) target.x target.y,
                cur.x, cur.y⟩] } : AStar) = t2 at hGn hGs
    have hcl : t2.closed = t.closed := by rw [← hT]
    have hex : t2.expanded = t.expanded := by rw [← hT]
    have hpa : t2.parent = t.parent := by rw [← hT]
    have hop : t2.openList = t.openList ++
        [⟨cur.x + d.1, cur.y + d.2,
          cur.g + m.moveCost ghost ⟨cur.x + d.1, cur.y + d.2⟩,
          cur.g + m.moveCost ghost ⟨cur.x + d.1, cur.y + d.2⟩
            + manhattan (cur.x + d.1) (cur.y + d.2) target.x target.y,
          cur.x, cur.y⟩] := by rw [← hT]
    have hGc : ∀ c ∈ t.closed, t2.gScoreAt c = t.gScoreAt c := by
      intro c hc
      exact hGn c (fun h => hnc (h ▸ hc))
    have hGx : t2.gScoreAt ⟨cur.x, cur.y⟩ = cur.g := by rw [hGc _ hx, hG]
    have hle : ∀ c, t2.gScoreAt c ≤ t.gScoreAt c := by
      intro c
      by_cases hc : c = (⟨cur.x + d.1, cur.y + d.2⟩ : Vec2)
      · rw [hc, hGs]
        omega
      · rw [hGn c hc]
    refine ⟨?_, hcl, hex, hpa, hGx⟩
    refine ⟨?_, ?_, ?_, ?_, ?_, ?_, ?_⟩
    · intro e he
      rw [hop, List.mem_append, List.mem_singleton] at he
      rcases he with he | he
      · obtain ⟨e1, e2, e3, e4, e5⟩ := hO.entries e he
        refine ⟨e1, le_trans (hle _) e2, e3, by rw [hex]; exact e4, ?_⟩
        rcases e5 with ⟨hnil, h0, hp0⟩ | ⟨hpc, hg⟩
        · exact Or.inl ⟨by rw [hcl]; exact hnil, h0, hp0⟩
        · exact Or.inr ⟨by rw [hcl]; exact hpc, by rw [hGc _ hpc]; exact hg⟩
      · subst he
        refine ⟨rfl, ?_, ?_, ?_, Or.inr ⟨?_, ?_⟩⟩
        · show t2.gScoreAt ⟨cur.x + d.1, cur.y + d.2⟩ ≤ _
          rw [hGs]
        · show 0 ≤ cur.g + m.moveCost ghost ⟨cur.x + d.1, cur.y + d.2⟩
          omega
        · show cur.g + m.moveCost ghost ⟨cur.x + d.1, cur.y + d.2⟩ ≤ 6 * (t2.expanded : Int)
          rw [hex]
          omega
        · show (⟨cur.x, cur.y⟩ : Vec2) ∈ t2.closed
          rw [hcl]
          exact hx
        · show cur.g + m.moveCost ghost ⟨cur.x + d.1, cur.y + d.2⟩
            = t2.gScoreAt ⟨cur.x, cur.y⟩ + m.moveCost ghost ⟨cur.x + d.1, cur.y + d.2⟩
          rw [hGx]
    · intro c hc hlt2
      rw [hcl] at hc
      by_cases hcn : c = (⟨cur.x + d.1, cur.y + d.2⟩ : Vec2)
      · refine ⟨⟨cur.x + d.1, cur.y + d.2,
          cur.g + m.moveCost ghost ⟨cur.x + d.1, cur.y + d.2⟩,
          cur.g + m.moveCost ghost ⟨cur.x + d.1, cur.y + d.2⟩
            + manhattan (cur.x + d.1) (cur.y + d.2) target.x target.y,
          cur.x, cur.y⟩, ?_, hcn.symm, ?_⟩
        · rw [hop]
          exact List.mem_append_right _ (List.mem_singleton_self _)
        · rw [hcn, hGs]
      · rw [hGn c hcn] at hlt2 ⊢
        obtain ⟨e, he, hcell, hg⟩ := hO.backed c hc hlt2
        exact ⟨e, by rw [hop]; exact List.mem_append_left _ he, hcell, hg⟩
    · intro c hc n h1 h2 h3
      rw [hcl] at hc ⊢
      rw [hGc c hc]
      by_cases hnn : n = (⟨cur.x + d.1, cur.y + d.2⟩ : Vec2)
      · right
        rw [hnn, hGs]
        by_cases hcx : c = (⟨cur.x, cur.y⟩ : Vec2)
        · rw [hcx, hG]
        · rcases hO.relaxed c hc n h1 h2 (Or.inl hcx) with h | h
          · rw [hnn] at h
            exact absurd h hnc
          · rw [hnn] at h
            omega
      · rw [hGn n hnn]
        apply hO.relaxed c hc n h1 h2
        rcases h3 with h3 | ⟨d2, hd2 | hd2, hn⟩
        · exact Or.inl h3
        · exact Or.inr ⟨d2, hd2, hn⟩
        · exfalso
          apply hnn
          rw [hn, hd2]
    · intro c hc k hw
      rw [hcl] at hc
      rw [hGc c hc]
      exact hO.lower c hc k hw
    · intro c hc hcp
      rw [hcl] at hc
      obtain ⟨p, hp1, hp2, hp3⟩ := hO.links c hc hcp
      refine ⟨p, by rw [hpa]; exact hp1, by rw [hcl]; exact hp2, ?_⟩
      rw [hGc c hc, hGc p hp2]
      exact hp3
    · rw [hGc pos hpos]
      exact hO.root
    · intro c hc
      rw [hcl] at hc
      rw [hGc c hc, hex]
      exact hO.bound c hc
  · rw [hnd] at hdrop
    cases hdrop

/-- The successor loop, without a drop, keeps the cost invariant and processes its
directions. -/
theorem expand_cost (m : Map) (ghost : Bool) (pos target : Vec2) (cur : Node) :
    ∀ (ds : List (Int × Int)) (t : AStar) (D : Int × Int → Prop),
    (∀ d ∈ ds, d ∈ dirs4) →
    OCore m ghost pos target t (succDone ⟨cur.x, cur.y⟩ D) →
    (⟨cur.x, cur.y⟩ : Vec2) ∈ t.closed → pos ∈ t.closed →
    t.gScoreAt ⟨cur.x, cur.y⟩ = cur.g → cur.g + 6 ≤ 6 * (t.expanded : Int) →
    dropsIn m ghost target cur t ds = false →
    OCore m ghost pos target (ds.foldl (pushSucc m ghost target cur) t)
      (succDone ⟨cur.x, cur.y⟩ (fun d2 => D d2 ∨ d2 ∈ ds)) := by
  intro ds
  induction ds with
  | nil =>
    intro t D _ hO _ _ _ _ _
    refine ocore_weaken m ghost pos target t _ _ hO ?_
    intro c n _ h
    rcases h with h | ⟨d, hd | hd, hn⟩
    · exact Or.inl h
    · exact Or.inr ⟨d, hd, hn⟩
    · cases hd
  | cons d ds ih =>
    intro t D hds hO hx hpos hG hB hnd
    unfold dropsIn at hnd
    rw [Bool.or_eq_false_iff] at hnd
    obtain ⟨a1, a2, a3, _, a5⟩ := pushSucc_cost m ghost pos target cur t D d
      (hds d (List.mem_cons_self _ _)) hO hx hpos hG hB hnd.1
    have h2 := ih (pushSucc m ghost target cur t d) (fun d2 => D d2 ∨ d2 = d)
      (fun d2 hd2 => hds d2 (List.mem_cons_of_mem _ hd2)) a1
      (by rw [a2]; exact hx) (by rw [a2]; exact hpos) a5 (by rw [a3]; exact hB) hnd.2
    rw [List.foldl_cons]
    refine ocore_weaken m ghost pos target _ _ _ h2 ?_
    intro c n _ h
    rcases h with h | ⟨d2, hd2 | hd2, hn⟩
    · exact Or.inl h
    · exact Or.inr ⟨d2, Or.inl (Or.inl hd2), hn⟩
    · rcases List.mem_cons.mp hd2 with h3 | h3
      · exact Or.inr ⟨d2, Or.inl (Or.inr h3), hn⟩
      · exact Or.inr ⟨d2, Or.inr h3, hn⟩

/-- One iteration of the `while` loop that drops no successor keeps the cost invariant. -/
theorem astarBody_cost (m : Map) (ghost : Bool) (pos target : Vec2) (s : AStar)
    (hA : AInv m ghost pos target s) (hO : OInv m ghost pos target s)
    (hopen : 0 < s.openList.length)
    (hnd : astarBodyDrops m ghost target s = false) :
    ∀ s1, astarBody m ghost pos target s = AStarStep.next s1 → OInv m ghost pos target s1 := by
  have hlt := findBest_lt s.openList hopen
  obtain ⟨cur, hcur⟩ : ∃ cur, s.openList.get? (findBest s.openList) = some cur :=
    ⟨_, List.get?_eq_get hlt⟩
  have hmem : cur ∈ s.openList := List.get?_mem hcur
  rw [astarBody_eq m ghost pos target s cur hcur]
  unfold astarBodyDrops at hnd
  rw [hcur] at hnd
  dsimp only at hnd
  intro s1 h1
  by_cases hclosed : (⟨cur.x, cur.y⟩ : Vec2) ∈ s.closed
  · simp only [hclosed, decide_True, if_true] at h1
    injection h1 with h1
    subst h1
    refine ⟨?_, ?_, hO.relaxed, hO.lower, hO.links, hO.root, hO.bound⟩
    · intro e he
      exact hO.entries e (swapRemove_mem _ _ e he)
    · intro c hc hlt2
      obtain ⟨e, he, hcell, hg⟩ := hO.backed c hc hlt2
      refine ⟨e, swapRemove_keeps _ _ e cur hcur he ?_, hcell, hg⟩
      intro hec
      apply hc
      rw [← hcell, hec]
      exact hclosed
  · simp only [hclosed, decide_False, Bool.false_eq_true, if_false] at h1 hnd
    by_cases htgt : cur.x = target.x ∧ cur.y = target.y
    · simp only [htgt, and_self, if_true] at h1
      cases h1
    · simp only [htgt, if_false] at h1 hnd
      injection h1 with h1
      subst h1
      obtain ⟨hG, hC⟩ := close_cost m ghost pos target s cur hA hO hcur hclosed
      have hchain := close_chain m ghost pos target s cur (findBest s.openList) hA hmem hclosed
      have hroot : pos ∈ (s.close cur (findBest s.openList)).closed :=
        ChainOK_root m ghost pos _ _ hchain (List.cons_ne_nil _ _)
      obtain ⟨_, _, _, cB, _⟩ := hO.entries cur hmem
      have hB : cur.g + 6 ≤ 6 * ((s.close cur (findBest s.openList)).expanded : Int) := by
        show cur.g + 6 ≤ 6 * ((s.expanded + 1 : Nat) : Int)
        push_cast
        omega
      have h2 := expand_cost m ghost pos target cur dirs4 (s.close cur (findBest s.openList))
        (fun _ => False) (fun d hd => hd) hC (List.mem_cons_self _ _) hroot hG hB hnd
      refine ocore_weaken m ghost pos target _ _ _ h2 ?_
      intro c n hcn _
      by_cases hcx : c = (⟨cur.x, cur.y⟩ : Vec2)
      · obtain ⟨d, hd, hn⟩ := cardinal_dir c n hcn
        rw [hcx] at hn
        exact Or.inr ⟨d, Or.inr hd, hn⟩
      · exact Or.inl hcx

theorem astarInit_cost (m : Map) (ghost : Bool) (pos target : Vec2) :
    OInv m ghost pos target (astarInit pos target) := by
  have hG : (astarInit pos target).gScoreAt pos = 0 := by
    unfold AStar.gScoreAt astarInit
    simp [List.lookup_cons]
  refine ⟨?_, ?_, ?_, ?_, ?_, hG, ?_⟩
  · intro e he
    simp only [astarInit, List.mem_singleton] at he
    subst he
    refine ⟨by simp, ?_, le_refl _, by simp [astarInit], Or.inl ⟨rfl, rfl, rfl⟩⟩
    show (astarInit pos target).gScoreAt pos ≤ 0
    rw [hG]
  · intro c _ hlt
    by_cases hc : c = pos
    · subst hc
      exact ⟨_, List.mem_singleton_self _, rfl, hG.symm⟩
    · exfalso
      have : (astarInit pos target).gScoreAt c = 99999 := by
        unfold AStar.gScoreAt astarInit
        have hb : (c == pos) = false := by simpa using hc
        simp [List.lookup_cons, hb]
      omega
  · intro c hc
    cases hc
  · intro c hc
    cases hc
  · intro c hc
    cases hc
  · intro c hc
    cases hc

theorem dropsWithin_succ (m : Map) (ghost : Bool) (pos target : Vec2) (n : Nat)
    (h : dropsWithin m ghost pos target (n + 1) = false) :
    dropsWithin m ghost pos target n = false ∧
    ∀ s, astarStateAfter m ghost pos target n = some s →
      s.openList.length > 0 ∧ s.expanded < 50 → astarBodyDrops m ghost target s = false := by
  unfold dropsWithin at h
  rw [Bool.or_eq_false_iff] at h
  refine ⟨h.1, ?_⟩
  intro s hs hc
  have h2 := h.2
  rw [hs] at h2
  simp only [hc, and_self, decide_True, Bool.true_and] at h2
  exact h2

/-- Every state of a run without a dropped successor satisfies the cost invariant. -/
theorem astarStateAfter_cost (m : Map) (ghost : Bool) (pos target : Vec2) (n : Nat)
    (s : AStar) (h : astarStateAfter m ghost pos target n = some s)
    (hnd : dropsWithin m ghost pos target n = false) : OInv m ghost pos target s := by
  induction n generalizing s with
  | zero =>
    simp only [astarStateAfter, Option.some.injEq] at h
    rw [← h]
    exact astarInit_cost m ghost pos target
  | succ k ih =>
    obtain ⟨hk0, hkb⟩ := dropsWithin_succ m ghost pos target k hnd
    unfold astarStateAfter at h
    cases hk : astarStateAfter m ghost pos target k with
    | none => rw [hk] at h; cases h
    | some s0 =>
      rw [hk] at h
      simp only at h
      by_cases hg : s0.openList.length > 0 ∧ s0.expanded < 50
      · rw [if_pos hg] at h
        cases hb : astarBody m ghost pos target s0 with
        | next s1 =>
          rw [hb] at h
          simp only [Option.some.injEq] at h
          rw [← h]
          exact astarBody_cost m ghost pos target s0
            (astarStateAfter_inv m ghost pos target k s0 hk) (ih s0 hk hk0) hg.1
            (hkb s0 hk hg) s1 hb
        | result r => rw [hb] at h; cases h
      · rw [if_neg hg] at h; cases h

/-- A run of the `while` loop that returns a cell other than the sentinel returns it from
the backtracking loop of some iteration. -/
theorem astarLoop_reach (m : Map) (ghost : Bool) (pos target v : Vec2) (hv : v ≠ noPath) :
    ∀ (fuel k : Nat) (s : AStar), astarStateAfter m ghost pos target k = some s →
      astarLoop m ghost pos target fuel s = some v →
      ∃ n s2, astarStateAfter m ghost pos target n = some s2 ∧
        (s2.openList.length > 0 ∧ s2.expanded < 50) ∧
        astarBody m ghost pos target s2 = AStarStep.result (some v) := by
  intro fuel
  induction fuel with
  | zero =>
    intro k s _ h
    unfold astarLoop at h
    cases h
  | succ f ih =>
    intro k s hs h
    unfold astarLoop at h
    by_cases hg : s.openList.length > 0 ∧ s.expanded < 50
    · rw [if_pos hg] at h
      cases hb : astarBody m ghost pos target s with
      | next s1 =>
        rw [hb] at h
        dsimp only at h
        have hs1 : astarStateAfter m ghost pos target (k + 1) = some s1 := by
          unfold astarStateAfter
          rw [hs]
          dsimp only
          rw [if_pos hg, hb]
        exact ih (k + 1) s1 hs1 h
      | result r =>
        rw [hb] at h
        dsimp only at h
        exact ⟨k, s, hs, hg, by rw [hb, h]⟩
    · rw [if_neg hg] at h
      exfalso
      apply hv
      simp only [Option.some.injEq] at h
      rw [← h]
      rfl

/-- The path of the parent pointers from a closed cell other than the start: the
backtracking loop returns its first cell, it is a passable 4-connected path from the
start to the cell, and its cost is the cell's score. -/
theorem tracePath_ok (m : Map) (ghost : Bool) (pos : Vec2) (parent : List (Vec2 × Vec2))
    (G : Vec2 → Int) (hroot : G pos = 0)
    (l : List Vec2) (h : ChainOK m ghost pos (fun c => parent.lookup c) l)
    (hlinks : ∀ c ∈ l, c ≠ pos →
      ∃ p, parent.lookup c = some p ∧ G c = G p + m.moveCost ghost c)
    (c : Vec2) (hc : c ∈ l) (hne : c ≠ pos) (fuel : Nat) (hfuel : l.length ≤ fuel) :
    ∃ path, tracePath parent pos fuel c = some path ∧
      traceBack parent pos fuel c = path.head? ∧ path.getLast? = some c ∧
      PathFrom m ghost pos path ∧ pathCost m ghost path = G c := by
  induction l generalizing c fuel with
  | nil => simp at hc
  | cons h0 rest ih =>
    obtain ⟨h1, h2, h3⟩ := h
    have hlinks2 : ∀ c ∈ rest, c ≠ pos →
        ∃ p, parent.lookup c = some p ∧ G c = G p + m.moveCost ghost c :=
      fun c hc hcp => hlinks c (List.mem_cons_of_mem _ hc) hcp
    rcases List.mem_cons.mp hc with heq | hin
    · subst heq
      rcases h3 with ⟨a, _, _⟩ | ⟨_, p, hp, e, hcard, hpass⟩
      · exact absurd a hne
      · obtain ⟨p2, hp2, hg2⟩ := hlinks c (List.mem_cons_self _ _) hne
        simp only at e
        rw [e] at hp2
        cases hp2
        cases fuel with
        | zero => simp at hfuel
        | succ n =>
          have hn : rest.length ≤ n := by simp only [List.length_cons] at hfuel; omega
          unfold tracePath traceBack
          rw [e]
          dsimp only
          by_cases hpp : p = pos
          · have hcond : ¬ (p.x ≠ pos.x ∨ p.y ≠ pos.y) := by rw [hpp]; simp
            rw [if_neg hcond, if_neg hcond]
            refine ⟨[c], rfl, rfl, rfl, ⟨hpp ▸ hcard, hpass, trivial⟩, ?_⟩
            rw [hg2, hpp, hroot]
            unfold pathCost
            simp
          · have hcond : p.x ≠ pos.x ∨ p.y ≠ pos.y := by
              by_contra hcon
              push_neg at hcon
              exact hpp (vec2_eq_of p pos hcon.1 hcon.2)
            rw [if_pos hcond, if_pos hcond]
            obtain ⟨path, r1, r2, r3, r4, r5⟩ := ih h1 hlinks2 p hp hpp n hn
            refine ⟨path ++ [c], by rw [r1]; rfl, ?_, ?_, ?_, ?_⟩
            · rw [r2]
              cases path with
              | nil => cases r3
              | cons a t => rfl
            · simp
            · exact pathFrom_snoc m ghost path pos p c r4 r3 hcard hpass
            · rw [pathCost_snoc, r5, hg2]
    · have hlen : rest.length ≤ fuel := by simp only [List.length_cons] at hfuel; omega
      exact ih h1 hlinks2 c hin hne fuel hlen

theorem astarStateAfter_none (m : Map) (ghost : Bool) (pos target : Vec2) (N : Nat)
    (hend : (astarStateAfter m ghost pos target N).isNone = true) :
    ∀ j, astarStateAfter m ghost pos target (N + j) = none := by
  intro j
  induction j with
  | zero =>
    cases h : astarStateAfter m ghost pos target N with
    | none => exact h
    | some s => rw [h] at hend; cases hend
  | succ j ih =>
    show astarStateAfter m ghost pos target (N + j + 1) = none
    unfold astarStateAfter
    rw [ih]

/-- When the run is over after `N` iterations and no successor was dropped in them, no
successor is ever dropped. -/
theorem dropsWithin_all (m : Map) (ghost : Bool) (pos target : Vec2) (N : Nat)
    (hend : (astarStateAfter m ghost pos target N).isNone = true)
    (h : dropsWithin m ghost pos target N = false) :
    ∀ n, dropsWithin m ghost pos target n = false := by
  have hup : ∀ j, dropsWithin m ghost pos target (N + j) = false := by
    intro j
    induction j with
    | zero => exact h
    | succ j ih =>
      show dropsWithin m ghost pos target (N + j + 1) = false
      unfold dropsWithin
      rw [ih, astarStateAfter_none m ghost pos target N hend j]
      rfl
  have hdown : ∀ j n, n + j = N → dropsWithin m ghost pos target n = false := by
    intro j
    induction j with
    | zero =>
      intro n hn
      have : n = N := by omega
      rw [this]
      exact h
    | succ j ih =>
      intro n hn
      exact (dropsWithin_succ m ghost pos target n (ih (n + 1) (by omega))).1
  intro n
  by_cases hn : n ≤ N
  · exact hdown (N - n) n (by omega)
  · have := hup (n - N)
    rw [show N + (n - N) = n by omega] at this
    exact this

/-- C30. When `Enemy::astarStep` (from a start inside the grid, for a target other than
the start) returns a cell other than the sentinel, so that the search has reached the
target, and no successor was ever dropped at a full open list, then: the search closed
the target in some iteration; the backtracking over the parent pointers from the target
runs through a path whose first cell is the returned step and whose last cell is the
target; this path is a 4-connected path of passable cells from the start; its cost (1 for
every cell entered, 6 for a wall cell entered by a Ghost) is the `g` of the target's
entry; and no 4-connected passable path from the start to the target costs less. -/
theorem astarStep_optimal (e : Enemy) (m : Map) (target v : Vec2)
    (hstart : m.inBounds e.pos.x e.pos.y = true) (hne : target ≠ e.pos)
    (hv : e.astarStep m target = some v) (hreach : v ≠ noPath)
    (hnd : ∀ n, dropsWithin m (decide (e.type = EnemyType.Ghost)) e.pos target n = false) :
    ∃ (n : Nat) (s : AStar) (cur : Node) (path : List Vec2),
      astarStateAfter m (decide (e.type = EnemyType.Ghost)) e.pos target n = some s ∧
      s.openList.get? (findBest s.openList) = some cur ∧
      (⟨cur.x, cur.y⟩ : Vec2) = target ∧
      tracePath (s.close cur (findBest s.openList)).parent e.pos
        (s.close cur (findBest s.openList)).closed.length target = some path ∧
      path.head? = some v ∧ path.getLast? = some target ∧
      PathFrom m (decide (e.type = EnemyType.Ghost)) e.pos path ∧
      pathCost m (decide (e.type = EnemyType.Ghost)) path = cur.g ∧
      ∀ q, PathFrom m (decide (e.type = EnemyType.Ghost)) e.pos q →
        q.getLast? = some target →
        pathCost m (decide (e.type = EnemyType.Ghost)) path
          ≤ pathCost m (decide (e.type = EnemyType.Ghost)) q := by
  generalize hgh : decide (e.type = EnemyType.Ghost) = ghost at hnd ⊢
  have hloop : astarLoop m ghost e.pos target astarBudget (astarInit e.pos target) = some v := by
    unfold Enemy.astarStep at hv
    rw [hstart, hgh] at hv
    simpa using hv
  obtain ⟨n, s, hs, hg, hbody⟩ := astarLoop_reach m ghost e.pos target v hreach astarBudget 0
    (astarInit e.pos target) rfl hloop
  have hA := astarStateAfter_inv m ghost e.pos target n s hs
  have hO := astarStateAfter_cost m ghost e.pos target n s hs (hnd n)
  have hlt := findBest_lt s.openList hg.1
  obtain ⟨cur, hcur⟩ : ∃ cur, s.openList.get? (findBest s.openList) = some cur :=
    ⟨_, List.get?_eq_get hlt⟩
  have hmem : cur ∈ s.openList := List.get?_mem hcur
  rw [astarBody_eq m ghost e.pos target s cur hcur] at hbody
  by_cases hclosed : (⟨cur.x, cur.y⟩ : Vec2) ∈ s.closed
  · simp only [hclosed, decide_True, if_true] at hbody
    cases hbody
  simp only [hclosed, decide_False, Bool.false_eq_true, if_false] at hbody
  by_cases htgt : cur.x = target.x ∧ cur.y = target.y
  swap
  · simp only [htgt, if_false] at hbody
    cases hbody
  simp only [htgt, and_self, if_true] at hbody
  injection hbody with hback
  have hct : (⟨cur.x, cur.y⟩ : Vec2) = target := vec2_eq_of _ _ htgt.1 htgt.2
  obtain ⟨hG, hC⟩ := close_cost m ghost e.pos target s cur hA hO hcur hclosed
  have hchain := close_chain m ghost e.pos target s cur (findBest s.openList) hA hmem hclosed
  have htm : target ∈ (s.close cur (findBest s.openList)).closed := by
    rw [← hct]
    exact List.mem_cons_self _ _
  obtain ⟨path, r1, r2, r3, r4, r5⟩ :=
    tracePath_ok m ghost e.pos (s.close cur (findBest s.openList)).parent
      (fun c => (s.close cur (findBest s.openList)).gScoreAt c) hC.root
      (s.close cur (findBest s.openList)).closed hchain
      (fun c hc hcp => by
        obtain ⟨p, hp1, _, hp3⟩ := hC.links c hc hcp
        exact ⟨p, hp1, hp3⟩)
      target htm hne _ (le_refl _)
  have hGt : (s.close cur (findBest s.openList)).gScoreAt target = cur.g := by
    rw [← hct]
    exact hG
  refine ⟨n, s, cur, path, hs, hcur, hct, r1, ?_, r3, r4, ?_, ?_⟩
  · rw [← r2]
    exact hback
  · rw [r5]
    exact hGt
  · intro q hq hql
    rw [r5]
    exact hC.lower target htm _ (walkC_of_path m ghost q e.pos target hq hql)

set_option maxRecDepth 100000 in
set_option maxHeartbeats 4000000 in
/-- The Ghost's run from the corner (0, 0) to (3, 0) behind the wall column is over after
8 iterations, and no successor is dropped in it. -/
theorem cornerGhost_no_drop :
    ∀ n, dropsWithin wallMap (decide (cornerGhost.type = EnemyType.Ghost)) cornerGhost.pos
      ⟨3, 0⟩ n = false :=
  dropsWithin_all wallMap _ cornerGhost.pos ⟨3, 0⟩ 8 (by decide) (by decide)

set_option maxRecDepth 100000 in
set_option maxHeartbeats 4000000 in
/-- C30 at the Ghost in the corner (0, 0) of the floor with a wall column between it and
the target (3, 0): the search returns (1, 0) and drops no successor; the path of the
parent pointers starts with (1, 0), ends in (3, 0) and is a cheapest path. The straight
path through the wall costs 1 + 6 + 1 = 8. -/
theorem astarStep_optimal_witness :
    (wallMap.inBounds cornerGhost.pos.x cornerGhost.pos.y = true ∧
      (⟨3, 0⟩ : Vec2) ≠ cornerGhost.pos ∧
      cornerGhost.astarStep wallMap ⟨3, 0⟩ = some ⟨1, 0⟩ ∧ (⟨1, 0⟩ : Vec2) ≠ noPath) ∧
    pathCost wallMap true [⟨1, 0⟩, ⟨2, 0⟩, ⟨3, 0⟩] = 8 ∧
    ∃ (n : Nat) (s : AStar) (cur : Node) (path : List Vec2),
      astarStateAfter wallMap (decide (cornerGhost.type = EnemyType.Ghost)) cornerGhost.pos
        ⟨3, 0⟩ n = some s ∧
      s.openList.get? (findBest s.openList) = some cur ∧
      (⟨cur.x, cur.y⟩ : Vec2) = ⟨3, 0⟩ ∧
      tracePath (s.close cur (findBest s.openList)).parent cornerGhost.pos
        (s.close cur (findBest s.openList)).closed.length ⟨3, 0⟩ = some path ∧
      path.head? = some ⟨1, 0⟩ ∧ path.getLast? = some ⟨3, 0⟩ ∧
      PathFrom wallMap (decide (cornerGhost.type = EnemyType.Ghost)) cornerGhost.pos path ∧
      pathCost wallMap (decide (cornerGhost.type = EnemyType.Ghost)) path = cur.g ∧
      ∀ q, PathFrom wallMap (decide (cornerGhost.type = EnemyType.Ghost)) cornerGhost.pos q →
        q.getLast? = some ⟨3, 0⟩ →
        pathCost wallMap (decide (cornerGhost.type = EnemyType.Ghost)) path
          ≤ pathCost wallMap (decide (cornerGhost.type = EnemyType.Ghost)) q :=
  ⟨⟨by decide, by decide, by decide, by decide⟩, by decide,
   astarStep_optimal cornerGhost wallMap ⟨3, 0⟩ ⟨1, 0⟩ (by decide) (by decide) (by decide)
     (by decide) cornerGhost_no_drop⟩

end Shadowcrypt
